import Mathlib

/-! # CrossPlatformMdlExporter: the binary model decoder

A shallow embedding of `src/src/mdl_model.cpp` (with the record layouts of
`mdl_types.hpp`, the value types of `mdl_model.hpp` and the vector helpers of
`math.hpp`), followed by the properties proved about it.

Conventions of the embedding

* A file buffer is a list of bytes; an offset is an `Int` (pointer arithmetic on a
  64-bit target does not wrap for 32-bit offsets and counts).
* A read through `PtrAtUnchecked` is only defined when the whole record lies inside the
  buffer; the readers return `none` otherwise.  `none` therefore stands for an
  out-of-bounds access (or another undefined or aborting step such as a signed overflow,
  an allocation of negative size or unbounded recursion) and is never a normal result.
* A `float` is its IEEE-754 binary32 bit pattern.  Comparisons are defined on the bit
  pattern; rounding operations are taken from a `FloatOps` record.
-/

set_option autoImplicit false

namespace Mdl

/-! ## Bytes and little-endian reads -/

/-- One byte of a buffer (`uint8_t`). -/
abbrev Byte := Fin 256

/-- The contents of a file (`std::vector<uint8_t>`). -/
abbrev Buffer := List Byte

/-- The predicate of `PtrAt`: a record of `size` bytes at `off` lies inside the buffer. -/
def inBounds (buf : Buffer) (off : Int) (size : Nat) : Bool :=
  decide (0 ≤ off) && decide (off + (size : Int) ≤ (buf.length : Int))

/-- Read one byte at `off`. -/
def readU8 (buf : Buffer) (off : Int) : Option Nat :=
  if off < 0 then none else (buf[off.toNat]?).map (fun b => b.val)

/-- Read a little-endian `uint16_t` at `off`. -/
def readU16 (buf : Buffer) (off : Int) : Option Nat := do
  let b0 ← readU8 buf off
  let b1 ← readU8 buf (off + 1)
  pure (b0 + 256 * b1)

/-- Read a little-endian 32-bit word at `off`. -/
def readU32 (buf : Buffer) (off : Int) : Option Nat := do
  let b0 ← readU8 buf off
  let b1 ← readU8 buf (off + 1)
  let b2 ← readU8 buf (off + 2)
  let b3 ← readU8 buf (off + 3)
  pure (b0 + 256 * b1 + 65536 * b2 + 16777216 * b3)

/-- Two's complement value of a 16-bit word. -/
def toI16 (u : Nat) : Int :=
  if u % 65536 < 32768 then ((u % 65536 : Nat) : Int) else ((u % 65536 : Nat) : Int) - 65536

/-- Two's complement value of a 32-bit word. -/
def toI32 (u : Nat) : Int :=
  if u % 4294967296 < 2147483648 then ((u % 4294967296 : Nat) : Int)
  else ((u % 4294967296 : Nat) : Int) - 4294967296

/-- Read a little-endian `int16_t` at `off`. -/
def readI16 (buf : Buffer) (off : Int) : Option Int :=
  (readU16 buf off).map toI16

/-- Read a little-endian `int32_t` at `off`. -/
def readI32 (buf : Buffer) (off : Int) : Option Int :=
  (readU32 buf off).map toI32

/-! ## Header constants and validation -/

/-- The constant `StudioId_IDST`. -/
def StudioId_IDST : Int := 0x54534449

/-- The constant `StudioId_IDSQ`. -/
def StudioId_IDSQ : Int := 0x51534449

/-- The constant `StudioVersion`. -/
def StudioVersion : Int := 10

/-- The constant `STUDIO_NF_MASKED`. -/
def STUDIO_NF_MASKED : Nat := 0x0040

/-- The value of `sizeof(StudioHdr)` (checked by a `static_assert`). -/
def sizeofStudioHdr : Nat := 244

/-- The value of `sizeof(StudioSeqHdr)`. -/
def sizeofStudioSeqHdr : Nat := 76

/-- The function `VerifyStudioFile`: size, magic id at offset 0, version at offset 4. -/
def VerifyStudioFile (buffer : Buffer) : Bool :=
  if buffer.length < sizeofStudioHdr then false
  else if readI32 buffer 0 != some StudioId_IDST then false
  else if readI32 buffer 4 != some StudioVersion then false
  else true

/-- The function `VerifySequenceStudioFile`. -/
def VerifySequenceStudioFile (buffer : Buffer) : Bool :=
  if buffer.length < sizeofStudioSeqHdr then false
  else if readI32 buffer 0 != some StudioId_IDSQ then false
  else if readI32 buffer 4 != some StudioVersion then false
  else true

/-! ## Floats, vectors and matrices -/

/-- A `float`, represented by its IEEE-754 binary32 bit pattern. -/
structure F32 where
  bits : Nat
deriving DecidableEq, Repr

namespace F32

/-- The biased exponent field. -/
def exponent (a : F32) : Nat := (a.bits / 8388608) % 256

/-- The fraction field. -/
def mantissa (a : F32) : Nat := a.bits % 8388608

/-- The sign bit. -/
def sign (a : F32) : Nat := (a.bits / 2147483648) % 2

/-- Not-a-number: all exponent bits set and a non-zero fraction. -/
def isNaN (a : F32) : Bool := a.exponent == 255 && a.mantissa != 0

/-- Sign-magnitude order key; both zeros have key 0. -/
def key (a : F32) : Int :=
  if a.sign = 1 then - ((a.bits % 2147483648 : Nat) : Int) else ((a.bits % 2147483648 : Nat) : Int)

/-- The C++ `==` on floats: false when either side is NaN, and `+0 == -0`. -/
def eq (a b : F32) : Bool := !a.isNaN && !b.isNaN && a.key == b.key

/-- The C++ `<=` on floats. -/
def le (a b : F32) : Bool := !a.isNaN && !b.isNaN && decide (a.key ≤ b.key)

/-- The literal `0.0f`. -/
def zero : F32 := ⟨0⟩

/-- The literal `0.5f`. -/
def half : F32 := ⟨0x3F000000⟩

/-- The literal `1.0f`. -/
def one : F32 := ⟨0x3F800000⟩

/-- The literal `2.0f`. -/
def two : F32 := ⟨0x40000000⟩

end F32

/-- Read a `float` stored at `off`. -/
def readF32 (buf : Buffer) (off : Int) : Option F32 :=
  (readU32 buf off).map F32.mk

/-- The rounding operations of the target's float arithmetic. -/
structure FloatOps where
  add : F32 → F32 → F32
  sub : F32 → F32 → F32
  mul : F32 → F32 → F32
  div : F32 → F32 → F32
  sqrt : F32 → F32
  sin : F32 → F32
  cos : F32 → F32
  ofInt : Int → F32

/-- The struct `Vec2f`. -/
structure Vec2f where
  x : F32
  y : F32
deriving DecidableEq, Repr

/-- The struct `Vec3f` (also used for `MdlVec3`, which has the same three fields). -/
structure Vec3f where
  x : F32
  y : F32
  z : F32
deriving DecidableEq, Repr

/-- A `float[3][4]` matrix (also the packed `std::array<float, 12>`, row major). -/
structure Mat3x4 where
  m00 : F32
  m01 : F32
  m02 : F32
  m03 : F32
  m10 : F32
  m11 : F32
  m12 : F32
  m13 : F32
  m20 : F32
  m21 : F32
  m22 : F32
  m23 : F32
deriving Repr

/-- A value-initialised matrix (all entries `0.0f`). -/
def Mat3x4.zero : Mat3x4 :=
  ⟨F32.zero, F32.zero, F32.zero, F32.zero, F32.zero, F32.zero, F32.zero, F32.zero,
   F32.zero, F32.zero, F32.zero, F32.zero⟩

/-- The struct `Quat4f`. -/
structure Quat4f where
  x : F32
  y : F32
  z : F32
  w : F32
deriving Repr

/-- The function `Dot`. -/
def Dot (fp : FloatOps) (a b : Vec3f) : F32 :=
  fp.add (fp.add (fp.mul a.x b.x) (fp.mul a.y b.y)) (fp.mul a.z b.z)

/-- The function `Length`. -/
def Length (fp : FloatOps) (v : Vec3f) : F32 := fp.sqrt (Dot fp v v)

/-- The function `Normalize`. -/
def Normalize (fp : FloatOps) (v : Vec3f) : Vec3f :=
  let len := Length fp v
  if F32.le len F32.zero then ⟨F32.zero, F32.zero, F32.zero⟩
  else ⟨fp.div v.x len, fp.div v.y len, fp.div v.z len⟩

/-- The function `AngleQuaternion`. -/
def AngleQuaternion (fp : FloatOps) (anglesRadians : Vec3f) : Quat4f :=
  let halfZ := fp.mul anglesRadians.z F32.half
  let halfY := fp.mul anglesRadians.y F32.half
  let halfX := fp.mul anglesRadians.x F32.half
  let sy := fp.sin halfZ
  let cy := fp.cos halfZ
  let sp := fp.sin halfY
  let cp := fp.cos halfY
  let sr := fp.sin halfX
  let cr := fp.cos halfX
  { x := fp.sub (fp.mul (fp.mul sr cp) cy) (fp.mul (fp.mul cr sp) sy)
    y := fp.add (fp.mul (fp.mul cr sp) cy) (fp.mul (fp.mul sr cp) sy)
    z := fp.sub (fp.mul (fp.mul cr cp) sy) (fp.mul (fp.mul sr sp) cy)
    w := fp.add (fp.mul (fp.mul cr cp) cy) (fp.mul (fp.mul sr sp) sy) }

/-- The function `QuaternionMatrix`; the fourth column is set to zero. -/
def QuaternionMatrix (fp : FloatOps) (q : Quat4f) : Mat3x4 :=
  let t (a b : F32) : F32 := fp.mul (fp.mul F32.two a) b
  { m00 := fp.sub (fp.sub F32.one (t q.y q.y)) (t q.z q.z)
    m10 := fp.add (t q.x q.y) (t q.w q.z)
    m20 := fp.sub (t q.x q.z) (t q.w q.y)
    m01 := fp.sub (t q.x q.y) (t q.w q.z)
    m11 := fp.sub (fp.sub F32.one (t q.x q.x)) (t q.z q.z)
    m21 := fp.add (t q.y q.z) (t q.w q.x)
    m02 := fp.add (t q.x q.z) (t q.w q.y)
    m12 := fp.sub (t q.y q.z) (t q.w q.x)
    m22 := fp.sub (fp.sub F32.one (t q.x q.x)) (t q.y q.y)
    m03 := F32.zero
    m13 := F32.zero
    m23 := F32.zero }

/-- The function `ConcatTransforms`. -/
def ConcatTransforms (fp : FloatOps) (a b : Mat3x4) : Mat3x4 :=
  let d (x0 y0 x1 y1 x2 y2 : F32) : F32 :=
    fp.add (fp.add (fp.mul x0 y0) (fp.mul x1 y1)) (fp.mul x2 y2)
  { m00 := d a.m00 b.m00 a.m01 b.m10 a.m02 b.m20
    m01 := d a.m00 b.m01 a.m01 b.m11 a.m02 b.m21
    m02 := d a.m00 b.m02 a.m01 b.m12 a.m02 b.m22
    m03 := fp.add (d a.m00 b.m03 a.m01 b.m13 a.m02 b.m23) a.m03
    m10 := d a.m10 b.m00 a.m11 b.m10 a.m12 b.m20
    m11 := d a.m10 b.m01 a.m11 b.m11 a.m12 b.m21
    m12 := d a.m10 b.m02 a.m11 b.m12 a.m12 b.m22
    m13 := fp.add (d a.m10 b.m03 a.m11 b.m13 a.m12 b.m23) a.m13
    m20 := d a.m20 b.m00 a.m21 b.m10 a.m22 b.m20
    m21 := d a.m20 b.m01 a.m21 b.m11 a.m22 b.m21
    m22 := d a.m20 b.m02 a.m21 b.m12 a.m22 b.m22
    m23 := fp.add (d a.m20 b.m03 a.m21 b.m13 a.m22 b.m23) a.m23 }

/-- The function `TransformPoint3x4`. -/
def TransformPoint3x4 (fp : FloatOps) (m : Mat3x4) (p : Vec3f) : Vec3f :=
  { x := fp.add (fp.add (fp.add (fp.mul p.x m.m00) (fp.mul p.y m.m01)) (fp.mul p.z m.m02)) m.m03
    y := fp.add (fp.add (fp.add (fp.mul p.x m.m10) (fp.mul p.y m.m11)) (fp.mul p.z m.m12)) m.m13
    z := fp.add (fp.add (fp.add (fp.mul p.x m.m20) (fp.mul p.y m.m21)) (fp.mul p.z m.m22)) m.m23 }

/-- The function `TransformDirection3x4`. -/
def TransformDirection3x4 (fp : FloatOps) (m : Mat3x4) (d : Vec3f) : Vec3f :=
  { x := fp.add (fp.add (fp.mul d.x m.m00) (fp.mul d.y m.m01)) (fp.mul d.z m.m02)
    y := fp.add (fp.add (fp.mul d.x m.m10) (fp.mul d.y m.m11)) (fp.mul d.z m.m12)
    z := fp.add (fp.add (fp.mul d.x m.m20) (fp.mul d.y m.m21)) (fp.mul d.z m.m22) }

/-! ## The decoded model (`mdl_model.hpp`) -/

/-- The struct `TextureRgba`. -/
structure TextureRgba where
  width : Int
  height : Int
  rgba : List Nat
deriving DecidableEq, Repr

/-- The struct `Vertex`; `bone` is a `uint8_t`. -/
structure Vertex where
  position : Vec3f
  normal : Vec3f
  texCoord : Vec2f
  bone : Nat
deriving DecidableEq, Repr

/-- The member `Vertex::operator==`: field by field, with the float `==`. -/
def Vertex.eq (a other : Vertex) : Bool :=
  F32.eq a.position.x other.position.x && F32.eq a.position.y other.position.y &&
  F32.eq a.position.z other.position.z &&
  F32.eq a.normal.x other.normal.x && F32.eq a.normal.y other.normal.y &&
  F32.eq a.normal.z other.normal.z &&
  F32.eq a.texCoord.x other.texCoord.x && F32.eq a.texCoord.y other.texCoord.y &&
  a.bone == other.bone

/-- The struct `Mesh`; `indices` holds `uint32_t` values. -/
structure Mesh where
  textureId : Int
  indices : List Nat
deriving DecidableEq, Repr

/-- The struct `Model`. -/
structure Model where
  vertices : List Vertex
  meshes : List Mesh
deriving DecidableEq, Repr

/-- The struct `BodyPart`. -/
structure BodyPart where
  models : List Model
deriving DecidableEq, Repr

/-! ## Vertex pool -/

/-- The call `std::find(first, last, vertex)` as an index: the position of the first element
`e` with `e == vertex`, counted from `start`. -/
def stdFind (vertex : Vertex) : List Vertex → Nat → Option Nat
  | [], _ => none
  | e :: rest, start => if Vertex.eq e vertex then some start else stdFind vertex rest (start + 1)

/-- The function `InsertVertex`: the returned index is cast to `uint32_t`. -/
def InsertVertex (vertices : List Vertex) (vertex : Vertex) : Nat × List Vertex :=
  match stdFind vertex vertices 0 with
  | some it => (it % 4294967296, vertices)
  | none => ((vertices.length + 1 - 1) % 4294967296, vertices ++ [vertex])

/-! ## Record layouts (`mdl_types.hpp`)

Only the fields the decoder reads are kept; each reader checks that the whole record lies
inside the buffer and decodes the fields at their byte offsets. -/

/-- Field of a record that is known to lie inside the buffer: the `int32_t` at `off`. -/
def fieldI32 (buf : Buffer) (off : Int) : Int := (readI32 buf off).getD 0

/-- Field of a record that is known to lie inside the buffer: the `float` at `off`. -/
def fieldF32 (buf : Buffer) (off : Int) : F32 := (readF32 buf off).getD F32.zero

/-- Three consecutive float fields at `off`. -/
def fieldVec3 (buf : Buffer) (off : Int) : Vec3f :=
  ⟨fieldF32 buf off, fieldF32 buf (off + 4), fieldF32 buf (off + 8)⟩

/-- Read three consecutive floats (`MdlVec3`, 12 bytes). -/
def readVec3 (buf : Buffer) (off : Int) : Option Vec3f :=
  if inBounds buf off 12 then some (fieldVec3 buf off) else none

/-- The struct `StudioHdr` (244 bytes). -/
structure StudioHdr where
  id : Int
  version : Int
  bbmin : Vec3f
  bbmax : Vec3f
  numbones : Int
  boneindex : Int
  numseq : Int
  seqindex : Int
  numseqgroups : Int
  numtextures : Int
  textureindex : Int
  skinindex : Int
  numbodyparts : Int
  bodypartindex : Int
deriving Repr

/-- View the start of a buffer as a `StudioHdr`. -/
def readStudioHdr (buf : Buffer) : Option StudioHdr :=
  if inBounds buf 0 sizeofStudioHdr then
    some
      { id := fieldI32 buf 0
        version := fieldI32 buf 4
        bbmin := fieldVec3 buf 112
        bbmax := fieldVec3 buf 124
        numbones := fieldI32 buf 140
        boneindex := fieldI32 buf 144
        numseq := fieldI32 buf 164
        seqindex := fieldI32 buf 168
        numseqgroups := fieldI32 buf 172
        numtextures := fieldI32 buf 180
        textureindex := fieldI32 buf 184
        skinindex := fieldI32 buf 200
        numbodyparts := fieldI32 buf 204
        bodypartindex := fieldI32 buf 208 }
  else none

/-- The struct `MStudioBodyParts` (76 bytes). -/
structure MStudioBodyParts where
  nummodels : Int
  modelindex : Int
deriving DecidableEq, Repr

/-- The value of `sizeof(MStudioBodyParts)`. -/
def sizeofMStudioBodyParts : Nat := 76

/-- View the bytes at `off` as an `MStudioBodyParts`. -/
def readMStudioBodyParts (buf : Buffer) (off : Int) : Option MStudioBodyParts :=
  if inBounds buf off sizeofMStudioBodyParts then
    some { nummodels := fieldI32 buf (off + 64), modelindex := fieldI32 buf (off + 72) }
  else none

/-- The struct `MStudioTexture` (80 bytes). -/
structure MStudioTexture where
  flags : Int
  width : Int
  height : Int
  index : Int
deriving DecidableEq, Repr

/-- The value of `sizeof(MStudioTexture)`. -/
def sizeofMStudioTexture : Nat := 80

/-- View the bytes at `off` as an `MStudioTexture`. -/
def readMStudioTexture (buf : Buffer) (off : Int) : Option MStudioTexture :=
  if inBounds buf off sizeofMStudioTexture then
    some
      { flags := fieldI32 buf (off + 64)
        width := fieldI32 buf (off + 68)
        height := fieldI32 buf (off + 72)
        index := fieldI32 buf (off + 76) }
  else none

/-- The struct `MStudioModel` (112 bytes). -/
structure MStudioModel where
  nummesh : Int
  meshindex : Int
  vertinfoindex : Int
  vertindex : Int
  normindex : Int
deriving DecidableEq, Repr

/-- The value of `sizeof(MStudioModel)`. -/
def sizeofMStudioModel : Nat := 112

/-- View the bytes at `off` as an `MStudioModel`. -/
def readMStudioModel (buf : Buffer) (off : Int) : Option MStudioModel :=
  if inBounds buf off sizeofMStudioModel then
    some
      { nummesh := fieldI32 buf (off + 72)
        meshindex := fieldI32 buf (off + 76)
        vertinfoindex := fieldI32 buf (off + 84)
        vertindex := fieldI32 buf (off + 88)
        normindex := fieldI32 buf (off + 100) }
  else none

/-- The struct `MStudioMesh` (20 bytes). -/
structure MStudioMesh where
  triindex : Int
  skinref : Int
deriving DecidableEq, Repr

/-- The value of `sizeof(MStudioMesh)`. -/
def sizeofMStudioMesh : Nat := 20

/-- View the bytes at `off` as an `MStudioMesh`. -/
def readMStudioMesh (buf : Buffer) (off : Int) : Option MStudioMesh :=
  if inBounds buf off sizeofMStudioMesh then
    some { triindex := fieldI32 buf (off + 4), skinref := fieldI32 buf (off + 8) }
  else none

/-- The struct `MStudioBone` (112 bytes): `parent` and `value[0..5]`. -/
structure MStudioBone where
  parent : Int
  value0 : F32
  value1 : F32
  value2 : F32
  value3 : F32
  value4 : F32
  value5 : F32
deriving Repr

/-- The value of `sizeof(MStudioBone)`. -/
def sizeofMStudioBone : Nat := 112

/-- View the bytes at `off` as an `MStudioBone`. -/
def readMStudioBone (buf : Buffer) (off : Int) : Option MStudioBone :=
  if inBounds buf off sizeofMStudioBone then
    some
      { parent := fieldI32 buf (off + 32)
        value0 := fieldF32 buf (off + 64)
        value1 := fieldF32 buf (off + 68)
        value2 := fieldF32 buf (off + 72)
        value3 := fieldF32 buf (off + 76)
        value4 := fieldF32 buf (off + 80)
        value5 := fieldF32 buf (off + 84) }
  else none

/-- The struct `MStudioSeqDesc` (176 bytes): the two bounding-box fields. -/
structure MStudioSeqDesc where
  bbmin : Vec3f
  bbmax : Vec3f
deriving DecidableEq, Repr

/-- The value of `sizeof(MStudioSeqDesc)`. -/
def sizeofMStudioSeqDesc : Nat := 176

/-- The checked accessor `PtrAt<MStudioSeqDesc>`: `none` is the null pointer. -/
def PtrAtSeqDesc (base : Buffer) (offset : Int) : Option MStudioSeqDesc :=
  if offset < 0 then none
  else if offset + (sizeofMStudioSeqDesc : Int) > (base.length : Int) then none
  else some { bbmin := fieldVec3 base (offset + 96), bbmax := fieldVec3 base (offset + 108) }

/-! ## Texture decoding -/

/-- The largest `int`. -/
def INT_MAX : Int := 2147483647

/-- The test `(tex.flags & STUDIO_NF_MASKED) != 0` on the two's complement bits of `flags`. -/
def isMasked (flags : Int) : Bool :=
  Nat.land (flags % 4294967296).toNat STUDIO_NF_MASKED != 0

/-- One iteration of the pixel loop of `LoadTexture`: the four bytes written for pixel `i`.
The palette starts `size` bytes after the index block; `i * 4 + 3` must fit an `int`. -/
def texturePixel (textureBase : Buffer) (tex : MStudioTexture) (size : Int) (i : Int) :
    Option (List Nat) := do
  let idx ← readU8 textureBase (tex.index + i)
  let colorOffset : Int := (idx : Int) * 3
  if i * 4 + 3 > INT_MAX then none
  else do
    let r ← readU8 textureBase (tex.index + size + colorOffset + 0)
    let g ← readU8 textureBase (tex.index + size + colorOffset + 1)
    let b ← readU8 textureBase (tex.index + size + colorOffset + 2)
    if isMasked tex.flags && idx == 255 then pure [0, 0, 0, 0]
    else pure [r, g, b, 255]

/-- The pixel loop of `LoadTexture`: `n` iterations remain, `i` is the loop variable and
`pixels` the bytes written so far. -/
def textureLoop (textureBase : Buffer) (tex : MStudioTexture) (size : Int) :
    Nat → Int → List Nat → Option (List Nat)
  | 0, _, pixels => some pixels
  | n + 1, i, pixels => do
    let px ← texturePixel textureBase tex size i
    textureLoop textureBase tex size n (i + 1) (pixels ++ px)

/-- The function `LoadTexture`.  The product `width * height` must fit an `int`, and a
negative product makes `resize` throw. -/
def LoadTexture (textureBase : Buffer) (tex : MStudioTexture) : Option TextureRgba :=
  let size : Int := tex.width * tex.height
  if size < -2147483648 ∨ INT_MAX < size then none
  else if size < 0 then none
  else do
    let rgba ← textureLoop textureBase tex size size.toNat 0 []
    pure ⟨tex.width, tex.height, rgba⟩

/-! ## Triangle command streams -/

/-- The strip loop of `LoadMesh` (`for (size_t j = 2; j < tempIndices.size(); j++)`):
`fuel` bounds the number of iterations, `out` is `out.indices`. -/
def stripLoop (tempIndices : List Nat) : Nat → Nat → List Nat → List Nat
  | 0, _, out => out
  | fuel + 1, j, out =>
    if j < tempIndices.length then
      if j % 2 ≠ 0 then
        stripLoop tempIndices fuel (j + 1)
          (out ++ [tempIndices.getD (j - 1) 0, tempIndices.getD (j - 2) 0, tempIndices.getD j 0])
      else
        stripLoop tempIndices fuel (j + 1)
          (out ++ [tempIndices.getD (j - 2) 0, tempIndices.getD (j - 1) 0, tempIndices.getD j 0])
    else out

/-- The fan loop of `LoadMesh`. -/
def fanLoop (tempIndices : List Nat) : Nat → Nat → List Nat → List Nat
  | 0, _, out => out
  | fuel + 1, j, out =>
    if j < tempIndices.length then
      fanLoop tempIndices fuel (j + 1)
        (out ++ [tempIndices.getD 0 0, tempIndices.getD (j - 1) 0, tempIndices.getD j 0])
    else out

/-- The triangulation step at the end of one run: the strip or the fan loop, started at
`j = 2`; the loop runs at most `tempIndices.size()` times. -/
def emitRun (strip : Bool) (tempIndices : List Nat) (out : List Nat) : List Nat :=
  if strip then stripLoop tempIndices tempIndices.length 2 out
  else fanLoop tempIndices tempIndices.length 2 out

/-! ## Mesh assembly -/

/-- The body of the vertex loop of `LoadMesh` up to the call of `InsertVertex`: the vertex
assembled from the four 16-bit fields at byte offset `tricmds` of `base`.  `s` and `t` are
the texture scale factors. -/
def assembleVertex (fp : FloatOps) (base : Buffer) (model : MStudioModel)
    (boneTransforms : List Mat3x4) (s t : F32) (tricmds : Int) : Option Vertex := do
  let vertIndex ← readI16 base tricmds
  let normIndex ← readI16 base (tricmds + 2)
  let p ← readVec3 base (model.vertindex + 12 * vertIndex)
  let n ← readVec3 base (model.normindex + 12 * normIndex)
  let tu ← readI16 base (tricmds + 4)
  let tv ← readI16 base (tricmds + 6)
  let bone ← readU8 base (model.vertinfoindex + vertIndex)
  let v : Vertex :=
    { position := p
      normal := Normalize fp n
      texCoord := ⟨fp.mul s (fp.ofInt tu), fp.mul t (fp.ofInt tv)⟩
      bone := bone }
  if !boneTransforms.isEmpty && decide (bone < boneTransforms.length) then
    let bm := boneTransforms.getD bone Mat3x4.zero
    pure
      { v with
        position := TransformPoint3x4 fp bm v.position
        normal := Normalize fp (TransformDirection3x4 fp bm v.normal) }
  else pure v

/-- The vertex loop of `LoadMesh` (`for (; i > 0; i--, tricmds += 4)`): `i` records remain,
`tricmds` is the byte offset of the next record.  Returns the advanced offset, the vertex
pool and `tempIndices`. -/
def readRun (fp : FloatOps) (base : Buffer) (model : MStudioModel)
    (boneTransforms : List Mat3x4) (s t : F32) :
    Nat → Int → List Vertex → List Nat → Option (Int × List Vertex × List Nat)
  | 0, tricmds, vertices, tempIndices => some (tricmds, vertices, tempIndices)
  | i + 1, tricmds, vertices, tempIndices => do
    let v ← assembleVertex fp base model boneTransforms s t tricmds
    let r := InsertVertex vertices v
    readRun fp base model boneTransforms s t i (tricmds + 8) r.2 (tempIndices ++ [r.1])

/-- The value `static_cast<int16_t>(-i)` for a 16-bit `i`. -/
def negI16 (i : Int) : Int := toI16 ((-i) % 65536).toNat

/-- The command loop of `LoadMesh` (`while ((i = *(tricmds++)) != 0)`).  Every iteration
reads at least two bytes, so `fuel` is only a bound on the number of iterations; a walk
that leaves the buffer is `none`. -/
def meshLoop (fp : FloatOps) (base : Buffer) (model : MStudioModel)
    (boneTransforms : List Mat3x4) (s t : F32) :
    Nat → Int → List Vertex → List Nat → Option (List Vertex × List Nat)
  | 0, _, _, _ => none
  | fuel + 1, tricmds, vertices, indices => do
    let i ← readI16 base tricmds
    if i = 0 then pure (vertices, indices)
    else
      let strip := decide (0 ≤ i)
      let n := if i < 0 then negI16 i else i
      let r ← readRun fp base model boneTransforms s t n.toNat (tricmds + 2) vertices []
      meshLoop fp base model boneTransforms s t fuel r.1 r.2.1 (emitRun strip r.2.2 indices)

/-- The function `LoadMesh`: returns the mesh and the updated shared vertex pool. -/
def LoadMesh (fp : FloatOps) (textureHeader : StudioHdr) (base textureBase : Buffer)
    (mesh : MStudioMesh) (model : MStudioModel) (boneTransforms : List Mat3x4)
    (vertices : List Vertex) : Option (Mesh × List Vertex) := do
  let textureId ← readU16 textureBase (textureHeader.skinindex + 2 * mesh.skinref)
  let tex ← readMStudioTexture textureBase (textureHeader.textureindex + 80 * (textureId : Int))
  let s := fp.div F32.one (fp.ofInt tex.width)
  let t := fp.div F32.one (fp.ofInt tex.height)
  let r ← meshLoop fp base model boneTransforms s t (base.length + 1) mesh.triindex vertices []
  pure (⟨(textureId : Int), r.2⟩, r.1)

/-- The mesh loop of `LoadModel`: `n` meshes remain, `i` is the loop variable. -/
def loadMeshes (fp : FloatOps) (textureHeader : StudioHdr) (base textureBase : Buffer)
    (model : MStudioModel) (boneTransforms : List Mat3x4) : Nat → Int → Model → Option Model
  | 0, _, out => some out
  | n + 1, i, out => do
    let mesh ← readMStudioMesh base (model.meshindex + 20 * i)
    let r ← LoadMesh fp textureHeader base textureBase mesh model boneTransforms out.vertices
    loadMeshes fp textureHeader base textureBase model boneTransforms n (i + 1)
      ⟨r.2, out.meshes ++ [r.1]⟩

/-- The function `LoadModel`. -/
def LoadModel (fp : FloatOps) (textureHeader : StudioHdr) (base textureBase : Buffer)
    (model : MStudioModel) (boneTransforms : List Mat3x4) : Option Model :=
  if model.nummesh ≤ 0 then some ⟨[], []⟩
  else loadMeshes fp textureHeader base textureBase model boneTransforms model.nummesh.toNat 0
    ⟨[], []⟩

/-- The sub-model loop of `LoadBodyPart`. -/
def loadModels (fp : FloatOps) (textureHeader : StudioHdr) (base textureBase : Buffer)
    (bodyPart : MStudioBodyParts) (boneTransforms : List Mat3x4) :
    Nat → Int → BodyPart → Option BodyPart
  | 0, _, out => some out
  | n + 1, i, out => do
    let model ← readMStudioModel base (bodyPart.modelindex + 112 * i)
    let m ← LoadModel fp textureHeader base textureBase model boneTransforms
    loadModels fp textureHeader base textureBase bodyPart boneTransforms n (i + 1)
      ⟨out.models ++ [m]⟩

/-- The function `LoadBodyPart`. -/
def LoadBodyPart (fp : FloatOps) (textureHeader : StudioHdr) (base textureBase : Buffer)
    (bodyPart : MStudioBodyParts) (boneTransforms : List Mat3x4) : Option BodyPart :=
  if bodyPart.nummodels ≤ 0 then some ⟨[]⟩
  else loadModels fp textureHeader base textureBase bodyPart boneTransforms
    bodyPart.nummodels.toNat 0 ⟨[]⟩

/-! ## Bone transforms -/

/-- The local matrix of one bone: rotation from `value[3..5]`, translation `value[0..2]`. -/
def boneLocal (fp : FloatOps) (bone : MStudioBone) : Mat3x4 :=
  let m := QuaternionMatrix fp (AngleQuaternion fp ⟨bone.value3, bone.value4, bone.value5⟩)
  { m with m03 := bone.value0, m13 := bone.value1, m23 := bone.value2 }

/-- The first loop of `ComputeDefaultBoneTransforms`: the vector `local`. -/
def localLoop (fp : FloatOps) (header : StudioHdr) (base : Buffer) :
    Nat → Int → List Mat3x4 → Option (List Mat3x4)
  | 0, _, acc => some acc
  | n + 1, i, acc => do
    let bone ← readMStudioBone base (header.boneindex + 112 * i)
    localLoop fp header base n (i + 1) (acc ++ [boneLocal fp bone])

/-- The vectors `out` and `built` of `ComputeDefaultBoneTransforms`. -/
structure BuildState where
  out : List Mat3x4
  built : List Bool

/-- The recursive lambda `build`.  `fuel` bounds the recursion depth: a chain of more than
`numbones` unbuilt bones repeats a bone, and on such a cycle the recursion never returns.
Reading `out[parent]` for `parent >= numbones` is an access outside the vector. -/
def build (fp : FloatOps) (header : StudioHdr) (base : Buffer) (loc : List Mat3x4) :
    Nat → Int → BuildState → Option BuildState
  | 0, _, _ => none
  | fuel + 1, boneIndex, st =>
    if boneIndex < 0 ∨ boneIndex ≥ header.numbones then some st
    else if st.built.getD boneIndex.toNat false then some st
    else do
      let bone ← readMStudioBone base (header.boneindex + 112 * boneIndex)
      if bone.parent < 0 then
        pure
          { out := st.out.set boneIndex.toNat (loc.getD boneIndex.toNat Mat3x4.zero)
            built := st.built.set boneIndex.toNat true }
      else do
        let st1 ← build fp header base loc fuel bone.parent st
        if bone.parent ≥ header.numbones then none
        else
          let worldM := ConcatTransforms fp (st1.out.getD bone.parent.toNat Mat3x4.zero)
            (loc.getD boneIndex.toNat Mat3x4.zero)
          pure
            { out := st1.out.set boneIndex.toNat worldM
              built := st1.built.set boneIndex.toNat true }

/-- The last loop of `ComputeDefaultBoneTransforms`: `build(build, i)` for every bone. -/
def buildAll (fp : FloatOps) (header : StudioHdr) (base : Buffer) (loc : List Mat3x4) :
    Nat → Int → BuildState → Option BuildState
  | 0, _, st => some st
  | n + 1, i, st => do
    let st1 ← build fp header base loc (header.numbones.toNat + 1) i st
    buildAll fp header base loc n (i + 1) st1

/-- The function `ComputeDefaultBoneTransforms`. -/
def ComputeDefaultBoneTransforms (fp : FloatOps) (header : StudioHdr) (base : Buffer) :
    Option (List Mat3x4) :=
  if header.numbones ≤ 0 then some []
  else do
    let loc ← localLoop fp header base header.numbones.toNat 0 []
    let st ← buildAll fp header base loc header.numbones.toNat 0
      ⟨List.replicate header.numbones.toNat Mat3x4.zero,
       List.replicate header.numbones.toNat false⟩
    pure st.out

/-! ## The loader -/

/-- The observable members of `StudioModelCpu`.  The raw pointers `base_` and
`textureBase_` and the stored path are not kept: no accessor reads them. -/
structure StudioModelCpu where
  fileData : Buffer
  textureFileData : Buffer
  bodyParts : List BodyPart
  textures : List TextureRgba
  boundsMin : Vec3f
  boundsMax : Vec3f
deriving DecidableEq, Repr

/-- A default-constructed `StudioModelCpu`. -/
def StudioModelCpu.empty : StudioModelCpu :=
  ⟨[], [], [], [], ⟨F32.zero, F32.zero, F32.zero⟩, ⟨F32.zero, F32.zero, F32.zero⟩⟩

/-- What `ReadAllBytes` returns for the paths `LoadFromFile` opens: the model file and the
sibling texture file (name + "T"); an unreadable file is the empty buffer. -/
structure Files where
  main : Buffer
  texture : Buffer

/-- The texture loop of `LoadFromFile`. -/
def loadTextures (textureHeader : StudioHdr) (textureBase : Buffer) :
    Nat → Int → List TextureRgba → Option (List TextureRgba)
  | 0, _, textures => some textures
  | n + 1, i, textures => do
    let tex ← readMStudioTexture textureBase (textureHeader.textureindex + 80 * i)
    let out ← LoadTexture textureBase tex
    loadTextures textureHeader textureBase n (i + 1) (textures ++ [out])

/-- The body-part loop of `LoadFromFile`. -/
def loadBodyParts (fp : FloatOps) (header textureHeader : StudioHdr) (base textureBase : Buffer)
    (boneTransforms : List Mat3x4) : Nat → Int → List BodyPart → Option (List BodyPart)
  | 0, _, bodyParts => some bodyParts
  | n + 1, i, bodyParts => do
    let bodyPart ← readMStudioBodyParts base (header.bodypartindex + 76 * i)
    let out ← LoadBodyPart fp textureHeader base textureBase bodyPart boneTransforms
    loadBodyParts fp header textureHeader base textureBase boneTransforms n (i + 1)
      (bodyParts ++ [out])

/-- The texture header and texture buffer `LoadFromFile` selects: those of the sibling
texture file when the model file has no texture and the sibling file verifies, else those
of the model file itself. -/
def textureSource (header : StudioHdr) (files : Files) : StudioHdr × Buffer :=
  if header.numtextures = 0 ∧ VerifyStudioFile files.texture = true then
    ((readStudioHdr files.texture).getD header, files.texture)
  else (header, files.main)

/-- The bounds `LoadFromFile` stores: `bbmin`/`bbmax` of the header, replaced by those of the
first sequence descriptor when `numseq > 0` and the checked accessor returns it. -/
def loadBounds (header : StudioHdr) (base : Buffer) : Vec3f × Vec3f :=
  if header.numseq > 0 then
    match PtrAtSeqDesc base header.seqindex with
    | some seqDescs => (seqDescs.bbmin, seqDescs.bbmax)
    | none => (header.bbmin, header.bbmax)
  else (header.bbmin, header.bbmax)

/-- The texture step of `LoadFromFile` (`if (textureHeader->numtextures > 0) ...`). -/
def loadTextureList (textureHeader : StudioHdr) (textureBase : Buffer) :
    Option (List TextureRgba) :=
  if textureHeader.numtextures > 0 then
    loadTextures textureHeader textureBase textureHeader.numtextures.toNat 0 []
  else some []

/-- The body-part step of `LoadFromFile` (`if (header->numbodyparts > 0) ...`). -/
def loadBodyPartList (fp : FloatOps) (header textureHeader : StudioHdr)
    (base textureBase : Buffer) (boneTransforms : List Mat3x4) : Option (List BodyPart) :=
  if header.numbodyparts > 0 then
    loadBodyParts fp header textureHeader base textureBase boneTransforms
      header.numbodyparts.toNat 0 []
  else some []

/-- The decoding steps of `LoadFromFile`: bone transforms, then the texture list, then the
body-part list. -/
def loadTables (fp : FloatOps) (header textureHeader : StudioHdr) (base textureBase : Buffer) :
    Option (List TextureRgba × List BodyPart) := do
  let defaultBoneTransforms ← ComputeDefaultBoneTransforms fp header base
  let textures ← loadTextureList textureHeader textureBase
  let bodyParts ← loadBodyPartList fp header textureHeader base textureBase defaultBoneTransforms
  pure (textures, bodyParts)

/-- The part of `LoadFromFile` after the header has been verified.  The final loop over
the sequence-group files only reads and verifies them: it changes neither the object nor
the result and is left out. -/
def loadVerified (fp : FloatOps) (self : StudioModelCpu) (files : Files) (header : StudioHdr) :
    Option (Bool × StudioModelCpu) :=
  match loadTables fp header (textureSource header files).1 files.main
      (textureSource header files).2 with
  | none => none
  | some tables =>
    some (!tables.2.isEmpty,
      { fileData := self.fileData
        textureFileData := if header.numtextures = 0 then files.texture else self.textureFileData
        bodyParts := tables.2
        textures := tables.1
        boundsMin := (loadBounds header files.main).1
        boundsMax := (loadBounds header files.main).2 })

/-- The member `StudioModelCpu::LoadFromFile`: the returned flag and the object after the
call. -/
def LoadFromFile (fp : FloatOps) (self : StudioModelCpu) (files : Files) :
    Option (Bool × StudioModelCpu) :=
  let self0 : StudioModelCpu := { self with fileData := files.main }
  if files.main.isEmpty then some (false, self0)
  else if !VerifyStudioFile files.main then some (false, self0)
  else
    match readStudioHdr files.main with
    | some header => loadVerified fp self0 files header
    | none => none

/-! ## Triangulation, in the words of the specification -/

/-- Triangle `j` of a strip over the indices `t`: `(t[j-2], t[j-1], t[j])` for even `j` and
`(t[j-1], t[j-2], t[j])` for odd `j`. -/
def stripTriangle (t : List Nat) (j : Nat) : List Nat :=
  if j % 2 = 0 then [t.getD (j - 2) 0, t.getD (j - 1) 0, t.getD j 0]
  else [t.getD (j - 1) 0, t.getD (j - 2) 0, t.getD j 0]

/-- Triangle `j` of a fan over the indices `t`: `(t[0], t[j-1], t[j])`. -/
def fanTriangle (t : List Nat) (j : Nat) : List Nat :=
  [t.getD 0 0, t.getD (j - 1) 0, t.getD j 0]

/-- The triangles `j = 2 .. n-1` of a run of `n` records, in order, as a flat index list. -/
def runTriangles (triangle : Nat → List Nat) (n : Nat) : List Nat :=
  (List.range' 2 (n - 2)).flatMap triangle

/-- The number of vertex records announced by the run length `i`: `i` for a strip, the
16-bit negation of `i` for a fan. -/
def runCount (i : Int) : Nat := (if i < 0 then negI16 i else i).toNat

/-- The run lengths of the command stream at byte offset `tricmds`, in the words of the
specification: a run header `i` is followed by `runCount i` records of four 16-bit fields
(eight bytes), and the header `0` ends the stream.  `fuel` bounds the number of runs. -/
def runLengths (base : Buffer) : Nat → Int → Option (List Nat)
  | 0, _ => none
  | fuel + 1, tricmds => do
    let i ← readI16 base tricmds
    if i = 0 then pure []
    else do
      let rest ← runLengths base fuel (tricmds + 2 + 8 * (runCount i : Int))
      pure (runCount i :: rest)

/-- An arbitrary instance of the float operations, used only to evaluate the decoder on
concrete files; every general statement below is proved for all instances. -/
def sampleOps : FloatOps :=
  { add := fun _ _ => F32.zero
    sub := fun _ _ => F32.zero
    mul := fun _ _ => F32.zero
    div := fun _ _ => F32.zero
    sqrt := fun _ => F32.zero
    sin := fun _ => F32.zero
    cos := fun _ => F32.zero
    ofInt := fun _ => F32.zero }

/-- The two bytes of a little-endian 16-bit word. -/
def le16 (v : Nat) : Buffer := [Fin.ofNat v, Fin.ofNat (v / 256)]

/-- The four bytes of a little-endian 32-bit word. -/
def le32 (v : Nat) : Buffer :=
  [Fin.ofNat v, Fin.ofNat (v / 256), Fin.ofNat (v / 65536), Fin.ofNat (v / 16777216)]

/-- A block of `n` zero bytes. -/
def zeros (n : Nat) : Buffer := List.replicate n 0

/-- A 244-byte `StudioHdr` with magic `IDST`, version 10, a zero bounding box and the given
counts and offsets. -/
def sampleHeader (numbones boneindex numseq seqindex numtextures textureindex skinindex
    numbodyparts bodypartindex : Nat) : Buffer :=
  List.flatten [
    le32 0x54534449, le32 10, zeros 132,
    le32 numbones, le32 boneindex, zeros 16,
    le32 numseq, le32 seqindex, zeros 8,
    le32 numtextures, le32 textureindex, zeros 12, le32 skinindex,
    le32 numbodyparts, le32 bodypartindex, zeros 32 ]

/-- An 80-byte `MStudioTexture` record. -/
def sampleTextureRecord (flags width height index : Nat) : Buffer :=
  List.flatten [
    zeros 64, le32 flags, le32 width, le32 height, le32 index ]

/-- A 76-byte `MStudioBodyParts` record. -/
def sampleBodyPartRecord (nummodels modelindex : Nat) : Buffer :=
  List.flatten [
    zeros 64, le32 nummodels, zeros 4, le32 modelindex ]

/-- A 112-byte `MStudioModel` record. -/
def sampleModelRecord (nummesh meshindex vertinfoindex vertindex normindex : Nat) : Buffer :=
  List.flatten [
    zeros 72, le32 nummesh, le32 meshindex, zeros 4, le32 vertinfoindex,
    le32 vertindex, zeros 8, le32 normindex, zeros 8 ]

/-- A 20-byte `MStudioMesh` record. -/
def sampleMeshRecord (triindex skinref : Nat) : Buffer :=
  List.flatten [
    zeros 4, le32 triindex, le32 skinref, zeros 8 ]

/-- One 8-byte vertex record of a command stream. -/
def sampleVertexRecord (vertIndex normIndex u v : Nat) : Buffer :=
  List.flatten [
    le16 vertIndex, le16 normIndex, le16 u, le16 v ]

/-- Three floats, given by their bit patterns. -/
def sampleVec3 (x y z : Nat) : Buffer :=
  List.flatten [
    le32 x, le32 y, le32 z ]

/-- A complete model file of 1385 bytes: header, one texture record (1 x 1, not masked), the
skin table, one body part with one sub-model with one mesh, three vertices (1,0,0), (0,1,0),
(0,0,1) on bone 0, one normal, the command stream `[3, r0, r1, r2, 0]` (one strip of three
records) and the texture block: one index byte and the palette.  The offset of each part is
noted. -/
def sampleFile : Buffer :=
  List.flatten [
    sampleHeader 0 0 0 0 1 244 324 1 328,   -- offset 0
    sampleTextureRecord 0 1 1 616,          -- offset 244
    le16 0, zeros 2,                        -- offset 324
    sampleBodyPartRecord 1 404,             -- offset 328
    sampleModelRecord 1 516 536 540 576,    -- offset 404
    sampleMeshRecord 588 0,                 -- offset 516
    zeros 4,                                -- offset 536
    sampleVec3 0x3F800000 0 0,              -- offset 540
    sampleVec3 0 0x3F800000 0,
    sampleVec3 0 0 0x3F800000,
    sampleVec3 0 0 0x3F800000,              -- offset 576
    le16 3,                                 -- offset 588
    sampleVertexRecord 0 0 0 0,
    sampleVertexRecord 1 0 0 0,
    sampleVertexRecord 2 0 0 0,
    le16 0,                                 -- offset 614
    [5], List.replicate 768 9 ]             -- offset 616

/-- A compact buffer holding everything `LoadModel` reads for one sub-model with one mesh:
the skin table, one texture record (1 x 1), the mesh record, four bone indices, the four
vertices `(x0,0,0)`, `(x1,y1,0)`, `(0,0,1)`, `(1,1,1)` (floats given as bit patterns), one
normal and the command stream `[4, r0, r1, r2, r3, -4, r0, r1, r2, r3, 0]`.  The offset of
each part is noted. -/
def sampleMeshData (x0 x1 y1 : Nat) : Buffer :=
  List.flatten [
    le16 0, zeros 2,                        -- offset 0: skin table
    sampleTextureRecord 0 1 1 0,            -- offset 4
    sampleMeshRecord 168 0,                 -- offset 84
    zeros 4,                                -- offset 104: bone of each vertex
    sampleVec3 x0 0 0,                      -- offset 108: vertices
    sampleVec3 x1 y1 0,
    sampleVec3 0 0 0x3F800000,
    sampleVec3 0x3F800000 0x3F800000 0x3F800000,
    sampleVec3 0 0 0x3F800000,              -- offset 156: normals
    le16 4,                                 -- offset 168: strip of four records
    sampleVertexRecord 0 0 0 0,
    sampleVertexRecord 1 0 0 0,
    sampleVertexRecord 2 0 0 0,
    sampleVertexRecord 3 0 0 0,
    le16 65532,                             -- offset 202: fan of four records
    sampleVertexRecord 0 0 0 0,
    sampleVertexRecord 1 0 0 0,
    sampleVertexRecord 2 0 0 0,
    sampleVertexRecord 3 0 0 0,
    le16 0 ]                                -- offset 236: end of the stream

/-- The `MStudioModel` record describing `sampleMeshData`. -/
def sampleModel : MStudioModel :=
  { nummesh := 1, meshindex := 84, vertinfoindex := 104, vertindex := 108, normindex := 156 }

/-- The header fields `LoadMesh` uses with `sampleMeshData`: skin table at 0, texture
table at 4. -/
def sampleTextureHeader : StudioHdr :=
  { id := StudioId_IDST, version := StudioVersion
    bbmin := ⟨F32.zero, F32.zero, F32.zero⟩, bbmax := ⟨F32.zero, F32.zero, F32.zero⟩
    numbones := 0, boneindex := 0, numseq := 0, seqindex := 0, numseqgroups := 0
    numtextures := 1, textureindex := 4, skinindex := 0, numbodyparts := 0, bodypartindex := 0 }

/-- The bit pattern of `1.0f`. -/
def sampleOne : Nat := 0x3F800000

/-- A vertex as `sampleOps` assembles it: the position as stored, everything else zero. -/
def sampleVertex (x y z : Nat) : Vertex :=
  { position := ⟨⟨x⟩, ⟨y⟩, ⟨z⟩⟩
    normal := ⟨F32.zero, F32.zero, F32.zero⟩
    texCoord := ⟨F32.zero, F32.zero⟩
    bone := 0 }

/-- The four vertices of `sampleMeshData sampleOne 0 sampleOne`. -/
def samplePool : List Vertex :=
  [sampleVertex sampleOne 0 0, sampleVertex 0 sampleOne 0, sampleVertex 0 0 sampleOne,
   sampleVertex sampleOne sampleOne sampleOne]

/-- The bit pattern of a quiet NaN. -/
def sampleNaN : Nat := 0x7FC00000

/-- The bit pattern of `-0.0f`. -/
def sampleNegZero : Nat := 0x80000000

/-! ## Texture decoding, in the words of the specification -/

/-- Byte `k` of the palette that follows the `n` index bytes of the block at `tex.index`. -/
def paletteByte (block : Buffer) (tex : MStudioTexture) (n : Nat) (k : Nat) : Nat :=
  (readU8 block (tex.index + (n : Int) + (k : Int))).getD 0

/-- Index byte `i` of the block at `tex.index`. -/
def indexByte (block : Buffer) (tex : MStudioTexture) (i : Nat) : Nat :=
  (readU8 block (tex.index + (i : Int))).getD 0

/-- Pixel `i` as the specification describes it: transparent black when the texture is
masked and the palette index is 255, otherwise the palette colour with alpha 255. -/
def specPixel (block : Buffer) (tex : MStudioTexture) (n : Nat) (i : Nat) : List Nat :=
  if isMasked tex.flags = true ∧ indexByte block tex i = 255 then [0, 0, 0, 0]
  else
    [paletteByte block tex n (3 * indexByte block tex i),
     paletteByte block tex n (3 * indexByte block tex i + 1),
     paletteByte block tex n (3 * indexByte block tex i + 2), 255]

/-- A texture block: the two index bytes `5` and `255`, then a 768-byte palette. -/
def sampleTextureBlock : Buffer := List.flatten [[5, 255], List.replicate 768 9]

/-- A masked 2 x 1 texture record whose block starts at offset 0. -/
def sampleMaskedTexture : MStudioTexture := { flags := 0x40, width := 2, height := 1, index := 0 }

/-- A 32768 x 16385 texture record (more than `2^29` pixels) whose block starts at offset 0. -/
def sampleHugeTexture : MStudioTexture := { flags := 0, width := 32768, height := 16385, index := 0 }

/-! ## Index validity, in the words of the specification -/

/-- Position `k` of the pool holds the vertex `v` itself or a vertex that compares equal to
`v` under `Vertex::operator==`. -/
def Holds (pool : List Vertex) (k : Nat) (v : Vertex) : Prop :=
  ∃ e, pool[k]? = some e ∧ (e = v ∨ Vertex.eq e v = true)

/-- The index `k` is a valid position of the pool and, as long as the pool has at most
`2^32` entries, the vertex there is the one assembled from some record of the command
stream (with the scale factors `s`, `t` of the mesh). -/
def IndexOk (fp : FloatOps) (base : Buffer) (model : MStudioModel) (bt : List Mat3x4)
    (s t : F32) (pool : List Vertex) (k : Nat) : Prop :=
  k < pool.length ∧
    (pool.length ≤ 4294967296 →
      ∃ tricmds v, assembleVertex fp base model bt s t tricmds = some v ∧ Holds pool k v)

/-- Every index of the mesh is valid for the pool, with the scale factors of the texture the
mesh refers to. -/
def MeshOk (fp : FloatOps) (textureHeader : StudioHdr) (base textureBase : Buffer)
    (model : MStudioModel) (bt : List Mat3x4) (pool : List Vertex) (mesh : Mesh) : Prop :=
  ∃ tex, readMStudioTexture textureBase (textureHeader.textureindex + 80 * mesh.textureId)
      = some tex ∧
    ∀ k ∈ mesh.indices,
      IndexOk fp base model bt (fp.div F32.one (fp.ofInt tex.width))
        (fp.div F32.one (fp.ofInt tex.height)) pool k

/-- The model a successful `LoadModel` of `sampleMeshData sampleOne 0 sampleOne` returns. -/
def sampleLoadedModel : Model :=
  { vertices := samplePool, meshes := [⟨0, [0, 1, 2, 2, 1, 3, 0, 1, 2, 0, 2, 3]⟩] }

/-- A model file of 320 bytes: a header announcing no texture and one body part at offset
244, and a body-part record with no sub-model. -/
def sampleMinimalFile : Buffer :=
  List.flatten [sampleHeader 0 0 0 0 0 0 0 1 244, sampleBodyPartRecord 0 0]

/-- A file of 244 bytes: only a header, announcing one body part at offset 244. -/
def sampleTruncatedFile : Buffer := sampleHeader 0 0 0 0 0 0 0 1 244

/-- A file of 1093 bytes: a header announcing one texture and no body part, the texture
record (1 x 1) at offset 244 and its block (one index byte, the palette) at offset 324. -/
def sampleTextureOnlyFile : Buffer :=
  List.flatten [sampleHeader 0 0 0 0 1 244 0 0 0, sampleTextureRecord 0 1 1 324,
    [5], List.replicate 768 9]

/-- A file of 244 bytes: only a header, announcing no texture and no body part. -/
def sampleEmptyModelFile : Buffer := sampleHeader 0 0 0 0 0 0 0 0 0

/-- The pool `LoadModel` builds from `sampleMeshData sampleNaN 0 sampleOne`: the first vertex
has a NaN coordinate and is stored once per record that refers to it. -/
def sampleNaNPool : List Vertex :=
  [sampleVertex sampleNaN 0 0, sampleVertex 0 sampleOne 0, sampleVertex 0 0 sampleOne,
   sampleVertex sampleOne sampleOne sampleOne, sampleVertex sampleNaN 0 0]

/-- A command stream whose first run length is `-32768` (the bytes `00 80`), followed by
32768 all-zero vertex records and the terminating `0`. -/
def sampleWrapStream : Buffer := 0 :: 128 :: (zeros 262144 ++ le16 0)

/-- A 244-byte `StudioHdr` like `sampleHeader`, with the bounding box `bbmin = (lo, lo, lo)`,
`bbmax = (hi, hi, hi)` (bit patterns), no bone and no texture. -/
def sampleHeaderBox (lo hi numseq seqindex numbodyparts bodypartindex : Nat) : Buffer :=
  List.flatten [
    le32 0x54534449, le32 10, zeros 104,
    sampleVec3 lo lo lo, sampleVec3 hi hi hi, zeros 4,
    le32 0, le32 0, zeros 16,
    le32 numseq, le32 seqindex, zeros 8,
    le32 0, le32 0, zeros 12, le32 0,
    le32 numbodyparts, le32 bodypartindex, zeros 32 ]

/-- A 176-byte `MStudioSeqDesc` record with `bbmin = (lo, lo, lo)`, `bbmax = (hi, hi, hi)`. -/
def sampleSeqDescRecord (lo hi : Nat) : Buffer :=
  List.flatten [zeros 96, sampleVec3 lo lo lo, sampleVec3 hi hi hi, zeros 56]

/-- A model file of 496 bytes: a header with the box `(0,0,0)`-`(1,1,1)`, one sequence
descriptor at offset 244 with the box `(2,2,2)`-`(3,3,3)`, and one body part (without
sub-model) at offset 420. -/
def sampleBoundsFile : Buffer :=
  List.flatten [
    sampleHeaderBox 0 0x3F800000 1 244 1 420,     -- offset 0
    sampleSeqDescRecord 0x40000000 0x40400000,    -- offset 244
    sampleBodyPartRecord 0 0 ]                    -- offset 420

/-! ## Bone hierarchy spec -/

deriving instance DecidableEq for MStudioBone

/-- The parent of bone `b` in a bone array: `none` for a root (negative parent index) and for
an index outside the array. -/
def parentIndex (bones : List MStudioBone) (b : Nat) : Option Nat :=
  match bones[b]? with
  | some bone => if bone.parent < 0 then none else some bone.parent.toNat
  | none => none

/-- The `k`-th ancestor of bone `b` along the parent links, `none` when the chain ends at a
root before `k` links. -/
def ancestor (bones : List MStudioBone) : Nat → Nat → Option Nat
  | 0, b => some b
  | k + 1, b => (parentIndex bones b).bind (ancestor bones k)

/-- Every parent index is negative or a valid index. -/
def ParentsValid (bones : List MStudioBone) : Prop :=
  ∀ b, (h : b < bones.length) → bones[b].parent < (bones.length : Int)

instance (bones : List MStudioBone) : Decidable (ParentsValid bones) := by
  unfold ParentsValid; infer_instance

/-- The parent links are acyclic: no bone is its own ancestor.  A cycle among `n` bones has at
most `n` links, so only the first `n` proper ancestors are inspected. -/
def Acyclic (bones : List MStudioBone) : Prop :=
  ∀ b, b < bones.length → ∀ k, k < bones.length → ancestor bones (k + 1) b ≠ some b

instance (bones : List MStudioBone) : Decidable (Acyclic bones) := by
  unfold Acyclic; infer_instance

/-- The array `bones` is the bone table of the file: `numbones` records of 112 bytes from
`boneindex`. -/
def BonesAt (header : StudioHdr) (base : Buffer) (bones : List MStudioBone) : Prop :=
  header.numbones = (bones.length : Int) ∧
    ∀ i, (h : i < bones.length) →
      readMStudioBone base (header.boneindex + 112 * (i : Int)) = some bones[i]

instance (header : StudioHdr) (base : Buffer) (bones : List MStudioBone) :
    Decidable (BonesAt header base bones) := by
  unfold BonesAt; infer_instance

/-- The world transform of bone `b` by the recurrence of the format: the local transform for
a root, the parent's world transform concatenated with the local transform otherwise.  `fuel`
bounds the length of the chain. -/
def chainWorld (fp : FloatOps) (bones : List MStudioBone) : Nat → Nat → Option Mat3x4
  | 0, _ => none
  | fuel + 1, b =>
    match bones[b]? with
    | none => none
    | some bone =>
      if bone.parent < 0 then some (boneLocal fp bone)
      else (chainWorld fp bones fuel bone.parent.toNat).map
        (fun w => ConcatTransforms fp w (boneLocal fp bone))

/-- The local transforms on the chain from the root of bone `b` down to `b`, root first. -/
def boneChain (fp : FloatOps) (bones : List MStudioBone) : Nat → Nat → Option (List Mat3x4)
  | 0, _ => none
  | fuel + 1, b =>
    match bones[b]? with
    | none => none
    | some bone =>
      if bone.parent < 0 then some [boneLocal fp bone]
      else (boneChain fp bones fuel bone.parent.toNat).map (fun c => c ++ [boneLocal fp bone])

/-- The ordered composition `((m0 ∘ m1) ∘ ...) ∘ mk` of a non-empty chain of transforms. -/
def composeChain (fp : FloatOps) : List Mat3x4 → Option Mat3x4
  | [] => none
  | m :: ms => some (ms.foldl (ConcatTransforms fp) m)

/-- The invariant of the vectors `out` and `built` in `ComputeDefaultBoneTransforms`: both
have `n` entries and every bone marked as built holds the transform `W` assigns to it. -/
def BuildInv (W : Nat → Option Mat3x4) (n : Nat) (st : BuildState) : Prop :=
  st.out.length = n ∧ st.built.length = n ∧
    ∀ i, st.built.getD i false = true → st.out[i]? = W i

/-- The bone `bone` with its parent reference renumbered by `σ`; a root keeps its negative
parent index. -/
def renumberBone (σ : Nat → Nat) (bone : MStudioBone) : MStudioBone :=
  { bone with parent := if bone.parent < 0 then bone.parent else ((σ bone.parent.toNat : Nat) : Int) }

/-- The array `bones2` is the array `bones` permuted by `σ`: `σ` is a permutation of the
indices, bone `b` moves to position `σ b`, and parent references follow the move. -/
def Renumbered (bones bones2 : List MStudioBone) (σ : Nat → Nat) : Prop :=
  bones2.length = bones.length ∧
    (∀ b, b < bones.length → σ b < bones.length) ∧
    (∀ a, a < bones.length → ∀ b, b < bones.length → σ a = σ b → a = b) ∧
    ∀ b, (h : b < bones.length) → bones2[σ b]? = some (renumberBone σ bones[b])

instance (bones bones2 : List MStudioBone) (σ : Nat → Nat) :
    Decidable (Renumbered bones bones2 σ) := by
  unfold Renumbered; infer_instance

/-- A 112-byte `MStudioBone` record: parent index, translation `(tx, ty, tz)` and zero
rotation (bit patterns). -/
def sampleBoneRecord (parent tx ty tz : Nat) : Buffer :=
  List.flatten [
    zeros 32, le32 parent, zeros 28,
    le32 tx, le32 ty, le32 tz, zeros 36 ]

/-- The header fields `ComputeDefaultBoneTransforms` uses: `n` bones at offset 244. -/
def sampleBoneHeader (n : Int) : StudioHdr :=
  { id := StudioId_IDST, version := StudioVersion
    bbmin := ⟨F32.zero, F32.zero, F32.zero⟩, bbmax := ⟨F32.zero, F32.zero, F32.zero⟩
    numbones := n, boneindex := 244, numseq := 0, seqindex := 0, numseqgroups := 0
    numtextures := 0, textureindex := 0, skinindex := 0
    numbodyparts := 0, bodypartindex := 0 }

/-- A file with three bones declared child first: bone 0 hangs on bone 2, bone 2 on bone 1,
and bone 1 is the root. -/
def sampleBoneFile : Buffer :=
  List.flatten [
    sampleHeader 3 244 0 0 0 0 0 0 0,
    sampleBoneRecord 2 0x3F800000 0 0,
    sampleBoneRecord 0xFFFFFFFF 0 0x40000000 0,
    sampleBoneRecord 1 0 0 0x40400000 ]

/-- The bone table of `sampleBoneFile`. -/
def sampleBones : List MStudioBone :=
  [ ⟨2, F32.one, F32.zero, F32.zero, F32.zero, F32.zero, F32.zero⟩,
    ⟨-1, F32.zero, F32.two, F32.zero, F32.zero, F32.zero, F32.zero⟩,
    ⟨1, F32.zero, F32.zero, ⟨0x40400000⟩, F32.zero, F32.zero, F32.zero⟩ ]

/-- The rotation `b -> (b + 1) mod 3` of three indices. -/
def sampleShift (b : Nat) : Nat := (b + 1) % 3

/-- The bones of `sampleBoneFile` moved by `sampleShift`, parents renumbered. -/
def sampleShiftedBoneFile : Buffer :=
  List.flatten [
    sampleHeader 3 244 0 0 0 0 0 0 0,
    sampleBoneRecord 2 0 0 0x40400000,
    sampleBoneRecord 0 0x3F800000 0 0,
    sampleBoneRecord 0xFFFFFFFF 0 0x40000000 0 ]

/-- The bone table of `sampleShiftedBoneFile`. -/
def sampleShiftedBones : List MStudioBone :=
  [ ⟨2, F32.zero, F32.zero, ⟨0x40400000⟩, F32.zero, F32.zero, F32.zero⟩,
    ⟨0, F32.one, F32.zero, F32.zero, F32.zero, F32.zero, F32.zero⟩,
    ⟨-1, F32.zero, F32.two, F32.zero, F32.zero, F32.zero, F32.zero⟩ ]

/-- A file with two bones whose parent links form a cycle: bone 0 hangs on bone 1 and bone 1
on bone 0. -/
def sampleCycleFile : Buffer :=
  List.flatten [
    sampleHeader 2 244 0 0 0 0 0 0 0,
    sampleBoneRecord 1 0 0 0,
    sampleBoneRecord 0 0 0 0 ]

/-- The bone table of `sampleCycleFile`. -/
def sampleCycleBones : List MStudioBone :=
  [ ⟨1, F32.zero, F32.zero, F32.zero, F32.zero, F32.zero, F32.zero⟩,
    ⟨0, F32.zero, F32.zero, F32.zero, F32.zero, F32.zero, F32.zero⟩ ]

/-- A file with one bone whose parent index is 1, the bone count. -/
def sampleOrphanFile : Buffer :=
  List.flatten [
    sampleHeader 1 244 0 0 0 0 0 0 0,
    sampleBoneRecord 1 0 0 0 ]

/-- The bone table of `sampleOrphanFile`. -/
def sampleOrphanBones : List MStudioBone :=
  [ ⟨1, F32.zero, F32.zero, F32.zero, F32.zero, F32.zero, F32.zero⟩ ]

/-! ## Exact arithmetic -/

/-- A quaternion with components in `α`, laid out like `Quat4f`. -/
structure QuatOver (α : Type) where
  x : α
  y : α
  z : α
  w : α

/-- The function `AngleQuaternion` with its arithmetic as parameters: the products, sums,
differences, `std::sin`, `std::cos` and the constant `0.5f` of the source, in the order of the
source.  `AngleQuaternion fp` is the instance at the single-precision operations. -/
def AngleQuaternionOver {α : Type} (mul add sub : α → α → α) (sin cos : α → α) (half : α)
    (anglesX anglesY anglesZ : α) : QuatOver α :=
  let halfZ := mul anglesZ half
  let halfY := mul anglesY half
  let halfX := mul anglesX half
  let sy := sin halfZ
  let cy := cos halfZ
  let sp := sin halfY
  let cp := cos halfY
  let sr := sin halfX
  let cr := cos halfX
  { x := sub (mul (mul sr cp) cy) (mul (mul cr sp) sy)
    y := add (mul (mul cr sp) cy) (mul (mul sr cp) sy)
    z := sub (mul (mul cr cp) sy) (mul (mul sr sp) cy)
    w := add (mul (mul cr cp) cy) (mul (mul sr sp) sy) }

/-! ## The rasterizer: arithmetic -/

namespace F32

/-- The C++ `<` on floats. -/
def lt (a b : F32) : Bool := !a.isNaN && !b.isNaN && decide (a.key < b.key)

/-- Unary minus: the sign bit is flipped. -/
def neg (a : F32) : F32 :=
  ⟨if a.sign = 1 then a.bits - 2147483648 else a.bits + 2147483648⟩

/-- The function `std::abs`: the sign bit is cleared. -/
def abs (a : F32) : F32 := ⟨a.bits % 2147483648⟩

/-- The value `std::numeric_limits<float>::infinity()`. -/
def inf : F32 := ⟨0x7F800000⟩

/-- The literal `255.0f`. -/
def c255 : F32 := ⟨0x437F0000⟩

/-- The two-argument `std::min(a, b)`: `(b < a) ? b : a`. -/
def min (a b : F32) : F32 := if lt b a then b else a

/-- The two-argument `std::max(a, b)`: `(a < b) ? b : a`. -/
def max (a b : F32) : F32 := if lt a b then b else a

/-- The initializer-list `std::min({a, b, c})`: the first smallest element. -/
def min3 (a b c : F32) : F32 :=
  let m := if lt b a then b else a
  if lt c m then c else m

/-- The initializer-list `std::max({a, b, c})`: the first largest element. -/
def max3 (a b c : F32) : F32 :=
  let m := if lt a b then b else a
  if lt m c then c else m

end F32

/-- The operations of the float unit the rasterizer uses beside those of `FloatOps`.
`lround` is `std::lround` followed by the conversion to `int`; `toInt` is
`static_cast<int>` of a `float`.  Both are taken as total: whatever the unit returns for a
value outside the range of `int` is some integer. -/
structure RasterOps extends FloatOps where
  tan : F32 → F32
  floor : F32 → F32
  ceil : F32 → F32
  lround : F32 → Int
  toInt : F32 → Int

/-- The struct `Vec4f`. -/
structure Vec4f where
  x : F32
  y : F32
  z : F32
  w : F32
deriving DecidableEq, Repr

/-- The struct `Mat4f`: `m i` is the entry `m[i]` of the row-major array of 16 floats. -/
structure Mat4f where
  m : Nat → F32

/-- A `Mat4f` from the list of its 16 entries. -/
def Mat4f.ofList (l : List F32) : Mat4f := ⟨fun i => l.getD i F32.zero⟩

/-- The function `Mat4f::Identity`. -/
def Mat4f.Identity : Mat4f :=
  Mat4f.ofList
    [F32.one, F32.zero, F32.zero, F32.zero,
     F32.zero, F32.one, F32.zero, F32.zero,
     F32.zero, F32.zero, F32.one, F32.zero,
     F32.zero, F32.zero, F32.zero, F32.one]

/-- The operator `Vec3f - Vec3f`. -/
def Vec3f.sub (fp : FloatOps) (a b : Vec3f) : Vec3f :=
  ⟨fp.sub a.x b.x, fp.sub a.y b.y, fp.sub a.z b.z⟩

/-- The function `Cross`. -/
def Cross (fp : FloatOps) (a b : Vec3f) : Vec3f :=
  ⟨fp.sub (fp.mul a.y b.z) (fp.mul a.z b.y),
   fp.sub (fp.mul a.z b.x) (fp.mul a.x b.z),
   fp.sub (fp.mul a.x b.y) (fp.mul a.y b.x)⟩

/-- The function `Mul(const Mat4f&, const Mat4f&)`: each entry is the sum, started at
`0.0f`, of the four products of a row of `a` with a column of `b`. -/
def MulMat4 (fp : FloatOps) (a b : Mat4f) : Mat4f :=
  Mat4f.ofList ((List.range 16).map fun i =>
    (List.range 4).foldl
      (fun sum k => fp.add sum (fp.mul (a.m (i / 4 * 4 + k)) (b.m (k * 4 + i % 4)))) F32.zero)

/-- The function `Mul(const Mat4f&, const Vec4f&)`. -/
def MulVec4 (fp : FloatOps) (a : Mat4f) (v : Vec4f) : Vec4f :=
  let row (r : Nat) : F32 :=
    fp.add (fp.add (fp.add (fp.mul (a.m (4 * r)) v.x) (fp.mul (a.m (4 * r + 1)) v.y))
      (fp.mul (a.m (4 * r + 2)) v.z)) (fp.mul (a.m (4 * r + 3)) v.w)
  ⟨row 0, row 1, row 2, row 3⟩

/-- The function `Perspective`. -/
def Perspective (ops : RasterOps) (fovYRadians aspect zNear zFar : F32) : Mat4f :=
  let f := ops.div F32.one (ops.tan (ops.mul fovYRadians F32.half))
  Mat4f.ofList
    [ops.div f aspect, F32.zero, F32.zero, F32.zero,
     F32.zero, f, F32.zero, F32.zero,
     F32.zero, F32.zero, ops.div zFar (ops.sub zFar zNear),
       ops.div (ops.mul (F32.neg zNear) zFar) (ops.sub zFar zNear),
     F32.zero, F32.zero, F32.one, F32.zero]

/-- The function `LookAtLH`. -/
def LookAtLH (fp : FloatOps) (eye target up : Vec3f) : Mat4f :=
  let zaxis := Normalize fp (Vec3f.sub fp target eye)
  let xaxis := Normalize fp (Cross fp up zaxis)
  let yaxis := Cross fp zaxis xaxis
  Mat4f.ofList
    [xaxis.x, xaxis.y, xaxis.z, F32.neg (Dot fp xaxis eye),
     yaxis.x, yaxis.y, yaxis.z, F32.neg (Dot fp yaxis eye),
     zaxis.x, zaxis.y, zaxis.z, F32.neg (Dot fp zaxis eye),
     F32.zero, F32.zero, F32.zero, F32.one]

/-- The function `std::clamp` on `int`. -/
def clampInt (v lo hi : Int) : Int := if v < lo then lo else if hi < v then hi else v

/-- The function `ClampU8`. -/
def ClampU8 (v : Int) : Nat := (clampInt v 0 255).toNat

/-! ## The rasterizer: colours and textures -/

/-- A `std::array<uint8_t, 4>` holding one RGBA pixel. -/
structure Rgba8 where
  r : Nat
  g : Nat
  b : Nat
  a : Nat
deriving DecidableEq, Repr

/-- The enumerators of `BackgroundPreset`, by their `uint32_t` value. -/
def BackgroundPreset.Blue : Nat := 0

/-- The enumerator `BackgroundPreset::Green`. -/
def BackgroundPreset.Green : Nat := 1

/-- The enumerator `BackgroundPreset::Transparent`. -/
def BackgroundPreset.Transparent : Nat := 2

/-- The function `GetBackground`. -/
def GetBackground (preset : Nat) : Rgba8 :=
  if preset = BackgroundPreset.Green then ⟨0, 255, 0, 255⟩
  else if preset = BackgroundPreset.Transparent then ⟨0, 0, 0, 0⟩
  else ⟨51, 102, 204, 255⟩

/-- The lambda `wrap` of `SampleTexture`; `%` is the truncating remainder of C++. -/
def wrap (i size : Int) : Int :=
  if size ≤ 0 then 0
  else
    let r := Int.tmod i size
    if r < 0 then r + size else r

/-- The lambda `fetch` of `SampleTexture`: a read of `texture->rgba[idx]`, `none` outside
the buffer. -/
def fetch (ops : RasterOps) (texture : TextureRgba) (xi yi : Int) (c : Nat) : Option F32 :=
  let sx := wrap xi texture.width
  let sy := wrap yi texture.height
  let idx := (sy.toNat * texture.width.toNat + sx.toNat) * 4 + c
  (texture.rgba[idx]?).map fun (byte : Nat) => ops.ofInt (byte : Int)

/-- One channel of `SampleTexture`: the bilinear blend of four texels. -/
def sampleChannel (ops : RasterOps) (texture : TextureRgba) (x0 y0 : Int) (tx ty : F32)
    (c : Nat) : Option Nat := do
  let c00 ← fetch ops texture x0 y0 c
  let c10 ← fetch ops texture (x0 + 1) y0 c
  let c01 ← fetch ops texture x0 (y0 + 1) c
  let c11 ← fetch ops texture (x0 + 1) (y0 + 1) c
  let cx0 := ops.add c00 (ops.mul (ops.sub c10 c00) tx)
  let cx1 := ops.add c01 (ops.mul (ops.sub c11 c01) tx)
  let cf := ops.add cx0 (ops.mul (ops.sub cx1 cx0) ty)
  pure (ClampU8 (ops.lround cf))

/-- The channel loop of `SampleTexture`. -/
def sampleTexels (ops : RasterOps) (texture : TextureRgba) (x0 y0 : Int) (tx ty : F32) :
    Option Rgba8 := do
  let r ← sampleChannel ops texture x0 y0 tx ty 0
  let g ← sampleChannel ops texture x0 y0 tx ty 1
  let b ← sampleChannel ops texture x0 y0 tx ty 2
  let a ← sampleChannel ops texture x0 y0 tx ty 3
  pure ⟨r, g, b, a⟩

/-- The function `SampleTexture`; `texture = none` is the null pointer.  The sums `x0 + 1`
and `y0 + 1` are taken in the integers. -/
def SampleTexture (ops : RasterOps) (texture : Option TextureRgba) (u v : F32) :
    Option Rgba8 :=
  match texture with
  | none => some ⟨200, 200, 200, 255⟩
  | some texture =>
    if texture.width ≤ 0 ∨ texture.height ≤ 0 ∨ texture.rgba.isEmpty then
      some ⟨200, 200, 200, 255⟩
    else
      let u := ops.sub u (ops.floor u)
      let v := ops.sub v (ops.floor v)
      let x := ops.sub (ops.mul u (ops.ofInt texture.width)) F32.half
      let y := ops.sub (ops.mul v (ops.ofInt texture.height)) F32.half
      let x0 := ops.toInt (ops.floor x)
      let y0 := ops.toInt (ops.floor y)
      let tx := ops.sub x (ops.ofInt x0)
      let ty := ops.sub y (ops.ofInt y0)
      sampleTexels ops texture x0 y0 tx ty

/-- The lambda `blendChannel` of `BlendOver` for the channel values `s` of the source and `d`
of the destination. -/
def blendChannel (ops : RasterOps) (srcA dstA outA : F32) (srcC dstC : Nat) : Nat :=
  let s := ops.div (ops.ofInt (srcC : Int)) F32.c255
  let d := ops.div (ops.ofInt (dstC : Int)) F32.c255
  let out :=
    if F32.lt F32.zero outA then
      ops.div (ops.add (ops.mul s srcA) (ops.mul (ops.mul d dstA) (ops.sub F32.one srcA))) outA
    else F32.zero
  ClampU8 (ops.lround (ops.mul out F32.c255))

/-- The function `BlendOver`: the new value of the four bytes at `dst`. -/
def BlendOver (ops : RasterOps) (dst src : Rgba8) : Rgba8 :=
  let srcA := ops.div (ops.ofInt (src.a : Int)) F32.c255
  let dstA := ops.div (ops.ofInt (dst.a : Int)) F32.c255
  let outA := ops.add srcA (ops.mul dstA (ops.sub F32.one srcA))
  { r := blendChannel ops srcA dstA outA src.r dst.r
    g := blendChannel ops srcA dstA outA src.g dst.g
    b := blendChannel ops srcA dstA outA src.b dst.b
    a := ClampU8 (ops.lround (ops.mul outA F32.c255)) }

/-- The function `EdgeFunction`. -/
def EdgeFunction (fp : FloatOps) (ax ay bx by_ cx cy : F32) : F32 :=
  fp.sub (fp.mul (fp.sub cx ax) (fp.sub by_ ay)) (fp.mul (fp.sub cy ay) (fp.sub bx ax))

/-! ## The rasterizer: camera -/

/-- The function `ComputeCenter`. -/
def ComputeCenter (fp : FloatOps) (a b : Vec3f) : Vec3f :=
  ⟨fp.mul (fp.add a.x b.x) F32.half, fp.mul (fp.add a.y b.y) F32.half,
   fp.mul (fp.add a.z b.z) F32.half⟩

/-- The function `MaxComponentAbs`. -/
def MaxComponentAbs (v : Vec3f) : F32 := F32.max3 (F32.abs v.x) (F32.abs v.y) (F32.abs v.z)

/-- The body of the vertex loop of `TryComputeVertexBounds`. -/
def extendBounds (acc : Vec3f × Vec3f) (v : Vertex) : Vec3f × Vec3f :=
  (⟨F32.min acc.1.x v.position.x, F32.min acc.1.y v.position.y, F32.min acc.1.z v.position.z⟩,
   ⟨F32.max acc.2.x v.position.x, F32.max acc.2.y v.position.y, F32.max acc.2.z v.position.z⟩)

/-- All vertices of all sub-models of all body parts, in the order of the loops of
`TryComputeVertexBounds`. -/
def allVertices (model : StudioModelCpu) : List Vertex :=
  model.bodyParts.flatMap fun bp => bp.models.flatMap fun m => m.vertices

/-- The function `TryComputeVertexBounds`: the returned flag and the values of `outMin` and
`outMax` after the call. -/
def TryComputeVertexBounds (model : StudioModelCpu) (outMin outMax : Vec3f) :
    Bool × Vec3f × Vec3f :=
  let start : Vec3f × Vec3f :=
    (⟨F32.inf, F32.inf, F32.inf⟩, ⟨F32.neg F32.inf, F32.neg F32.inf, F32.neg F32.inf⟩)
  let res := (allVertices model).foldl extendBounds start
  if (allVertices model).isEmpty then (false, outMin, outMax)
  else (true, res.1, res.2)

/-- The lambda `guessGunModel`: the lower-cased stem of the file name starts with `v_` or
with `pv-`. -/
def guessGunModel (stem : List Char) : Bool :=
  match stem.map Char.toLower with
  | 'v' :: '_' :: _ => true
  | 'p' :: 'v' :: '-' :: _ => true
  | _ => false

/-- The lambda `scaling`. -/
def scaling (sx sy sz : F32) : Mat4f :=
  Mat4f.ofList
    [sx, F32.zero, F32.zero, F32.zero,
     F32.zero, sy, F32.zero, F32.zero,
     F32.zero, F32.zero, sz, F32.zero,
     F32.zero, F32.zero, F32.zero, F32.one]

/-- The struct `RenderOptions`; `background` is the `uint32_t` value of the preset. -/
structure RenderOptions where
  width : Int
  height : Int
  background : Nat

/-- The struct `RenderStats`. -/
structure RenderStats where
  triangles : Nat
  degenerateTriangles : Nat
  pixelsWritten : Nat
deriving DecidableEq, Repr

/-- The matrix `mvp` of `RenderThumbnailRgba`, from the bounds of the model, the stem of its
file name and the clamped image size. -/
def cameraMatrix (ops : RasterOps) (model : StudioModelCpu) (stem : List Char)
    (width height : Int) : Mat4f :=
  let fp := ops.toFloatOps
  let headerExtents := Vec3f.sub fp model.boundsMax model.boundsMin
  let bounds : Vec3f × Vec3f :=
    if F32.lt (MaxComponentAbs headerExtents) ⟨0x3A83126F⟩ then
      (TryComputeVertexBounds model model.boundsMin model.boundsMax).2
    else (model.boundsMin, model.boundsMax)
  let boundsMin := bounds.1
  let boundsMax := bounds.2
  let center := ComputeCenter fp boundsMin boundsMax
  let widthMeters := ops.sub boundsMax.x boundsMin.x
  let heightMeters0 := ops.sub boundsMax.z boundsMin.z
  let heightMeters := if F32.lt heightMeters0 widthMeters then widthMeters else heightMeters0
  let world := scaling (F32.neg F32.one) F32.one F32.one
  let up : Vec3f := ⟨F32.zero, F32.zero, F32.one⟩
  let cameraDistance0 :=
    ops.mul (ops.div (ops.mul heightMeters F32.half) (ops.tan (ops.mul ⟨0x42820000⟩ F32.half)))
      ⟨0x40800000⟩
  let cameraDistance := if F32.lt cameraDistance0 F32.zero then ⟨0x42480000⟩ else cameraDistance0
  let gun := guessGunModel stem
  let eye : Vec3f :=
    if gun then ⟨F32.neg F32.one, ⟨0x3FB33333⟩, F32.one⟩
    else ⟨F32.neg cameraDistance, F32.zero, ops.mul cameraDistance F32.half⟩
  let target : Vec3f :=
    if gun then ⟨F32.neg ⟨0x40A00000⟩, ⟨0x3FB33333⟩, F32.one⟩ else center
  let fovDeg : F32 := if gun then ⟨0x42B40000⟩ else ⟨0x42820000⟩
  let view := LookAtLH fp eye target up
  let fovRad := ops.mul fovDeg (ops.div ⟨0x40490FDB⟩ ⟨0x43340000⟩)
  let projection :=
    Perspective ops fovRad (ops.div (ops.ofInt width) (ops.ofInt height)) ⟨0x3C23D70A⟩
      ⟨0x447A0000⟩
  MulMat4 fp projection (MulMat4 fp view world)

/-! ## The rasterizer: triangles and pixels -/

/-- The struct `VertexOut` (the member `normalOverW` is never read or written). -/
structure VertexOut where
  x : F32
  y : F32
  z : F32
  invW : F32
  uvOverW : Vec2f
deriving DecidableEq, Repr

/-- A value-initialised `VertexOut`. -/
def VertexOut.zero : VertexOut := ⟨F32.zero, F32.zero, F32.zero, F32.zero, ⟨F32.zero, F32.zero⟩⟩

/-- The lambda `project`, followed by the assignment of `uvOverW`. -/
def project (ops : RasterOps) (mvp : Mat4f) (width height : Int) (v : Vertex) : VertexOut :=
  let clip := MulVec4 ops.toFloatOps mvp ⟨v.position.x, v.position.y, v.position.z, F32.one⟩
  let o : VertexOut :=
    if F32.eq clip.w F32.zero then VertexOut.zero
    else
      let invW := ops.div F32.one clip.w
      let ndcX := ops.mul clip.x invW
      let ndcY := ops.mul clip.y invW
      let ndcZ := ops.mul clip.z invW
      { x := ops.mul (ops.add (ops.mul ndcX F32.half) F32.half) (ops.ofInt (width - 1))
        y := ops.mul (ops.sub F32.one (ops.add (ops.mul ndcY F32.half) F32.half))
          (ops.ofInt (height - 1))
        z := ndcZ
        invW := invW
        uvOverW := ⟨F32.zero, F32.zero⟩ }
  { o with uvOverW := ⟨ops.mul v.texCoord.x o.invW, ops.mul v.texCoord.y o.invW⟩ }

/-- The image being drawn: the bytes of `outRgba`, the vector `depth`, and the counters. -/
structure Frame where
  rgba : List Nat
  depth : List F32
  stats : RenderStats

/-- The four bytes of a pixel starting at byte `i`, `none` outside the buffer. -/
def readPixel (rgba : List Nat) (i : Nat) : Option Rgba8 := do
  let r ← rgba[i]?
  let g ← rgba[i + 1]?
  let b ← rgba[i + 2]?
  let a ← rgba[i + 3]?
  pure ⟨r, g, b, a⟩

/-- Store the four bytes of a pixel starting at byte `i`, `none` outside the buffer. -/
def writePixel (rgba : List Nat) (i : Nat) (c : Rgba8) : Option (List Nat) :=
  if i + 3 < rgba.length then
    some ((((rgba.set i c.r).set (i + 1) c.g).set (i + 2) c.b).set (i + 3) c.a)
  else none

/-- A fragment: what the inner loop has interpolated for one pixel of one triangle. -/
structure Fragment where
  depthZ : F32
  u : F32
  v : F32
deriving DecidableEq, Repr

/-- The first part of the body of the pixel loop: edge functions, inside test, barycentric
weights, `invW` test and interpolation.  The result `none` stands for `continue`. -/
def interpolate (ops : RasterOps) (o0 o1 o2 : VertexOut) (area : F32) (y x : Int) :
    Option Fragment :=
  let px := ops.add (ops.ofInt x) F32.half
  let py := ops.add (ops.ofInt y) F32.half
  let w0 := EdgeFunction ops.toFloatOps o1.x o1.y o2.x o2.y px py
  let w1 := EdgeFunction ops.toFloatOps o2.x o2.y o0.x o0.y px py
  let w2 := EdgeFunction ops.toFloatOps o0.x o0.y o1.x o1.y px py
  let hasNeg := F32.lt w0 F32.zero || F32.lt w1 F32.zero || F32.lt w2 F32.zero
  let hasPos := F32.lt F32.zero w0 || F32.lt F32.zero w1 || F32.lt F32.zero w2
  if hasNeg && hasPos then none
  else
    let invArea := ops.div F32.one area
    let b0 := ops.mul w0 invArea
    let b1 := ops.mul w1 invArea
    let b2 := ops.mul w2 invArea
    let invW := ops.add (ops.add (ops.mul b0 o0.invW) (ops.mul b1 o1.invW)) (ops.mul b2 o2.invW)
    if F32.le invW F32.zero then none
    else
      let w := ops.div F32.one invW
      let depthZ := ops.add (ops.add (ops.mul b0 o0.z) (ops.mul b1 o1.z)) (ops.mul b2 o2.z)
      some
        { depthZ := depthZ
          u := ops.mul (ops.add (ops.add (ops.mul b0 o0.uvOverW.x) (ops.mul b1 o1.uvOverW.x))
            (ops.mul b2 o2.uvOverW.x)) w
          v := ops.mul (ops.add (ops.add (ops.mul b0 o0.uvOverW.y) (ops.mul b1 o1.uvOverW.y))
            (ops.mul b2 o2.uvOverW.y)) w }

/-- The second part of the body of the pixel loop, for the pixel with index `di`: depth
range test, depth test against `depth[di]`, texture sample, alpha test, blend, depth write
and count.  The texel is sampled at `(f.u, f.v)` once the depth tests have passed. -/
def depthWrite (ops : RasterOps) (tex : Option TextureRgba) (di : Nat) (f : Fragment)
    (st : Frame) : Option Frame :=
  if F32.lt f.depthZ F32.zero || F32.lt F32.one f.depthZ then some st
  else
    match st.depth[di]? with
    | none => none
    | some stored =>
      if F32.le stored f.depthZ then some st
      else
        match SampleTexture ops tex f.u f.v with
        | none => none
        | some texel =>
          if texel.a = 0 then some st
          else
            match readPixel st.rgba (di * 4) with
            | none => none
            | some dst =>
              match writePixel st.rgba (di * 4) (BlendOver ops dst texel) with
              | none => none
              | some rgba =>
                some
                  { rgba := rgba
                    depth := st.depth.set di f.depthZ
                    stats := { st.stats with pixelsWritten := st.stats.pixelsWritten + 1 } }

/-- The body of the pixel loop for the pixel `(x, y)`. -/
def pixelStep (ops : RasterOps) (width : Int) (tex : Option TextureRgba)
    (o0 o1 o2 : VertexOut) (area : F32) (y x : Int) (st : Frame) : Option Frame :=
  match interpolate ops o0 o1 o2 area y x with
  | none => some st
  | some f => depthWrite ops tex (y.toNat * width.toNat + x.toNat) f st

/-- The values `lo, lo + 1, ..., hi` of a loop `for (int i = lo; i <= hi; i++)`. -/
def intRange (lo hi : Int) : List Int :=
  (List.range (hi + 1 - lo).toNat).map fun (k : Nat) => lo + (k : Int)

/-- The bounding box `(minX, maxX, minY, maxY)` of a projected triangle, clamped to the
image. -/
def boundingBox (ops : RasterOps) (width height : Int) (o0 o1 o2 : VertexOut) :
    Int × Int × Int × Int :=
  (clampInt (ops.toInt (ops.floor (F32.min3 o0.x o1.x o2.x))) 0 (width - 1),
   clampInt (ops.toInt (ops.ceil (F32.max3 o0.x o1.x o2.x))) 0 (width - 1),
   clampInt (ops.toInt (ops.floor (F32.min3 o0.y o1.y o2.y))) 0 (height - 1),
   clampInt (ops.toInt (ops.ceil (F32.max3 o0.y o1.y o2.y))) 0 (height - 1))

/-- The two pixel loops over the bounding box of a triangle. -/
def rasterize (ops : RasterOps) (width height : Int) (tex : Option TextureRgba)
    (o0 o1 o2 : VertexOut) (area : F32) (st : Frame) : Option Frame :=
  let box := boundingBox ops width height o0 o1 o2
  (intRange box.2.2.1 box.2.2.2).foldlM
    (fun st y =>
      (intRange box.1 box.2.1).foldlM (fun st x => pixelStep ops width tex o0 o1 o2 area y x st)
        st)
    st

/-- The three vertices `m.vertices[mesh.indices[idx + k]]`, `k = 0, 1, 2`, of the triangle
starting at `indices[idx]`; `none` when a read is outside its vector. -/
def triangleVertices (m : Model) (mesh : Mesh) (idx : Nat) :
    Option (Vertex × Vertex × Vertex) := do
  let i0 ← mesh.indices[idx]?
  let i1 ← mesh.indices[idx + 1]?
  let i2 ← mesh.indices[idx + 2]?
  let v0 ← m.vertices[i0]?
  let v1 ← m.vertices[i1]?
  let v2 ← m.vertices[i2]?
  pure (v0, v1, v2)

/-- The body of the triangle loop from the area test on, for the projected vertices. -/
def drawProjected (ops : RasterOps) (width height : Int) (tex : Option TextureRgba)
    (o0 o1 o2 : VertexOut) (st : Frame) : Option Frame :=
  let area := EdgeFunction ops.toFloatOps o0.x o0.y o1.x o1.y o2.x o2.y
  if F32.eq area F32.zero then
    some { st with
      stats := { st.stats with degenerateTriangles := st.stats.degenerateTriangles + 1 } }
  else if F32.le area F32.zero then some st
  else rasterize ops width height tex o0 o1 o2 area st

/-- The body of the triangle loop for the triangle starting at `indices[idx]`. -/
def drawTriangle (ops : RasterOps) (mvp : Mat4f) (width height : Int)
    (tex : Option TextureRgba) (m : Model) (mesh : Mesh) (idx : Nat) (st : Frame) :
    Option Frame :=
  let st1 : Frame := { st with stats := { st.stats with triangles := st.stats.triangles + 1 } }
  match triangleVertices m mesh idx with
  | none => none
  | some (v0, v1, v2) =>
    drawProjected ops width height tex (project ops mvp width height v0)
      (project ops mvp width height v1) (project ops mvp width height v2) st1

/-- The triangle loop `for (size_t idx = 0; idx + 2 < size; idx += 3)`; `fuel` bounds the
number of iterations. -/
def triangleLoop (body : Nat → Frame → Option Frame) (size : Nat) :
    Nat → Nat → Frame → Option Frame
  | 0, idx, st => if idx + 2 < size then none else some st
  | fuel + 1, idx, st =>
    if idx + 2 < size then (body idx st).bind (triangleLoop body size fuel (idx + 3))
    else some st

/-- The texture a mesh is drawn with: `&textures[textureId]` when the id is in range, the
null pointer otherwise. -/
def meshTexture (textures : List TextureRgba) (mesh : Mesh) : Option TextureRgba :=
  if 0 ≤ mesh.textureId ∧ mesh.textureId < (textures.length : Int) then
    textures[mesh.textureId.toNat]?
  else none

/-- The body of the mesh loop. -/
def drawMesh (ops : RasterOps) (mvp : Mat4f) (width height : Int)
    (textures : List TextureRgba) (m : Model) (st : Frame) (mesh : Mesh) : Option Frame :=
  triangleLoop (drawTriangle ops mvp width height (meshTexture textures mesh) m mesh)
    mesh.indices.length mesh.indices.length 0 st

/-- The body of the body-part loop: only `models[0]` is drawn. -/
def drawBodyPart (ops : RasterOps) (mvp : Mat4f) (width height : Int)
    (textures : List TextureRgba) (st : Frame) (bodyPart : BodyPart) : Option Frame :=
  match bodyPart.models with
  | [] => some st
  | m :: _ => m.meshes.foldlM (drawMesh ops mvp width height textures m) st

/-- The member `std::vector::assign(n, value)`: the old contents are discarded. -/
def assign {α : Type} (_old : List α) (n : Nat) (value : α) : List α := List.replicate n value

/-- The background loops of `RenderThumbnailRgba`. -/
def fillBackground (bg : Rgba8) (width height : Int) (outRgba : List Nat) :
    Option (List Nat) :=
  (List.range height.toNat).foldlM
    (fun out y =>
      (List.range width.toNat).foldlM
        (fun out x => writePixel out ((y * width.toNat + x) * 4) bg) out)
    outRgba

/-- The function `RenderThumbnailRgba`: the returned flag, `outRgba` after the call and the
statistics (as written when `stats` is not null).  The argument `outRgba` is the vector
before the call, `stem` the stem of the model's file name.  Allocation is taken to
succeed. -/
def RenderThumbnailRgba (ops : RasterOps) (model : StudioModelCpu) (stem : List Char)
    (options : RenderOptions) (outRgba : List Nat) : Option (Bool × List Nat × RenderStats) :=
  let width : Int := if 1 < options.width then options.width else 1
  let height : Int := if 1 < options.height then options.height else 1
  let outRgba : List Nat := assign outRgba (width.toNat * height.toNat * 4) 0
  let bg := GetBackground options.background
  match fillBackground bg width height outRgba with
  | none => none
  | some rgba =>
    let depth : List F32 := assign [] (width.toNat * height.toNat) F32.one
    let mvp := cameraMatrix ops model stem width height
    match model.bodyParts.foldlM (drawBodyPart ops mvp width height model.textures)
        ⟨rgba, depth, ⟨0, 0, 0⟩⟩ with
    | none => none
    | some st => some (true, st.rgba, st.stats)

/-! ## The image writer and the pipeline of `main` -/

/-- What the file system and the stream buffer do with the output file: whether
`std::ofstream` opens it, how many bytes the file takes (`capacity`), and how many bytes
beyond those the stream takes into its buffer before one of its writes reports a failure
(`buffered`).  A `std::ofstream` hands its bytes to the file only when its buffer is full or
when it is closed, so a write reports a failure only once more than
`capacity + buffered` bytes have been handed to the stream. -/
structure Sink where
  opens : Bool
  capacity : Nat
  buffered : Nat

/-- The state of a `std::ofstream`: its `good` flag and the bytes handed to it so far. -/
structure OStream where
  good : Bool
  data : List Nat

/-- The member `write`: on a stream that is not good nothing happens; a good stream takes
the bytes, and the write that goes past what the file and the buffer take sets the failure
flag. -/
def OStream.write (sink : Sink) (s : OStream) (bytes : List Nat) : OStream :=
  if s.good = true then
    { good := decide (s.data.length + bytes.length ≤ sink.capacity + sink.buffered),
      data := s.data ++ bytes }
  else s

/-- The file once the stream has been closed, which the destructor of `out` does after the
result of `WriteTgaRgba` has been computed: of the bytes handed to the stream, those the
file takes. -/
def OStream.stored (sink : Sink) (s : OStream) : List Nat :=
  s.data.take sink.capacity

/-- The 18-byte header `WriteTgaRgba` emits. -/
def tgaHeader (width height : Int) : List Nat :=
  [0, 0, 2, 0, 0, 0, 0, 0, 0, 0, 0, 0,
   (width % 256).toNat, (width / 256 % 256).toNat,
   (height % 256).toNat, (height / 256 % 256).toNat, 32, 0x20 ||| 8]

/-- The body of the pixel loops of `WriteTgaRgba` for the pixel `(x, y)`. -/
def tgaPixel (sink : Sink) (width : Int) (rgba : List Nat) (y x : Nat) (out : OStream) :
    Option OStream := do
  let idx := (y * width.toNat + x) * 4
  let r ← rgba[idx + 0]?
  let g ← rgba[idx + 1]?
  let b ← rgba[idx + 2]?
  let a ← rgba[idx + 3]?
  pure (out.write sink [b, g, r, a])

/-- The function `WriteTgaRgba`: the returned flag, which is the state of the stream before
it is closed, and the contents of the file once it is closed, `none` when the file was not
opened. -/
def WriteTgaRgba (sink : Sink) (width height : Int) (rgba : List Nat) :
    Option (Bool × Option (List Nat)) :=
  if width ≤ 0 ∨ height ≤ 0 then some (false, none)
  else if rgba.length ≠ width.toNat * height.toNat * 4 then some (false, none)
  else if sink.opens = false then some (false, none)
  else
    let out := OStream.write sink ⟨true, []⟩ (tgaHeader width height)
    if out.good = false then some (false, some (out.stored sink))
    else
      match (List.range height.toNat).foldlM
          (fun out y =>
            (List.range width.toNat).foldlM (fun out x => tgaPixel sink width rgba y x out) out)
          out with
      | none => none
      | some out => some (out.good, some (out.stored sink))

/-- The function `WriteImageAuto` of a build without `_WIN32`; `ext` is the extension of the
output path. -/
def WriteImageAuto (sink : Sink) (ext : List Char) (width height : Int) (rgba : List Nat) :
    Option (Bool × Option (List Nat)) :=
  let ext := ext.map Char.toLower
  if ext = ['.', 't', 'g', 'a'] then WriteTgaRgba sink width height rgba
  else if ext = ['.', 'p', 'n', 'g'] then some (false, none)
  else WriteTgaRgba sink width height rgba

/-- The function `main` from the load on, for parsed arguments: the exit code.  `stem` and
`ext` are the stem of the input path and the extension of the output path. -/
def mainRun (ops : RasterOps) (sink : Sink) (files : Files) (stem ext : List Char)
    (options : RenderOptions) : Option Int :=
  match LoadFromFile ops.toFloatOps StudioModelCpu.empty files with
  | none => none
  | some (loaded, model) =>
    if loaded = false then some 1
    else
      match RenderThumbnailRgba ops model stem options [] with
      | none => none
      | some (rendered, rgba, _) =>
        if rendered = false then some 1
        else
          match WriteImageAuto sink ext options.width options.height rgba with
          | none => none
          | some (written, _) => if written = false then some 1 else some 0

/-! ## Rasterizer invariants -/

/-- The frame has `w * h` pixels of four bytes and `w * h` depth values. -/
def FrameOk (w h : Nat) (st : Frame) : Prop :=
  st.rgba.length = w * h * 4 ∧ st.depth.length = w * h

/-- A texture whose pixel buffer covers its `width * height` texels. -/
def TexOk (t : TextureRgba) : Prop :=
  0 < t.width → 0 < t.height → t.width.toNat * t.height.toNat * 4 ≤ t.rgba.length

instance (t : TextureRgba) : Decidable (TexOk t) := by unfold TexOk; infer_instance

/-- The first sub-model of a body part, the only one the rasterizer draws. -/
def firstModel (bodyPart : BodyPart) : Option Model := bodyPart.models.head?

/-- What the rasterizer relies on in a model: in the first sub-model of every body part every
index of every mesh is a position of the vertex list, and every texture covers its texels.
The empty model has the property and `LoadFromFile` keeps it. -/
def ModelOk (model : StudioModelCpu) : Prop :=
  (∀ bp ∈ model.bodyParts, ∀ m ∈ firstModel bp, ∀ mesh ∈ m.meshes, ∀ k ∈ mesh.indices,
      k < m.vertices.length) ∧
    ∀ t ∈ model.textures, TexOk t

/-- The fragment of a projected triangle at the pixel `(x, y)` passes the coverage test (the
inside test and the `invW` test), the depth tests against the stored depth `stored`, and
the alpha test. -/
def FragmentPasses (ops : RasterOps) (tex : Option TextureRgba) (o0 o1 o2 : VertexOut)
    (area : F32) (x y : Int) (stored : F32) : Prop :=
  ∃ f, interpolate ops o0 o1 o2 area y x = some f ∧
    (F32.lt f.depthZ F32.zero || F32.lt F32.one f.depthZ) = false ∧
    F32.le stored f.depthZ = false ∧
    ∃ texel, SampleTexture ops tex f.u f.v = some texel ∧ texel.a ≠ 0

/-- The projected triangle passes the area tests and the pixel `(x, y)` lies in its clamped
bounding box, so that the pixel loops reach it. -/
def Visits (ops : RasterOps) (width height : Int) (o0 o1 o2 : VertexOut) (x y : Int) : Prop :=
  F32.eq (EdgeFunction ops.toFloatOps o0.x o0.y o1.x o1.y o2.x o2.y) F32.zero = false ∧
  F32.le (EdgeFunction ops.toFloatOps o0.x o0.y o1.x o1.y o2.x o2.y) F32.zero = false ∧
  (boundingBox ops width height o0 o1 o2).1 ≤ x ∧
  x ≤ (boundingBox ops width height o0 o1 o2).2.1 ∧
  (boundingBox ops width height o0 o1 o2).2.2.1 ≤ y ∧
  y ≤ (boundingBox ops width height o0 o1 o2).2.2.2

/-- Some triangle the rasterizer draws with the matrix `mvp` has, at the pixel `(x, y)`, a
fragment that passes the coverage, depth and alpha tests against the stored depth `1.0f`
of a pixel not yet written. -/
def CoveredBy (ops : RasterOps) (mvp : Mat4f) (width height : Int) (model : StudioModelCpu)
    (x y : Int) : Prop :=
  ∃ bp ∈ model.bodyParts, ∃ m ∈ firstModel bp, ∃ mesh ∈ m.meshes,
    ∃ idx, idx + 2 < mesh.indices.length ∧ idx % 3 = 0 ∧
    ∃ v0 v1 v2, triangleVertices m mesh idx = some (v0, v1, v2) ∧
      Visits ops width height (project ops mvp width height v0)
        (project ops mvp width height v1) (project ops mvp width height v2) x y ∧
      FragmentPasses ops (meshTexture model.textures mesh) (project ops mvp width height v0)
        (project ops mvp width height v1) (project ops mvp width height v2)
        (EdgeFunction ops.toFloatOps (project ops mvp width height v0).x
          (project ops mvp width height v0).y (project ops mvp width height v1).x
          (project ops mvp width height v1).y (project ops mvp width height v2).x
          (project ops mvp width height v2).y)
        x y F32.one

/-- The pixel `(x, y)` of the image rendered for `model` and `options` is covered: some
fragment drawn there passes the coverage, depth and alpha tests. -/
def Covered (ops : RasterOps) (model : StudioModelCpu) (stem : List Char)
    (options : RenderOptions) (x y : Int) : Prop :=
  CoveredBy ops
    (cameraMatrix ops model stem (max 1 options.width) (max 1 options.height))
    (max 1 options.width) (max 1 options.height) model x y

/-- The float unit whose every operation returns zero, for evaluating the rasterizer on
sample inputs. -/
def sampleRasterOps : RasterOps :=
  { sampleOps with
    tan := fun _ => F32.zero
    floor := fun _ => F32.zero
    ceil := fun _ => F32.zero
    lround := fun _ => 0
    toInt := fun _ => 0 }

/-- A model as the loader leaves it: one body part with the sub-model `sampleLoadedModel`
(four triangles) and one 2 x 1 texture. -/
def sampleRenderModel : StudioModelCpu :=
  { fileData := []
    textureFileData := []
    bodyParts := [⟨[sampleLoadedModel]⟩]
    textures := [⟨2, 1, [9, 9, 9, 255, 0, 0, 0, 0]⟩]
    boundsMin := ⟨F32.zero, F32.zero, F32.zero⟩
    boundsMax := ⟨F32.one, F32.one, F32.one⟩ }

/-! ## A float unit with IEEE-754 arithmetic -/

namespace F32

/-- The position of the leading bit of `m` (0 for `m < 2`), by halving at most `fuel`
times. -/
def leadingBitLoop : Nat → Nat → Nat
  | 0, _ => 0
  | fuel + 1, m => if m < 2 then 0 else leadingBitLoop fuel (m / 2) + 1

/-- The position of the leading bit of a number below `2^512`. -/
def leadingBit (m : Nat) : Nat := leadingBitLoop 512 m

/-- The significand of a finite float as an integer: the value of the float is
`(-1)^sign * significand * 2^scale`. -/
def significand (a : F32) : Nat :=
  if a.exponent = 0 then a.mantissa else a.mantissa + 8388608

/-- The power of two that scales the integer significand. -/
def scale (a : F32) : Int := (if a.exponent = 0 then 1 else (a.exponent : Int)) - 150

/-- A quiet NaN. -/
def nan : F32 := ⟨0x7FC00000⟩

/-- The bit pattern of the sign `neg` with the magnitude bits `mag`. -/
def signed (neg : Bool) (mag : Nat) : F32 := ⟨(if neg then 2147483648 else 0) + mag⟩

/-- The float nearest to `(-1)^neg * m * 2^e`, ties to even; infinity on overflow. -/
def round (neg : Bool) (m : Nat) (e : Int) : F32 :=
  if m = 0 then signed neg 0
  else
    let sh : Int :=
      if -149 - e ≤ (leadingBit m : Int) - 23 then (leadingBit m : Int) - 23 else -149 - e
    let q : Nat :=
      if sh ≤ 0 then m * 2 ^ (-sh).toNat
      else
        let q0 := m / 2 ^ sh.toNat
        let r := m % 2 ^ sh.toNat
        if 2 ^ sh.toNat < 2 * r ∨ (2 * r = 2 ^ sh.toNat ∧ q0 % 2 = 1) then q0 + 1 else q0
    let bits : Nat := (e + sh + 149).toNat * 8388608 + q
    signed neg (if 2139095040 ≤ bits then 2139095040 else bits)

/-- IEEE-754 multiplication, round to nearest even. -/
def ieeeMul (a b : F32) : F32 :=
  let neg : Bool := a.sign != b.sign
  if a.isNaN || b.isNaN then nan
  else if a.exponent = 255 ∨ b.exponent = 255 then
    if a.bits % 2147483648 = 0 ∨ b.bits % 2147483648 = 0 then nan else signed neg 2139095040
  else round neg (a.significand * b.significand) (a.scale + b.scale)

/-- IEEE-754 division, round to nearest even: the quotient of the significands is taken
with 64 extra bits and a sticky bit. -/
def ieeeDiv (a b : F32) : F32 :=
  let neg : Bool := a.sign != b.sign
  if a.isNaN || b.isNaN then nan
  else if a.exponent = 255 then (if b.exponent = 255 then nan else signed neg 2139095040)
  else if b.exponent = 255 then signed neg 0
  else if b.significand = 0 then
    (if a.significand = 0 then nan else signed neg 2139095040)
  else
    let n := a.significand * 2 ^ 64
    let q := n / b.significand
    let sticky := if n % b.significand = 0 then 0 else 1
    round neg (2 * q + sticky) (a.scale - b.scale - 65)

/-- IEEE-754 addition, round to nearest even. -/
def ieeeAdd (a b : F32) : F32 :=
  if a.isNaN || b.isNaN then nan
  else if a.exponent = 255 then
    (if b.exponent = 255 ∧ a.sign ≠ b.sign then nan else a)
  else if b.exponent = 255 then b
  else
    let e := if a.scale ≤ b.scale then a.scale else b.scale
    let x : Int := (if a.sign = 1 then -1 else 1) * (a.significand * 2 ^ (a.scale - e).toNat : Nat)
    let y : Int := (if b.sign = 1 then -1 else 1) * (b.significand * 2 ^ (b.scale - e).toNat : Nat)
    if x + y = 0 then signed (a.sign = 1 && b.sign = 1) 0
    else round (decide (x + y < 0)) (x + y).natAbs e

/-- IEEE-754 subtraction. -/
def ieeeSub (a b : F32) : F32 := ieeeAdd a (neg b)

/-- The conversion of an integer to `float`, round to nearest even. -/
def ieeeOfInt (n : Int) : F32 := round (decide (n < 0)) n.natAbs 0

/-- The function `std::lround` on a finite float: the nearest integer, halves away from
zero; 0 for an infinity or a NaN. -/
def ieeeLround (a : F32) : Int :=
  if a.exponent = 255 then 0
  else
    let mag : Nat :=
      if 0 ≤ a.scale then a.significand * 2 ^ a.scale.toNat
      else
        let d := 2 ^ (-a.scale).toNat
        if d ≤ 2 * (a.significand % d) then a.significand / d + 1 else a.significand / d
    if a.sign = 1 then -(mag : Int) else (mag : Int)

/-- The conversion `static_cast<int>` of a finite float: truncation; 0 for an infinity or a
NaN. -/
def ieeeToInt (a : F32) : Int :=
  if a.exponent = 255 then 0
  else
    let mag : Nat :=
      if 0 ≤ a.scale then a.significand * 2 ^ a.scale.toNat
      else a.significand / 2 ^ (-a.scale).toNat
    if a.sign = 1 then -(mag : Int) else (mag : Int)

/-- The function `std::floor`. -/
def ieeeFloor (a : F32) : F32 :=
  if a.exponent = 255 ∨ 0 ≤ a.scale then a
  else
    let d := 2 ^ (-a.scale).toNat
    let q := a.significand / d
    if a.sign = 1 then round true (if a.significand % d = 0 then q else q + 1) 0
    else round false q 0

/-- The function `std::ceil`. -/
def ieeeCeil (a : F32) : F32 :=
  if a.exponent = 255 ∨ 0 ≤ a.scale then a
  else
    let d := 2 ^ (-a.scale).toNat
    let q := a.significand / d
    if a.sign = 1 then round true q 0
    else round false (if a.significand % d = 0 then q else q + 1) 0

end F32

/-- A float unit whose sums, differences, products, quotients and conversions are those of
IEEE-754 binary32 with round to nearest even.  The square root and the trigonometric
functions, which the blend does not use, are left as the constant zero. -/
def ieeeOps : RasterOps :=
  { add := F32.ieeeAdd
    sub := F32.ieeeSub
    mul := F32.ieeeMul
    div := F32.ieeeDiv
    sqrt := fun _ => F32.zero
    sin := fun _ => F32.zero
    cos := fun _ => F32.zero
    ofInt := F32.ieeeOfInt
    tan := fun _ => F32.zero
    floor := F32.ieeeFloor
    ceil := F32.ieeeCeil
    lround := F32.ieeeLround
    toInt := F32.ieeeToInt }

/-- The property of the float unit the depth test relies on for opaque fragments: blending
a texel of alpha 255 over any pixel gives the texel. -/
def OpaqueBlend (ops : RasterOps) : Prop :=
  ∀ dst src : Rgba8, src.a = 255 → src.r ≤ 255 → src.g ≤ 255 → src.b ≤ 255 →
    dst.r ≤ 255 → dst.g ≤ 255 → dst.b ≤ 255 → dst.a ≤ 255 → BlendOver ops dst src = src

/-- A 1 x 1 texture with the opaque texel `(10, 20, 30, 255)`. -/
def sampleOpaqueTexture : TextureRgba := ⟨1, 1, [10, 20, 30, 255]⟩

/-- A frame of one pixel holding the blue background and the initial depth. -/
def sampleFrame : Frame := ⟨[51, 102, 204, 255], [F32.one], ⟨0, 0, 0⟩⟩

/-- A `float[3][4]` matrix with entries in `α`, laid out like `Mat3x4`. -/
structure Mat3x4Over (α : Type) where
  m00 : α
  m01 : α
  m02 : α
  m03 : α
  m10 : α
  m11 : α
  m12 : α
  m13 : α
  m20 : α
  m21 : α
  m22 : α
  m23 : α

/-- A vector with components in `α`, laid out like `Vec3f`. -/
structure Vec3Over (α : Type) where
  x : α
  y : α
  z : α

/-- The function `ConcatTransforms` with its arithmetic as parameters: the products and sums
of the source, in the order of the source.  `ConcatTransforms fp` is the instance at the
single-precision operations. -/
def ConcatTransformsOver {α : Type} (mul add : α → α → α) (a b : Mat3x4Over α) :
    Mat3x4Over α :=
  let d (x0 y0 x1 y1 x2 y2 : α) : α := add (add (mul x0 y0) (mul x1 y1)) (mul x2 y2)
  { m00 := d a.m00 b.m00 a.m01 b.m10 a.m02 b.m20
    m01 := d a.m00 b.m01 a.m01 b.m11 a.m02 b.m21
    m02 := d a.m00 b.m02 a.m01 b.m12 a.m02 b.m22
    m03 := add (d a.m00 b.m03 a.m01 b.m13 a.m02 b.m23) a.m03
    m10 := d a.m10 b.m00 a.m11 b.m10 a.m12 b.m20
    m11 := d a.m10 b.m01 a.m11 b.m11 a.m12 b.m21
    m12 := d a.m10 b.m02 a.m11 b.m12 a.m12 b.m22
    m13 := add (d a.m10 b.m03 a.m11 b.m13 a.m12 b.m23) a.m13
    m20 := d a.m20 b.m00 a.m21 b.m10 a.m22 b.m20
    m21 := d a.m20 b.m01 a.m21 b.m11 a.m22 b.m21
    m22 := d a.m20 b.m02 a.m21 b.m12 a.m22 b.m22
    m23 := add (d a.m20 b.m03 a.m21 b.m13 a.m22 b.m23) a.m23 }

/-- The function `TransformPoint3x4` with its arithmetic as parameters. -/
def TransformPoint3x4Over {α : Type} (mul add : α → α → α) (m : Mat3x4Over α)
    (p : Vec3Over α) : Vec3Over α :=
  { x := add (add (add (mul p.x m.m00) (mul p.y m.m01)) (mul p.z m.m02)) m.m03
    y := add (add (add (mul p.x m.m10) (mul p.y m.m11)) (mul p.z m.m12)) m.m13
    z := add (add (add (mul p.x m.m20) (mul p.y m.m21)) (mul p.z m.m22)) m.m23 }

/-- A `Mat3x4` as a matrix over `F32`. -/
def Mat3x4.over (m : Mat3x4) : Mat3x4Over F32 :=
  ⟨m.m00, m.m01, m.m02, m.m03, m.m10, m.m11, m.m12, m.m13, m.m20, m.m21, m.m22, m.m23⟩

/-- A `Vec3f` as a vector over `F32`. -/
def Vec3f.over (v : Vec3f) : Vec3Over F32 := ⟨v.x, v.y, v.z⟩

/-- A 1 x 1 texture whose texel `(1, 2, 3, 0)` is fully transparent. -/
def sampleClearTexture : TextureRgba := ⟨1, 1, [1, 2, 3, 0]⟩

/-- A projected vertex at `(x, y)` (bit patterns) with depth `0.5`, `invW = 1` and texture
coordinates zero. -/
def sampleVertexOut (x y : Nat) : VertexOut := ⟨⟨x⟩, ⟨y⟩, F32.half, F32.one, ⟨F32.zero, F32.zero⟩⟩

/-- A perspective-type matrix: clip `x` and `y` are the position's, clip `z` is `0.5` and
clip `w` is the position's `z`. -/
def sampleMvp : Mat4f :=
  Mat4f.ofList
    [F32.one, F32.zero, F32.zero, F32.zero,
     F32.zero, F32.one, F32.zero, F32.zero,
     F32.zero, F32.zero, F32.zero, F32.half,
     F32.zero, F32.zero, F32.one, F32.zero]

/-- A vertex at the given position (bit patterns), with zero normal and texture
coordinates. -/
def sampleVertexAt (x y z : Nat) : Vertex :=
  ⟨⟨⟨x⟩, ⟨y⟩, ⟨z⟩⟩, ⟨F32.zero, F32.zero, F32.zero⟩, ⟨F32.zero, F32.zero⟩, 0⟩

/-- One triangle over the vertices `(0, 0, 0)`, `(-1, -7, 1)` and `(7, 1, 1)`; the first
has clip `w = 0` under `sampleMvp`. -/
def sampleZeroWModel : Model :=
  ⟨[sampleVertexAt 0 0 0, sampleVertexAt 0xBF800000 0xC0E00000 0x3F800000,
    sampleVertexAt 0x40E00000 0x3F800000 0x3F800000], [⟨-1, [0, 1, 2]⟩]⟩

/-- A frame of 2 x 2 pixels holding the blue background and the initial depth. -/
def sampleFrame2 : Frame :=
  ⟨[51, 102, 204, 255, 51, 102, 204, 255, 51, 102, 204, 255, 51, 102, 204, 255],
    [F32.one, F32.one, F32.one, F32.one], ⟨0, 0, 0⟩⟩

/-- One mesh of two triangles over the vertices `(-1, 1, 1)`, `(-1, -7, 1)` and `(7, 1, 1)`,
which `sampleMvp` projects to `(0, 0)`, `(0, 4)` and `(4, 0)` on a 2 x 2 frame: the same
triangle in both windings. -/
def sampleWindingMesh : Mesh := ⟨-1, [0, 1, 2, 0, 2, 1]⟩

/-- The sub-model of `sampleWindingMesh`. -/
def sampleWindingModel : Model :=
  ⟨[sampleVertexAt 0xBF800000 0x3F800000 0x3F800000,
    sampleVertexAt 0xBF800000 0xC0E00000 0x3F800000,
    sampleVertexAt 0x40E00000 0x3F800000 0x3F800000], [sampleWindingMesh]⟩

/-! ## Triangle statistics, from the words of the specification -/

/-- The triangles a body part contributes to `RenderStats.triangles`: those of the meshes
of its first sub-model, `floor(indices.size() / 3)` each; nothing when it has no
sub-model. -/
def bodyPartTriangles (bodyPart : BodyPart) : Nat :=
  match bodyPart.models with
  | [] => 0
  | m :: _ => (m.meshes.map fun mesh => mesh.indices.length / 3).sum

/-- The sum over the body parts of a model of the triangles each contributes. -/
def triangleTotal (model : StudioModelCpu) : Nat :=
  (model.bodyParts.map bodyPartTriangles).sum

/-- A model with three body parts: the first has two sub-models (a mesh of five indices
and a mesh of two in the first, a mesh of three in the second), the second has none, the
third has one sub-model with a mesh of six indices. -/
def sampleStatsModel : StudioModelCpu :=
  { fileData := []
    textureFileData := []
    bodyParts :=
      [⟨[⟨[sampleVertexAt 0 0 0, sampleVertexAt 0x3F800000 0 0, sampleVertexAt 0 0x3F800000 0],
            [⟨0, [0, 1, 2, 2, 1]⟩, ⟨-1, [0, 1]⟩]⟩,
          ⟨[sampleVertexAt 0 0 0], [⟨0, [0, 0, 0]⟩]⟩]⟩,
        ⟨[]⟩,
        ⟨[⟨[sampleVertexAt 0 0 0, sampleVertexAt 0x3F800000 0 0],
            [⟨0, [0, 1, 0, 1, 0, 1]⟩]⟩]⟩]
    textures := [sampleOpaqueTexture]
    boundsMin := ⟨F32.zero, F32.zero, F32.zero⟩
    boundsMax := ⟨F32.one, F32.one, F32.one⟩ }

/-! ## The TGA file, from the words of the specification -/

/-- The position in an RGBA buffer of the byte found at position `i` of the pixel data of
the file: the same pixel, with the channels 0 and 2 exchanged. -/
def bgraIndex (i : Nat) : Nat :=
  if i % 4 = 0 then i + 2 else if i % 4 = 2 then i - 2 else i

/-- The first `n` pixels of a buffer with the red and blue channels exchanged: RGBA to
BGRA, and BGRA back to RGBA. -/
def bgraBytes (pixels : List Nat) (n : Nat) : List Nat :=
  (List.range (4 * n)).map fun (i : Nat) => pixels.getD (bgraIndex i) 0

/-- Re-parsing a TGA file as the specification describes: the 16-bit little-endian width
at offset 12 and height at offset 14, then `width * height` BGRA pixels from offset 18,
swapped back to RGBA. -/
def parseTga (bytes : List Nat) : Option (Nat × Nat × List Nat) := do
  let w0 ← bytes[12]?
  let w1 ← bytes[13]?
  let h0 ← bytes[14]?
  let h1 ← bytes[15]?
  let width := w0 + 256 * w1
  let height := h0 + 256 * h1
  pure (width, height, bgraBytes (bytes.drop 18) (width * height))

/-- What `WriteTgaRgba` finds in the stream after `k` pixels: the stream is good exactly when
the file and the buffer take the header and `k` pixels, and then the stream has been handed
exactly these. -/
def TgaWritten (sink : Sink) (width height : Int) (rgba : List Nat) (k : Nat)
    (out : OStream) : Prop :=
  (out.good = true ↔ 18 + 4 * k ≤ sink.capacity + sink.buffered) ∧
  (out.good = true → out.data = tgaHeader width height ++ bgraBytes rgba k)

/-! ## Counting the runs of `build` -/

/-- The function `EdgeFunction` with its arithmetic as parameters. `EdgeFunction fp` is the
instance at the single-precision operations. -/
def EdgeFunctionOver {α : Type} (mul sub : α → α → α) (ax ay bx by_ cx cy : α) : α :=
  sub (mul (sub cx ax) (sub by_ ay)) (mul (sub cy ay) (sub bx ax))

/-- The edge functions, the inside test and the barycentric weights `(b0, b1, b2)` of the
pixel loop for the pixel centre `(px, py)`, with the arithmetic as parameters.  The result
`none` stands for the `continue` of the inside test. -/
def barycentricOver {α : Type} (mul sub div : α → α → α) (lt : α → α → Bool) (zero one : α)
    (o0x o0y o1x o1y o2x o2y area px py : α) : Option (α × α × α) :=
  let w0 := EdgeFunctionOver mul sub o1x o1y o2x o2y px py
  let w1 := EdgeFunctionOver mul sub o2x o2y o0x o0y px py
  let w2 := EdgeFunctionOver mul sub o0x o0y o1x o1y px py
  let hasNeg := lt w0 zero || lt w1 zero || lt w2 zero
  let hasPos := lt zero w0 || lt zero w1 || lt zero w2
  if hasNeg && hasPos then none
  else
    let invArea := div one area
    some (mul w0 invArea, mul w1 invArea, mul w2 invArea)

/-- The rest of the first part of the body of the pixel loop, from the barycentric weights
on: `invW` test and interpolation. -/
def fragmentOf (ops : RasterOps) (o0 o1 o2 : VertexOut) (b : F32 × F32 × F32) :
    Option Fragment :=
  let b0 := b.1
  let b1 := b.2.1
  let b2 := b.2.2
  let invW := ops.add (ops.add (ops.mul b0 o0.invW) (ops.mul b1 o1.invW)) (ops.mul b2 o2.invW)
  if F32.le invW F32.zero then none
  else
    let w := ops.div F32.one invW
    let depthZ := ops.add (ops.add (ops.mul b0 o0.z) (ops.mul b1 o1.z)) (ops.mul b2 o2.z)
    some
      { depthZ := depthZ
        u := ops.mul (ops.add (ops.add (ops.mul b0 o0.uvOverW.x) (ops.mul b1 o1.uvOverW.x))
          (ops.mul b2 o2.uvOverW.x)) w
        v := ops.mul (ops.add (ops.add (ops.mul b0 o0.uvOverW.y) (ops.mul b1 o1.uvOverW.y))
          (ops.mul b2 o2.uvOverW.y)) w }

/-- The lambda `blendChannel` of `BlendOver` with its arithmetic as parameters. -/
def blendChannelOver {α : Type} (ofInt : Int → α) (add sub mul div : α → α → α)
    (lround : α → Int) (lt : α → α → Bool) (zero one c255 : α) (srcA dstA outA : α)
    (srcC dstC : Nat) : Nat :=
  let s := div (ofInt (srcC : Int)) c255
  let d := div (ofInt (dstC : Int)) c255
  let out :=
    if lt zero outA then div (add (mul s srcA) (mul (mul d dstA) (sub one srcA))) outA
    else zero
  ClampU8 (lround (mul out c255))

/-- The function `BlendOver` with its arithmetic as parameters: the conversions, sums,
differences, products, quotients, `std::lround`, the comparison `<` and the constants
`0.0f`, `1.0f` and `255.0f` of the source.  `BlendOver ops` is the instance at the
single-precision operations. -/
def BlendOverOver {α : Type} (ofInt : Int → α) (add sub mul div : α → α → α)
    (lround : α → Int) (lt : α → α → Bool) (zero one c255 : α) (dst src : Rgba8) : Rgba8 :=
  let srcA := div (ofInt (src.a : Int)) c255
  let dstA := div (ofInt (dst.a : Int)) c255
  let outA := add srcA (mul dstA (sub one srcA))
  { r := blendChannelOver ofInt add sub mul div lround lt zero one c255 srcA dstA outA src.r dst.r
    g := blendChannelOver ofInt add sub mul div lround lt zero one c255 srcA dstA outA src.g dst.g
    b := blendChannelOver ofInt add sub mul div lround lt zero one c255 srcA dstA outA src.b dst.b
    a := ClampU8 (lround (mul outA c255)) }

/-- The function `std::lround` on exact numbers: the nearest integer, halfway cases away
from zero. -/
def lroundExact {K : Type} [LinearOrderedField K] [FloorRing K] (x : K) : Int :=
  if 0 ≤ x then Int.floor (x + 1 / 2) else Int.ceil (x - 1 / 2)

/-- The function `BlendOver` over the exact numbers of `K`. -/
def BlendOverExact (K : Type) [LinearOrderedField K] [FloorRing K] (dst src : Rgba8) : Rgba8 :=
  BlendOverOver (fun i : Int => (i : K)) (fun a b => a + b) (fun a b => a - b)
    (fun a b => a * b) (fun a b => a / b) lroundExact (fun a b => decide (a < b)) 0 1 255
    dst src

/-- The inside test and the barycentric weights over the exact numbers of `K`. -/
def barycentricExact {K : Type} [LinearOrderedField K]
    (o0x o0y o1x o1y o2x o2y area px py : K) : Option (K × K × K) :=
  barycentricOver (fun a b : K => a * b) (fun a b => a - b) (fun a b => a / b)
    (fun a b => decide (a < b)) 0 1 o0x o0y o1x o1y o2x o2y area px py

/-- The function `EdgeFunction` over the exact numbers of `K`. -/
def EdgeFunctionExact {K : Type} [LinearOrderedField K] (ax ay bx by_ cx cy : K) : K :=
  EdgeFunctionOver (fun a b : K => a * b) (fun a b => a - b) ax ay bx by_ cx cy

/-- A 2 x 1 texture: an opaque gray texel and a transparent black one. -/
def sampleTwoTexels : TextureRgba := ⟨2, 1, [9, 9, 9, 255, 0, 0, 0, 0]⟩

/-! ## Vertex bounds, from the words of the specification -/

/-- The component `c` (0, 1 or 2) of a vector. -/
def Vec3f.component (c : Nat) (v : Vec3f) : F32 :=
  if c = 0 then v.x else if c = 1 then v.y else v.z

/-- The value `m` is the minimum of the list under the float comparisons: `m <= a` for
every element, and `m == a` for one of them. -/
def IsMinOf (m : F32) (l : List F32) : Prop :=
  (∀ a ∈ l, F32.le m a = true) ∧ ∃ a ∈ l, F32.eq m a = true

/-- The value `m` is the maximum of the list under the float comparisons. -/
def IsMaxOf (m : F32) (l : List F32) : Prop :=
  (∀ a ∈ l, F32.le a m = true) ∧ ∃ a ∈ l, F32.eq m a = true

/-- A model with one body part whose sub-model has the vertex list `sampleNaNPool`, the
list `LoadModel` builds from `sampleMeshData sampleNaN 0 sampleOne`. -/
def sampleNaNModel : StudioModelCpu :=
  { fileData := []
    textureFileData := []
    bodyParts := [⟨[⟨sampleNaNPool, [⟨0, [0, 1, 2, 2, 1, 3, 4, 1, 2, 4, 2, 3]⟩]⟩]⟩]
    textures := []
    boundsMin := ⟨F32.zero, F32.zero, F32.zero⟩
    boundsMax := ⟨F32.zero, F32.zero, F32.zero⟩ }

/-! ## The vertex pool without duplicates, from the words of the specification -/

/-- No two vertices at different positions of the pool compare equal under
`Vertex::operator==`. -/
def NoEqualPair (pool : List Vertex) : Prop :=
  pool.Pairwise fun a b => Vertex.eq a b = false

instance (pool : List Vertex) : Decidable (NoEqualPair pool) := by
  unfold NoEqualPair; infer_instance

/-- The `MStudioMesh` record of `sampleMeshData`: command stream at 168, skin reference
0. -/
def sampleMesh : MStudioMesh := { triindex := 168, skinref := 0 }

/-! ## The runs of a command stream, from the words of the specification -/

/-- One run of a command stream as `LoadMesh` decodes it: whether it is a strip (otherwise
it is a fan), the byte offset of its first vertex record, and the pool indices
`t[0..n-1]` of its `n` vertex records, in the order of the records. -/
structure MeshRun where
  strip : Bool
  first : Int
  temp : List Nat
deriving DecidableEq, Repr

/-- The triangles of a run of `n` records over the pool indices `t`: the triangles
`j = 2 .. n-1`, in order, of a strip (`stripTriangle`) or of a fan (`fanTriangle`). -/
def MeshRun.triangles (r : MeshRun) : List Nat :=
  runTriangles (if r.strip then stripTriangle r.temp else fanTriangle r.temp) r.temp.length

/-- What the command stream says of a run: its kind, the offset of its first record and the
number of its records. -/
def MeshRun.header (r : MeshRun) : Bool × Int × Nat := (r.strip, r.first, r.temp.length)

/-- The runs of the command stream at byte offset `tricmds`, in the words of the
specification: a run header `i` other than 0 announces a strip when it is positive and a fan
when it is negative, of `runCount i` vertex records of eight bytes that start two bytes
after the header; the header `0` ends the stream.  `fuel` bounds the number of runs. -/
def streamRuns (base : Buffer) : Nat → Int → Option (List (Bool × Int × Nat))
  | 0, _ => none
  | fuel + 1, tricmds => do
    let i ← readI16 base tricmds
    if i = 0 then pure []
    else do
      let rest ← streamRuns base fuel (tricmds + 2 + 8 * (runCount i : Int))
      pure ((decide (0 < i), tricmds + 2, runCount i) :: rest)

/-- The pool index `k` belongs to the vertex record at byte offset `record` of the command
stream: the record can be read and gives a vertex `v` (with the scale factors `s`, `t` of
the mesh), `k` is a valid position of the pool and, as long as the pool has at most `2^32`
entries, the pool holds `v` there, or a vertex that compares equal to `v` under
`Vertex::operator==`. -/
def HoldsRecord (fp : FloatOps) (base : Buffer) (model : MStudioModel) (bt : List Mat3x4)
    (s t : F32) (pool : List Vertex) (k : Nat) (record : Int) : Prop :=
  ∃ v, assembleVertex fp base model bt s t record = some v ∧ k < pool.length ∧
    (pool.length ≤ 4294967296 → Holds pool k v)

/-- The mesh `mesh` is what `LoadMesh` makes of the mesh record number `p` of the sub-model:
the record names its texture through the skin table, its command stream splits into the
runs `runs`, the indices of the mesh are the triangles of these runs in order, and the pool
index of every vertex record of every run belongs to that record in `pool`. -/
def MeshDecoded (fp : FloatOps) (textureHeader : StudioHdr) (base textureBase : Buffer)
    (model : MStudioModel) (bt : List Mat3x4) (pool : List Vertex) (p : Nat) (mesh : Mesh) :
    Prop :=
  ∃ (record : MStudioMesh) (textureId : Nat) (tex : MStudioTexture) (runs : List MeshRun),
    readMStudioMesh base (model.meshindex + 20 * (p : Int)) = some record ∧
    readU16 textureBase (textureHeader.skinindex + 2 * record.skinref) = some textureId ∧
    mesh.textureId = (textureId : Int) ∧
    readMStudioTexture textureBase (textureHeader.textureindex + 80 * (textureId : Int))
      = some tex ∧
    streamRuns base (base.length + 1) record.triindex = some (runs.map MeshRun.header) ∧
    mesh.indices = runs.flatMap MeshRun.triangles ∧
    ∀ r ∈ runs, ∀ j, j < r.temp.length →
      HoldsRecord fp base model bt (fp.div F32.one (fp.ofInt tex.width))
        (fp.div F32.one (fp.ofInt tex.height)) pool (r.temp.getD j 0) (r.first + 8 * (j : Int))

/-! # Properties -/

/-! ## Header validation -/

theorem toI32_bytes (b0 b1 b2 b3 : Byte) (v : Nat) (hv : v < 2147483648) :
    toI32 (b0.val + 256 * b1.val + 65536 * b2.val + 16777216 * b3.val) = (v : Int) ↔
      b0.val = v % 256 ∧ b1.val = v / 256 % 256 ∧ b2.val = v / 65536 % 256 ∧
        b3.val = v / 16777216 := by
  have h0 := b0.isLt
  have h1 := b1.isLt
  have h2 := b2.isLt
  have h3 := b3.isLt
  unfold toI32
  split <;> omega

/-- The two header words, in terms of the first eight bytes of the buffer. -/
theorem header_words_iff (buffer : Buffer) (h : 8 ≤ buffer.length) :
    (readI32 buffer 0 = some StudioId_IDST ∧ readI32 buffer 4 = some StudioVersion) ↔
      buffer.take 8 = [0x49, 0x44, 0x53, 0x54, 10, 0, 0, 0] := by
  match buffer, h with
  | b0 :: b1 :: b2 :: b3 :: b4 :: b5 :: b6 :: b7 :: rest, _ =>
    have e1 : readI32 (b0 :: b1 :: b2 :: b3 :: b4 :: b5 :: b6 :: b7 :: rest) 0
        = some (toI32 (b0.val + 256 * b1.val + 65536 * b2.val + 16777216 * b3.val)) := by
      simp [readI32, readU32, readU8]
    have e2 : readI32 (b0 :: b1 :: b2 :: b3 :: b4 :: b5 :: b6 :: b7 :: rest) 4
        = some (toI32 (b4.val + 256 * b5.val + 65536 * b6.val + 16777216 * b7.val)) := by
      simp [readI32, readU32, readU8]
    have k1 := toI32_bytes b0 b1 b2 b3 0x54534449 (by norm_num)
    have k2 := toI32_bytes b4 b5 b6 b7 10 (by norm_num)
    rw [e1, e2]
    simp only [Option.some.injEq, StudioId_IDST, StudioVersion]
    norm_num at k1 k2
    rw [k1, k2]
    simp [Fin.ext_iff]
    tauto

theorem VerifyStudioFile_iff (buffer : Buffer) :
    VerifyStudioFile buffer = true ↔
      244 ≤ buffer.length ∧ readI32 buffer 0 = some StudioId_IDST ∧
        readI32 buffer 4 = some StudioVersion := by
  unfold VerifyStudioFile sizeofStudioHdr
  by_cases h1 : buffer.length < 244
  · simp [h1]
  · by_cases h2 : readI32 buffer 0 = some StudioId_IDST
    · by_cases h3 : readI32 buffer 4 = some StudioVersion
      · simp [h1, h2, h3]; omega
      · simp [h1, h2, h3]
    · simp [h1, h2]

/-- Claim C1: header validation.  `VerifyStudioFile` accepts a buffer exactly when it has at
least 244 bytes, the little-endian `int32` at offset 0 is `0x54534449` and the one at offset
4 is `10`, that is, when the buffer starts with the bytes `I D S T 10 0 0 0`; and
`LoadFromFile` returns `false` for every file whose buffer is empty or not accepted. -/
theorem C1_header_validation (fp : FloatOps) (self : StudioModelCpu) (files : Files) :
    (VerifyStudioFile files.main = true ↔
      244 ≤ files.main.length ∧ readI32 files.main 0 = some 0x54534449 ∧
        readI32 files.main 4 = some 10) ∧
    (VerifyStudioFile files.main = true ↔
      244 ≤ files.main.length ∧ files.main.take 8 = [0x49, 0x44, 0x53, 0x54, 10, 0, 0, 0]) ∧
    ((files.main = [] ∨ VerifyStudioFile files.main = false) →
      ∃ after, LoadFromFile fp self files = some (false, after)) := by
  refine ⟨VerifyStudioFile_iff files.main, ?_, ?_⟩
  · rw [VerifyStudioFile_iff]
    constructor
    · rintro ⟨h, h0, h4⟩
      exact ⟨h, (header_words_iff _ (by omega)).1 ⟨h0, h4⟩⟩
    · rintro ⟨h, ht⟩
      have := (header_words_iff _ (by omega)).2 ht
      exact ⟨h, this.1, this.2⟩
  · intro h
    refine ⟨{ self with fileData := files.main }, ?_⟩
    unfold LoadFromFile
    by_cases he : files.main.isEmpty = true
    · simp [he]
    · have hv : VerifyStudioFile files.main = false := by
        rcases h with h | h
        · simp [h] at he
        · exact h
      simp [he, hv]

/-! ## The vertex pool -/

theorem stdFind_ge (v : Vertex) (l : List Vertex) (s k : Nat) (h : stdFind v l s = some k) :
    s ≤ k ∧ k < s + l.length := by
  induction l generalizing s with
  | nil => simp [stdFind] at h
  | cons e rest ih =>
    unfold stdFind at h
    by_cases he : Vertex.eq e v = true
    · simp [he] at h
      subst h
      simp
    · simp [he] at h
      have := ih (s + 1) h
      simp only [List.length_cons]
      omega

/-- What `std::find` returns when it finds an element: the element at that position compares
equal, and no earlier element does. -/
theorem stdFind_some (v : Vertex) (l : List Vertex) (s k : Nat) (h : stdFind v l s = some k) :
    ∃ i, k = s + i ∧ (l[i]?).map (fun e => Vertex.eq e v) = some true ∧
      ∀ j, j < i → (l[j]?).map (fun e => Vertex.eq e v) = some false := by
  induction l generalizing s with
  | nil => simp [stdFind] at h
  | cons e rest ih =>
    unfold stdFind at h
    by_cases he : Vertex.eq e v = true
    · simp [he] at h
      subst h
      exact ⟨0, by simp, by simp [he], by intro j hj; omega⟩
    · simp [he] at h
      obtain ⟨i, hk, hi, hj⟩ := ih (s + 1) h
      refine ⟨i + 1, by omega, by simpa using hi, ?_⟩
      intro j hj2
      cases j with
      | zero => simpa using he
      | succ j => simpa using hj j (by omega)

/-- When `std::find` reaches `end()`: no element compares equal. -/
theorem stdFind_none (v : Vertex) (l : List Vertex) (s : Nat) :
    stdFind v l s = none ↔ ∀ e ∈ l, Vertex.eq e v = false := by
  induction l generalizing s with
  | nil => simp [stdFind]
  | cons e rest ih =>
    unfold stdFind
    by_cases he : Vertex.eq e v = true
    · simp [he]
    · simp [he, ih]

/-- The first position whose element compares equal to `v` is what `std::find` returns. -/
theorem stdFind_first (v : Vertex) (l : List Vertex) (s i : Nat)
    (hi : (l[i]?).map (fun e => Vertex.eq e v) = some true)
    (hj : ∀ j, j < i → (l[j]?).map (fun e => Vertex.eq e v) = some false) :
    stdFind v l s = some (s + i) := by
  induction l generalizing s i with
  | nil => simp at hi
  | cons e rest ih =>
    unfold stdFind
    cases i with
    | zero =>
      have : Vertex.eq e v = true := by simpa using hi
      simp [this]
    | succ i =>
      have h0 : Vertex.eq e v = false := by simpa using hj 0 (by omega)
      simp only [h0, Bool.false_eq_true, if_false]
      have := ih (s + 1) i (by simpa using hi) (fun j hj2 => by simpa using hj (j + 1) (by omega))
      rw [this]
      congr 1
      omega

theorem stdFind_append_self (v : Vertex) (l : List Vertex) (s : Nat)
    (hn : stdFind v l s = none) (hv : Vertex.eq v v = true) :
    stdFind v (l ++ [v]) s = some (s + l.length) := by
  induction l generalizing s with
  | nil => simp [stdFind, hv]
  | cons e rest ih =>
    unfold stdFind at hn
    by_cases he : Vertex.eq e v = true
    · simp [he] at hn
    · have he2 : Vertex.eq e v = false := by simpa using he
      simp only [he2, Bool.false_eq_true, if_false] at hn
      have key := ih (s + 1) hn
      show stdFind v (e :: (rest ++ [v])) s = _
      unfold stdFind
      simp only [he2, Bool.false_eq_true, if_false]
      rw [key]
      simp only [List.length_cons]
      congr 1
      omega

/-- The function `InsertVertex` never removes or reorders: the new pool is the old one, possibly with
the inserted vertex appended. -/
theorem InsertVertex_pool (pool : List Vertex) (v : Vertex) :
    (InsertVertex pool v).2 = pool ∨ (InsertVertex pool v).2 = pool ++ [v] := by
  unfold InsertVertex
  cases stdFind v pool 0 <;> simp

/-- The index returned by `InsertVertex` is a valid position of the new pool. -/
theorem InsertVertex_lt (pool : List Vertex) (v : Vertex) :
    (InsertVertex pool v).1 < (InsertVertex pool v).2.length := by
  unfold InsertVertex
  cases h : stdFind v pool 0 with
  | none =>
    simp only [List.length_append, List.length_singleton]
    have := Nat.mod_le (pool.length + 1 - 1) 4294967296
    omega
  | some it =>
    have := stdFind_ge v pool 0 it h
    have := Nat.mod_le it 4294967296
    simp only
    omega

/-- A vertex that compares equal to itself is found again after it has been inserted. -/
theorem InsertVertex_twice (pool : List Vertex) (v : Vertex) (hv : Vertex.eq v v = true) :
    InsertVertex (InsertVertex pool v).2 v = InsertVertex pool v := by
  unfold InsertVertex
  cases h : stdFind v pool 0 with
  | some it => simp [h]
  | none =>
    have := stdFind_append_self v pool 0 h hv
    simp [this]

/-- Claim C6, amended: vertex deduplication is idempotent for a vertex that compares equal to
itself, i.e. has no NaN component: a second `InsertVertex` returns the same index and
leaves the pool unchanged; and a vertex that compares equal to the element at position
`i < 2^32` and to no earlier element is given index `i` without growing the pool. -/
theorem C6_insert_idempotent (pool : List Vertex) (v : Vertex) (hv : Vertex.eq v v = true) :
    (InsertVertex (InsertVertex pool v).2 v).1 = (InsertVertex pool v).1 ∧
    (InsertVertex (InsertVertex pool v).2 v).2 = (InsertVertex pool v).2 ∧
    (∀ i, i < 4294967296 →
      (pool[i]?).map (fun e => Vertex.eq e v) = some true →
      (∀ j, j < i → (pool[j]?).map (fun e => Vertex.eq e v) = some false) →
      InsertVertex pool v = (i, pool)) := by
  refine ⟨by rw [InsertVertex_twice pool v hv], by rw [InsertVertex_twice pool v hv], ?_⟩
  intro i hi h1 h2
  have := stdFind_first v pool 0 i h1 h2
  unfold InsertVertex
  rw [this]
  simp [Nat.mod_eq_of_lt hi]

/-! ## Triangle strips and fans -/

theorem stripLoop_eq (t : List Nat) (fuel j : Nat) (out : List Nat) (h : t.length - j ≤ fuel) :
    stripLoop t fuel j out = out ++ (List.range' j (t.length - j)).flatMap (stripTriangle t) := by
  induction fuel generalizing j out with
  | zero =>
    have : t.length - j = 0 := by omega
    simp [stripLoop, this]
  | succ fuel ih =>
    unfold stripLoop
    by_cases hj : j < t.length
    · have e : t.length - j = (t.length - (j + 1)) + 1 := by omega
      rw [e, List.range'_succ, List.flatMap_cons]
      by_cases hp : j % 2 = 0
      · simp only [hj, if_true, hp, ne_eq, not_true_eq_false, if_false]
        rw [ih (j + 1) _ (by omega)]
        simp [stripTriangle, hp]
      · simp only [hj, if_true, hp, ne_eq, not_false_eq_true]
        rw [ih (j + 1) _ (by omega)]
        simp [stripTriangle, hp]
    · have : t.length - j = 0 := by omega
      simp [hj, this]

theorem fanLoop_eq (t : List Nat) (fuel j : Nat) (out : List Nat) (h : t.length - j ≤ fuel) :
    fanLoop t fuel j out = out ++ (List.range' j (t.length - j)).flatMap (fanTriangle t) := by
  induction fuel generalizing j out with
  | zero =>
    have : t.length - j = 0 := by omega
    simp [fanLoop, this]
  | succ fuel ih =>
    unfold fanLoop
    by_cases hj : j < t.length
    · have e : t.length - j = (t.length - (j + 1)) + 1 := by omega
      rw [e, List.range'_succ, List.flatMap_cons]
      simp only [hj, if_true]
      rw [ih (j + 1) _ (by omega)]
      simp [fanTriangle]
    · have : t.length - j = 0 := by omega
      simp [hj, this]

/-- The triangulation step of a strip run appends the triangles `j = 2 .. n-1`. -/
theorem emitRun_strip (t out : List Nat) :
    emitRun true t out = out ++ runTriangles (stripTriangle t) t.length := by
  simp [emitRun, runTriangles, stripLoop_eq t t.length 2 out (by omega)]

/-- The triangulation step of a fan run appends the triangles `j = 2 .. n-1`. -/
theorem emitRun_fan (t out : List Nat) :
    emitRun false t out = out ++ runTriangles (fanTriangle t) t.length := by
  simp [emitRun, runTriangles, fanLoop_eq t t.length 2 out (by omega)]

theorem length_flatMap_const {α : Type} (l : List α) (f : α → List Nat) (c : Nat)
    (h : ∀ a, (f a).length = c) : (l.flatMap f).length = c * l.length := by
  induction l with
  | nil => simp
  | cons a rest ih =>
    simp only [List.flatMap_cons, List.length_append, List.length_cons, h a, ih]
    ring

/-- A run of `n` records yields `max (n - 2) 0` triangles, three indices each. -/
theorem length_runTriangles (triangle : Nat → List Nat) (n : Nat)
    (h : ∀ j, (triangle j).length = 3) : (runTriangles triangle n).length = 3 * (n - 2) := by
  unfold runTriangles
  rw [length_flatMap_const _ _ 3 h]
  simp

theorem length_stripTriangle (t : List Nat) (j : Nat) : (stripTriangle t j).length = 3 := by
  unfold stripTriangle
  split <;> rfl

/-- The vertex loop reads exactly `n` records of eight bytes, appends one index per record
and only appends to the vertex pool. -/
theorem readRun_spec (fp : FloatOps) (base : Buffer) (model : MStudioModel)
    (bt : List Mat3x4) (s t : F32) (n : Nat) (tricmds : Int) (vertices : List Vertex)
    (temp : List Nat) (r : Int × List Vertex × List Nat)
    (h : readRun fp base model bt s t n tricmds vertices temp = some r) :
    r.1 = tricmds + 8 * (n : Int) ∧ r.2.2.length = temp.length + n ∧
      (∃ added, r.2.1 = vertices ++ added) ∧ (∃ more, r.2.2 = temp ++ more) := by
  induction n generalizing tricmds vertices temp with
  | zero =>
    simp only [readRun, Option.some.injEq] at h
    subst h
    exact ⟨by simp, by simp, ⟨[], by simp⟩, ⟨[], by simp⟩⟩
  | succ n ih =>
    unfold readRun at h
    cases hv : assembleVertex fp base model bt s t tricmds with
    | none => simp [hv] at h
    | some v =>
      simp only [hv, Option.bind_eq_bind, Option.some_bind] at h
      obtain ⟨h1, h2, ⟨added, h3⟩, ⟨more, h4⟩⟩ := ih _ _ _ h
      refine ⟨by rw [h1]; push_cast; ring, by rw [h2]; simp; omega, ?_,
        ⟨(InsertVertex vertices v).1 :: more, by rw [h4]; simp⟩⟩
      rcases InsertVertex_pool vertices v with hp | hp
      · exact ⟨added, by rw [h3, hp]⟩
      · exact ⟨v :: added, by rw [h3, hp]; simp⟩

theorem flatMap_range_get (f : Nat → List Nat) (c : Nat) (h : ∀ j, (f j).length = c)
    (start n k : Nat) (hk : k < n) :
    (((List.range' start n).flatMap f).drop (c * k)).take c = f (start + k) := by
  induction n generalizing start k with
  | zero => omega
  | succ n ih =>
    rw [List.range'_succ, List.flatMap_cons]
    cases k with
    | zero =>
      simp only [Nat.mul_zero, List.drop_zero, Nat.add_zero]
      rw [List.take_append_of_le_length (by rw [h])]
      rw [List.take_of_length_le (by rw [h])]
    | succ k =>
      have e : c * (k + 1) = (f start).length + c * k := by rw [h]; ring
      rw [e, List.drop_append]
      rw [ih (start + 1) k (by omega)]
      congr 1
      omega

/-- Triangle `j` of a run is found at position `3 * (j - 2)` of the emitted indices. -/
theorem runTriangles_get (triangle : Nat → List Nat) (n : Nat)
    (h : ∀ j, (triangle j).length = 3) (j : Nat) (h2 : 2 ≤ j) (hj : j < n) :
    ((runTriangles triangle n).drop (3 * (j - 2))).take 3 = triangle j := by
  unfold runTriangles
  rw [flatMap_range_get triangle 3 h 2 (n - 2) (j - 2) (by omega)]
  congr 1
  omega
/-- One iteration of the command loop: a non-zero run header `i`, followed by a run that the
vertex loop reads successfully, continues with the advanced offset, the grown pool and the
triangles of the run appended. -/
theorem meshLoop_step (fp : FloatOps) (base : Buffer) (model : MStudioModel)
    (bt : List Mat3x4) (s t : F32) (fuel : Nat) (tricmds : Int) (vertices : List Vertex)
    (indices : List Nat) (i : Int) (r : Int × List Vertex × List Nat)
    (hi : readI16 base tricmds = some i) (h0 : i ≠ 0)
    (hr : readRun fp base model bt s t (runCount i) (tricmds + 2) vertices [] = some r) :
    meshLoop fp base model bt s t (fuel + 1) tricmds vertices indices =
      meshLoop fp base model bt s t fuel r.1 r.2.1 (emitRun (decide (0 ≤ i)) r.2.2 indices) := by
  unfold runCount at hr
  simp only [meshLoop, hi, Option.bind_eq_bind, Option.some_bind, h0, if_false, hr]

/-! ## The length of a mesh's index list -/

/-- Claim C6 as stated fails: a vertex with a NaN coordinate does not compare equal to itself,
so the second `InsertVertex` does not find it, appends it again and returns a new index. -/
theorem C6_counterexample :
    Vertex.eq (sampleVertex sampleNaN 0 0) (sampleVertex sampleNaN 0 0) = false ∧
    InsertVertex [] (sampleVertex sampleNaN 0 0) = (0, [sampleVertex sampleNaN 0 0]) ∧
    InsertVertex (InsertVertex [] (sampleVertex sampleNaN 0 0)).2 (sampleVertex sampleNaN 0 0)
      = (1, [sampleVertex sampleNaN 0 0, sampleVertex sampleNaN 0 0]) := by
  decide

theorem C6_insert_idempotent_witness :
    Vertex.eq (sampleVertex sampleNegZero 0 0) (sampleVertex sampleNegZero 0 0) = true ∧
    InsertVertex [sampleVertex sampleOne 0 0, sampleVertex 0 0 0]
        (sampleVertex sampleNegZero 0 0) = (1, [sampleVertex sampleOne 0 0, sampleVertex 0 0 0]) ∧
    (InsertVertex (InsertVertex samplePool (sampleVertex sampleNegZero 0 0)).2
        (sampleVertex sampleNegZero 0 0)).1 =
      (InsertVertex samplePool (sampleVertex sampleNegZero 0 0)).1 :=
  ⟨by decide,
   (C6_insert_idempotent [sampleVertex sampleOne 0 0, sampleVertex 0 0 0]
      (sampleVertex sampleNegZero 0 0) (by decide)).2.2 1 (by decide) (by decide)
      (by intro j hj; have : j = 0 := by omega
          subst this; decide),
   (C6_insert_idempotent samplePool (sampleVertex sampleNegZero 0 0) (by decide)).1⟩

/-- A read inside the buffer is defined and yields a byte. -/
theorem readU8_inside (buf : Buffer) (off : Int) (h0 : 0 ≤ off) (h1 : off < (buf.length : Int)) :
    ∃ b : Nat, readU8 buf off = some b ∧ b < 256 := by
  have hlt : off.toNat < buf.length := by omega
  refine ⟨(buf[off.toNat]).val, ?_, (buf[off.toNat]).isLt⟩
  unfold readU8
  rw [if_neg (by omega)]
  simp [List.getElem?_eq_getElem hlt]

/-- A read outside the buffer is undefined. -/
theorem readU8_outside (buf : Buffer) (off : Int) (h : off < 0 ∨ (buf.length : Int) ≤ off) :
    readU8 buf off = none := by
  unfold readU8
  by_cases h0 : off < 0
  · simp [h0]
  · have : buf.length ≤ off.toNat := by omega
    simp [h0, List.getElem?_eq_none this]

/-- Inside a well-formed block, one iteration of the pixel loop writes the pixel of the
specification. -/
theorem texturePixel_eq (block : Buffer) (tex : MStudioTexture) (n i : Nat)
    (hmax : n ≤ 536870912) (h0 : 0 ≤ tex.index)
    (hlen : tex.index + (n : Int) + 768 ≤ (block.length : Int)) (hi : i < n) :
    texturePixel block tex (n : Int) (i : Int) = some (specPixel block tex n i) ∧
      (∃ idx, readU8 block (tex.index + (i : Int)) = some idx ∧ idx = indexByte block tex i ∧
        idx < 256) ∧
      (∀ k : Nat, k < 768 →
        readU8 block (tex.index + (n : Int) + (k : Int)) = some (paletteByte block tex n k)) := by
  obtain ⟨idx, hidx, hlt⟩ := readU8_inside block (tex.index + (i : Int)) (by omega) (by omega)
  have hpal : ∀ k : Nat, k < 768 →
      readU8 block (tex.index + (n : Int) + (k : Int)) = some (paletteByte block tex n k) := by
    intro k hk
    obtain ⟨b, hb, _⟩ := readU8_inside block (tex.index + (n : Int) + (k : Int)) (by omega)
      (by omega)
    simp [paletteByte, hb]
  have hib : indexByte block tex i = idx := by simp [indexByte, hidx]
  refine ⟨?_, ⟨idx, hidx, hib.symm, hlt⟩, hpal⟩
  have hov : ¬ ((i : Int) * 4 + 3 > INT_MAX) := by unfold INT_MAX; omega
  have e0 : tex.index + (n : Int) + (idx : Int) * 3 + 0
      = tex.index + (n : Int) + ((3 * idx : Nat) : Int) := by push_cast; ring
  have e1 : tex.index + (n : Int) + (idx : Int) * 3 + 1
      = tex.index + (n : Int) + ((3 * idx + 1 : Nat) : Int) := by push_cast; ring
  have e2 : tex.index + (n : Int) + (idx : Int) * 3 + 2
      = tex.index + (n : Int) + ((3 * idx + 2 : Nat) : Int) := by push_cast; ring
  unfold texturePixel
  simp only [hidx, Option.bind_eq_bind, Option.some_bind, hov, if_false, e0, e1, e2,
    hpal (3 * idx) (by omega), hpal (3 * idx + 1) (by omega), hpal (3 * idx + 2) (by omega)]
  unfold specPixel
  rw [hib]
  by_cases hm : isMasked tex.flags = true ∧ idx = 255
  · simp [hm.1, hm.2]
  · rw [if_neg hm]
    have : ¬ ((isMasked tex.flags && idx == 255) = true) := by
      simpa using hm
    simp [this]

theorem length_specPixel (block : Buffer) (tex : MStudioTexture) (n i : Nat) :
    (specPixel block tex n i).length = 4 := by
  unfold specPixel
  split <;> rfl

/-- Inside a well-formed block the pixel loop appends the pixels `i, i+1, ..` of the
specification. -/
theorem textureLoop_eq (block : Buffer) (tex : MStudioTexture) (n : Nat)
    (hmax : n ≤ 536870912) (h0 : 0 ≤ tex.index)
    (hlen : tex.index + (n : Int) + 768 ≤ (block.length : Int))
    (count i : Nat) (pixels : List Nat) (hc : i + count ≤ n) :
    textureLoop block tex (n : Int) count (i : Int) pixels =
      some (pixels ++ (List.range' i count).flatMap (specPixel block tex n)) := by
  induction count generalizing i pixels with
  | zero => simp [textureLoop]
  | succ count ih =>
    unfold textureLoop
    rw [(texturePixel_eq block tex n i hmax h0 hlen (by omega)).1]
    simp only [Option.bind_eq_bind, Option.some_bind]
    have := ih (i + 1) (pixels ++ specPixel block tex n i) (by omega)
    rw [Nat.cast_add, Nat.cast_one] at this
    rw [this, List.range'_succ, List.flatMap_cons, List.append_assoc]

/-- Claim C5, amended: texture decode.  For every texture record with
`width * height = N`, `0 <= N <= 2^29`, and every block of `N` index bytes followed by a
768-byte palette inside the buffer, `LoadTexture` returns the record's width and height and
exactly `4 * N` bytes, where pixel `i` is `(0,0,0,0)` if the masked bit `0x40` is set and
`index[i] = 255`, and `(palette[3*index[i]], palette[3*index[i]+1], palette[3*index[i]+2],
255)` otherwise; in particular index 255 without the masked flag decodes to the palette
colour with alpha 255. -/
theorem C5_texture_decode (textureBase : Buffer) (tex : MStudioTexture) (N : Nat)
    (hN : tex.width * tex.height = (N : Int)) (hmax : N ≤ 536870912) (h0 : 0 ≤ tex.index)
    (hlen : tex.index + (N : Int) + 768 ≤ (textureBase.length : Int)) :
    ∃ out, LoadTexture textureBase tex = some out ∧
      out.width = tex.width ∧ out.height = tex.height ∧ out.rgba.length = 4 * N ∧
      ∀ i, i < N →
        ∃ idx r g b,
          readU8 textureBase (tex.index + (i : Int)) = some idx ∧
          readU8 textureBase (tex.index + (N : Int) + ((3 * idx : Nat) : Int)) = some r ∧
          readU8 textureBase (tex.index + (N : Int) + ((3 * idx + 1 : Nat) : Int)) = some g ∧
          readU8 textureBase (tex.index + (N : Int) + ((3 * idx + 2 : Nat) : Int)) = some b ∧
          ((out.rgba.drop (4 * i)).take 4 =
            if isMasked tex.flags = true ∧ idx = 255 then [0, 0, 0, 0] else [r, g, b, 255]) ∧
          (isMasked tex.flags = false → idx = 255 →
            (out.rgba.drop (4 * i)).take 4 = [r, g, b, 255]) := by
  have hloop := textureLoop_eq textureBase tex N hmax h0 hlen N 0 [] (by omega)
  refine ⟨⟨tex.width, tex.height, (List.range' 0 N).flatMap (specPixel textureBase tex N)⟩,
    ?_, rfl, rfl, ?_, ?_⟩
  · unfold LoadTexture
    have h1 : ¬ ((N : Int) < -2147483648 ∨ INT_MAX < (N : Int)) := by unfold INT_MAX; omega
    have h2 : ¬ ((N : Int) < 0) := by omega
    simp only [hN, h1, h2, if_false, Int.toNat_ofNat]
    rw [Nat.cast_zero] at hloop
    rw [hloop]
    rfl
  · rw [length_flatMap_const _ _ 4 (length_specPixel textureBase tex N)]
    simp
  · intro i hi
    obtain ⟨_, ⟨idx, hidx, hib, hlt⟩, hpal⟩ := texturePixel_eq textureBase tex N i hmax h0 hlen hi
    have hget := flatMap_range_get (specPixel textureBase tex N) 4
      (length_specPixel textureBase tex N) 0 N i hi
    rw [Nat.zero_add] at hget
    have hsp : specPixel textureBase tex N i =
        if isMasked tex.flags = true ∧ idx = 255 then [0, 0, 0, 0]
        else [paletteByte textureBase tex N (3 * idx), paletteByte textureBase tex N (3 * idx + 1),
          paletteByte textureBase tex N (3 * idx + 2), 255] := by
      unfold specPixel
      rw [← hib]
    refine ⟨idx, _, _, _, hidx, hpal _ (by omega), hpal _ (by omega), hpal _ (by omega), ?_, ?_⟩
    · show (((List.range' 0 N).flatMap (specPixel textureBase tex N)).drop (4 * i)).take 4 = _
      rw [hget, hsp]
    · intro hm h255
      show (((List.range' 0 N).flatMap (specPixel textureBase tex N)).drop (4 * i)).take 4 = _
      rw [hget, hsp, if_neg (by simp [hm])]
theorem texturePixel_overflow (block : Buffer) (tex : MStudioTexture) (size i : Int)
    (h : i * 4 + 3 > INT_MAX) : texturePixel block tex size i = none := by
  unfold texturePixel
  cases readU8 block (tex.index + i) with
  | none => rfl
  | some idx => simp [h]

/-- The pixel loop does not complete once the loop variable reaches `2^29`: the pixel offset
`i * 4` no longer fits an `int`. -/
theorem textureLoop_overflow (block : Buffer) (tex : MStudioTexture) (size : Int)
    (count i : Nat) (pixels : List Nat) (hc : 0 < count) (h : 536870912 < i + count) :
    textureLoop block tex size count (i : Int) pixels = none := by
  induction count generalizing i pixels with
  | zero => omega
  | succ count ih =>
    unfold textureLoop
    cases hp : texturePixel block tex size (i : Int) with
    | none => rfl
    | some px =>
      have hi : i < 536870912 := by
        by_contra hge
        have := texturePixel_overflow block tex size (i : Int) (by unfold INT_MAX; omega)
        rw [this] at hp
        cases hp
      have := ih (i + 1) (pixels ++ px) (by omega) (by omega)
      rw [Nat.cast_add, Nat.cast_one] at this
      simp only [Option.bind_eq_bind, Option.some_bind, this]

/-- A texture of more than `2^29` pixels is not decoded. -/
theorem LoadTexture_overflow (textureBase : Buffer) (tex : MStudioTexture)
    (h : 536870912 < tex.width * tex.height) : LoadTexture textureBase tex = none := by
  unfold LoadTexture
  by_cases h1 : tex.width * tex.height < -2147483648 ∨ INT_MAX < tex.width * tex.height
  · simp only [h1, if_true]
  · have h2 : ¬ (tex.width * tex.height < 0) := by omega
    simp only [h1, h2, if_false]
    have := textureLoop_overflow textureBase tex (tex.width * tex.height)
      (tex.width * tex.height).toNat 0 [] (by omega) (by omega)
    rw [Nat.cast_zero] at this
    rw [this]
    rfl

/-- Claim C5 as stated fails for large textures: for the 32768 x 16385 record, with
`N = 536903680` index bytes and a 768-byte palette inside the buffer, the pixel offset
`i * 4` overflows `int` at `i = 2^29` and `LoadTexture` does not return the `4 * N` bytes. -/
theorem C5_counterexample :
    sampleHugeTexture.width * sampleHugeTexture.height = 536903680 ∧
    sampleHugeTexture.index + 536903680 + 768 ≤
      (((List.replicate 536904448 0 : Buffer)).length : Int) ∧
    LoadTexture (List.replicate 536904448 0) sampleHugeTexture = none := by
  refine ⟨by simp [sampleHugeTexture], ?_, ?_⟩
  · rw [List.length_replicate]
    simp [sampleHugeTexture]
  · apply LoadTexture_overflow
    simp [sampleHugeTexture]

set_option maxRecDepth 100000 in
theorem C5_texture_decode_witness :
    LoadTexture sampleTextureBlock sampleMaskedTexture =
      some ⟨2, 1, [9, 9, 9, 255, 0, 0, 0, 0]⟩ ∧
    ∃ out, LoadTexture sampleTextureBlock sampleMaskedTexture = some out ∧
      out.width = 2 ∧ out.height = 1 ∧ out.rgba.length = 4 * 2 := by
  refine ⟨by decide, ?_⟩
  obtain ⟨out, h1, h2, h3, h4, _⟩ := C5_texture_decode sampleTextureBlock sampleMaskedTexture 2
    (by decide) (by decide) (by decide) (by decide)
  exact ⟨out, h1, h2, h3, h4⟩

/-! ## Index validity -/

theorem Holds_append (pool added : List Vertex) (k : Nat) (v : Vertex) (h : Holds pool k v) :
    Holds (pool ++ added) k v := by
  obtain ⟨e, he, hv⟩ := h
  have hk : k < pool.length := by
    by_contra hge
    rw [List.getElem?_eq_none (by omega)] at he
    cases he
  exact ⟨e, by rw [List.getElem?_append_left hk]; exact he, hv⟩

theorem IndexOk_append (fp : FloatOps) (base : Buffer) (model : MStudioModel)
    (bt : List Mat3x4) (s t : F32) (pool added : List Vertex) (k : Nat)
    (h : IndexOk fp base model bt s t pool k) :
    IndexOk fp base model bt s t (pool ++ added) k := by
  obtain ⟨hk, hv⟩ := h
  refine ⟨by rw [List.length_append]; omega, ?_⟩
  intro hlen
  rw [List.length_append] at hlen
  obtain ⟨tricmds, v, ha, hh⟩ := hv (by omega)
  exact ⟨tricmds, v, ha, Holds_append pool added k v hh⟩

/-- The index returned by `InsertVertex` refers to the inserted vertex. -/
theorem InsertVertex_ok (fp : FloatOps) (base : Buffer) (model : MStudioModel)
    (bt : List Mat3x4) (s t : F32) (pool : List Vertex) (tricmds : Int) (v : Vertex)
    (ha : assembleVertex fp base model bt s t tricmds = some v) :
    IndexOk fp base model bt s t (InsertVertex pool v).2 (InsertVertex pool v).1 := by
  refine ⟨InsertVertex_lt pool v, ?_⟩
  intro hlen
  refine ⟨tricmds, v, ha, ?_⟩
  unfold InsertVertex at hlen ⊢
  cases h : stdFind v pool 0 with
  | some it =>
    rw [h] at hlen
    obtain ⟨i, hi, hfound, _⟩ := stdFind_some v pool 0 it h
    have hlt := (stdFind_ge v pool 0 it h).2
    simp only at hlen ⊢
    rw [Nat.mod_eq_of_lt (by omega)]
    have hit : it = i := by omega
    subst hit
    cases he : pool[it]? with
    | none => simp [he] at hfound
    | some e =>
      rw [he] at hfound
      exact ⟨e, he, Or.inr (by simpa using hfound)⟩
  | none =>
    rw [h] at hlen
    simp only [List.length_append, List.length_singleton] at hlen
    simp only
    rw [Nat.add_sub_cancel, Nat.mod_eq_of_lt (by omega)]
    exact ⟨v, by simp, Or.inl rfl⟩

/-- The vertex loop keeps all indices valid and produces valid ones. -/
theorem readRun_ok (fp : FloatOps) (base : Buffer) (model : MStudioModel)
    (bt : List Mat3x4) (s t : F32) (n : Nat) (tricmds : Int) (vertices : List Vertex)
    (temp : List Nat) (r : Int × List Vertex × List Nat)
    (hinv : ∀ k ∈ temp, IndexOk fp base model bt s t vertices k)
    (h : readRun fp base model bt s t n tricmds vertices temp = some r) :
    ∀ k ∈ r.2.2, IndexOk fp base model bt s t r.2.1 k := by
  induction n generalizing tricmds vertices temp with
  | zero =>
    simp only [readRun, Option.some.injEq] at h
    subst h
    exact hinv
  | succ n ih =>
    unfold readRun at h
    cases hv : assembleVertex fp base model bt s t tricmds with
    | none => simp [hv] at h
    | some v =>
      simp only [hv, Option.bind_eq_bind, Option.some_bind] at h
      refine ih _ _ _ ?_ h
      intro k hk
      rcases List.mem_append.1 hk with hk | hk
      · rcases InsertVertex_pool vertices v with hp | hp
        · rw [hp]; exact hinv k hk
        · rw [hp]; exact IndexOk_append _ _ _ _ _ _ _ _ _ (hinv k hk)
      · have : k = (InsertVertex vertices v).1 := by simpa using hk
        subst this
        exact InsertVertex_ok fp base model bt s t vertices tricmds v hv

theorem getD_mem (t : List Nat) (j : Nat) (h : j < t.length) : t.getD j 0 ∈ t := by
  rw [List.getD_eq_getElem t 0 h]
  exact List.getElem_mem h

/-- Every index emitted for a run is one of the run's pool indices. -/
theorem emitRun_mem (strip : Bool) (t out : List Nat) (k : Nat)
    (h : k ∈ emitRun strip t out) : k ∈ out ∨ k ∈ t := by
  cases strip
  · rw [emitRun_fan, List.mem_append] at h
    rcases h with h | h
    · exact Or.inl h
    · right
      unfold runTriangles at h
      obtain ⟨j, hj, hk⟩ := List.mem_flatMap.1 h
      have hr := List.mem_range'_1.1 hj
      simp only [fanTriangle, List.mem_cons, List.mem_singleton, List.not_mem_nil,
        or_false] at hk
      rcases hk with hk | hk | hk
      · rw [hk]; exact getD_mem t _ (by omega)
      · rw [hk]; exact getD_mem t _ (by omega)
      · rw [hk]; exact getD_mem t _ (by omega)
  · rw [emitRun_strip, List.mem_append] at h
    rcases h with h | h
    · exact Or.inl h
    · right
      unfold runTriangles at h
      obtain ⟨j, hj, hk⟩ := List.mem_flatMap.1 h
      have hr := List.mem_range'_1.1 hj
      unfold stripTriangle at hk
      split at hk
      · simp only [List.mem_cons, List.mem_singleton, List.not_mem_nil, or_false] at hk
        rcases hk with hk | hk | hk
        · rw [hk]; exact getD_mem t _ (by omega)
        · rw [hk]; exact getD_mem t _ (by omega)
        · rw [hk]; exact getD_mem t _ (by omega)
      · simp only [List.mem_cons, List.mem_singleton, List.not_mem_nil, or_false] at hk
        rcases hk with hk | hk | hk
        · rw [hk]; exact getD_mem t _ (by omega)
        · rw [hk]; exact getD_mem t _ (by omega)
        · rw [hk]; exact getD_mem t _ (by omega)

/-- The command loop only appends to the pool, and every index it emits is valid for the
final pool. -/
theorem meshLoop_ok (fp : FloatOps) (base : Buffer) (model : MStudioModel)
    (bt : List Mat3x4) (s t : F32) (fuel : Nat) (tricmds : Int) (vertices : List Vertex)
    (indices : List Nat) (res : List Vertex × List Nat)
    (hinv : ∀ k ∈ indices, IndexOk fp base model bt s t vertices k)
    (h : meshLoop fp base model bt s t fuel tricmds vertices indices = some res) :
    (∀ k ∈ res.2, IndexOk fp base model bt s t res.1 k) ∧ ∃ added, res.1 = vertices ++ added := by
  induction fuel generalizing tricmds vertices indices with
  | zero => simp [meshLoop] at h
  | succ fuel ih =>
    cases hi : readI16 base tricmds with
    | none => simp [meshLoop, hi] at h
    | some i =>
      by_cases h0 : i = 0
      · simp only [meshLoop, hi, Option.bind_eq_bind, Option.some_bind, h0, if_true,
          Option.pure_def, Option.some.injEq] at h
        subst h
        exact ⟨hinv, [], by simp⟩
      · cases hr : readRun fp base model bt s t (runCount i) (tricmds + 2) vertices [] with
        | none =>
          unfold runCount at hr
          simp [meshLoop, hi, h0, hr] at h
        | some r =>
          rw [meshLoop_step fp base model bt s t fuel tricmds vertices indices i r hi h0 hr] at h
          obtain ⟨added, hadd⟩ := (readRun_spec fp base model bt s t _ _ _ _ r hr).2.2.1
          have hrun := readRun_ok fp base model bt s t _ _ _ _ r (by simp) hr
          have hnew : ∀ k ∈ emitRun (decide (0 ≤ i)) r.2.2 indices,
              IndexOk fp base model bt s t r.2.1 k := by
            intro k hk
            rcases emitRun_mem _ _ _ _ hk with hk | hk
            · rw [hadd]; exact IndexOk_append _ _ _ _ _ _ _ _ _ (hinv k hk)
            · exact hrun k hk
          obtain ⟨h1, added2, h2⟩ := ih _ _ _ hnew h
          exact ⟨h1, added ++ added2, by rw [h2, hadd, List.append_assoc]⟩

theorem MeshOk_append (fp : FloatOps) (textureHeader : StudioHdr) (base textureBase : Buffer)
    (model : MStudioModel) (bt : List Mat3x4) (pool added : List Vertex) (mesh : Mesh)
    (h : MeshOk fp textureHeader base textureBase model bt pool mesh) :
    MeshOk fp textureHeader base textureBase model bt (pool ++ added) mesh := by
  obtain ⟨tex, htex, hk⟩ := h
  exact ⟨tex, htex, fun k hmem => IndexOk_append _ _ _ _ _ _ _ _ _ (hk k hmem)⟩

/-- The function `LoadMesh` only appends to the shared pool, and the mesh it returns is valid for the
pool it returns. -/
theorem LoadMesh_ok (fp : FloatOps) (textureHeader : StudioHdr) (base textureBase : Buffer)
    (mesh : MStudioMesh) (model : MStudioModel) (bt : List Mat3x4) (vertices : List Vertex)
    (res : Mesh × List Vertex)
    (h : LoadMesh fp textureHeader base textureBase mesh model bt vertices = some res) :
    MeshOk fp textureHeader base textureBase model bt res.2 res.1 ∧
      ∃ added, res.2 = vertices ++ added := by
  unfold LoadMesh at h
  cases h1 : readU16 textureBase (textureHeader.skinindex + 2 * mesh.skinref) with
  | none => simp [h1] at h
  | some textureId =>
    cases h2 : readMStudioTexture textureBase
        (textureHeader.textureindex + 80 * (textureId : Int)) with
    | none => simp [h1, h2] at h
    | some tex =>
      simp only [h1, h2, Option.bind_eq_bind, Option.some_bind] at h
      cases h3 : meshLoop fp base model bt (fp.div F32.one (fp.ofInt tex.width))
          (fp.div F32.one (fp.ofInt tex.height)) (base.length + 1) mesh.triindex vertices [] with
      | none => simp [h3] at h
      | some r =>
        simp only [h3, Option.some_bind, Option.pure_def, Option.some.injEq] at h
        subst h
        obtain ⟨hk, hadd⟩ := meshLoop_ok _ _ _ _ _ _ _ _ _ _ _ (by simp) h3
        exact ⟨⟨tex, h2, hk⟩, hadd⟩

/-- The mesh loop of `LoadModel` keeps every mesh decoded so far valid for the shared pool. -/
theorem loadMeshes_ok (fp : FloatOps) (textureHeader : StudioHdr) (base textureBase : Buffer)
    (model : MStudioModel) (bt : List Mat3x4) (n : Nat) (i : Int) (out res : Model)
    (hinv : ∀ m ∈ out.meshes, MeshOk fp textureHeader base textureBase model bt out.vertices m)
    (h : loadMeshes fp textureHeader base textureBase model bt n i out = some res) :
    ∀ m ∈ res.meshes, MeshOk fp textureHeader base textureBase model bt res.vertices m := by
  induction n generalizing i out with
  | zero =>
    simp only [loadMeshes, Option.some.injEq] at h
    subst h
    exact hinv
  | succ n ih =>
    unfold loadMeshes at h
    cases h1 : readMStudioMesh base (model.meshindex + 20 * i) with
    | none => simp [h1] at h
    | some mesh =>
      cases h2 : LoadMesh fp textureHeader base textureBase mesh model bt out.vertices with
      | none => simp [h1, h2] at h
      | some r =>
        simp only [h1, h2, Option.bind_eq_bind, Option.some_bind] at h
        obtain ⟨hm, added, hadd⟩ := LoadMesh_ok _ _ _ _ _ _ _ _ _ h2
        refine ih _ _ ?_ h
        intro m hmem
        rcases List.mem_append.1 hmem with hmem | hmem
        · show MeshOk fp textureHeader base textureBase model bt r.2 m
          rw [hadd]
          exact MeshOk_append _ _ _ _ _ _ _ _ _ (hinv m hmem)
        · have : m = r.1 := by simpa using hmem
          subst this
          exact hm

/-! ## The loader -/

/-- A verified buffer can be viewed as a header. -/
theorem readStudioHdr_of_verified (buffer : Buffer) (hv : VerifyStudioFile buffer = true) :
    ∃ header, readStudioHdr buffer = some header := by
  have hlen := ((VerifyStudioFile_iff buffer).1 hv).1
  unfold readStudioHdr
  have : inBounds buffer 0 sizeofStudioHdr = true := by
    simp only [inBounds, sizeofStudioHdr, Bool.and_eq_true, decide_eq_true_eq]
    omega
  rw [if_pos this]
  exact ⟨_, rfl⟩

/-- After a verified header the result of `LoadFromFile` is the result of decoding. -/
theorem LoadFromFile_verified (fp : FloatOps) (self : StudioModelCpu) (files : Files)
    (header : StudioHdr) (hv : VerifyStudioFile files.main = true)
    (hh : readStudioHdr files.main = some header) :
    LoadFromFile fp self files =
      loadVerified fp { self with fileData := files.main } files header := by
  have hne : files.main.isEmpty = false := by
    have hlen := ((VerifyStudioFile_iff files.main).1 hv).1
    cases hm : files.main with
    | nil => rw [hm] at hlen; simp at hlen
    | cons b rest => rfl
  unfold LoadFromFile
  simp only [hne, hv, hh, Bool.false_eq_true, if_false, Bool.not_true]

/-- A rejected file leaves everything but the stored buffer as it was. -/
theorem LoadFromFile_rejected (fp : FloatOps) (self : StudioModelCpu) (files : Files)
    (hv : VerifyStudioFile files.main = false) :
    LoadFromFile fp self files = some (false, { self with fileData := files.main }) := by
  unfold LoadFromFile
  by_cases he : files.main.isEmpty = true
  · simp [he]
  · simp [he, hv]

/-- The body-part list produced by the decoding steps. -/
theorem loadTables_bodyParts (fp : FloatOps) (header textureHeader : StudioHdr)
    (base textureBase : Buffer) (tables : List TextureRgba × List BodyPart)
    (h : loadTables fp header textureHeader base textureBase = some tables) :
    (0 < header.numbodyparts ∧
        ∃ bt, loadBodyParts fp header textureHeader base textureBase bt
          header.numbodyparts.toNat 0 [] = some tables.2) ∨
      (header.numbodyparts ≤ 0 ∧ tables.2 = []) := by
  unfold loadTables at h
  cases hb : ComputeDefaultBoneTransforms fp header base with
  | none => simp [hb] at h
  | some bt =>
    cases htx : loadTextureList textureHeader textureBase with
    | none => simp [hb, htx] at h
    | some textures =>
      cases hbp : loadBodyPartList fp header textureHeader base textureBase bt with
      | none => simp [hb, htx, hbp] at h
      | some bodyParts =>
        simp only [hb, htx, hbp, Option.bind_eq_bind, Option.some_bind, Option.pure_def,
          Option.some.injEq] at h
        subst h
        unfold loadBodyPartList at hbp
        by_cases hn : header.numbodyparts > 0
        · rw [if_pos hn] at hbp
          exact Or.inl ⟨hn, bt, hbp⟩
        · rw [if_neg hn] at hbp
          simp only [Option.some.injEq] at hbp
          exact Or.inr ⟨by omega, hbp.symm⟩

/-- The flag returned after decoding says whether the body-part list is non-empty. -/
theorem loadVerified_result (fp : FloatOps) (self : StudioModelCpu) (files : Files)
    (header : StudioHdr) (r : Bool × StudioModelCpu)
    (h : loadVerified fp self files header = some r) :
    r.1 = !r.2.bodyParts.isEmpty ∧
      ∃ tables, loadTables fp header (textureSource header files).1 files.main
          (textureSource header files).2 = some tables ∧
        r.2.bodyParts = tables.2 ∧ r.2.textures = tables.1 := by
  unfold loadVerified at h
  cases ht : loadTables fp header (textureSource header files).1 files.main
      (textureSource header files).2 with
  | none => simp [ht] at h
  | some tables =>
    simp only [ht, Option.some.injEq] at h
    subst h
    exact ⟨rfl, tables, rfl, rfl, rfl⟩

/-- The sub-model loop appends one sub-model per iteration. -/
theorem loadModels_length (fp : FloatOps) (textureHeader : StudioHdr) (base textureBase : Buffer)
    (bodyPart : MStudioBodyParts) (bt : List Mat3x4) (n : Nat) (i : Int) (out res : BodyPart)
    (h : loadModels fp textureHeader base textureBase bodyPart bt n i out = some res) :
    res.models.length = out.models.length + n := by
  induction n generalizing i out with
  | zero =>
    simp only [loadModels, Option.some.injEq] at h
    subst h
    rfl
  | succ n ih =>
    unfold loadModels at h
    cases h1 : readMStudioModel base (bodyPart.modelindex + 112 * i) with
    | none => simp [h1] at h
    | some model =>
      cases h2 : LoadModel fp textureHeader base textureBase model bt with
      | none => simp [h1, h2] at h
      | some m =>
        simp only [h1, h2, Option.bind_eq_bind, Option.some_bind] at h
        rw [ih _ _ h]
        simp only [List.length_append, List.length_singleton]
        omega

/-- The function `LoadBodyPart` returns `nummodels` sub-models, none when `nummodels <= 0`. -/
theorem LoadBodyPart_length (fp : FloatOps) (textureHeader : StudioHdr)
    (base textureBase : Buffer) (bodyPart : MStudioBodyParts) (bt : List Mat3x4) (res : BodyPart)
    (h : LoadBodyPart fp textureHeader base textureBase bodyPart bt = some res) :
    res.models.length = bodyPart.nummodels.toNat := by
  unfold LoadBodyPart at h
  by_cases hn : bodyPart.nummodels ≤ 0
  · simp only [hn, if_true, Option.some.injEq] at h
    subst h
    simp only [List.length_nil]
    omega
  · simp only [hn, if_false] at h
    simpa using loadModels_length _ _ _ _ _ _ _ _ _ _ h

/-- The body-part loop appends one body part per record, each decoded from its record. -/
theorem loadBodyParts_spec (fp : FloatOps) (header textureHeader : StudioHdr)
    (base textureBase : Buffer) (bt : List Mat3x4) (n : Nat) (i : Int)
    (acc res : List BodyPart)
    (h : loadBodyParts fp header textureHeader base textureBase bt n i acc = some res) :
    res.length = acc.length + n ∧
    (∀ j, j < acc.length → res[j]? = acc[j]?) ∧
    (∀ j, j < n → ∃ bodyPart out,
      readMStudioBodyParts base (header.bodypartindex + 76 * (i + (j : Int))) = some bodyPart ∧
      res[acc.length + j]? = some out ∧ out.models.length = bodyPart.nummodels.toNat) := by
  induction n generalizing i acc with
  | zero =>
    simp only [loadBodyParts, Option.some.injEq] at h
    subst h
    exact ⟨rfl, fun _ _ => rfl, fun j hj => by omega⟩
  | succ n ih =>
    unfold loadBodyParts at h
    cases h1 : readMStudioBodyParts base (header.bodypartindex + 76 * i) with
    | none => simp [h1] at h
    | some bodyPart =>
      cases h2 : LoadBodyPart fp textureHeader base textureBase bodyPart bt with
      | none => simp [h1, h2] at h
      | some out =>
        simp only [h1, h2, Option.bind_eq_bind, Option.some_bind] at h
        obtain ⟨hl, hkeep, hnew⟩ := ih _ _ h
        simp only [List.length_append, List.length_singleton] at hl hkeep hnew
        refine ⟨by omega, ?_, ?_⟩
        · intro j hj
          rw [hkeep j (by omega), List.getElem?_append_left hj]
        · intro j hj
          cases j with
          | zero =>
            refine ⟨bodyPart, out, by simpa using h1, ?_, LoadBodyPart_length _ _ _ _ _ _ _ h2⟩
            rw [Nat.add_zero, hkeep acc.length (by omega)]
            simp
          | succ j =>
            obtain ⟨bp, o, hr, hg, hm⟩ := hnew j (by omega)
            refine ⟨bp, o, ?_, ?_, hm⟩
            · rw [← hr]
              congr 2
              push_cast
              ring
            · rw [← hg]
              congr 1
              omega

/-- What `LoadFromFile` returns for a verified file: the flag says whether `numbodyparts` is
positive, and the body-part list follows the body-part records. -/
theorem LoadFromFile_result (fp : FloatOps) (self : StudioModelCpu) (files : Files)
    (r : Bool × StudioModelCpu) (hv : VerifyStudioFile files.main = true)
    (h : LoadFromFile fp self files = some r) :
    ∃ header, readStudioHdr files.main = some header ∧
      (r.1 = true ↔ 0 < header.numbodyparts) ∧
      (r.1 = true → (r.2.bodyParts.length : Int) = header.numbodyparts) ∧
      (∀ j, j < r.2.bodyParts.length → ∃ bodyPart out,
        readMStudioBodyParts files.main (header.bodypartindex + 76 * (j : Int)) = some bodyPart ∧
        r.2.bodyParts[j]? = some out ∧ out.models.length = bodyPart.nummodels.toNat) := by
  obtain ⟨header, hh⟩ := readStudioHdr_of_verified files.main hv
  refine ⟨header, hh, ?_⟩
  rw [LoadFromFile_verified fp self files header hv hh] at h
  obtain ⟨hflag, tables, ht, hbp, _⟩ := loadVerified_result _ _ _ _ _ h
  rcases loadTables_bodyParts _ _ _ _ _ _ ht with ⟨hpos, bt, hload⟩ | ⟨hle, hnil⟩
  · obtain ⟨hl, _, hnew⟩ := loadBodyParts_spec _ _ _ _ _ _ _ _ _ _ hload
    simp only [List.length_nil, Nat.zero_add] at hl hnew
    have hlen : r.2.bodyParts.length = header.numbodyparts.toNat := by rw [hbp, hl]
    have hne : r.2.bodyParts.isEmpty = false := by
      cases hb : r.2.bodyParts with
      | nil => rw [hb] at hlen; simp at hlen; omega
      | cons b rest => rfl
    refine ⟨?_, ?_, ?_⟩
    · rw [hflag, hne]
      simp [hpos]
    · intro _
      rw [hlen]
      omega
    · intro j hj
      obtain ⟨bp, out, hr, hg, hm⟩ := hnew j (by omega)
      exact ⟨bp, out, by simpa using hr, by rw [hbp]; exact hg, hm⟩
  · have hb : r.2.bodyParts = [] := by rw [hbp, hnil]
    refine ⟨?_, ?_, ?_⟩
    · rw [hflag, hb]
      simp
      omega
    · intro ht2
      rw [hflag, hb] at ht2
      simp at ht2
    · intro j hj
      rw [hb] at hj
      simp at hj

/-- The body-part loop completes when every record lies inside the buffer and decodes. -/
theorem loadBodyParts_complete (fp : FloatOps) (header textureHeader : StudioHdr)
    (base textureBase : Buffer) (bt : List Mat3x4) (n : Nat) (i : Int) (acc : List BodyPart)
    (h : ∀ j, j < n → ∃ bodyPart out,
      readMStudioBodyParts base (header.bodypartindex + 76 * (i + (j : Int))) = some bodyPart ∧
      LoadBodyPart fp textureHeader base textureBase bodyPart bt = some out) :
    ∃ res, loadBodyParts fp header textureHeader base textureBase bt n i acc = some res := by
  induction n generalizing i acc with
  | zero => exact ⟨acc, rfl⟩
  | succ n ih =>
    obtain ⟨bodyPart, out, h1, h2⟩ := h 0 (by omega)
    have h1' : readMStudioBodyParts base (header.bodypartindex + 76 * i) = some bodyPart := by
      simpa using h1
    have hrest : ∀ j, j < n → ∃ bodyPart out,
        readMStudioBodyParts base (header.bodypartindex + 76 * (i + 1 + (j : Int)))
          = some bodyPart ∧
        LoadBodyPart fp textureHeader base textureBase bodyPart bt = some out := by
      intro j hj
      obtain ⟨bp, o, hr, hl⟩ := h (j + 1) (by omega)
      refine ⟨bp, o, ?_, hl⟩
      rw [← hr]
      congr 2
      push_cast
      ring
    obtain ⟨res, hres⟩ := ih (i + 1) (acc ++ [out]) hrest
    exact ⟨res, by simp only [loadBodyParts, h1', h2, Option.bind_eq_bind, Option.some_bind, hres]⟩

/-- The loader returns when the bone table, the texture table and every body part decode. -/
theorem LoadFromFile_returns (fp : FloatOps) (self : StudioModelCpu) (files : Files)
    (header : StudioHdr) (bt : List Mat3x4) (textures : List TextureRgba)
    (hv : VerifyStudioFile files.main = true) (hh : readStudioHdr files.main = some header)
    (hb : ComputeDefaultBoneTransforms fp header files.main = some bt)
    (htx : loadTextureList (textureSource header files).1 (textureSource header files).2
      = some textures)
    (hbp : ∀ j, j < header.numbodyparts.toNat → ∃ bodyPart out,
      readMStudioBodyParts files.main (header.bodypartindex + 76 * (j : Int)) = some bodyPart ∧
      LoadBodyPart fp (textureSource header files).1 files.main (textureSource header files).2
        bodyPart bt = some out) :
    ∃ r, LoadFromFile fp self files = some r ∧ r.2.textures = textures := by
  have hlist : ∃ bodyParts, loadBodyPartList fp header (textureSource header files).1 files.main
      (textureSource header files).2 bt = some bodyParts := by
    unfold loadBodyPartList
    by_cases hn : header.numbodyparts > 0
    · rw [if_pos hn]
      exact loadBodyParts_complete _ _ _ _ _ _ _ _ _ (fun j hj => by simpa using hbp j hj)
    · rw [if_neg hn]
      exact ⟨[], rfl⟩
  obtain ⟨bodyParts, hbl⟩ := hlist
  rw [LoadFromFile_verified fp self files header hv hh]
  unfold loadVerified loadTables
  simp only [hb, htx, hbl, Option.bind_eq_bind, Option.some_bind, Option.pure_def]
  exact ⟨_, rfl, rfl⟩

/-- Claim C4: load result.  Let the header of a (non-empty) file pass validation.  Whenever
`LoadFromFile` returns, it returns `true` exactly when the header's `numbodyparts` is greater
than 0, on success the body-part list has exactly `numbodyparts` entries, and entry `j` holds
exactly `nummodels` sub-models of body-part record `j` (none when `nummodels <= 0`).  And it
does return when the tables are in range: when the bone table and the texture table decode
and every body-part record lies inside the buffer and decodes. -/
theorem C4_load_result (fp : FloatOps) (self : StudioModelCpu) (files : Files)
    (hv : VerifyStudioFile files.main = true) :
    ∃ header, readStudioHdr files.main = some header ∧
      (∀ r, LoadFromFile fp self files = some r →
        (r.1 = true ↔ 0 < header.numbodyparts) ∧
        (r.1 = true → (r.2.bodyParts.length : Int) = header.numbodyparts) ∧
        (∀ j, j < r.2.bodyParts.length → ∃ bodyPart out,
          readMStudioBodyParts files.main (header.bodypartindex + 76 * (j : Int))
            = some bodyPart ∧
          r.2.bodyParts[j]? = some out ∧ out.models.length = bodyPart.nummodels.toNat)) ∧
      (∀ bt textures,
        ComputeDefaultBoneTransforms fp header files.main = some bt →
        loadTextureList (textureSource header files).1 (textureSource header files).2
          = some textures →
        (∀ j, j < header.numbodyparts.toNat → ∃ bodyPart out,
          readMStudioBodyParts files.main (header.bodypartindex + 76 * (j : Int))
            = some bodyPart ∧
          LoadBodyPart fp (textureSource header files).1 files.main
            (textureSource header files).2 bodyPart bt = some out) →
        ∃ r, LoadFromFile fp self files = some r ∧ (r.1 = true ↔ 0 < header.numbodyparts)) := by
  obtain ⟨header, hh⟩ := readStudioHdr_of_verified files.main hv
  refine ⟨header, hh, ?_, ?_⟩
  · intro r h
    obtain ⟨header2, hh2, hres⟩ := LoadFromFile_result fp self files r hv h
    rw [hh] at hh2
    cases hh2
    exact hres
  · intro bt textures hb htx hbp
    obtain ⟨r, hr, _⟩ := LoadFromFile_returns fp self files header bt textures hv hh hb htx hbp
    obtain ⟨header2, hh2, hres⟩ := LoadFromFile_result fp self files r hv hr
    rw [hh] at hh2
    cases hh2
    exact ⟨r, hr, hres.1⟩

/-- Claim C3, amended: failed loads.  Whenever `LoadFromFile` returns `false`: if the buffer
was rejected (empty, or refused by header validation) the body-part list and the texture list
are what they were before the call, so both are empty for a freshly constructed model; and
if the header was accepted the body-part list is empty. -/
theorem C3_failed_load (fp : FloatOps) (self : StudioModelCpu) (files : Files)
    (after : StudioModelCpu) (h : LoadFromFile fp self files = some (false, after)) :
    (VerifyStudioFile files.main = false →
      after.bodyParts = self.bodyParts ∧ after.textures = self.textures) ∧
    (VerifyStudioFile files.main = true → after.bodyParts = []) ∧
    (self.bodyParts = [] → after.bodyParts = []) ∧
    (self.textures = [] → VerifyStudioFile files.main = false → after.textures = []) := by
  have hrej : VerifyStudioFile files.main = false →
      after.bodyParts = self.bodyParts ∧ after.textures = self.textures := by
    intro hv
    rw [LoadFromFile_rejected fp self files hv] at h
    simp only [Option.some.injEq, Prod.mk.injEq, true_and] at h
    subst h
    exact ⟨rfl, rfl⟩
  have hacc : VerifyStudioFile files.main = true → after.bodyParts = [] := by
    intro hv
    obtain ⟨header, hh⟩ := readStudioHdr_of_verified files.main hv
    rw [LoadFromFile_verified fp self files header hv hh] at h
    have hflag := (loadVerified_result _ _ _ _ _ h).1
    simp only at hflag
    cases hb : after.bodyParts with
    | nil => rfl
    | cons b rest => rw [hb] at hflag; simp at hflag
  refine ⟨hrej, hacc, ?_, ?_⟩
  · intro hs
    cases hv : VerifyStudioFile files.main with
    | true => exact hacc hv
    | false => rw [(hrej hv).1, hs]
  · intro hs hv
    rw [(hrej hv).2, hs]

/-! ## Evaluations of the loader on the sample files -/

set_option maxRecDepth 100000 in
/-- Claim C2 fails on the code: `sampleTruncatedFile` is a 244-byte buffer that passes header
validation and announces one body part at offset 244.  The record lies outside the buffer
(`PtrAt` would refuse it), but `LoadFromFile` takes it through `PtrAtUnchecked` and reads
it: the load does not fail with `false`, it performs the out-of-bounds read. -/
theorem C2_unchecked_read :
    sampleTruncatedFile.length = 244 ∧
    VerifyStudioFile sampleTruncatedFile = true ∧
    (readStudioHdr sampleTruncatedFile).map (fun h => (h.numbodyparts, h.bodypartindex))
      = some (1, 244) ∧
    inBounds sampleTruncatedFile 244 sizeofMStudioBodyParts = false ∧
    readI32 sampleTruncatedFile (244 + 64) = none ∧
    LoadFromFile sampleOps StudioModelCpu.empty ⟨sampleTruncatedFile, []⟩ = none := by
  decide

set_option maxRecDepth 100000 in
/-- Claim C3 as stated fails.  A file with a valid header, one texture and no body part makes
`LoadFromFile` return `false` with one decoded texture in the texture list; and a model
that has loaded a file keeps its body parts when a later load is rejected. -/
theorem C3_counterexample :
    (LoadFromFile sampleOps StudioModelCpu.empty ⟨sampleTextureOnlyFile, []⟩).map
      (fun r => (r.1, r.2.bodyParts, r.2.textures))
      = some (false, [], [⟨1, 1, [9, 9, 9, 255]⟩]) ∧
    ((LoadFromFile sampleOps StudioModelCpu.empty ⟨sampleMinimalFile, []⟩).bind
      (fun r => LoadFromFile sampleOps r.2 ⟨[], []⟩)).map (fun r => (r.1, r.2.bodyParts))
      = some (false, [⟨[]⟩]) := by
  decide

set_option maxRecDepth 100000 in
theorem C3_failed_load_witness :
    LoadFromFile sampleOps StudioModelCpu.empty ⟨sampleEmptyModelFile, []⟩ =
      some (false, { StudioModelCpu.empty with fileData := sampleEmptyModelFile }) ∧
    VerifyStudioFile sampleEmptyModelFile = true ∧
    ({ StudioModelCpu.empty with fileData := sampleEmptyModelFile } : StudioModelCpu).bodyParts
      = [] := by
  have h : LoadFromFile sampleOps StudioModelCpu.empty ⟨sampleEmptyModelFile, []⟩ =
      some (false, { StudioModelCpu.empty with fileData := sampleEmptyModelFile }) := by decide
  have hv : VerifyStudioFile sampleEmptyModelFile = true := by decide
  exact ⟨h, hv, (C3_failed_load sampleOps StudioModelCpu.empty ⟨sampleEmptyModelFile, []⟩ _ h).2.1
    hv⟩

set_option maxRecDepth 100000 in
set_option maxHeartbeats 1000000 in
theorem C4_load_result_witness :
    VerifyStudioFile sampleFile = true ∧
    (LoadFromFile sampleOps StudioModelCpu.empty ⟨sampleFile, []⟩).map
      (fun r => (r.1, r.2.bodyParts, r.2.textures))
      = some (true, [⟨[⟨samplePool.take 3, [⟨0, [0, 1, 2]⟩]⟩]⟩], [⟨1, 1, [9, 9, 9, 255]⟩]) ∧
    ∃ r header, LoadFromFile sampleOps StudioModelCpu.empty ⟨sampleFile, []⟩ = some r ∧
      readStudioHdr sampleFile = some header ∧ (r.1 = true ↔ 0 < header.numbodyparts) ∧
      (r.1 = true → (r.2.bodyParts.length : Int) = header.numbodyparts) := by
  have hv : VerifyStudioFile sampleFile = true := by decide
  have hm : (LoadFromFile sampleOps StudioModelCpu.empty ⟨sampleFile, []⟩).map
      (fun r => (r.1, r.2.bodyParts, r.2.textures))
      = some (true, [⟨[⟨samplePool.take 3, [⟨0, [0, 1, 2]⟩]⟩]⟩], [⟨1, 1, [9, 9, 9, 255]⟩]) := by
    decide
  refine ⟨hv, hm, ?_⟩
  cases h : LoadFromFile sampleOps StudioModelCpu.empty ⟨sampleFile, []⟩ with
  | none => rw [h] at hm; cases hm
  | some r =>
    obtain ⟨header, hh, hres, _⟩ :=
      C4_load_result sampleOps StudioModelCpu.empty ⟨sampleFile, []⟩ hv
    obtain ⟨hiff, hlen, _⟩ := hres r h
    exact ⟨r, header, rfl, hh, hiff, hlen⟩

theorem stdFind_replicate (v w : Vertex) (h : Vertex.eq w v = false) (n s : Nat) :
    stdFind v (List.replicate n w) s = none := by
  rw [stdFind_none]
  intro e he
  rw [List.eq_of_mem_replicate he]
  exact h

/-- On a pool of `2^32` entries the index returned by `InsertVertex` wraps around: a vertex
that is not in the pool is appended at position `2^32` and the index returned is 0. -/
theorem InsertVertex_wraps (v w : Vertex) (h : Vertex.eq w v = false) :
    InsertVertex (List.replicate 4294967296 w) v
      = (0, List.replicate 4294967296 w ++ [v]) ∧
    (List.replicate 4294967296 w ++ [v])[0]? = some w := by
  constructor
  · unfold InsertVertex
    rw [stdFind_replicate v w h]
    simp only [List.length_replicate]
  · rw [List.getElem?_append_left (by rw [List.length_replicate]; omega),
      List.getElem?_replicate]
    rw [if_pos (by omega)]

set_option maxRecDepth 100000 in
/-- Claim C7 as stated fails, whichever equality is meant.  Decoding
`sampleMeshData sampleNaN 0 sampleOne`, the first record assembles a vertex with a NaN
coordinate; its index is 0 and the vertex at index 0 does not compare equal to it
(`Vertex::operator==` is false on NaN).  Decoding `sampleMeshData 0 sampleNegZero 0`, the
second record assembles the vertex `(-0, 0, 0)`; its index is 0, where the pool holds
`(+0, 0, 0)`, a different vertex that compares equal.  And once the pool holds `2^32`
vertices, the index that `InsertVertex` returns for a new vertex is cast to `uint32_t` and
wraps to 0, where the pool holds a vertex that is neither the new one nor equal to it. -/
theorem C7_counterexample :
    (LoadModel sampleOps sampleTextureHeader (sampleMeshData sampleNaN 0 sampleOne)
        (sampleMeshData sampleNaN 0 sampleOne) sampleModel [] =
      some ⟨sampleNaNPool, [⟨0, [0, 1, 2, 2, 1, 3, 4, 1, 2, 4, 2, 3]⟩]⟩ ∧
     assembleVertex sampleOps (sampleMeshData sampleNaN 0 sampleOne) sampleModel []
        F32.zero F32.zero 170 = some (sampleVertex sampleNaN 0 0) ∧
     sampleNaNPool[0]? = some (sampleVertex sampleNaN 0 0) ∧
     Vertex.eq (sampleVertex sampleNaN 0 0) (sampleVertex sampleNaN 0 0) = false) ∧
    (LoadModel sampleOps sampleTextureHeader (sampleMeshData 0 sampleNegZero 0)
        (sampleMeshData 0 sampleNegZero 0) sampleModel [] =
      some ⟨[sampleVertex 0 0 0, sampleVertex 0 0 sampleOne,
              sampleVertex sampleOne sampleOne sampleOne],
            [⟨0, [0, 0, 1, 1, 0, 2, 0, 0, 1, 0, 1, 2]⟩]⟩ ∧
     assembleVertex sampleOps (sampleMeshData 0 sampleNegZero 0) sampleModel []
        F32.zero F32.zero 178 = some (sampleVertex sampleNegZero 0 0) ∧
     sampleVertex 0 0 0 ≠ sampleVertex sampleNegZero 0 0 ∧
     Vertex.eq (sampleVertex 0 0 0) (sampleVertex sampleNegZero 0 0) = true) ∧
    (InsertVertex (List.replicate 4294967296 (sampleVertex 0 0 0)) (sampleVertex sampleOne 0 0)
        = (0, List.replicate 4294967296 (sampleVertex 0 0 0) ++ [sampleVertex sampleOne 0 0]) ∧
     (List.replicate 4294967296 (sampleVertex 0 0 0) ++ [sampleVertex sampleOne 0 0])[0]?
        = some (sampleVertex 0 0 0) ∧
     sampleVertex 0 0 0 ≠ sampleVertex sampleOne 0 0 ∧
     Vertex.eq (sampleVertex 0 0 0) (sampleVertex sampleOne 0 0) = false) :=
  ⟨by decide, by decide,
    (InsertVertex_wraps _ _ (by decide)).1, (InsertVertex_wraps _ _ (by decide)).2,
    by decide, by decide⟩

/-! ## The bound on the command loop is never what stops it -/

theorem readI16_outside (buf : Buffer) (off : Int) (h : off < 0 ∨ (buf.length : Int) ≤ off) :
    readI16 buf off = none := by
  simp [readI16, readU16, readU8_outside buf off h]

/-- Two bounds that both exceed the number of 16-bit words left in the buffer give the same
result: the command loop ends at a zero header or at a read outside the buffer, never
because the bound is used up. -/
theorem meshLoop_fuel (fp : FloatOps) (base : Buffer) (model : MStudioModel)
    (bt : List Mat3x4) (s t : F32) (fuel1 fuel2 : Nat) (tricmds : Int)
    (vertices : List Vertex) (indices : List Nat)
    (h1 : (base.length : Int) < tricmds + 2 * (fuel1 : Int))
    (h2 : (base.length : Int) < tricmds + 2 * (fuel2 : Int)) :
    meshLoop fp base model bt s t fuel1 tricmds vertices indices =
      meshLoop fp base model bt s t fuel2 tricmds vertices indices := by
  induction fuel1 generalizing fuel2 tricmds vertices indices with
  | zero =>
    have hout := readI16_outside base tricmds (Or.inr (by omega))
    cases fuel2 with
    | zero => rfl
    | succ fuel2 => simp [meshLoop, hout]
  | succ fuel1 ih =>
    cases fuel2 with
    | zero =>
      have hout := readI16_outside base tricmds (Or.inr (by omega))
      simp [meshLoop, hout]
    | succ fuel2 =>
      cases hi : readI16 base tricmds with
      | none => simp [meshLoop, hi]
      | some i =>
        by_cases h0 : i = 0
        · simp [meshLoop, hi, h0]
        · cases hr : readRun fp base model bt s t (runCount i) (tricmds + 2) vertices [] with
          | none =>
            unfold runCount at hr
            simp [meshLoop, hi, h0, hr]
          | some r =>
            rw [meshLoop_step fp base model bt s t fuel1 tricmds vertices indices i r hi h0 hr,
              meshLoop_step fp base model bt s t fuel2 tricmds vertices indices i r hi h0 hr]
            have hpos := (readRun_spec fp base model bt s t _ _ _ _ r hr).1
            exact ih _ _ _ _ (by omega) (by omega)

/-- The bound `base.length + 1` used by `LoadMesh` is enough: a larger one changes nothing. -/
theorem meshLoop_fuel_enough (fp : FloatOps) (base : Buffer) (model : MStudioModel)
    (bt : List Mat3x4) (s t : F32) (extra : Nat) (tricmds : Int)
    (vertices : List Vertex) (indices : List Nat) :
    meshLoop fp base model bt s t (base.length + 1 + extra) tricmds vertices indices =
      meshLoop fp base model bt s t (base.length + 1) tricmds vertices indices := by
  by_cases hneg : tricmds < 0
  · have hout := readI16_outside base tricmds (Or.inl hneg)
    have e : base.length + 1 + extra = (base.length + extra) + 1 := by omega
    rw [e]
    simp [meshLoop, hout]
  · exact meshLoop_fuel fp base model bt s t _ _ _ _ _ (by push_cast; omega) (by push_cast; omega)
/-! ## Fields of records inside the buffer -/

/-- Four bytes inside the buffer form a defined 32-bit word. -/
theorem readU32_inside (buf : Buffer) (off : Int) (h : inBounds buf off 4 = true) :
    ∃ u, readU32 buf off = some u := by
  simp only [inBounds, Bool.and_eq_true, decide_eq_true_eq] at h
  obtain ⟨b0, h0, _⟩ := readU8_inside buf off (by omega) (by omega)
  obtain ⟨b1, h1, _⟩ := readU8_inside buf (off + 1) (by omega) (by omega)
  obtain ⟨b2, h2, _⟩ := readU8_inside buf (off + 2) (by omega) (by omega)
  obtain ⟨b3, h3, _⟩ := readU8_inside buf (off + 3) (by omega) (by omega)
  exact ⟨b0 + 256 * b1 + 65536 * b2 + 16777216 * b3, by simp [readU32, h0, h1, h2, h3]⟩

/-- The default of `fieldI32` is never used for a field inside the buffer. -/
theorem fieldI32_eq (buf : Buffer) (off : Int) (h : inBounds buf off 4 = true) :
    readI32 buf off = some (fieldI32 buf off) := by
  obtain ⟨u, hu⟩ := readU32_inside buf off h
  simp [fieldI32, readI32, hu]

/-- The default of `fieldF32` is never used for a field inside the buffer. -/
theorem fieldF32_eq (buf : Buffer) (off : Int) (h : inBounds buf off 4 = true) :
    readF32 buf off = some (fieldF32 buf off) := by
  obtain ⟨u, hu⟩ := readU32_inside buf off h
  simp [fieldF32, readF32, hu]

/-- A field of `width` 4 at relative offset `rel` of a record of `size` bytes inside the
buffer lies inside the buffer. -/
theorem inBounds_field (buf : Buffer) (off : Int) (size : Nat) (rel : Nat)
    (h : inBounds buf off size = true) (hrel : rel + 4 ≤ size) :
    inBounds buf (off + (rel : Int)) 4 = true := by
  simp only [inBounds, Bool.and_eq_true, decide_eq_true_eq] at h ⊢
  omega

/-! ## Run lengths -/

/-- A positive run length announces that many records. -/
theorem runCount_pos (i : Int) (h : 0 < i) : runCount i = i.toNat := by
  unfold runCount
  rw [if_neg (by omega)]

/-- A negative run length other than `-32768` announces `-i` records. -/
theorem runCount_neg (i : Int) (hlo : -32768 < i) (h : i < 0) : runCount i = (-i).toNat := by
  unfold runCount negI16 toI16
  rw [if_pos h]
  have e : ((-i) % 65536).toNat = (-i).toNat := by omega
  rw [e]
  have h2 : (-i).toNat % 65536 = (-i).toNat := by omega
  rw [h2, if_pos (by omega)]
  omega

/-- The run length `-32768` announces no record: its 16-bit negation is `-32768` again. -/
theorem runCount_min : runCount (-32768) = 0 := by decide

/-- Run-length decoding for every 16-bit run length but `-32768`: `0` ends the stream, a
positive `i` starts a strip of exactly `i` records, a negative `i` a fan of exactly `-i`
records, and the next command is read `1 + 4 n` 16-bit words (`2 + 8 n` bytes) after the
run length. -/
theorem meshLoop_run_length (fp : FloatOps) (base : Buffer) (model : MStudioModel)
    (bt : List Mat3x4) (s t : F32) (fuel : Nat) (tricmds : Int) (vertices : List Vertex)
    (indices : List Nat) (i : Int) (hi : readI16 base tricmds = some i) :
    (i = 0 → meshLoop fp base model bt s t (fuel + 1) tricmds vertices indices
      = some (vertices, indices)) ∧
    (i ≠ 0 → -32768 < i → ∀ r,
      readRun fp base model bt s t (runCount i) (tricmds + 2) vertices [] = some r →
      runCount i = i.natAbs ∧ r.2.2.length = i.natAbs ∧
      r.1 = tricmds + 2 + 8 * (i.natAbs : Int) ∧
      meshLoop fp base model bt s t (fuel + 1) tricmds vertices indices =
        meshLoop fp base model bt s t fuel r.1 r.2.1 (emitRun (decide (0 ≤ i)) r.2.2 indices)) := by
  constructor
  · intro h0
    simp [meshLoop, hi, h0]
  · intro h0 hlo r hr
    have hc : runCount i = i.natAbs := by
      by_cases hneg : i < 0
      · rw [runCount_neg i hlo hneg]; omega
      · rw [runCount_pos i (by omega)]; omega
    have hspec := readRun_spec fp base model bt s t _ _ _ _ r hr
    refine ⟨hc, ?_, ?_, meshLoop_step fp base model bt s t fuel tricmds vertices indices i r hi h0 hr⟩
    · rw [← hc]; simpa using hspec.2.1
    · rw [← hc]; exact hspec.1

/-- The run length `-32768` reads no record and emits no triangle: the command loop goes on
with the very next 16-bit word. -/
theorem meshLoop_min (fp : FloatOps) (base : Buffer) (model : MStudioModel)
    (bt : List Mat3x4) (s t : F32) (fuel : Nat) (tricmds : Int) (vertices : List Vertex)
    (indices : List Nat) (hi : readI16 base tricmds = some (-32768)) :
    meshLoop fp base model bt s t (fuel + 1) tricmds vertices indices =
      meshLoop fp base model bt s t fuel (tricmds + 2) vertices indices := by
  have hr : readRun fp base model bt s t (runCount (-32768)) (tricmds + 2) vertices []
      = some (tricmds + 2, vertices, []) := by
    rw [runCount_min]; rfl
  rw [meshLoop_step fp base model bt s t fuel tricmds vertices indices (-32768) _ hi (by decide) hr]
  have : emitRun (decide ((0 : Int) ≤ -32768)) [] indices = indices := by
    simp [emitRun, fanLoop]
  simp only [this]

theorem zeros_add_two (n : Nat) (t : Buffer) : zeros (n + 2) ++ t = 0 :: 0 :: (zeros n ++ t) := by
  simp [zeros, List.replicate_succ]

/-- The first four bytes of `sampleWrapStream`. -/
theorem sampleWrapStream_eq :
    sampleWrapStream = 0 :: 128 :: 0 :: 0 :: (zeros 262142 ++ le16 0) := by
  have h : zeros 262144 ++ le16 0 = 0 :: 0 :: (zeros 262142 ++ le16 0) :=
    zeros_add_two 262142 (le16 0)
  unfold sampleWrapStream
  rw [h]

theorem readI16_cons_zero (b0 b1 : Byte) (rest : Buffer) :
    readI16 (b0 :: b1 :: rest) 0 = some (toI16 (b0.val + 256 * b1.val)) := by
  simp [readI16, readU16, readU8]

theorem readI16_cons_two (b0 b1 b2 b3 : Byte) (rest : Buffer) :
    readI16 (b0 :: b1 :: b2 :: b3 :: rest) 2 = some (toI16 (b2.val + 256 * b3.val)) := by
  simp [readI16, readU16, readU8]

/-- Every buffer that starts with the words `-32768`, `0` decodes to one run of no record. -/
theorem wrap_stream_decodes (fp : FloatOps) (model : MStudioModel) (bt : List Mat3x4)
    (s t : F32) (rest : Buffer) :
    readI16 (0 :: 128 :: 0 :: 0 :: rest) 0 = some (-32768) ∧
    runLengths (0 :: 128 :: 0 :: 0 :: rest) 2 0 = some [0] ∧
    (∀ fuel, meshLoop fp (0 :: 128 :: 0 :: 0 :: rest) model bt s t (fuel + 2) 0 [] []
      = some ([], [])) := by
  have h0 : readI16 (0 :: 128 :: 0 :: 0 :: rest) 0 = some (-32768) := by
    rw [readI16_cons_zero]
    decide
  have h2 : readI16 (0 :: 128 :: 0 :: 0 :: rest) 2 = some 0 := by
    rw [readI16_cons_two]
    decide
  refine ⟨h0, ?_, ?_⟩
  · have e : (0 : Int) + 2 + 8 * ((runCount (-32768) : Nat) : Int) = 2 := by
      rw [runCount_min]; rfl
    simp only [runLengths, h0, Option.bind_eq_bind, Option.some_bind, e, h2]
    simp [runCount_min]
  · intro fuel
    rw [meshLoop_min fp _ model bt s t (fuel + 1) 0 [] [] h0]
    have e2 : (0 : Int) + 2 = 2 := rfl
    rw [e2]
    simp only [meshLoop, h2, Option.bind_eq_bind, Option.some_bind, if_true, Option.pure_def]

/-- Claim C11 fails on the code at the run length `-32768`.  In `sampleWrapStream` the first
command is `-32768` and is followed by 32768 records and the terminator at byte 262146.
`static_cast<int16_t>(-i)` is `-32768` again, the vertex loop reads no record, and the
command loop takes the next word (the first field of the first record, `0`) as the end of the
stream: the stream decodes to a single run of 0 records with no triangle, where the claim
says a fan of 32768 records. -/
theorem C11_run_length_wrap :
    readI16 sampleWrapStream 0 = some (-32768) ∧
    negI16 (-32768) = -32768 ∧
    runCount (-32768) = 0 ∧
    runLengths sampleWrapStream 2 0 = some [0] ∧
    (∀ fuel, meshLoop sampleOps sampleWrapStream sampleModel [] F32.zero F32.zero (fuel + 2) 0
      [] [] = some ([], [])) := by
  rw [sampleWrapStream_eq]
  have h := wrap_stream_decodes sampleOps sampleModel [] F32.zero F32.zero
    (zeros 262142 ++ le16 0)
  exact ⟨h.1, by decide, by decide, h.2.1, h.2.2⟩

/-! ## The bounding box stored by the loader -/

/-- The bounds a returning load stores are those of `loadBounds`. -/
theorem LoadFromFile_bounds (fp : FloatOps) (self : StudioModelCpu) (files : Files)
    (header : StudioHdr) (r : Bool × StudioModelCpu)
    (hv : VerifyStudioFile files.main = true) (hh : readStudioHdr files.main = some header)
    (h : LoadFromFile fp self files = some r) :
    r.2.boundsMin = (loadBounds header files.main).1 ∧
      r.2.boundsMax = (loadBounds header files.main).2 := by
  rw [LoadFromFile_verified fp self files header hv hh] at h
  unfold loadVerified at h
  cases ht : loadTables fp header (textureSource header files).1 files.main
      (textureSource header files).2 with
  | none => simp [ht] at h
  | some tables =>
    simp only [ht, Option.some.injEq] at h
    subst h
    exact ⟨rfl, rfl⟩

/-- Claim C16, amended: bounding-box source.  After a load of a verified file, the model's
`boundsMin`/`boundsMax` are the `bbmin`/`bbmax` of the first sequence descriptor whenever the
header reports at least one sequence and the descriptor at `seqindex` lies inside the file
(`0 <= seqindex` and `seqindex + 176 <= size`), whether or not the header box is degenerate;
otherwise they are the header's `bbmin`/`bbmax`. -/
theorem C16_bounds_source (fp : FloatOps) (self : StudioModelCpu) (files : Files)
    (r : Bool × StudioModelCpu) (hv : VerifyStudioFile files.main = true)
    (h : LoadFromFile fp self files = some r) :
    ∃ header, readStudioHdr files.main = some header ∧
      (0 < header.numseq → 0 ≤ header.seqindex →
        header.seqindex + 176 ≤ (files.main.length : Int) →
        r.2.boundsMin = fieldVec3 files.main (header.seqindex + 96) ∧
        r.2.boundsMax = fieldVec3 files.main (header.seqindex + 108)) ∧
      ((header.numseq ≤ 0 ∨ header.seqindex < 0 ∨
          (files.main.length : Int) < header.seqindex + 176) →
        r.2.boundsMin = header.bbmin ∧ r.2.boundsMax = header.bbmax) := by
  obtain ⟨header, hh⟩ := readStudioHdr_of_verified files.main hv
  obtain ⟨hmin, hmax⟩ := LoadFromFile_bounds fp self files header r hv hh h
  refine ⟨header, hh, ?_, ?_⟩
  · intro hn h0 hlen
    have hp : PtrAtSeqDesc files.main header.seqindex =
        some { bbmin := fieldVec3 files.main (header.seqindex + 96),
               bbmax := fieldVec3 files.main (header.seqindex + 108) } := by
      unfold PtrAtSeqDesc sizeofMStudioSeqDesc
      rw [if_neg (by omega), if_neg (by push_cast; omega)]
    rw [hmin, hmax]
    unfold loadBounds
    rw [if_pos hn, hp]
    exact ⟨rfl, rfl⟩
  · intro hcase
    rw [hmin, hmax]
    unfold loadBounds
    by_cases hn : header.numseq > 0
    · have hp : PtrAtSeqDesc files.main header.seqindex = none := by
        unfold PtrAtSeqDesc sizeofMStudioSeqDesc
        by_cases h1 : header.seqindex < 0
        · rw [if_pos h1]
        · rw [if_neg h1, if_pos (by push_cast; omega)]
      rw [if_pos hn, hp]
      exact ⟨rfl, rfl⟩
    · rw [if_neg hn]
      exact ⟨rfl, rfl⟩

/-! ## Evaluation: the bounding box of a loaded file -/

set_option maxRecDepth 100000 in
/-- Claim C16 as stated fails.  The header of `sampleBoundsFile` has the box `(0,0,0)` -
`(1,1,1)`, not degenerate, and reports one sequence; the load succeeds and stores the box
`(2,2,2)` - `(3,3,3)` of the first sequence descriptor, not the header's. -/
theorem C16_counterexample :
    (readStudioHdr sampleBoundsFile).map (fun h => (h.bbmin, h.bbmax, h.numseq, h.seqindex))
      = some (⟨⟨0⟩, ⟨0⟩, ⟨0⟩⟩, ⟨F32.one, F32.one, F32.one⟩, 1, 244) ∧
    (LoadFromFile sampleOps StudioModelCpu.empty ⟨sampleBoundsFile, []⟩).map
      (fun r => (r.1, r.2.boundsMin, r.2.boundsMax))
      = some (true, ⟨F32.two, F32.two, F32.two⟩, ⟨⟨0x40400000⟩, ⟨0x40400000⟩, ⟨0x40400000⟩⟩) := by
  decide

set_option maxRecDepth 100000 in
theorem C16_bounds_source_witness :
    VerifyStudioFile sampleBoundsFile = true ∧
    ∃ r header, LoadFromFile sampleOps StudioModelCpu.empty ⟨sampleBoundsFile, []⟩ = some r ∧
      readStudioHdr sampleBoundsFile = some header ∧
      (0 < header.numseq → 0 ≤ header.seqindex →
        header.seqindex + 176 ≤ (sampleBoundsFile.length : Int) →
        r.2.boundsMin = fieldVec3 sampleBoundsFile (header.seqindex + 96) ∧
        r.2.boundsMax = fieldVec3 sampleBoundsFile (header.seqindex + 108)) := by
  have hv : VerifyStudioFile sampleBoundsFile = true := by decide
  have hs : (LoadFromFile sampleOps StudioModelCpu.empty ⟨sampleBoundsFile, []⟩).isSome
      = true := by decide
  refine ⟨hv, ?_⟩
  cases h : LoadFromFile sampleOps StudioModelCpu.empty ⟨sampleBoundsFile, []⟩ with
  | none => rw [h] at hs; cases hs
  | some r =>
    obtain ⟨header, hh, h1, _⟩ :=
      C16_bounds_source sampleOps StudioModelCpu.empty ⟨sampleBoundsFile, []⟩ r hv h
    exact ⟨r, header, rfl, hh, h1⟩

/-! ## Bone world transforms -/

theorem ancestor_add (bones : List MStudioBone) (i j b : Nat) :
    ancestor bones (i + j) b = (ancestor bones i b).bind (ancestor bones j) := by
  induction i generalizing b with
  | zero => simp [ancestor]
  | succ i ih =>
    rw [Nat.add_right_comm]
    simp only [ancestor]
    cases parentIndex bones b with
    | none => rfl
    | some p => simp [ih]

theorem parentIndex_lt (bones : List MStudioBone) (hpar : ParentsValid bones) (b p : Nat)
    (h : parentIndex bones b = some p) : p < bones.length := by
  unfold parentIndex at h
  cases hb : bones[b]? with
  | none => simp [hb] at h
  | some bone =>
    simp only [hb] at h
    obtain ⟨hlt, hget⟩ := List.getElem?_eq_some_iff.mp hb
    have hv := hpar b hlt
    rw [hget] at hv
    split at h
    · cases h
    · cases h; omega

theorem ancestor_lt (bones : List MStudioBone) (hpar : ParentsValid bones) :
    ∀ (k b c : Nat), b < bones.length → ancestor bones k b = some c → c < bones.length := by
  intro k
  induction k with
  | zero => intro b c hb h; simp [ancestor] at h; omega
  | succ k ih =>
    intro b c hb h
    simp only [ancestor] at h
    cases hp : parentIndex bones b with
    | none => simp [hp] at h
    | some p =>
      simp only [hp, Option.some_bind] at h
      exact ih p c (parentIndex_lt bones hpar b p hp) h

/-- In a well-formed bone array every chain of parent links reaches a root within
`numbones` links. -/
theorem ancestor_grounded (bones : List MStudioBone) (hpar : ParentsValid bones)
    (hacyc : Acyclic bones) (b : Nat) (hb : b < bones.length) :
    ancestor bones bones.length b = none := by
  by_contra hne
  obtain ⟨c, hc⟩ := Option.ne_none_iff_exists'.mp hne
  have hsome : ∀ i, i ≤ bones.length → ∃ a, ancestor bones i b = some a := by
    intro i hi
    cases ha : ancestor bones i b with
    | some a => exact ⟨a, rfl⟩
    | none =>
      have := ancestor_add bones i (bones.length - i) b
      rw [Nat.add_sub_cancel' hi, hc, ha] at this
      cases this
  let f : Fin (bones.length + 1) → Fin bones.length := fun i =>
    ⟨(ancestor bones i.val b).getD b, by
      obtain ⟨a, ha⟩ := hsome i.val (Nat.lt_succ_iff.mp i.isLt)
      rw [ha]
      exact ancestor_lt bones hpar i.val b a hb ha⟩
  obtain ⟨x, y, hxy, hf⟩ := Fintype.exists_ne_map_eq_of_card_lt f (by simp)
  have key : ∀ (i j : Nat), i < j → j ≤ bones.length →
      (ancestor bones i b).getD b = (ancestor bones j b).getD b → False := by
    intro i j hij hj heq
    obtain ⟨a, ha⟩ := hsome i (by omega)
    obtain ⟨a2, ha2⟩ := hsome j hj
    rw [ha, ha2] at heq
    simp only [Option.getD_some] at heq
    subst heq
    have hstep := ancestor_add bones i (j - i) b
    rw [Nat.add_sub_cancel' (Nat.le_of_lt hij), ha2, ha, Option.some_bind] at hstep
    obtain ⟨k, hk⟩ : ∃ k, j - i = k + 1 := ⟨j - i - 1, by omega⟩
    rw [hk] at hstep
    exact hacyc a (ancestor_lt bones hpar i b a hb ha) k (by omega) hstep.symm
  have hval : (ancestor bones x.val b).getD b = (ancestor bones y.val b).getD b := by
    have := congrArg Fin.val hf
    simpa [f] using this
  have hne2 : x.val ≠ y.val := fun h => hxy (Fin.ext h)
  rcases Nat.lt_or_gt_of_ne hne2 with hlt | hgt
  · exact key x.val y.val hlt (Nat.lt_succ_iff.mp y.isLt) hval
  · exact key y.val x.val hgt (Nat.lt_succ_iff.mp x.isLt) hval.symm

theorem ancestor_succ_none (bones : List MStudioBone) (k b : Nat)
    (h : ancestor bones k b = none) : ancestor bones (k + 1) b = none := by
  rw [ancestor_add, h]; rfl

theorem ancestor_parent (bones : List MStudioBone) (k b : Nat) (bone : MStudioBone)
    (hb : bones[b]? = some bone) (hp : ¬ bone.parent < 0) :
    ancestor bones (k + 1) b = ancestor bones k bone.parent.toNat := by
  simp [ancestor, parentIndex, hb, hp]

theorem chainWorld_mono (fp : FloatOps) (bones : List MStudioBone) :
    ∀ (fuel b : Nat) (w : Mat3x4), chainWorld fp bones fuel b = some w →
      chainWorld fp bones (fuel + 1) b = some w := by
  intro fuel
  induction fuel with
  | zero => intro b w h; simp [chainWorld] at h
  | succ fuel ih =>
    intro b w h
    rw [chainWorld] at h ⊢
    cases hb : bones[b]? with
    | none => simp [hb] at h
    | some bone =>
      simp only [hb] at h ⊢
      by_cases hp : bone.parent < 0
      · simpa [hp] using h
      · simp only [hp, if_false] at h ⊢
        cases hw : chainWorld fp bones fuel bone.parent.toNat with
        | none => simp [hw] at h
        | some wp =>
          rw [ih _ wp hw]
          rw [hw] at h
          exact h

theorem chainWorld_some (fp : FloatOps) (bones : List MStudioBone)
    (hpar : ParentsValid bones) :
    ∀ (fuel b : Nat), b < bones.length → ancestor bones fuel b = none →
      ∃ w, chainWorld fp bones fuel b = some w := by
  intro fuel
  induction fuel with
  | zero => intro b _ h; simp [ancestor] at h
  | succ fuel ih =>
    intro b hb h
    have hget : bones[b]? = some bones[b] := List.getElem?_eq_getElem hb
    rw [chainWorld]
    simp only [hget]
    by_cases hp : bones[b].parent < 0
    · exact ⟨boneLocal fp bones[b], by simp [hp]⟩
    · rw [ancestor_parent bones fuel b _ hget hp] at h
      have hlt : bones[b].parent.toNat < bones.length := by
        have := hpar b hb; omega
      obtain ⟨w, hw⟩ := ih _ hlt h
      exact ⟨ConcatTransforms fp w (boneLocal fp bones[b]), by simp [hp, hw]⟩

/-- The recurrence of the world transforms at the fixed bound `numbones`. -/
theorem chainWorld_step (fp : FloatOps) (bones : List MStudioBone)
    (hpar : ParentsValid bones) (hacyc : Acyclic bones) (b : Nat) (hb : b < bones.length) :
    chainWorld fp bones bones.length b =
      if bones[b].parent < 0 then some (boneLocal fp bones[b])
      else (chainWorld fp bones bones.length bones[b].parent.toNat).map
        (fun w => ConcatTransforms fp w (boneLocal fp bones[b])) := by
  have hget : bones[b]? = some bones[b] := List.getElem?_eq_getElem hb
  obtain ⟨m, hm⟩ : ∃ m, bones.length = m + 1 := ⟨bones.length - 1, by omega⟩
  have hg := ancestor_grounded bones hpar hacyc b hb
  rw [hm] at hg ⊢
  rw [chainWorld]
  simp only [hget]
  by_cases hp : bones[b].parent < 0
  · simp [hp]
  · simp only [hp, if_false]
    rw [ancestor_parent bones m b _ hget hp] at hg
    have hlt : bones[b].parent.toNat < bones.length := by
      have := hpar b hb; omega
    obtain ⟨w, hw⟩ := chainWorld_some fp bones hpar m _ hlt hg
    rw [hw, chainWorld_mono fp bones m _ w hw]

theorem boneChain_ne_nil (fp : FloatOps) (bones : List MStudioBone) (fuel b : Nat) :
    boneChain fp bones fuel b ≠ some [] := by
  cases fuel with
  | zero => simp [boneChain]
  | succ fuel =>
    rw [boneChain]
    cases hb : bones[b]? with
    | none => simp
    | some bone =>
      simp only []
      by_cases hp : bone.parent < 0
      · simp [hp]
      · simp only [hp, if_false]
        cases boneChain fp bones fuel bone.parent.toNat with
        | none => simp
        | some c => simp

/-- The recurrence and the ordered composition along the chain agree. -/
theorem chainWorld_eq_compose (fp : FloatOps) (bones : List MStudioBone) :
    ∀ (fuel b : Nat), chainWorld fp bones fuel b =
      (boneChain fp bones fuel b).bind (composeChain fp) := by
  intro fuel
  induction fuel with
  | zero => intro b; rfl
  | succ fuel ih =>
    intro b
    rw [chainWorld, boneChain]
    cases hb : bones[b]? with
    | none => rfl
    | some bone =>
      simp only []
      by_cases hp : bone.parent < 0
      · simp [hp, composeChain]
      · simp only [hp, if_false]
        rw [ih]
        cases hc : boneChain fp bones fuel bone.parent.toNat with
        | none => rfl
        | some c =>
          cases c with
          | nil => exact absurd hc (boneChain_ne_nil fp bones fuel _)
          | cons m ms => simp [composeChain, List.foldl_append]

theorem localLoop_spec (fp : FloatOps) (header : StudioHdr) (base : Buffer)
    (bones : List MStudioBone) (hat : BonesAt header base bones) :
    ∀ (k i : Nat) (acc : List Mat3x4), i + k ≤ bones.length →
      localLoop fp header base k (i : Int) acc =
        some (acc ++ ((bones.drop i).take k).map (boneLocal fp)) := by
  intro k
  induction k with
  | zero => intro i acc _; simp [localLoop]
  | succ k ih =>
    intro i acc hik
    have hi : i < bones.length := by omega
    rw [localLoop, hat.2 i hi]
    simp only [Option.bind_eq_bind, Option.some_bind]
    have hcast : ((i : Int) + 1) = ((i + 1 : Nat) : Int) := by push_cast; rfl
    rw [hcast, ih (i + 1) _ (by omega), List.drop_eq_getElem_cons hi]
    simp only [List.take_succ_cons, List.map_cons, List.append_assoc, List.singleton_append]

theorem BuildInv_set (W : Nat → Option Mat3x4) (n : Nat) (st : BuildState) (b : Nat)
    (w : Mat3x4) (hinv : BuildInv W n st) (hb : b < n) (hw : W b = some w) :
    BuildInv W n ⟨st.out.set b w, st.built.set b true⟩ ∧
      (∀ i, st.built.getD i false = true → (st.built.set b true).getD i false = true) ∧
      (st.built.set b true).getD b false = true := by
  obtain ⟨hol, hbl, hW⟩ := hinv
  have hget : ∀ i, (st.built.set b true).getD i false =
      if i = b then true else st.built.getD i false := by
    intro i
    by_cases hib : i = b
    · subst hib
      simp [List.getD_eq_getElem?_getD, List.getElem?_set, hbl, hb]
    · have hbi : ¬ b = i := fun h => hib h.symm
      simp [List.getD_eq_getElem?_getD, List.getElem?_set, hib, hbi]
  refine ⟨⟨by simp [hol], by simp [hbl], ?_⟩, ?_, ?_⟩
  · intro i hi
    simp only [hget] at hi
    by_cases hib : i = b
    · subst hib
      simp [List.getElem?_set, hol, hb, hw]
    · have hbi : ¬ b = i := fun h => hib h.symm
      simp only [hib, if_false] at hi
      simp only [List.getElem?_set, hbi, if_false]
      exact hW i hi
  · intro i hi
    rw [hget]
    by_cases hib : i = b
    · rw [if_pos hib]
    · rw [if_neg hib]; exact hi
  · rw [hget]; simp

/-- On a well-formed bone array `build` returns for every bone whose chain fits in the
recursion bound, keeps the invariant, and marks the bone as built. -/
theorem build_spec (fp : FloatOps) (header : StudioHdr) (base : Buffer)
    (bones : List MStudioBone) (hat : BonesAt header base bones)
    (hpar : ParentsValid bones) (hacyc : Acyclic bones) :
    ∀ (fuel b : Nat) (st : BuildState), b < bones.length → ancestor bones fuel b = none →
      BuildInv (chainWorld fp bones bones.length) bones.length st →
      ∃ st1, build fp header base (bones.map (boneLocal fp)) fuel (b : Int) st = some st1 ∧
        BuildInv (chainWorld fp bones bones.length) bones.length st1 ∧
        (∀ i, st.built.getD i false = true → st1.built.getD i false = true) ∧
        st1.built.getD b false = true := by
  intro fuel
  induction fuel with
  | zero => intro b st _ h; simp [ancestor] at h
  | succ fuel ih =>
    intro b st hb hanc hinv
    have hn := hat.1
    have hrange : ¬ ((b : Int) < 0 ∨ (b : Int) ≥ header.numbones) := by rw [hn]; omega
    have hget : bones[b]? = some bones[b] := List.getElem?_eq_getElem hb
    have hloc : (bones.map (boneLocal fp)).getD b Mat3x4.zero = boneLocal fp bones[b] := by
      simp [List.getD_eq_getElem?_getD, hget]
    have hstep := chainWorld_step fp bones hpar hacyc b hb
    rw [build, if_neg hrange]
    simp only [Int.toNat_ofNat]
    by_cases hbuilt : st.built.getD b false = true
    · rw [if_pos hbuilt]
      exact ⟨st, rfl, hinv, fun i h => h, hbuilt⟩
    · rw [if_neg hbuilt, hat.2 b hb]
      simp only [Option.bind_eq_bind, Option.some_bind, hloc]
      by_cases hp : bones[b].parent < 0
      · rw [if_pos hp]
        rw [if_pos hp] at hstep
        obtain ⟨h1, h2, h3⟩ := BuildInv_set _ _ st b _ hinv hb hstep
        exact ⟨_, rfl, h1, h2, h3⟩
      · rw [if_neg hp]
        rw [if_neg hp] at hstep
        rw [ancestor_parent bones fuel b _ hget hp] at hanc
        have hlt : bones[b].parent.toNat < bones.length := by
          have := hpar b hb; omega
        have hcast : bones[b].parent = ((bones[b].parent.toNat : Nat) : Int) := by omega
        obtain ⟨st1, hrun, hinv1, hmono1, hbuilt1⟩ := ih _ st hlt hanc hinv
        rw [← hcast] at hrun
        rw [hrun]
        simp only [Option.some_bind]
        have hnot : ¬ bones[b].parent ≥ header.numbones := by rw [hn]; omega
        rw [if_neg hnot]
        have hout := hinv1.2.2 _ hbuilt1
        obtain ⟨wp, hwp⟩ : ∃ wp, st1.out[bones[b].parent.toNat]? = some wp := by
          have : bones[b].parent.toNat < st1.out.length := by rw [hinv1.1]; exact hlt
          exact ⟨_, List.getElem?_eq_getElem this⟩
        have hgetD : st1.out.getD bones[b].parent.toNat Mat3x4.zero = wp := by
          simp [List.getD_eq_getElem?_getD, hwp]
        rw [← hout, hwp] at hstep
        simp only [Option.map_some'] at hstep
        rw [hgetD]
        obtain ⟨h1, h2, h3⟩ := BuildInv_set _ _ st1 b _ hinv1 hb hstep
        exact ⟨_, rfl, h1, fun i h => h2 i (hmono1 i h), h3⟩

theorem buildAll_spec (fp : FloatOps) (header : StudioHdr) (base : Buffer)
    (bones : List MStudioBone) (hat : BonesAt header base bones)
    (hpar : ParentsValid bones) (hacyc : Acyclic bones) :
    ∀ (k i : Nat) (st : BuildState), i + k ≤ bones.length →
      BuildInv (chainWorld fp bones bones.length) bones.length st →
      (∀ j, j < i → st.built.getD j false = true) →
      ∃ st1, buildAll fp header base (bones.map (boneLocal fp)) k (i : Int) st = some st1 ∧
        BuildInv (chainWorld fp bones bones.length) bones.length st1 ∧
        ∀ j, j < i + k → st1.built.getD j false = true := by
  intro k
  induction k with
  | zero => intro i st _ hinv hdone; exact ⟨st, rfl, hinv, hdone⟩
  | succ k ih =>
    intro i st hik hinv hdone
    have hi : i < bones.length := by omega
    have hfuel : header.numbones.toNat + 1 = bones.length + 1 := by rw [hat.1]; simp
    have hanc : ancestor bones (bones.length + 1) i = none :=
      ancestor_succ_none bones _ i (ancestor_grounded bones hpar hacyc i hi)
    obtain ⟨st1, hrun, hinv1, hmono, hbuilt⟩ :=
      build_spec fp header base bones hat hpar hacyc (bones.length + 1) i st hi hanc hinv
    rw [buildAll, hfuel, hrun]
    simp only [Option.bind_eq_bind, Option.some_bind]
    have hcast : ((i : Int) + 1) = ((i + 1 : Nat) : Int) := by push_cast; rfl
    rw [hcast]
    have hdone1 : ∀ j, j < i + 1 → st1.built.getD j false = true := by
      intro j hj
      by_cases hji : j = i
      · rw [hji]; exact hbuilt
      · exact hmono j (hdone j (by omega))
    obtain ⟨st2, hrun2, hinv2, hall⟩ := ih (i + 1) st1 (by omega) hinv1 hdone1
    exact ⟨st2, hrun2, hinv2, fun j hj => hall j (by omega)⟩

/-- On a well-formed bone table `ComputeDefaultBoneTransforms` returns one transform per
bone, the one given by the recurrence `chainWorld`. -/
theorem ComputeDefaultBoneTransforms_spec (fp : FloatOps) (header : StudioHdr) (base : Buffer)
    (bones : List MStudioBone) (hat : BonesAt header base bones)
    (hpar : ParentsValid bones) (hacyc : Acyclic bones) :
    ∃ world, ComputeDefaultBoneTransforms fp header base = some world ∧
      world.length = bones.length ∧
      ∀ b, b < bones.length → world[b]? = chainWorld fp bones bones.length b := by
  unfold ComputeDefaultBoneTransforms
  by_cases h0 : header.numbones ≤ 0
  · have hlen : bones.length = 0 := by have := hat.1; omega
    rw [if_pos h0]
    exact ⟨[], rfl, hlen.symm, fun b hb => by omega⟩
  · have hnat : header.numbones.toNat = bones.length := by rw [hat.1]; simp
    rw [if_neg h0, hnat]
    have hloc := localLoop_spec fp header base bones hat bones.length 0 [] (by omega)
    simp only [List.drop_zero, List.take_length, List.nil_append] at hloc
    have hloc2 : localLoop fp header base bones.length 0 [] =
        some (bones.map (boneLocal fp)) := by exact_mod_cast hloc
    have hinv0 : BuildInv (chainWorld fp bones bones.length) bones.length
        ⟨List.replicate bones.length Mat3x4.zero, List.replicate bones.length false⟩ := by
      refine ⟨by simp, by simp, ?_⟩
      intro i hi
      exfalso
      simp only [List.getD_eq_getElem?_getD, List.getElem?_replicate] at hi
      split at hi <;> simp at hi
    obtain ⟨st1, hrun, hinv1, hall⟩ :=
      buildAll_spec fp header base bones hat hpar hacyc bones.length 0 _ (by omega) hinv0
        (fun j hj => by omega)
    have hrun2 : buildAll fp header base (bones.map (boneLocal fp)) bones.length 0
        ⟨List.replicate bones.length Mat3x4.zero, List.replicate bones.length false⟩ =
        some st1 := by exact_mod_cast hrun
    rw [hloc2]
    simp only [Option.bind_eq_bind, Option.some_bind]
    rw [hrun2]
    simp only [Option.some_bind]
    refine ⟨st1.out, rfl, hinv1.1, ?_⟩
    intro b hb
    exact hinv1.2.2 b (hall b (by omega))

/-- Claim C12: bone world transforms.  For a bone table in which every parent index is
negative or a valid index and the parent links are acyclic, `ComputeDefaultBoneTransforms`
returns one transform per bone, in input order: the local transform for a root bone,
`ConcatTransforms(world[parent[b]], local[b])` otherwise, which is the ordered composition
of the local transforms on the chain from the root of `b` down to `b`. -/
theorem C12_bone_world (fp : FloatOps) (header : StudioHdr) (base : Buffer)
    (bones : List MStudioBone) (hat : BonesAt header base bones)
    (hpar : ParentsValid bones) (hacyc : Acyclic bones) :
    ∃ world, ComputeDefaultBoneTransforms fp header base = some world ∧
      world.length = bones.length ∧
      ∀ b, (hb : b < bones.length) →
        (bones[b].parent < 0 → world[b]? = some (boneLocal fp bones[b])) ∧
        (0 ≤ bones[b].parent →
          ∃ wp, world[bones[b].parent.toNat]? = some wp ∧
            world[b]? = some (ConcatTransforms fp wp (boneLocal fp bones[b]))) ∧
        world[b]? = (boneChain fp bones bones.length b).bind (composeChain fp) := by
  obtain ⟨world, hrun, hlen, hw⟩ :=
    ComputeDefaultBoneTransforms_spec fp header base bones hat hpar hacyc
  refine ⟨world, hrun, hlen, ?_⟩
  intro b hb
  have hstep := chainWorld_step fp bones hpar hacyc b hb
  refine ⟨?_, ?_, ?_⟩
  · intro hp
    rw [hw b hb, hstep, if_pos hp]
  · intro hp
    have hlt : bones[b].parent.toNat < bones.length := by
      have := hpar b hb; omega
    have hplen : bones[b].parent.toNat < world.length := by rw [hlen]; exact hlt
    refine ⟨world[bones[b].parent.toNat], List.getElem?_eq_getElem hplen, ?_⟩
    rw [hw b hb, hstep, if_neg (by omega), ← hw _ hlt, List.getElem?_eq_getElem hplen]
    rfl
  · rw [hw b hb, chainWorld_eq_compose]

set_option maxRecDepth 100000 in
theorem C12_bone_world_witness :
    BonesAt (sampleBoneHeader 3) sampleBoneFile sampleBones ∧
    ParentsValid sampleBones ∧ Acyclic sampleBones ∧
    ∃ world, ComputeDefaultBoneTransforms sampleOps (sampleBoneHeader 3) sampleBoneFile
        = some world ∧
      world.length = sampleBones.length ∧
      ∀ b, (hb : b < sampleBones.length) →
        (sampleBones[b].parent < 0 → world[b]? = some (boneLocal sampleOps sampleBones[b])) ∧
        (0 ≤ sampleBones[b].parent →
          ∃ wp, world[sampleBones[b].parent.toNat]? = some wp ∧
            world[b]? = some (ConcatTransforms sampleOps wp (boneLocal sampleOps sampleBones[b]))) ∧
        world[b]? = (boneChain sampleOps sampleBones sampleBones.length b).bind
          (composeChain sampleOps) := by
  have hat : BonesAt (sampleBoneHeader 3) sampleBoneFile sampleBones := by decide
  have hpar : ParentsValid sampleBones := by decide
  have hacyc : Acyclic sampleBones := by decide
  exact ⟨hat, hpar, hacyc,
    C12_bone_world sampleOps (sampleBoneHeader 3) sampleBoneFile sampleBones hat hpar hacyc⟩

/-! ## Order independence of the bone resolution -/

theorem Renumbered_surj (bones bones2 : List MStudioBone) (σ : Nat → Nat)
    (hren : Renumbered bones bones2 σ) (j : Nat) (hj : j < bones.length) :
    ∃ b, b < bones.length ∧ σ b = j := by
  obtain ⟨_, hlt, hinj, _⟩ := hren
  let f : Fin bones.length → Fin bones.length := fun b => ⟨σ b.val, hlt b.val b.isLt⟩
  have hf : Function.Injective f := by
    intro a b hab
    have := congrArg Fin.val hab
    exact Fin.ext (hinj a.val a.isLt b.val b.isLt this)
  obtain ⟨b, hb⟩ := Finite.injective_iff_surjective.mp hf ⟨j, hj⟩
  exact ⟨b.val, b.isLt, congrArg Fin.val hb⟩

theorem boneLocal_renumber (fp : FloatOps) (σ : Nat → Nat) (bone : MStudioBone) :
    boneLocal fp (renumberBone σ bone) = boneLocal fp bone := rfl

theorem parentIndex_renumbered (bones bones2 : List MStudioBone) (σ : Nat → Nat)
    (hren : Renumbered bones bones2 σ) (b : Nat) (hb : b < bones.length) :
    parentIndex bones2 (σ b) = (parentIndex bones b).map σ := by
  have hget : bones[b]? = some bones[b] := List.getElem?_eq_getElem hb
  unfold parentIndex
  rw [hren.2.2.2 b hb, hget]
  simp only [renumberBone]
  by_cases hp : bones[b].parent < 0
  · simp [hp]
  · have : ¬ ((σ bones[b].parent.toNat : Nat) : Int) < 0 := by omega
    simp [hp]

theorem ancestor_renumbered (bones bones2 : List MStudioBone) (σ : Nat → Nat)
    (hpar : ParentsValid bones) (hren : Renumbered bones bones2 σ) :
    ∀ (k b : Nat), b < bones.length →
      ancestor bones2 k (σ b) = (ancestor bones k b).map σ := by
  intro k
  induction k with
  | zero => intro b _; rfl
  | succ k ih =>
    intro b hb
    simp only [ancestor]
    rw [parentIndex_renumbered bones bones2 σ hren b hb]
    cases hp : parentIndex bones b with
    | none => rfl
    | some p =>
      simp only [Option.map_some', Option.some_bind]
      exact ih p (parentIndex_lt bones hpar b p hp)

theorem ParentsValid_renumbered (bones bones2 : List MStudioBone) (σ : Nat → Nat)
    (hpar : ParentsValid bones) (hren : Renumbered bones bones2 σ) :
    ParentsValid bones2 := by
  intro j hj
  have hj1 : j < bones.length := by rw [← hren.1]; exact hj
  obtain ⟨b, hb, hσ⟩ := Renumbered_surj bones bones2 σ hren j hj1
  have h1 := hren.2.2.2 b hb
  rw [hσ, List.getElem?_eq_getElem hj] at h1
  have h2 : bones2[j] = renumberBone σ bones[b] := Option.some.inj h1
  rw [h2, hren.1]
  simp only [renumberBone]
  have hv := hpar b hb
  by_cases hp : bones[b].parent < 0
  · rw [if_pos hp]; omega
  · rw [if_neg hp]
    have hlt : bones[b].parent.toNat < bones.length := by omega
    exact_mod_cast hren.2.1 _ hlt

theorem Acyclic_renumbered (bones bones2 : List MStudioBone) (σ : Nat → Nat)
    (hpar : ParentsValid bones) (hacyc : Acyclic bones) (hren : Renumbered bones bones2 σ) :
    Acyclic bones2 := by
  intro j hj k hk hcyc
  rw [hren.1] at hj hk
  obtain ⟨b, hb, hσ⟩ := Renumbered_surj bones bones2 σ hren j hj
  rw [← hσ, ancestor_renumbered bones bones2 σ hpar hren (k + 1) b hb] at hcyc
  cases ha : ancestor bones (k + 1) b with
  | none => rw [ha] at hcyc; cases hcyc
  | some c =>
    rw [ha] at hcyc
    simp only [Option.map_some', Option.some.injEq] at hcyc
    have hc := ancestor_lt bones hpar (k + 1) b c hb ha
    have hcb : c = b := hren.2.2.1 c hc b hb hcyc
    rw [hcb] at ha
    exact hacyc b hb k hk ha

theorem chainWorld_renumbered (fp : FloatOps) (bones bones2 : List MStudioBone)
    (σ : Nat → Nat) (hpar : ParentsValid bones) (hren : Renumbered bones bones2 σ) :
    ∀ (fuel b : Nat), b < bones.length →
      chainWorld fp bones2 fuel (σ b) = chainWorld fp bones fuel b := by
  intro fuel
  induction fuel with
  | zero => intro b _; rfl
  | succ fuel ih =>
    intro b hb
    have hget : bones[b]? = some bones[b] := List.getElem?_eq_getElem hb
    rw [chainWorld, chainWorld, hren.2.2.2 b hb, hget]
    simp only [boneLocal_renumber]
    have hv := hpar b hb
    by_cases hp : bones[b].parent < 0
    · have hp2 : (renumberBone σ bones[b]).parent < 0 := by simp [renumberBone, hp]
      rw [if_pos hp, if_pos hp2]
    · have hlt : bones[b].parent.toNat < bones.length := by omega
      have hpe : (renumberBone σ bones[b]).parent =
          ((σ bones[b].parent.toNat : Nat) : Int) := by simp [renumberBone, hp]
      have hp2 : ¬ (renumberBone σ bones[b]).parent < 0 := by rw [hpe]; omega
      rw [if_neg hp, if_neg hp2, hpe, Int.toNat_ofNat, ih _ hlt]

/-- Claim C13: bone resolution is order-independent.  For a well-formed bone table and a
permutation `σ` of it in which parent references are renumbered consistently,
`ComputeDefaultBoneTransforms` returns for position `σ b` of the permuted table the world
transform it returns for bone `b` of the original table. -/
theorem C13_order_independent (fp : FloatOps) (header header2 : StudioHdr)
    (base base2 : Buffer) (bones bones2 : List MStudioBone) (σ : Nat → Nat)
    (hat : BonesAt header base bones) (hat2 : BonesAt header2 base2 bones2)
    (hpar : ParentsValid bones) (hacyc : Acyclic bones)
    (hren : Renumbered bones bones2 σ) :
    ∃ world world2,
      ComputeDefaultBoneTransforms fp header base = some world ∧
      ComputeDefaultBoneTransforms fp header2 base2 = some world2 ∧
      world.length = bones.length ∧ world2.length = bones.length ∧
      ∀ b, b < bones.length → world2[σ b]? = world[b]? := by
  obtain ⟨world, hrun, hlen, hw⟩ :=
    ComputeDefaultBoneTransforms_spec fp header base bones hat hpar hacyc
  obtain ⟨world2, hrun2, hlen2, hw2⟩ :=
    ComputeDefaultBoneTransforms_spec fp header2 base2 bones2 hat2
      (ParentsValid_renumbered bones bones2 σ hpar hren)
      (Acyclic_renumbered bones bones2 σ hpar hacyc hren)
  refine ⟨world, world2, hrun, hrun2, hlen, by rw [hlen2, hren.1], ?_⟩
  intro b hb
  have hσ : σ b < bones2.length := by rw [hren.1]; exact hren.2.1 b hb
  rw [hw2 _ hσ, hw b hb, hren.1]
  exact chainWorld_renumbered fp bones bones2 σ hpar hren bones.length b hb

set_option maxRecDepth 100000 in
theorem C13_order_independent_witness :
    BonesAt (sampleBoneHeader 3) sampleBoneFile sampleBones ∧
    BonesAt (sampleBoneHeader 3) sampleShiftedBoneFile sampleShiftedBones ∧
    ParentsValid sampleBones ∧ Acyclic sampleBones ∧
    Renumbered sampleBones sampleShiftedBones sampleShift ∧
    ∃ world world2,
      ComputeDefaultBoneTransforms sampleOps (sampleBoneHeader 3) sampleBoneFile
        = some world ∧
      ComputeDefaultBoneTransforms sampleOps (sampleBoneHeader 3) sampleShiftedBoneFile
        = some world2 ∧
      world.length = sampleBones.length ∧ world2.length = sampleBones.length ∧
      ∀ b, b < sampleBones.length → world2[sampleShift b]? = world[b]? := by
  have hat : BonesAt (sampleBoneHeader 3) sampleBoneFile sampleBones := by decide
  have hat2 : BonesAt (sampleBoneHeader 3) sampleShiftedBoneFile sampleShiftedBones := by
    decide
  have hpar : ParentsValid sampleBones := by decide
  have hacyc : Acyclic sampleBones := by decide
  have hren : Renumbered sampleBones sampleShiftedBones sampleShift := by decide
  exact ⟨hat, hat2, hpar, hacyc, hren,
    C13_order_independent sampleOps (sampleBoneHeader 3) (sampleBoneHeader 3)
      sampleBoneFile sampleShiftedBoneFile sampleBones sampleShiftedBones sampleShift
      hat hat2 hpar hacyc hren⟩

/-! ## Malformed bone hierarchies -/

set_option maxRecDepth 100000 in
/-- On the cyclic table the recursion of `build` does not return, whatever the bound. -/
theorem build_cycle (loc : List Mat3x4) :
    ∀ (fuel : Nat) (st : BuildState),
      st.built.getD 0 false = false → st.built.getD 1 false = false →
      build sampleOps (sampleBoneHeader 2) sampleCycleFile loc fuel 0 st = none ∧
      build sampleOps (sampleBoneHeader 2) sampleCycleFile loc fuel 1 st = none := by
  have h0 : readMStudioBone sampleCycleFile ((sampleBoneHeader 2).boneindex + 112 * 0) =
      some ⟨1, F32.zero, F32.zero, F32.zero, F32.zero, F32.zero, F32.zero⟩ := by decide
  have h1 : readMStudioBone sampleCycleFile ((sampleBoneHeader 2).boneindex + 112 * 1) =
      some ⟨0, F32.zero, F32.zero, F32.zero, F32.zero, F32.zero, F32.zero⟩ := by decide
  have hr0 : ¬ ((0 : Int) < 0 ∨ (0 : Int) ≥ (sampleBoneHeader 2).numbones) := by decide
  have hr1 : ¬ ((1 : Int) < 0 ∨ (1 : Int) ≥ (sampleBoneHeader 2).numbones) := by decide
  intro fuel
  induction fuel with
  | zero => intro st _ _; exact ⟨rfl, rfl⟩
  | succ fuel ih =>
    intro st hb0 hb1
    obtain ⟨ih0, ih1⟩ := ih st hb0 hb1
    have t0 : (0 : Int).toNat = 0 := rfl
    have t1 : (1 : Int).toNat = 1 := rfl
    constructor
    · rw [build, if_neg hr0, t0, hb0, h0]
      simp only [Option.bind_eq_bind, Option.some_bind]
      rw [if_neg (show ¬ ((1 : Int) < 0) by decide), ih1]
      rfl
    · rw [build, if_neg hr1, t1, hb1, h1]
      simp only [Option.bind_eq_bind, Option.some_bind]
      rw [if_neg (show ¬ ((0 : Int) < 0) by decide), ih0]
      rfl

set_option maxRecDepth 100000 in
/-- On the table whose only bone names the parent 1, `build` reads `out[1]` of a one-entry
vector, whatever the bound. -/
theorem build_orphan (loc : List Mat3x4) (st : BuildState)
    (hb0 : st.built.getD 0 false = false) :
    ∀ (fuel : Nat),
      build sampleOps (sampleBoneHeader 1) sampleOrphanFile loc fuel 0 st = none := by
  have h0 : readMStudioBone sampleOrphanFile ((sampleBoneHeader 1).boneindex + 112 * 0) =
      some ⟨1, F32.zero, F32.zero, F32.zero, F32.zero, F32.zero, F32.zero⟩ := by decide
  have hr0 : ¬ ((0 : Int) < 0 ∨ (0 : Int) ≥ (sampleBoneHeader 1).numbones) := by decide
  have hr1 : ((1 : Int) < 0 ∨ (1 : Int) ≥ (sampleBoneHeader 1).numbones) := by decide
  have t0 : (0 : Int).toNat = 0 := rfl
  intro fuel
  cases fuel with
  | zero => rfl
  | succ fuel =>
    rw [build, if_neg hr0, t0, hb0, h0]
    simp only [Option.bind_eq_bind, Option.some_bind]
    rw [if_neg (show ¬ ((1 : Int) < 0) by decide)]
    cases fuel with
    | zero => rfl
    | succ fuel =>
      rw [build, if_pos hr1]
      simp only [Option.some_bind]
      rw [if_pos (show (1 : Int) ≥ (sampleBoneHeader 1).numbones by decide)]
      rfl

set_option maxRecDepth 100000 in
/-- Claim C14 fails on the code.  `sampleCycleFile` passes header validation and its two
bones name each other as parent: the recursion of `build` never returns, whatever bound is
put on its depth, and neither `ComputeDefaultBoneTransforms` nor the load produces a result
or an error.  `sampleOrphanFile` has one bone with parent index 1, the bone count: `build`
reads `out[1]`, outside the vector. -/
theorem C14_unguarded_hierarchy :
    VerifyStudioFile sampleCycleFile = true ∧
    BonesAt (sampleBoneHeader 2) sampleCycleFile sampleCycleBones ∧
    ParentsValid sampleCycleBones ∧ ¬ Acyclic sampleCycleBones ∧
    (∀ fuel loc, build sampleOps (sampleBoneHeader 2) sampleCycleFile loc fuel 0
        ⟨List.replicate 2 Mat3x4.zero, List.replicate 2 false⟩ = none) ∧
    (ComputeDefaultBoneTransforms sampleOps (sampleBoneHeader 2) sampleCycleFile).isSome
      = false ∧
    (LoadFromFile sampleOps StudioModelCpu.empty ⟨sampleCycleFile, []⟩).isSome = false ∧
    VerifyStudioFile sampleOrphanFile = true ∧
    BonesAt (sampleBoneHeader 1) sampleOrphanFile sampleOrphanBones ∧
    ¬ ParentsValid sampleOrphanBones ∧
    (∀ fuel loc, build sampleOps (sampleBoneHeader 1) sampleOrphanFile loc fuel 0
        ⟨List.replicate 1 Mat3x4.zero, List.replicate 1 false⟩ = none) ∧
    (ComputeDefaultBoneTransforms sampleOps (sampleBoneHeader 1) sampleOrphanFile).isSome
      = false ∧
    (LoadFromFile sampleOps StudioModelCpu.empty ⟨sampleOrphanFile, []⟩).isSome = false := by
  refine ⟨by decide, by decide, by decide, by decide, ?_, by decide, by decide,
    by decide, by decide, by decide, ?_, by decide, by decide⟩
  · intro fuel loc
    exact (build_cycle loc fuel ⟨List.replicate 2 Mat3x4.zero, List.replicate 2 false⟩
      rfl rfl).1
  · intro fuel loc
    exact build_orphan loc ⟨List.replicate 1 Mat3x4.zero, List.replicate 1 false⟩ rfl fuel

/-! ## Euler angles over exact arithmetic -/

/-- The single-precision `AngleQuaternion` is `AngleQuaternionOver` at the operations of the
float unit. -/
theorem AngleQuaternion_over (fp : FloatOps) (a : Vec3f) :
    AngleQuaternion fp a =
      (let q := AngleQuaternionOver fp.mul fp.add fp.sub fp.sin fp.cos F32.half a.x a.y a.z
       ({ x := q.x, y := q.y, z := q.z, w := q.w } : Quat4f)) := rfl

/-- Claim C15: Euler-angle composition order.  For every float unit and every angle triple,
`AngleQuaternion` is the expression `AngleQuaternionOver` evaluated with the products, sums,
differences, sines and cosines of the float unit and the constant `0.5f`; and for every
angle triple `(x, y, z)` that same expression evaluated over exact real arithmetic is the
Hamilton product `qz * qy * qx` of the half-angle rotation quaternions about Z by `z`, about
Y by `y` and about X by `x`, and has unit norm. -/
theorem C15_angle_quaternion (fp : FloatOps) (a : Vec3f) (x y z : ℝ) :
    AngleQuaternion fp a =
      (let q := AngleQuaternionOver fp.mul fp.add fp.sub fp.sin fp.cos F32.half a.x a.y a.z
       ({ x := q.x, y := q.y, z := q.z, w := q.w } : Quat4f)) ∧
    (let q := AngleQuaternionOver (fun a b : ℝ => a * b) (fun a b => a + b) (fun a b => a - b)
        Real.sin Real.cos (1 / 2) x y z
     ((⟨q.w, q.x, q.y, q.z⟩ : Quaternion ℝ) =
        (⟨Real.cos (z / 2), 0, 0, Real.sin (z / 2)⟩ : Quaternion ℝ) *
        (⟨Real.cos (y / 2), 0, Real.sin (y / 2), 0⟩ : Quaternion ℝ) *
        (⟨Real.cos (x / 2), Real.sin (x / 2), 0, 0⟩ : Quaternion ℝ)) ∧
      q.x ^ 2 + q.y ^ 2 + q.z ^ 2 + q.w ^ 2 = 1) := by
  refine ⟨AngleQuaternion_over fp a, ?_⟩
  have hx : x * (1 / 2) = x / 2 := by ring
  have hy : y * (1 / 2) = y / 2 := by ring
  have hz : z * (1 / 2) = z / 2 := by ring
  simp only [AngleQuaternionOver, hx, hy, hz]
  constructor
  · ext <;> simp <;> ring
  · have h1 := Real.sin_sq_add_cos_sq (x / 2)
    have h2 := Real.sin_sq_add_cos_sq (y / 2)
    have h3 := Real.sin_sq_add_cos_sq (z / 2)
    have key : ∀ sr cr sp cp sy cy : ℝ,
        (sr * cp * cy - cr * sp * sy) ^ 2 + (cr * sp * cy + sr * cp * sy) ^ 2 +
          (cr * cp * sy - sr * sp * cy) ^ 2 + (cr * cp * cy + sr * sp * sy) ^ 2 =
        (sr ^ 2 + cr ^ 2) * (sp ^ 2 + cp ^ 2) * (sy ^ 2 + cy ^ 2) := by
      intros; ring
    rw [key, h1, h2, h3]; norm_num

/-! ## The rasterizer: loops and buffers -/

theorem foldlM_inv {σ α : Type} (P : σ → Prop) (f : σ → α → Option σ) (l : List α)
    (hstep : ∀ a ∈ l, ∀ s, P s → ∃ s1, f s a = some s1 ∧ P s1) :
    ∀ s, P s → ∃ s1, l.foldlM f s = some s1 ∧ P s1 := by
  induction l with
  | nil => intro s hs; exact ⟨s, rfl, hs⟩
  | cons a l ih =>
    intro s hs
    obtain ⟨s1, h1, hp1⟩ := hstep a (List.mem_cons_self a l) s hs
    obtain ⟨s2, h2, hp2⟩ := ih (fun b hb => hstep b (List.mem_cons_of_mem a hb)) s1 hp1
    refine ⟨s2, ?_, hp2⟩
    rw [List.foldlM_cons, h1]
    exact h2

theorem foldlM_range_inv {σ : Type} (P : Nat → σ → Prop) (f : σ → Nat → Option σ) (n : Nat)
    (hstep : ∀ k, k < n → ∀ s, P k s → ∃ s1, f s k = some s1 ∧ P (k + 1) s1) :
    ∀ s, P 0 s → ∃ s1, (List.range n).foldlM f s = some s1 ∧ P n s1 := by
  induction n with
  | zero => intro s hs; exact ⟨s, rfl, hs⟩
  | succ n ih =>
    intro s hs
    obtain ⟨s1, h1, hp1⟩ := ih (fun k hk => hstep k (by omega)) s hs
    obtain ⟨s2, h2, hp2⟩ := hstep n (by omega) s1 hp1
    refine ⟨s2, ?_, hp2⟩
    rw [List.range_succ, List.foldlM_append, h1]
    simp only [Option.bind_eq_bind, Option.some_bind, List.foldlM_cons, List.foldlM_nil, h2]
    rfl

theorem triangleLoop_inv (P : Frame → Prop) (body : Nat → Frame → Option Frame) (size : Nat)
    (hstep : ∀ idx, idx + 2 < size → idx % 3 = 0 → ∀ s, P s → ∃ s1, body idx s = some s1 ∧ P s1) :
    ∀ (fuel idx : Nat) (s : Frame), size ≤ idx + 3 * fuel → idx % 3 = 0 → P s →
      ∃ s1, triangleLoop body size fuel idx s = some s1 ∧ P s1 := by
  intro fuel
  induction fuel with
  | zero =>
    intro idx s hsz _ hs
    refine ⟨s, ?_, hs⟩
    rw [triangleLoop, if_neg (by omega)]
  | succ fuel ih =>
    intro idx s hsz hmod hs
    rw [triangleLoop]
    by_cases hlt : idx + 2 < size
    · obtain ⟨s1, h1, hp1⟩ := hstep idx hlt hmod s hs
      obtain ⟨s2, h2, hp2⟩ := ih (idx + 3) s1 (by omega) (by omega) hp1
      refine ⟨s2, ?_, hp2⟩
      rw [if_pos hlt, h1]
      exact h2
    · exact ⟨s, by rw [if_neg hlt], hs⟩

theorem mem_intRange (lo hi v : Int) (h : v ∈ intRange lo hi) : lo ≤ v ∧ v ≤ hi := by
  simp only [intRange, List.mem_map, List.mem_range] at h
  obtain ⟨k, hk, rfl⟩ := h
  omega

theorem clampInt_range (v lo hi : Int) (h : lo ≤ hi) :
    lo ≤ clampInt v lo hi ∧ clampInt v lo hi ≤ hi := by
  unfold clampInt
  split
  · omega
  · split <;> omega

theorem ClampU8_le (v : Int) : ClampU8 v ≤ 255 := by
  unfold ClampU8
  have := clampInt_range v 0 255 (by omega)
  omega

theorem writePixel_some (l : List Nat) (i : Nat) (c : Rgba8) (h : i + 3 < l.length) :
    ∃ l1, writePixel l i c = some l1 ∧ l1.length = l.length := by
  unfold writePixel
  rw [if_pos h]
  exact ⟨_, rfl, by simp⟩

theorem writePixel_length (l l1 : List Nat) (i : Nat) (c : Rgba8)
    (h : writePixel l i c = some l1) : l1.length = l.length := by
  unfold writePixel at h
  split at h
  · cases h; simp
  · cases h

theorem readPixel_some (l : List Nat) (i : Nat) (h : i + 3 < l.length) :
    ∃ p, readPixel l i = some p := by
  unfold readPixel
  rw [List.getElem?_eq_getElem (by omega : i < l.length),
    List.getElem?_eq_getElem (by omega : i + 1 < l.length),
    List.getElem?_eq_getElem (by omega : i + 2 < l.length),
    List.getElem?_eq_getElem h]
  exact ⟨_, rfl⟩

/-- A pixel write changes the pixel written and no other. -/
theorem readPixel_writePixel (l l1 : List Nat) (i j : Nat) (c : Rgba8)
    (h : writePixel l (i * 4) c = some l1) :
    readPixel l1 (j * 4) = if j = i then some c else readPixel l (j * 4) := by
  unfold writePixel at h
  split at h
  · rename_i hlen
    cases h
    unfold readPixel
    by_cases hji : j = i
    · subst hji
      simp [List.getElem?_set, hlen]
      have h0 : j * 4 < l.length := by omega
      have h1 : j * 4 + 1 < l.length := by omega
      have h2 : j * 4 + 2 < l.length := by omega
      simp [h0, h1, h2]
    · rw [if_neg hji]
      have n0 : ∀ a b : Nat, a < 4 → b < 4 → ¬ (i * 4 + a = j * 4 + b) := by
        intro a b ha hb; omega
      have e : ∀ b : Nat, b < 4 →
          ((((l.set (i * 4) c.r).set (i * 4 + 1) c.g).set (i * 4 + 2) c.b).set (i * 4 + 3)
            c.a)[j * 4 + b]? = l[j * 4 + b]? := by
        intro b hb
        rw [List.getElem?_set_ne (n0 3 b (by omega) hb),
          List.getElem?_set_ne (n0 2 b (by omega) hb),
          List.getElem?_set_ne (n0 1 b (by omega) hb),
          List.getElem?_set_ne (by have := n0 0 b (by omega) hb; omega)]
      have e0 : ((((l.set (i * 4) c.r).set (i * 4 + 1) c.g).set (i * 4 + 2) c.b).set
          (i * 4 + 3) c.a)[j * 4]? = l[j * 4]? := e 0 (by omega)
      rw [e0, e 1 (by omega), e 2 (by omega), e 3 (by omega)]
  · cases h

theorem wrap_range (i size : Int) (h : 0 < size) : 0 ≤ wrap i size ∧ wrap i size < size := by
  unfold wrap
  rw [if_neg (by omega)]
  have hlt := Int.tmod_lt_of_pos i h
  have hgt : -size < Int.tmod i size := by
    by_cases hi : 0 ≤ i
    · have := Int.tmod_nonneg size hi; omega
    · obtain ⟨n, rfl⟩ := Int.eq_ofNat_of_zero_le (Int.le_of_lt h)
      cases i with
      | ofNat m => exact absurd (Int.ofNat_zero_le m) hi
      | negSucc m =>
        have hn : 0 < n := by exact_mod_cast h
        have hmod := Nat.mod_lt (m + 1) hn
        show -((n : Nat) : Int) < -(((m + 1) % n : Nat) : Int)
        omega
  simp only []
  split <;> omega

theorem fetch_some (ops : RasterOps) (t : TextureRgba) (hok : TexOk t) (hw : 0 < t.width)
    (hh : 0 < t.height) (xi yi : Int) (c : Nat) (hc : c < 4) :
    ∃ f, fetch ops t xi yi c = some f := by
  unfold fetch
  have hx := wrap_range xi t.width hw
  have hy := wrap_range yi t.height hh
  have hlen := hok hw hh
  have hsx : (wrap xi t.width).toNat < t.width.toNat := by omega
  have hsy : (wrap yi t.height).toNat + 1 ≤ t.height.toNat := by omega
  have hmul := Nat.mul_le_mul_right t.width.toNat hsy
  have hidx : ((wrap yi t.height).toNat * t.width.toNat + (wrap xi t.width).toNat) * 4 + c
      < t.rgba.length := by
    have hcomm : t.height.toNat * t.width.toNat = t.width.toNat * t.height.toNat :=
      Nat.mul_comm _ _
    rw [Nat.add_mul, Nat.one_mul] at hmul
    omega
  simp only []
  rw [List.getElem?_eq_getElem hidx]
  exact ⟨_, rfl⟩

theorem sampleChannel_some (ops : RasterOps) (t : TextureRgba) (hok : TexOk t)
    (hw : 0 < t.width) (hh : 0 < t.height) (x0 y0 : Int) (tx ty : F32) (c : Nat) (hc : c < 4) :
    ∃ v, sampleChannel ops t x0 y0 tx ty c = some v ∧ v ≤ 255 := by
  obtain ⟨c00, h00⟩ := fetch_some ops t hok hw hh x0 y0 c hc
  obtain ⟨c10, h10⟩ := fetch_some ops t hok hw hh (x0 + 1) y0 c hc
  obtain ⟨c01, h01⟩ := fetch_some ops t hok hw hh x0 (y0 + 1) c hc
  obtain ⟨c11, h11⟩ := fetch_some ops t hok hw hh (x0 + 1) (y0 + 1) c hc
  unfold sampleChannel
  rw [h00, h10, h01, h11]
  exact ⟨_, rfl, ClampU8_le _⟩

theorem sampleTexels_some (ops : RasterOps) (t : TextureRgba) (hok : TexOk t)
    (hw : 0 < t.width) (hh : 0 < t.height) (x0 y0 : Int) (tx ty : F32) :
    ∃ texel, sampleTexels ops t x0 y0 tx ty = some texel ∧
      texel.r ≤ 255 ∧ texel.g ≤ 255 ∧ texel.b ≤ 255 ∧ texel.a ≤ 255 := by
  obtain ⟨r, hr, hr1⟩ := sampleChannel_some ops t hok hw hh x0 y0 tx ty 0 (by omega)
  obtain ⟨g, hg, hg1⟩ := sampleChannel_some ops t hok hw hh x0 y0 tx ty 1 (by omega)
  obtain ⟨b, hb, hb1⟩ := sampleChannel_some ops t hok hw hh x0 y0 tx ty 2 (by omega)
  obtain ⟨a, ha, ha1⟩ := sampleChannel_some ops t hok hw hh x0 y0 tx ty 3 (by omega)
  unfold sampleTexels
  rw [hr, hg, hb, ha]
  exact ⟨_, rfl, hr1, hg1, hb1, ha1⟩

/-- With a covering pixel buffer every read of `SampleTexture` is inside the buffer, and the
sample is four bytes. -/
theorem SampleTexture_some (ops : RasterOps) (tex : Option TextureRgba)
    (hok : ∀ t ∈ tex, TexOk t) (u v : F32) :
    ∃ texel, SampleTexture ops tex u v = some texel ∧
      texel.r ≤ 255 ∧ texel.g ≤ 255 ∧ texel.b ≤ 255 ∧ texel.a ≤ 255 := by
  unfold SampleTexture
  cases tex with
  | none => exact ⟨_, rfl, by decide, by decide, by decide, by decide⟩
  | some t =>
    simp only []
    by_cases hg : t.width ≤ 0 ∨ t.height ≤ 0 ∨ t.rgba.isEmpty = true
    · rw [if_pos hg]
      exact ⟨_, rfl, by decide, by decide, by decide, by decide⟩
    · rw [if_neg hg]
      exact sampleTexels_some ops t (hok t rfl) (by omega) (by omega) _ _ _ _

/-- The second part of the pixel step returns, keeps the size of the frame, touches no pixel
but its own, and changes the frame only when the fragment passes the depth range test, the
depth test and the alpha test. -/
theorem depthWrite_spec (ops : RasterOps) (tex : Option TextureRgba) (di : Nat) (f : Fragment)
    (st : Frame) (w h : Nat) (hok : FrameOk w h st) (hdi : di < w * h)
    (htex : ∀ t ∈ tex, TexOk t) :
    ∃ st1, depthWrite ops tex di f st = some st1 ∧ FrameOk w h st1 ∧
      (∀ j, j ≠ di → readPixel st1.rgba (j * 4) = readPixel st.rgba (j * 4) ∧
        st1.depth[j]? = st.depth[j]?) ∧
      (st1 = st ∨
        ∃ stored texel, st.depth[di]? = some stored ∧
          (F32.lt f.depthZ F32.zero || F32.lt F32.one f.depthZ) = false ∧
          F32.le stored f.depthZ = false ∧
          SampleTexture ops tex f.u f.v = some texel ∧ texel.a ≠ 0) := by
  obtain ⟨hr, hd⟩ := hok
  unfold depthWrite
  by_cases hrange : (F32.lt f.depthZ F32.zero || F32.lt F32.one f.depthZ) = true
  · rw [if_pos hrange]
    exact ⟨st, rfl, ⟨hr, hd⟩, fun j _ => ⟨rfl, rfl⟩, Or.inl rfl⟩
  · rw [if_neg hrange]
    have hdl : di < st.depth.length := by rw [hd]; exact hdi
    rw [List.getElem?_eq_getElem hdl]
    simp only []
    by_cases hle : F32.le st.depth[di] f.depthZ = true
    · rw [if_pos hle]
      exact ⟨st, rfl, ⟨hr, hd⟩, fun j _ => ⟨rfl, rfl⟩, Or.inl rfl⟩
    · rw [if_neg hle]
      obtain ⟨texel, hs, _⟩ := SampleTexture_some ops tex htex f.u f.v
      rw [hs]
      simp only []
      by_cases ha : texel.a = 0
      · rw [if_pos ha]
        exact ⟨st, rfl, ⟨hr, hd⟩, fun j _ => ⟨rfl, rfl⟩, Or.inl rfl⟩
      · rw [if_neg ha]
        have hpl : di * 4 + 3 < st.rgba.length := by rw [hr]; omega
        obtain ⟨dst, hdst⟩ := readPixel_some st.rgba (di * 4) hpl
        obtain ⟨rgba, hw, hwl⟩ := writePixel_some st.rgba (di * 4) (BlendOver ops dst texel) hpl
        rw [hdst]
        simp only []
        rw [hw]
        refine ⟨_, rfl, ⟨by simp only []; rw [hwl, hr], by simp only [List.length_set]; exact hd⟩,
          ?_, Or.inr ⟨st.depth[di], texel, rfl, by simpa using hrange, by simpa using hle, rfl, ha⟩⟩
        intro j hj
        refine ⟨?_, ?_⟩
        · simp only []
          rw [readPixel_writePixel st.rgba rgba di j _ hw, if_neg hj]
        · simp only []
          rw [List.getElem?_set_ne (fun h => hj h.symm)]

/-- The pixel index of `(x, y)` is inside the image, and distinct pixels have distinct
indices. -/
theorem pixelIndex_lt (width height x y : Int) (hx : 0 ≤ x ∧ x < width)
    (hy : 0 ≤ y ∧ y < height) :
    y.toNat * width.toNat + x.toNat < width.toNat * height.toNat := by
  have h1 : x.toNat < width.toNat := by omega
  have h2 : y.toNat + 1 ≤ height.toNat := by omega
  have h3 := Nat.mul_le_mul_right width.toNat h2
  rw [Nat.add_mul, Nat.one_mul, Nat.mul_comm height.toNat] at h3
  omega

theorem pixelIndex_inj (width x y x1 y1 : Int) (hx : 0 ≤ x ∧ x < width)
    (hx1 : 0 ≤ x1 ∧ x1 < width) (hy : 0 ≤ y) (hy1 : 0 ≤ y1)
    (h : y1.toNat * width.toNat + x1.toNat = y.toNat * width.toNat + x.toNat) :
    x1 = x ∧ y1 = y := by
  have a1 : x1.toNat < width.toNat := by omega
  have a2 : x.toNat < width.toNat := by omega
  have key : y1.toNat = y.toNat := by
    rcases Nat.lt_trichotomy y1.toNat y.toNat with hlt | heq | hgt
    · have := Nat.mul_le_mul_right width.toNat (Nat.succ_le_of_lt hlt)
      rw [Nat.succ_mul] at this
      omega
    · exact heq
    · have := Nat.mul_le_mul_right width.toNat (Nat.succ_le_of_lt hgt)
      rw [Nat.succ_mul] at this
      omega
  rw [key] at h
  omega

/-- The pixel loops keep every invariant the pixel step keeps inside the bounding box. -/
theorem rasterize_inv (P : Frame → Prop) (ops : RasterOps) (width height : Int)
    (hw : 1 ≤ width) (hh : 1 ≤ height) (tex : Option TextureRgba) (o0 o1 o2 : VertexOut)
    (area : F32)
    (hpix : ∀ y x : Int,
      (boundingBox ops width height o0 o1 o2).1 ≤ x →
      x ≤ (boundingBox ops width height o0 o1 o2).2.1 →
      (boundingBox ops width height o0 o1 o2).2.2.1 ≤ y →
      y ≤ (boundingBox ops width height o0 o1 o2).2.2.2 →
      0 ≤ x → x < width → 0 ≤ y → y < height →
      ∀ s, P s → ∃ s1, pixelStep ops width tex o0 o1 o2 area y x s = some s1 ∧ P s1) :
    ∀ s, P s → ∃ s1, rasterize ops width height tex o0 o1 o2 area s = some s1 ∧ P s1 := by
  intro s hs
  unfold rasterize
  have hbx1 := clampInt_range (ops.toInt (ops.floor (F32.min3 o0.x o1.x o2.x))) 0 (width - 1)
    (by omega)
  have hbx2 := clampInt_range (ops.toInt (ops.ceil (F32.max3 o0.x o1.x o2.x))) 0 (width - 1)
    (by omega)
  have hby1 := clampInt_range (ops.toInt (ops.floor (F32.min3 o0.y o1.y o2.y))) 0 (height - 1)
    (by omega)
  have hby2 := clampInt_range (ops.toInt (ops.ceil (F32.max3 o0.y o1.y o2.y))) 0 (height - 1)
    (by omega)
  apply foldlM_inv P _ _ _ s hs
  intro y hy s1 hs1
  have hyr := mem_intRange _ _ y hy
  apply foldlM_inv P _ _ _ s1 hs1
  intro x hx s2 hs2
  have hxr := mem_intRange _ _ x hx
  have e1 : (boundingBox ops width height o0 o1 o2).1 =
      clampInt (ops.toInt (ops.floor (F32.min3 o0.x o1.x o2.x))) 0 (width - 1) := rfl
  have e2 : (boundingBox ops width height o0 o1 o2).2.1 =
      clampInt (ops.toInt (ops.ceil (F32.max3 o0.x o1.x o2.x))) 0 (width - 1) := rfl
  have e3 : (boundingBox ops width height o0 o1 o2).2.2.1 =
      clampInt (ops.toInt (ops.floor (F32.min3 o0.y o1.y o2.y))) 0 (height - 1) := rfl
  have e4 : (boundingBox ops width height o0 o1 o2).2.2.2 =
      clampInt (ops.toInt (ops.ceil (F32.max3 o0.y o1.y o2.y))) 0 (height - 1) := rfl
  exact hpix y x hxr.1 hxr.2 hyr.1 hyr.2 (by omega) (by omega) (by omega) (by omega) s2 hs2

theorem triangleVertices_some (m : Model) (mesh : Mesh) (idx : Nat)
    (hidx : idx + 2 < mesh.indices.length) (hvert : ∀ k ∈ mesh.indices, k < m.vertices.length) :
    ∃ t, triangleVertices m mesh idx = some t := by
  unfold triangleVertices
  have h0 : idx < mesh.indices.length := by omega
  have h1 : idx + 1 < mesh.indices.length := by omega
  rw [List.getElem?_eq_getElem h0, List.getElem?_eq_getElem h1, List.getElem?_eq_getElem hidx]
  simp only [Option.bind_eq_bind, Option.some_bind]
  rw [List.getElem?_eq_getElem (hvert _ (List.getElem_mem h0)),
    List.getElem?_eq_getElem (hvert _ (List.getElem_mem h1)),
    List.getElem?_eq_getElem (hvert _ (List.getElem_mem hidx))]
  exact ⟨_, rfl⟩

/-- The triangle body keeps every invariant that ignores the counters and that the pixel
step keeps for the pixels of the bounding box once the area test has passed. -/
theorem drawProjected_inv (P : Frame → Prop)
    (hstats : ∀ (s : Frame) (stats : RenderStats), P s → P { s with stats := stats })
    (ops : RasterOps) (width height : Int) (hw : 1 ≤ width) (hh : 1 ≤ height)
    (tex : Option TextureRgba) (o0 o1 o2 : VertexOut)
    (hpix :
      F32.eq (EdgeFunction ops.toFloatOps o0.x o0.y o1.x o1.y o2.x o2.y) F32.zero = false →
      F32.le (EdgeFunction ops.toFloatOps o0.x o0.y o1.x o1.y o2.x o2.y) F32.zero = false →
      ∀ y x : Int,
        (boundingBox ops width height o0 o1 o2).1 ≤ x →
        x ≤ (boundingBox ops width height o0 o1 o2).2.1 →
        (boundingBox ops width height o0 o1 o2).2.2.1 ≤ y →
        y ≤ (boundingBox ops width height o0 o1 o2).2.2.2 →
        0 ≤ x → x < width → 0 ≤ y → y < height →
        ∀ s, P s → ∃ s1, pixelStep ops width tex o0 o1 o2
          (EdgeFunction ops.toFloatOps o0.x o0.y o1.x o1.y o2.x o2.y) y x s = some s1 ∧ P s1) :
    ∀ s, P s → ∃ s1, drawProjected ops width height tex o0 o1 o2 s = some s1 ∧ P s1 := by
  intro s hs
  unfold drawProjected
  simp only []
  by_cases h0 : F32.eq (EdgeFunction ops.toFloatOps o0.x o0.y o1.x o1.y o2.x o2.y) F32.zero
      = true
  · rw [if_pos h0]
    exact ⟨_, rfl, hstats s _ hs⟩
  · rw [if_neg h0]
    by_cases h1 : F32.le (EdgeFunction ops.toFloatOps o0.x o0.y o1.x o1.y o2.x o2.y) F32.zero
        = true
    · rw [if_pos h1]
      exact ⟨s, rfl, hs⟩
    · rw [if_neg h1]
      exact rasterize_inv P ops width height hw hh tex o0 o1 o2 _
        (hpix (by simpa using h0) (by simpa using h1)) s hs

theorem drawTriangle_inv (P : Frame → Prop)
    (hstats : ∀ (s : Frame) (stats : RenderStats), P s → P { s with stats := stats })
    (ops : RasterOps) (mvp : Mat4f) (width height : Int) (tex : Option TextureRgba)
    (m : Model) (mesh : Mesh) (idx : Nat)
    (hidx : idx + 2 < mesh.indices.length) (hvert : ∀ k ∈ mesh.indices, k < m.vertices.length)
    (hdraw : ∀ v0 v1 v2, triangleVertices m mesh idx = some (v0, v1, v2) →
      ∀ s, P s → ∃ s1, drawProjected ops width height tex (project ops mvp width height v0)
        (project ops mvp width height v1) (project ops mvp width height v2) s = some s1 ∧ P s1) :
    ∀ s, P s → ∃ s1, drawTriangle ops mvp width height tex m mesh idx s = some s1 ∧ P s1 := by
  intro s hs
  obtain ⟨⟨v0, v1, v2⟩, ht⟩ := triangleVertices_some m mesh idx hidx hvert
  unfold drawTriangle
  rw [ht]
  exact hdraw v0 v1 v2 ht _ (hstats s _ hs)

theorem drawMesh_inv (P : Frame → Prop)
    (hstats : ∀ (s : Frame) (stats : RenderStats), P s → P { s with stats := stats })
    (ops : RasterOps) (mvp : Mat4f) (width height : Int) (textures : List TextureRgba)
    (m : Model) (mesh : Mesh) (hvert : ∀ k ∈ mesh.indices, k < m.vertices.length)
    (hdraw : ∀ idx, idx + 2 < mesh.indices.length → idx % 3 = 0 →
      ∀ v0 v1 v2, triangleVertices m mesh idx = some (v0, v1, v2) →
      ∀ s, P s → ∃ s1, drawProjected ops width height (meshTexture textures mesh)
        (project ops mvp width height v0) (project ops mvp width height v1)
        (project ops mvp width height v2) s = some s1 ∧ P s1) :
    ∀ s, P s → ∃ s1, drawMesh ops mvp width height textures m s mesh = some s1 ∧ P s1 := by
  intro s hs
  unfold drawMesh
  apply triangleLoop_inv P _ _ _ mesh.indices.length 0 s (by omega) (by omega) hs
  intro idx hidx hmod s1 hs1
  exact drawTriangle_inv P hstats ops mvp width height _ m mesh idx hidx hvert
    (hdraw idx hidx hmod) s1 hs1

/-- The triangles the rasterizer draws: the projected vertices and the texture of every
triangle `indices[idx], indices[idx + 1], indices[idx + 2]`, `idx` a multiple of 3, of
every mesh of the first sub-model of every body part. -/
theorem render_inv (P : Frame → Prop)
    (hstats : ∀ (s : Frame) (stats : RenderStats), P s → P { s with stats := stats })
    (ops : RasterOps) (mvp : Mat4f) (width height : Int) (model : StudioModelCpu)
    (hmodel : ModelOk model)
    (hdraw : ∀ bp ∈ model.bodyParts, ∀ m ∈ firstModel bp, ∀ mesh ∈ m.meshes,
      ∀ idx, idx + 2 < mesh.indices.length → idx % 3 = 0 →
      ∀ v0 v1 v2, triangleVertices m mesh idx = some (v0, v1, v2) →
      ∀ s, P s → ∃ s1, drawProjected ops width height (meshTexture model.textures mesh)
        (project ops mvp width height v0) (project ops mvp width height v1)
        (project ops mvp width height v2) s = some s1 ∧ P s1) :
    ∀ s, P s → ∃ s1, model.bodyParts.foldlM (drawBodyPart ops mvp width height model.textures) s
      = some s1 ∧ P s1 := by
  intro s hs
  apply foldlM_inv P _ _ _ s hs
  intro bp hbp s1 hs1
  unfold drawBodyPart
  cases hm : bp.models with
  | nil => exact ⟨s1, rfl, hs1⟩
  | cons m rest =>
    simp only []
    have hfirst : m ∈ firstModel bp := by
      unfold firstModel; rw [hm]; rfl
    apply foldlM_inv P _ _ _ s1 hs1
    intro mesh hmesh s2 hs2
    exact drawMesh_inv P hstats ops mvp width height model.textures m mesh
      (hmodel.1 bp hbp m hfirst mesh hmesh) (hdraw bp hbp m hfirst mesh hmesh) s2 hs2

theorem meshTexture_ok (model : StudioModelCpu) (hmodel : ModelOk model) (mesh : Mesh) :
    ∀ t ∈ meshTexture model.textures mesh, TexOk t := by
  intro t ht
  unfold meshTexture at ht
  split at ht
  · obtain ⟨hlt, hget⟩ := List.getElem?_eq_some_iff.mp ht
    exact hmodel.2 t (hget ▸ List.getElem_mem hlt)
  · cases ht

/-- The pixel step returns and keeps the size of the frame. -/
theorem pixelStep_ok (ops : RasterOps) (width height : Int) (tex : Option TextureRgba)
    (htex : ∀ t ∈ tex, TexOk t) (o0 o1 o2 : VertexOut) (area : F32) (y x : Int)
    (hx : 0 ≤ x ∧ x < width) (hy : 0 ≤ y ∧ y < height) (s : Frame)
    (hs : FrameOk width.toNat height.toNat s) :
    ∃ s1, pixelStep ops width tex o0 o1 o2 area y x s = some s1 ∧
      FrameOk width.toNat height.toNat s1 := by
  unfold pixelStep
  cases interpolate ops o0 o1 o2 area y x with
  | none => exact ⟨s, rfl, hs⟩
  | some f =>
    obtain ⟨s1, h1, h2, _⟩ := depthWrite_spec ops tex _ f s _ _ hs
      (pixelIndex_lt width height x y hx hy) htex
    exact ⟨s1, h1, h2⟩

/-- The background loops fill a buffer of `w * h * 4` bytes with the background colour. -/
theorem fillBackground_spec (bg : Rgba8) (width height : Int) (rgba : List Nat)
    (hlen : rgba.length = width.toNat * height.toNat * 4) :
    ∃ out, fillBackground bg width height rgba = some out ∧
      out.length = width.toNat * height.toNat * 4 ∧
      ∀ p, p < width.toNat * height.toNat → readPixel out (p * 4) = some bg := by
  unfold fillBackground
  have hrow := foldlM_range_inv
    (fun y (out : List Nat) => out.length = width.toNat * height.toNat * 4 ∧
      ∀ p, p < y * width.toNat → readPixel out (p * 4) = some bg)
    (fun out y =>
      (List.range width.toNat).foldlM
        (fun out x => writePixel out ((y * width.toNat + x) * 4) bg) out)
    height.toNat ?_ rgba ⟨hlen, fun p hp => by omega⟩
  · obtain ⟨out, h1, h2, h3⟩ := hrow
    refine ⟨out, h1, h2, ?_⟩
    intro p hp
    exact h3 p (by rw [Nat.mul_comm]; exact hp)
  · intro y hy s hs
    have hcol := foldlM_range_inv
      (fun x (out : List Nat) => out.length = width.toNat * height.toNat * 4 ∧
        ∀ p, p < y * width.toNat + x → readPixel out (p * 4) = some bg)
      (fun out x => writePixel out ((y * width.toNat + x) * 4) bg)
      width.toNat ?_ s ⟨hs.1, fun p hp => hs.2 p (by omega)⟩
    · obtain ⟨out, h1, h2, h3⟩ := hcol
      refine ⟨out, h1, h2, ?_⟩
      intro p hp
      exact h3 p (by rw [Nat.succ_mul] at hp; exact hp)
    · intro x hx s1 hs1
      have hbound : y * width.toNat + x < width.toNat * height.toNat := by
        have := Nat.mul_le_mul_right width.toNat (Nat.succ_le_of_lt hy)
        rw [Nat.succ_mul, Nat.mul_comm height.toNat] at this
        omega
      obtain ⟨l1, hw1, hl1⟩ := writePixel_some s1 ((y * width.toNat + x) * 4) bg
        (by rw [hs1.1]; omega)
      refine ⟨l1, hw1, by rw [hl1]; exact hs1.1, ?_⟩
      intro p hp
      rw [readPixel_writePixel s1 l1 _ p bg hw1]
      by_cases hpe : p = y * width.toNat + x
      · rw [if_pos hpe]
      · rw [if_neg hpe]
        exact hs1.2 p (by omega)

/-- Claim C17: output size.  For every model the loader can leave behind (`ModelOk`) and every
`RenderOptions`, `RenderThumbnailRgba` returns `true` and leaves `outRgba` with exactly
`max(1, width) * max(1, height) * 4` bytes, whatever `outRgba` held before; a width or height
below 1 is clamped to 1. -/
theorem C17_output_size (ops : RasterOps) (model : StudioModelCpu) (hmodel : ModelOk model)
    (stem : List Char) (options : RenderOptions) (outRgba : List Nat) :
    ∃ out stats, RenderThumbnailRgba ops model stem options outRgba = some (true, out, stats) ∧
      (out.length : Int) = max 1 options.width * max 1 options.height * 4 := by
  have hwidth : (if 1 < options.width then options.width else 1) = max 1 options.width := by
    split <;> omega
  have hheight : (if 1 < options.height then options.height else 1) = max 1 options.height := by
    split <;> omega
  unfold RenderThumbnailRgba
  simp only [hwidth, hheight]
  have hw : 1 ≤ max 1 options.width := by omega
  have hh : 1 ≤ max 1 options.height := by omega
  generalize max 1 options.width = width at hw
  generalize max 1 options.height = height at hh
  obtain ⟨rgba, hfill, hlen, _⟩ := fillBackground_spec (GetBackground options.background)
    width height (assign outRgba (width.toNat * height.toNat * 4) 0)
    (by simp [assign])
  rw [hfill]
  simp only []
  obtain ⟨st, hrun, hst⟩ := render_inv (FrameOk width.toNat height.toNat)
    (fun s stats hs => hs) ops (cameraMatrix ops model stem width height) width height model
    hmodel
    (fun bp hbp m hm mesh hmesh idx hidx hmod v0 v1 v2 hv =>
      drawProjected_inv _ (fun s stats hs => hs) ops width height hw hh _ _ _ _
        (fun _ _ y x _ _ _ _ h1 h2 h3 h4 s hs =>
          pixelStep_ok ops width height _ (meshTexture_ok model hmodel mesh) _ _ _ _ y x
            ⟨h1, h2⟩ ⟨h3, h4⟩ s hs))
    ⟨rgba, assign [] (width.toNat * height.toNat) F32.one, ⟨0, 0, 0⟩⟩
    ⟨hlen, by simp [assign]⟩
  rw [hrun]
  refine ⟨st.rgba, st.stats, rfl, ?_⟩
  rw [hst.1]
  push_cast
  rw [Int.toNat_of_nonneg (by omega), Int.toNat_of_nonneg (by omega)]

set_option maxRecDepth 100000 in
theorem C17_output_size_witness :
    ModelOk sampleRenderModel ∧
    (RenderThumbnailRgba sampleRasterOps sampleRenderModel ['v', '_', 'x']
        ⟨0, 2, BackgroundPreset.Blue⟩ [7, 7, 7]).map (fun r => (r.1, r.2.1))
      = some (true, [51, 102, 204, 255, 51, 102, 204, 255]) ∧
    ∃ out stats, RenderThumbnailRgba sampleRasterOps sampleRenderModel ['v', '_', 'x']
        ⟨0, 2, BackgroundPreset.Blue⟩ [7, 7, 7] = some (true, out, stats) ∧
      (out.length : Int) = max 1 0 * max 1 2 * 4 :=
  ⟨by unfold ModelOk; decide, by decide,
    C17_output_size sampleRasterOps sampleRenderModel (by unfold ModelOk; decide)
      ['v', '_', 'x'] ⟨0, 2, BackgroundPreset.Blue⟩ [7, 7, 7]⟩

/-! ## The loader keeps what the rasterizer relies on -/

theorem LoadModel_index_lt (fp : FloatOps) (textureHeader : StudioHdr)
    (base textureBase : Buffer) (model : MStudioModel) (bt : List Mat3x4) (out : Model)
    (h : LoadModel fp textureHeader base textureBase model bt = some out) :
    ∀ mesh ∈ out.meshes, ∀ k ∈ mesh.indices, k < out.vertices.length := by
  have hall : ∀ m ∈ out.meshes,
      MeshOk fp textureHeader base textureBase model bt out.vertices m := by
    unfold LoadModel at h
    by_cases hn : model.nummesh ≤ 0
    · simp only [hn, if_true, Option.some.injEq] at h
      subst h
      simp
    · simp only [hn, if_false] at h
      exact loadMeshes_ok _ _ _ _ _ _ _ _ _ _ (by simp) h
  intro mesh hmesh k hk
  obtain ⟨tex, _, hidx⟩ := hall mesh hmesh
  exact (hidx k hk).1

theorem loadModels_index_lt (fp : FloatOps) (textureHeader : StudioHdr)
    (base textureBase : Buffer) (bodyPart : MStudioBodyParts) (bt : List Mat3x4) :
    ∀ (n : Nat) (i : Int) (out res : BodyPart),
      (∀ m ∈ out.models, ∀ mesh ∈ m.meshes, ∀ k ∈ mesh.indices, k < m.vertices.length) →
      loadModels fp textureHeader base textureBase bodyPart bt n i out = some res →
      ∀ m ∈ res.models, ∀ mesh ∈ m.meshes, ∀ k ∈ mesh.indices, k < m.vertices.length := by
  intro n
  induction n with
  | zero =>
    intro i out res hinv h
    simp only [loadModels, Option.some.injEq] at h
    subst h
    exact hinv
  | succ n ih =>
    intro i out res hinv h
    unfold loadModels at h
    cases h1 : readMStudioModel base (bodyPart.modelindex + 112 * i) with
    | none => simp [h1] at h
    | some model =>
      cases h2 : LoadModel fp textureHeader base textureBase model bt with
      | none => simp [h1, h2] at h
      | some m =>
        simp only [h1, h2, Option.bind_eq_bind, Option.some_bind] at h
        refine ih (i + 1) _ res ?_ h
        intro m1 hm1
        rcases List.mem_append.mp hm1 with hold | hnew
        · exact hinv m1 hold
        · rw [List.mem_singleton.mp hnew]
          exact LoadModel_index_lt fp textureHeader base textureBase model bt m h2

theorem loadBodyParts_index_lt (fp : FloatOps) (header textureHeader : StudioHdr)
    (base textureBase : Buffer) (bt : List Mat3x4) :
    ∀ (n : Nat) (i : Int) (acc res : List BodyPart),
      (∀ bp ∈ acc, ∀ m ∈ bp.models, ∀ mesh ∈ m.meshes, ∀ k ∈ mesh.indices,
        k < m.vertices.length) →
      loadBodyParts fp header textureHeader base textureBase bt n i acc = some res →
      ∀ bp ∈ res, ∀ m ∈ bp.models, ∀ mesh ∈ m.meshes, ∀ k ∈ mesh.indices,
        k < m.vertices.length := by
  intro n
  induction n with
  | zero =>
    intro i acc res hinv h
    simp only [loadBodyParts, Option.some.injEq] at h
    subst h
    exact hinv
  | succ n ih =>
    intro i acc res hinv h
    unfold loadBodyParts at h
    cases h1 : readMStudioBodyParts base (header.bodypartindex + 76 * i) with
    | none => simp [h1] at h
    | some bodyPart =>
      cases h2 : LoadBodyPart fp textureHeader base textureBase bodyPart bt with
      | none => simp [h1, h2] at h
      | some out =>
        simp only [h1, h2, Option.bind_eq_bind, Option.some_bind] at h
        refine ih (i + 1) _ res ?_ h
        intro bp hbp
        rcases List.mem_append.mp hbp with hold | hnew
        · exact hinv bp hold
        · rw [List.mem_singleton.mp hnew]
          unfold LoadBodyPart at h2
          by_cases hn : bodyPart.nummodels ≤ 0
          · simp only [hn, if_true, Option.some.injEq] at h2
            subst h2
            simp
          · simp only [hn, if_false] at h2
            exact loadModels_index_lt fp textureHeader base textureBase bodyPart bt _ _ _ _
              (by simp) h2

theorem texturePixel_length (textureBase : Buffer) (tex : MStudioTexture) (size i : Int)
    (px : List Nat) (h : texturePixel textureBase tex size i = some px) : px.length = 4 := by
  unfold texturePixel at h
  simp only [Option.bind_eq_bind, Option.bind_eq_some, Option.pure_def] at h
  obtain ⟨idx, _, h⟩ := h
  split at h
  · cases h
  · simp only [Option.bind_eq_some] at h
    obtain ⟨r, _, g, _, b, _, h⟩ := h
    split at h <;> (cases h; rfl)

theorem textureLoop_length (textureBase : Buffer) (tex : MStudioTexture) (size : Int) :
    ∀ (n : Nat) (i : Int) (pixels out : List Nat),
      textureLoop textureBase tex size n i pixels = some out →
      out.length = pixels.length + 4 * n := by
  intro n
  induction n with
  | zero =>
    intro i pixels out h
    simp only [textureLoop, Option.some.injEq] at h
    subst h
    rfl
  | succ n ih =>
    intro i pixels out h
    unfold textureLoop at h
    cases h1 : texturePixel textureBase tex size i with
    | none => simp [h1] at h
    | some px =>
      simp only [h1, Option.bind_eq_bind, Option.some_bind] at h
      have := ih (i + 1) _ out h
      rw [this, List.length_append, texturePixel_length textureBase tex size i px h1]
      omega

theorem LoadTexture_ok (textureBase : Buffer) (tex : MStudioTexture) (out : TextureRgba)
    (h : LoadTexture textureBase tex = some out) : TexOk out := by
  unfold LoadTexture at h
  simp only [] at h
  split at h
  · cases h
  · split at h
    · cases h
    · cases h1 : textureLoop textureBase tex (tex.width * tex.height)
          (tex.width * tex.height).toNat 0 [] with
      | none => simp [h1] at h
      | some rgba =>
        simp only [h1, Option.bind_eq_bind, Option.some_bind, Option.pure_def,
          Option.some.injEq] at h
        subst h
        have hlen := textureLoop_length textureBase tex _ _ _ _ _ h1
        intro hw hh
        simp only [] at hw hh ⊢
        rw [hlen, List.length_nil, Nat.zero_add]
        have hprod : (tex.width * tex.height).toNat = tex.width.toNat * tex.height.toNat := by
          have h1 : tex.width = ((tex.width.toNat : Nat) : Int) := by omega
          have h2 : tex.height = ((tex.height.toNat : Nat) : Int) := by omega
          rw [h1, h2]
          simp only [Int.toNat_ofNat]
          exact_mod_cast Int.toNat_ofNat _
        rw [hprod]
        omega

theorem loadTextures_ok (textureHeader : StudioHdr) (textureBase : Buffer) :
    ∀ (n : Nat) (i : Int) (textures res : List TextureRgba),
      (∀ t ∈ textures, TexOk t) →
      loadTextures textureHeader textureBase n i textures = some res →
      ∀ t ∈ res, TexOk t := by
  intro n
  induction n with
  | zero =>
    intro i textures res hinv h
    simp only [loadTextures, Option.some.injEq] at h
    subst h
    exact hinv
  | succ n ih =>
    intro i textures res hinv h
    unfold loadTextures at h
    cases h1 : readMStudioTexture textureBase (textureHeader.textureindex + 80 * i) with
    | none => simp [h1] at h
    | some tex =>
      cases h2 : LoadTexture textureBase tex with
      | none => simp [h1, h2] at h
      | some out =>
        simp only [h1, h2, Option.bind_eq_bind, Option.some_bind] at h
        refine ih (i + 1) _ res ?_ h
        intro t ht
        rcases List.mem_append.mp ht with hold | hnew
        · exact hinv t hold
        · rw [List.mem_singleton.mp hnew]
          exact LoadTexture_ok textureBase tex out h2

theorem ModelOk_empty : ModelOk StudioModelCpu.empty :=
  ⟨fun _ hbp => (by cases hbp), fun _ ht => (by cases ht)⟩

/-- Every model `LoadFromFile` leaves behind, on success or on failure, has valid indices and
covering texture buffers, provided the model it started from had. -/
theorem LoadFromFile_ok (fp : FloatOps) (self : StudioModelCpu) (files : Files)
    (r : Bool × StudioModelCpu) (hself : ModelOk self)
    (h : LoadFromFile fp self files = some r) : ModelOk r.2 := by
  by_cases hv : VerifyStudioFile files.main = true
  · obtain ⟨header, hh⟩ := readStudioHdr_of_verified files.main hv
    rw [LoadFromFile_verified fp self files header hv hh] at h
    obtain ⟨_, tables, ht, hbp, htx⟩ := loadVerified_result _ _ _ _ _ h
    unfold loadTables at ht
    cases hb : ComputeDefaultBoneTransforms fp header files.main with
    | none => simp [hb] at ht
    | some bt =>
      cases h1 : loadTextureList (textureSource header files).1 (textureSource header files).2 with
      | none => simp [hb, h1] at ht
      | some textures =>
        cases h2 : loadBodyPartList fp header (textureSource header files).1 files.main
            (textureSource header files).2 bt with
        | none => simp [hb, h1, h2] at ht
        | some bodyParts =>
          simp only [hb, h1, h2, Option.bind_eq_bind, Option.some_bind, Option.pure_def,
            Option.some.injEq] at ht
          subst ht
          simp only [] at hbp htx
          refine ⟨?_, ?_⟩
          · rw [hbp]
            intro bp hbpm m hm
            have hmem : m ∈ bp.models := by
              unfold firstModel at hm
              exact List.mem_of_mem_head? hm
            unfold loadBodyPartList at h2
            split at h2
            · exact loadBodyParts_index_lt fp header _ files.main _ bt _ _ _ _ (by simp) h2
                bp hbpm m hmem
            · cases h2; cases hbpm
          · rw [htx]
            unfold loadTextureList at h1
            split at h1
            · exact loadTextures_ok _ _ _ _ _ _ (by simp) h1
            · cases h1; simp
  · have hv2 : VerifyStudioFile files.main = false := by
      cases hb : VerifyStudioFile files.main with
      | true => exact absurd hb hv
      | false => rfl
    rw [LoadFromFile_rejected fp self files hv2] at h
    cases h
    exact hself

/-! ## Uncovered pixels -/

/-- The pixel `j` still holds the background colour and the initial depth. -/
theorem pixelStep_keeps (ops : RasterOps) (width height : Int) (tex : Option TextureRgba)
    (htex : ∀ t ∈ tex, TexOk t) (o0 o1 o2 : VertexOut) (area : F32) (bg : Rgba8)
    (x y x1 y1 : Int) (hx : 0 ≤ x ∧ x < width) (hy : 0 ≤ y ∧ y < height)
    (hx1 : 0 ≤ x1 ∧ x1 < width) (hy1 : 0 ≤ y1 ∧ y1 < height)
    (hfail : x1 = x → y1 = y → ¬ FragmentPasses ops tex o0 o1 o2 area x y F32.one)
    (s : Frame)
    (hs : FrameOk width.toNat height.toNat s ∧
      readPixel s.rgba ((y.toNat * width.toNat + x.toNat) * 4) = some bg ∧
      s.depth[y.toNat * width.toNat + x.toNat]? = some F32.one) :
    ∃ s1, pixelStep ops width tex o0 o1 o2 area y1 x1 s = some s1 ∧
      (FrameOk width.toNat height.toNat s1 ∧
        readPixel s1.rgba ((y.toNat * width.toNat + x.toNat) * 4) = some bg ∧
        s1.depth[y.toNat * width.toNat + x.toNat]? = some F32.one) := by
  obtain ⟨hok, hpx, hdp⟩ := hs
  unfold pixelStep
  cases hi : interpolate ops o0 o1 o2 area y1 x1 with
  | none => exact ⟨s, rfl, hok, hpx, hdp⟩
  | some f =>
    obtain ⟨s1, h1, h2, hother, hsame⟩ := depthWrite_spec ops tex
      (y1.toNat * width.toNat + x1.toNat) f s _ _ hok
      (pixelIndex_lt width height x1 y1 hx1 hy1) htex
    refine ⟨s1, h1, h2, ?_⟩
    by_cases hj : y.toNat * width.toNat + x.toNat = y1.toNat * width.toNat + x1.toNat
    · obtain ⟨ex, ey⟩ := pixelIndex_inj width x y x1 y1 hx hx1 hy.1 hy1.1 hj.symm
      rcases hsame with heq | ⟨stored, texel, hst, hrange, hle, hsample, ha⟩
      · rw [heq]; exact ⟨hpx, hdp⟩
      · exfalso
        rw [← hj, hdp] at hst
        cases hst
        subst ex
        subst ey
        exact hfail rfl rfl ⟨f, hi, hrange, hle, texel, hsample, ha⟩
    · obtain ⟨e1, e2⟩ := hother _ hj
      rw [e1, e2]
      exact ⟨hpx, hdp⟩

set_option maxRecDepth 10000 in
/-- Claim C19: uncovered pixels keep the background.  For every model the loader can leave
behind and all options, the image has in every pixel for which no drawn fragment passes
the coverage, depth and alpha tests exactly the RGBA of the preset: `(0, 255, 0, 255)` for
Green, `(0, 0, 0, 0)` for Transparent, `(51, 102, 204, 255)` for Blue and for every other
preset value; a model whose meshes have fewer than three indices is rendered as the
background colour everywhere. -/
theorem C19_background (ops : RasterOps) (model : StudioModelCpu) (hmodel : ModelOk model)
    (stem : List Char) (options : RenderOptions) (outRgba : List Nat) :
    ∃ out stats, RenderThumbnailRgba ops model stem options outRgba = some (true, out, stats) ∧
      (∀ x y : Int, 0 ≤ x → x < max 1 options.width → 0 ≤ y → y < max 1 options.height →
        ¬ Covered ops model stem options x y →
        readPixel out ((y.toNat * (max 1 options.width).toNat + x.toNat) * 4) =
          some (GetBackground options.background)) ∧
      ((∀ bp ∈ model.bodyParts, ∀ m ∈ firstModel bp, ∀ mesh ∈ m.meshes,
          mesh.indices.length < 3) →
        ∀ p, p < (max 1 options.width).toNat * (max 1 options.height).toNat →
          readPixel out (p * 4) = some (GetBackground options.background)) ∧
      (options.background = BackgroundPreset.Green →
        GetBackground options.background = ⟨0, 255, 0, 255⟩) ∧
      (options.background = BackgroundPreset.Transparent →
        GetBackground options.background = ⟨0, 0, 0, 0⟩) ∧
      (options.background ≠ BackgroundPreset.Green →
        options.background ≠ BackgroundPreset.Transparent →
        GetBackground options.background = ⟨51, 102, 204, 255⟩) := by
  have hwidth : (if 1 < options.width then options.width else 1) = max 1 options.width := by
    split <;> omega
  have hheight : (if 1 < options.height then options.height else 1) = max 1 options.height := by
    split <;> omega
  have hw : 1 ≤ max 1 options.width := by omega
  have hh : 1 ≤ max 1 options.height := by omega
  have hcov : ∀ x y, Covered ops model stem options x y =
      CoveredBy ops (cameraMatrix ops model stem (max 1 options.width) (max 1 options.height))
        (max 1 options.width) (max 1 options.height) model x y := fun _ _ => rfl
  unfold RenderThumbnailRgba
  simp only [hwidth, hheight, hcov]
  generalize max 1 options.width = width at hw
  generalize max 1 options.height = height at hh
  generalize cameraMatrix ops model stem width height = mvp
  have hg1 : options.background = BackgroundPreset.Green →
      GetBackground options.background = ⟨0, 255, 0, 255⟩ := by
    intro h; rw [h]; rfl
  have hg2 : options.background = BackgroundPreset.Transparent →
      GetBackground options.background = ⟨0, 0, 0, 0⟩ := by
    intro h; rw [h]; rfl
  have hg3 : options.background ≠ BackgroundPreset.Green →
      options.background ≠ BackgroundPreset.Transparent →
      GetBackground options.background = ⟨51, 102, 204, 255⟩ := by
    intro h1 h2
    unfold GetBackground
    rw [if_neg h1, if_neg h2]
  generalize GetBackground options.background = bg at hg1 hg2 hg3 ⊢
  obtain ⟨rgba, hfill, hlen, hbg⟩ := fillBackground_spec bg
    width height (assign outRgba (width.toNat * height.toNat * 4) 0)
    (by simp [assign])
  rw [hfill]
  simp only []
  obtain ⟨st, hrun, hst⟩ := render_inv (FrameOk width.toNat height.toNat)
    (fun s stats hs => hs) ops mvp width height model
    hmodel
    (fun bp hbp m hm mesh hmesh idx hidx hmod v0 v1 v2 hv =>
      drawProjected_inv _ (fun s stats hs => hs) ops width height hw hh _ _ _ _
        (fun _ _ y x _ _ _ _ h1 h2 h3 h4 s hs =>
          pixelStep_ok ops width height _ (meshTexture_ok model hmodel mesh) _ _ _ _ y x
            ⟨h1, h2⟩ ⟨h3, h4⟩ s hs))
    ⟨rgba, assign [] (width.toNat * height.toNat) F32.one, ⟨0, 0, 0⟩⟩
    ⟨hlen, by simp [assign]⟩
  rw [hrun]
  have hpixel : ∀ x y : Int, 0 ≤ x → x < width → 0 ≤ y → y < height →
      ¬ CoveredBy ops mvp width height model x y →
      readPixel st.rgba ((y.toNat * width.toNat + x.toNat) * 4) = some bg := by
    intro x y hx0 hx1 hy0 hy1 hnot
    have hj := pixelIndex_lt width height x y ⟨hx0, hx1⟩ ⟨hy0, hy1⟩
    obtain ⟨st2, hrun2, _, hp, _⟩ := render_inv
      (fun s => FrameOk width.toNat height.toNat s ∧
        readPixel s.rgba ((y.toNat * width.toNat + x.toNat) * 4) = some bg ∧
        s.depth[y.toNat * width.toNat + x.toNat]? = some F32.one)
      (fun s stats hs => hs) ops mvp width height model hmodel
      (fun bp hbp m hm mesh hmesh idx hidx hmod v0 v1 v2 hv =>
        drawProjected_inv _ (fun s stats hs => hs) ops width height hw hh _ _ _ _
          (fun ha0 ha1 y1 x1 b1 b2 b3 b4 h1 h2 h3 h4 s hs =>
            pixelStep_keeps ops width height _ (meshTexture_ok model hmodel mesh) _ _ _ _ bg
              x y x1 y1 ⟨hx0, hx1⟩ ⟨hy0, hy1⟩ ⟨h1, h2⟩ ⟨h3, h4⟩
              (fun ex ey hpass => hnot ⟨bp, hbp, m, hm, mesh, hmesh, idx, hidx, hmod, v0, v1,
                v2, hv, ⟨ha0, ha1, ex ▸ b1, ex ▸ b2, ey ▸ b3, ey ▸ b4⟩, hpass⟩)
              s hs))
      ⟨rgba, assign [] (width.toNat * height.toNat) F32.one, ⟨0, 0, 0⟩⟩
      ⟨⟨hlen, by simp [assign]⟩, hbg _ hj, by
        simp only [assign, List.getElem?_replicate, if_pos hj]⟩
    rw [hrun] at hrun2
    cases hrun2
    exact hp
  refine ⟨st.rgba, st.stats, rfl, hpixel, ?_, hg1, hg2, hg3⟩
  · intro hnone p hp
    have hwpos : 0 < width.toNat := by omega
    have hx : p % width.toNat < width.toNat := Nat.mod_lt _ hwpos
    have hy : p / width.toNat < height.toNat := by
      rw [Nat.div_lt_iff_lt_mul hwpos, Nat.mul_comm]; exact hp
    have key : ∀ a b : Nat, a < width.toNat → b < height.toNat → b * width.toNat + a = p →
        readPixel st.rgba (p * 4) = some bg := by
      intro a b ha hb hab
      have := hpixel (a : Int) (b : Int) (by omega) (by omega) (by omega) (by omega)
        (by
          rintro ⟨bp, hbp, m, hm, mesh, hmesh, idx, hidx, _⟩
          have := hnone bp hbp m hm mesh hmesh
          omega)
      simp only [Int.toNat_ofNat] at this
      rw [hab] at this
      exact this
    exact key (p % width.toNat) (p / width.toNat) hx hy (Nat.div_add_mod' p width.toNat)

set_option maxRecDepth 100000 in
theorem C19_background_witness :
    ModelOk sampleRenderModel ∧
    ∃ out stats, RenderThumbnailRgba sampleRasterOps sampleRenderModel ['v', '_', 'x']
        ⟨2, 0, BackgroundPreset.Green⟩ [7] = some (true, out, stats) ∧
      (∀ x y : Int, 0 ≤ x → x < 2 → 0 ≤ y → y < 1 →
        ¬ Covered sampleRasterOps sampleRenderModel ['v', '_', 'x']
          ⟨2, 0, BackgroundPreset.Green⟩ x y →
        readPixel out ((y.toNat * 2 + x.toNat) * 4) = some ⟨0, 255, 0, 255⟩) := by
  have hm : ModelOk sampleRenderModel := by
    unfold ModelOk
    decide
  obtain ⟨out, stats, hrun, hpix, _, hgreen, _⟩ :=
    C19_background sampleRasterOps sampleRenderModel hm ['v', '_', 'x']
      ⟨2, 0, BackgroundPreset.Green⟩ [7]
  refine ⟨hm, out, stats, hrun, ?_⟩
  intro x y h1 h2 h3 h4 hc
  have := hpix x y h1 h2 h3 h4 hc
  rw [hgreen rfl] at this
  exact this

/-! ## Evaluation: the pipeline of main with a clamped dimension -/

/-- The writer rejects every non-positive dimension before it opens the file. -/
theorem WriteImageAuto_rejects (sink : Sink) (ext : List Char) (width height : Int)
    (rgba : List Nat) (h : width ≤ 0 ∨ height ≤ 0) :
    WriteImageAuto sink ext width height rgba = some (false, none) := by
  have ht : WriteTgaRgba sink width height rgba = some (false, none) := by
    unfold WriteTgaRgba
    rw [if_pos h]
  unfold WriteImageAuto
  simp only []
  split
  · exact ht
  · split
    · rfl
    · exact ht

set_option maxRecDepth 100000 in
/-- Claim C18 fails on the code.  `main` hands `options.width` and `options.height`, not the
clamped values, to the image writer.  With `--width 0 --height 2` the model of `sampleFile`
loads, `RenderThumbnailRgba` returns `true` with the 1 x 2 image of 8 bytes, the writer
refuses the width 0 and `main` exits with code 1; with `--width 1 --height 2` the same
image is written and `main` exits with code 0.  The writer refuses every width or height
below 1, whatever the buffer. -/
theorem C18_unclamped_dimensions :
    (∀ (sink : Sink) (ext : List Char) (width height : Int) (rgba : List Nat),
      width ≤ 0 ∨ height ≤ 0 →
      WriteImageAuto sink ext width height rgba = some (false, none)) ∧
    ((LoadFromFile sampleOps StudioModelCpu.empty ⟨sampleFile, []⟩).bind fun r =>
      (RenderThumbnailRgba sampleRasterOps r.2 ['m'] ⟨0, 2, BackgroundPreset.Blue⟩ []).map
        fun out => (r.1, out.1, out.2.1))
      = some (true, true, [51, 102, 204, 255, 51, 102, 204, 255]) ∧
    mainRun sampleRasterOps ⟨true, 1000, 0⟩ ⟨sampleFile, []⟩ ['m'] ['.', 't', 'g', 'a']
      ⟨0, 2, BackgroundPreset.Blue⟩ = some 1 ∧
    mainRun sampleRasterOps ⟨true, 1000, 0⟩ ⟨sampleFile, []⟩ ['m'] ['.', 't', 'g', 'a']
      ⟨1, 2, BackgroundPreset.Blue⟩ = some 0 := by
  refine ⟨fun sink ext width height rgba h => WriteImageAuto_rejects sink ext width height rgba h,
    by decide, by decide, by decide⟩

/-! ## The blend of an opaque texel under IEEE-754 arithmetic -/

theorem leadingBitLoop_le : ∀ (fuel m k : Nat), m < 2 ^ (k + 1) →
    F32.leadingBitLoop fuel m ≤ k := by
  intro fuel
  induction fuel with
  | zero => intro m k _; simp [F32.leadingBitLoop]
  | succ fuel ih =>
    intro m k hm
    rw [F32.leadingBitLoop]
    by_cases h2 : m < 2
    · rw [if_pos h2]; omega
    · rw [if_neg h2]
      cases k with
      | zero => simp at hm; omega
      | succ k =>
        have hhalf : m / 2 < 2 ^ (k + 1) := by
          rw [Nat.div_lt_iff_lt_mul (by omega)]
          rw [Nat.pow_succ] at hm
          exact hm
        have := ih (m / 2) k hhalf
        omega

theorem lt_leadingBitLoop : ∀ (fuel j m : Nat), j ≤ fuel → m < 2 ^ j →
    m < 2 ^ (F32.leadingBitLoop fuel m + 1) := by
  intro fuel
  induction fuel with
  | zero =>
    intro j m hj hm
    have hj0 : j = 0 := by omega
    subst hj0
    simp at hm
    subst hm
    simp [F32.leadingBitLoop]
  | succ fuel ih =>
    intro j m hj hm
    rw [F32.leadingBitLoop]
    by_cases h2 : m < 2
    · rw [if_pos h2]; simpa using h2
    · rw [if_neg h2]
      cases j with
      | zero => simp at hm; omega
      | succ j =>
        have hhalf : m / 2 < 2 ^ j := by
          rw [Nat.div_lt_iff_lt_mul (by omega)]
          rw [Nat.pow_succ] at hm
          exact hm
        have := ih j (m / 2) (by omega) hhalf
        rw [Nat.pow_succ]
        omega

/-- The product of two significands with exponents at most that of `1.0f` rounds to a finite
float. -/
theorem round_finite (m : Nat) (e : Int) (hm : m < 2 ^ 48) (he : e ≤ -46) :
    (F32.round false m e).bits < 2139095040 := by
  unfold F32.round
  by_cases h0 : m = 0
  · rw [if_pos h0]; simp [F32.signed]
  · rw [if_neg h0]
    have hk : F32.leadingBit m ≤ 47 := leadingBitLoop_le 512 m 47 hm
    have hlt : m < 2 ^ (F32.leadingBit m + 1) :=
      lt_leadingBitLoop 512 48 m (by omega) hm
    generalize F32.leadingBit m = k at hk hlt
    simp only []
    generalize hsh : (if -149 - e ≤ (k : Int) - 23 then (k : Int) - 23 else -149 - e) = sh
    have hsh1 : (k : Int) - 23 ≤ sh := by rw [← hsh]; split <;> omega
    have hsh2 : 0 ≤ e + sh + 149 ∧ e + sh + 149 ≤ 127 := by rw [← hsh]; split <;> omega
    have hq : (if sh ≤ 0 then m * 2 ^ (-sh).toNat
        else if 2 ^ sh.toNat < 2 * (m % 2 ^ sh.toNat) ∨
            (2 * (m % 2 ^ sh.toNat) = 2 ^ sh.toNat ∧ m / 2 ^ sh.toNat % 2 = 1)
          then m / 2 ^ sh.toNat + 1 else m / 2 ^ sh.toNat) ≤ 16777216 := by
      by_cases hs : sh ≤ 0
      · rw [if_pos hs]
        have h1 : m * 2 ^ (-sh).toNat < 2 ^ (k + 1) * 2 ^ (-sh).toNat :=
          Nat.mul_lt_mul_of_pos_right hlt (by positivity)
        rw [← Nat.pow_add] at h1
        have h2 : 2 ^ (k + 1 + (-sh).toNat) ≤ 2 ^ 24 :=
          Nat.pow_le_pow_right (by omega) (by omega)
        omega
      · rw [if_neg hs]
        have h1 : m / 2 ^ sh.toNat < 2 ^ 24 := by
          rw [Nat.div_lt_iff_lt_mul (by positivity), ← Nat.pow_add]
          exact lt_of_lt_of_le hlt (Nat.pow_le_pow_right (by omega) (by omega))
        split <;> omega
    generalize (if sh ≤ 0 then m * 2 ^ (-sh).toNat
        else if 2 ^ sh.toNat < 2 * (m % 2 ^ sh.toNat) ∨
            (2 * (m % 2 ^ sh.toNat) = 2 ^ sh.toNat ∧ m / 2 ^ sh.toNat % 2 = 1)
          then m / 2 ^ sh.toNat + 1 else m / 2 ^ sh.toNat) = q at hq
    have hb : (e + sh + 149).toNat * 8388608 + q < 2139095040 := by omega
    rw [if_neg (by omega)]
    simp only [F32.signed]
    simpa using hb

theorem finite_of_bits (a : F32) (h : a.bits < 2139095040) :
    a.exponent ≠ 255 ∧ a.sign = 0 ∧ a.isNaN = false := by
  have h1 : a.exponent ≠ 255 := by unfold F32.exponent; omega
  refine ⟨h1, by unfold F32.sign; omega, ?_⟩
  unfold F32.isNaN
  simp [h1]

theorem exponent_le_of_bits (a : F32) (h : a.bits ≤ 1065353216) :
    a.exponent ≤ 127 ∧ a.sign = 0 := by
  constructor
  · unfold F32.exponent; omega
  · unfold F32.sign; omega

theorem ieeeMul_zero (a : F32) (h : a.bits < 2139095040) : F32.ieeeMul a F32.zero = F32.zero := by
  obtain ⟨h1, h2, h3⟩ := finite_of_bits a h
  have hz : F32.zero.isNaN = false := by decide
  have hze : F32.zero.exponent ≠ 255 := by decide
  have hzs : F32.zero.significand = 0 := by decide
  have hzsign : F32.zero.sign = 0 := by decide
  unfold F32.ieeeMul
  simp only [h3, hz, Bool.or_self, Bool.false_eq_true, if_false, h1, hze, or_self, hzs,
    Nat.mul_zero, h2, hzsign]
  simp [F32.round, F32.signed, F32.zero]

theorem ieeeMul_finite (a b : F32) (ha : a.bits ≤ 1065353216) (hb : b.bits ≤ 1065353216) :
    (F32.ieeeMul a b).bits < 2139095040 := by
  obtain ⟨ha1, ha2, ha3⟩ := finite_of_bits a (by omega)
  obtain ⟨hb1, hb2, hb3⟩ := finite_of_bits b (by omega)
  have hae := (exponent_le_of_bits a ha).1
  have hbe := (exponent_le_of_bits b hb).1
  unfold F32.ieeeMul
  simp only [ha3, hb3, Bool.or_self, Bool.false_eq_true, if_false, ha1, hb1, or_self, ha2, hb2,
    bne_self_eq_false]
  apply round_finite
  · have h1 : a.significand < 2 ^ 24 := by
      unfold F32.significand F32.mantissa; split <;> omega
    have h2 : b.significand < 2 ^ 24 := by
      unfold F32.significand F32.mantissa; split <;> omega
    calc a.significand * b.significand < 2 ^ 24 * 2 ^ 24 :=
          Nat.mul_lt_mul'' h1 h2
      _ = 2 ^ 48 := by norm_num
  · unfold F32.scale
    split <;> split <;> omega

set_option maxRecDepth 1000000 in
set_option maxHeartbeats 4000000 in
theorem ieee_byte_fraction :
    ∀ n, n < 256 → (F32.ieeeDiv (F32.ieeeOfInt ((n : Nat) : Int)) F32.c255).bits ≤ 1065353216 := by
  decide

set_option maxRecDepth 1000000 in
set_option maxHeartbeats 4000000 in
theorem ieee_byte_round_trip :
    ∀ c, c < 256 →
      ClampU8 (F32.ieeeLround (F32.ieeeMul (F32.ieeeDiv (F32.ieeeAdd (F32.ieeeMul
        (F32.ieeeDiv (F32.ieeeOfInt ((c : Nat) : Int)) F32.c255) F32.one) F32.zero) F32.one)
        F32.c255)) = c := by
  decide

set_option maxRecDepth 100000 in
theorem ieee_constants :
    F32.ieeeDiv (F32.ieeeOfInt ((255 : Nat) : Int)) F32.c255 = F32.one ∧
    F32.ieeeSub F32.one F32.one = F32.zero ∧
    F32.ieeeAdd F32.one F32.zero = F32.one ∧
    F32.lt F32.zero F32.one = true ∧
    ClampU8 (F32.ieeeLround (F32.ieeeMul F32.one F32.c255)) = 255 := by
  decide

theorem ieee_blendChannel (c d a : Nat) (hc : c ≤ 255) (hd : d ≤ 255) (ha : a ≤ 255) :
    blendChannel ieeeOps F32.one (F32.ieeeDiv (F32.ieeeOfInt ((a : Nat) : Int)) F32.c255)
      F32.one c d = c := by
  obtain ⟨_, hsub, _, hlt, _⟩ := ieee_constants
  have h1 := ieee_byte_fraction d (by omega)
  have h2 := ieee_byte_fraction a (by omega)
  have hz := ieeeMul_zero _ (ieeeMul_finite _ _ h1 h2)
  unfold blendChannel
  simp only [ieeeOps, hsub, hlt, if_true, hz]
  exact ieee_byte_round_trip c (by omega)

/-- Under IEEE-754 arithmetic a texel of alpha 255 replaces the pixel it is blended over. -/
theorem ieee_blend_exact : OpaqueBlend ieeeOps := by
  intro dst src ha hr hg hb hdr hdg hdb hda
  obtain ⟨hone, hsub, hadd, _, h255⟩ := ieee_constants
  have h2 := ieee_byte_fraction dst.a (by omega)
  have hz := ieeeMul_zero _ (show (F32.ieeeDiv (F32.ieeeOfInt ((dst.a : Nat) : Int))
    F32.c255).bits < 2139095040 by omega)
  have hsrcA : ieeeOps.div (ieeeOps.ofInt ((src.a : Nat) : Int)) F32.c255 = F32.one := by
    rw [ha]; exact hone
  have houtA : ieeeOps.add F32.one (ieeeOps.mul (ieeeOps.div (ieeeOps.ofInt ((dst.a : Nat) : Int))
      F32.c255) (ieeeOps.sub F32.one F32.one)) = F32.one := by
    show F32.ieeeAdd F32.one (F32.ieeeMul (F32.ieeeDiv (F32.ieeeOfInt ((dst.a : Nat) : Int))
      F32.c255) (F32.ieeeSub F32.one F32.one)) = F32.one
    rw [hsub, hz, hadd]
  unfold BlendOver
  simp only [hsrcA, houtA]
  have e1 := ieee_blendChannel src.r dst.r dst.a hr hdr hda
  have e2 := ieee_blendChannel src.g dst.g dst.a hg hdg hda
  have e3 := ieee_blendChannel src.b dst.b dst.a hb hdb hda
  have e4 : ClampU8 (ieeeOps.lround (ieeeOps.mul F32.one F32.c255)) = src.a := by
    rw [ha]; exact h255
  have e1' : blendChannel ieeeOps F32.one (ieeeOps.div (ieeeOps.ofInt ((dst.a : Nat) : Int))
      F32.c255) F32.one src.r dst.r = src.r := e1
  have e2' : blendChannel ieeeOps F32.one (ieeeOps.div (ieeeOps.ofInt ((dst.a : Nat) : Int))
      F32.c255) F32.one src.g dst.g = src.g := e2
  have e3' : blendChannel ieeeOps F32.one (ieeeOps.div (ieeeOps.ofInt ((dst.a : Nat) : Int))
      F32.c255) F32.one src.b dst.b = src.b := e3
  rw [e1', e2', e3', e4]

/-! ## The depth test on opaque fragments -/

theorem F32_lt_not_le (a b : F32) (h : F32.lt a b = true) : F32.le b a = false := by
  simp only [F32.lt, Bool.and_eq_true, Bool.not_eq_true', decide_eq_true_eq] at h
  simp only [F32.le, Bool.and_eq_false_iff, Bool.not_eq_false', decide_eq_false_iff_not]
  right
  omega

theorem F32_not_lt_le (a b : F32) (ha : a.isNaN = false) (hb : b.isNaN = false)
    (h : F32.lt a b = false) : F32.le b a = true := by
  simp only [F32.lt, ha, hb, Bool.not_false, Bool.true_and, decide_eq_false_iff_not] at h
  simp only [F32.le, ha, hb, Bool.not_false, Bool.true_and, decide_eq_true_eq]
  omega

theorem F32_le_not_nan (a b : F32) (h : F32.le a b = true) :
    a.isNaN = false ∧ b.isNaN = false := by
  simp only [F32.le, Bool.and_eq_true, Bool.not_eq_true', decide_eq_true_eq] at h
  exact ⟨h.1.1, h.1.2⟩

theorem F32_in_range (z : F32) (h0 : F32.le F32.zero z = true) (h1 : F32.le z F32.one = true) :
    (F32.lt z F32.zero || F32.lt F32.one z) = false := by
  simp only [F32.le, Bool.and_eq_true, Bool.not_eq_true', decide_eq_true_eq] at h0 h1
  simp only [F32.lt, Bool.or_eq_false_iff, Bool.and_eq_false_iff, Bool.not_eq_false',
    decide_eq_false_iff_not]
  constructor
  · right; omega
  · right; omega

theorem F32_distinct (a b : F32) (ha : a.isNaN = false) (hb : b.isNaN = false)
    (h : F32.eq a b = false) : F32.lt a b = true ∨ F32.lt b a = true := by
  simp only [F32.eq, ha, hb, Bool.not_false, Bool.true_and, beq_eq_false_iff_ne, ne_eq] at h
  simp only [F32.lt, ha, hb, Bool.not_false, Bool.true_and, decide_eq_true_eq]
  omega

theorem sampleChannel_le (ops : RasterOps) (t : TextureRgba) (x0 y0 : Int) (tx ty : F32)
    (c v : Nat) (h : sampleChannel ops t x0 y0 tx ty c = some v) : v ≤ 255 := by
  unfold sampleChannel at h
  simp only [Option.bind_eq_bind, Option.bind_eq_some, Option.pure_def, Option.some.injEq] at h
  obtain ⟨_, _, _, _, _, _, _, _, h⟩ := h
  rw [← h]
  exact ClampU8_le _

/-- Every sample is four bytes. -/
theorem SampleTexture_le (ops : RasterOps) (tex : Option TextureRgba) (u v : F32)
    (texel : Rgba8) (h : SampleTexture ops tex u v = some texel) :
    texel.r ≤ 255 ∧ texel.g ≤ 255 ∧ texel.b ≤ 255 ∧ texel.a ≤ 255 := by
  have hgray : ∀ t : Rgba8, some (⟨200, 200, 200, 255⟩ : Rgba8) = some t →
      t.r ≤ 255 ∧ t.g ≤ 255 ∧ t.b ≤ 255 ∧ t.a ≤ 255 := by
    intro t ht
    cases ht
    decide
  unfold SampleTexture at h
  cases tex with
  | none => exact hgray texel h
  | some t =>
    simp only [] at h
    split at h
    · exact hgray texel h
    · unfold sampleTexels at h
      simp only [Option.bind_eq_bind, Option.bind_eq_some, Option.pure_def,
        Option.some.injEq] at h
      obtain ⟨r, hr, g, hg, b, hb, a, ha, h⟩ := h
      rw [← h]
      exact ⟨sampleChannel_le _ _ _ _ _ _ _ _ hr, sampleChannel_le _ _ _ _ _ _ _ _ hg,
        sampleChannel_le _ _ _ _ _ _ _ _ hb, sampleChannel_le _ _ _ _ _ _ _ _ ha⟩

theorem readPixel_lt (l : List Nat) (i : Nat) (p : Rgba8) (h : readPixel l i = some p) :
    i + 3 < l.length := by
  unfold readPixel at h
  simp only [Option.bind_eq_bind, Option.bind_eq_some, Option.pure_def, Option.some.injEq] at h
  obtain ⟨_, _, _, _, _, _, a, ha, _⟩ := h
  exact (List.getElem?_eq_some_iff.mp ha).1

/-- The second part of the pixel step on a fragment with an opaque texel and a depth in
`[0, 1]`: the fragment is dropped when the stored depth is not greater, and otherwise the
pixel takes the texel and the depth of the fragment. -/
theorem depthWrite_solid (ops : RasterOps) (hblend : OpaqueBlend ops)
    (tex : Option TextureRgba) (di : Nat) (f : Fragment) (st : Frame) (dst texel : Rgba8)
    (stored : F32) (hpx : readPixel st.rgba (di * 4) = some dst)
    (hdst : dst.r ≤ 255 ∧ dst.g ≤ 255 ∧ dst.b ≤ 255 ∧ dst.a ≤ 255)
    (hd : st.depth[di]? = some stored)
    (hrange : (F32.lt f.depthZ F32.zero || F32.lt F32.one f.depthZ) = false)
    (hs : SampleTexture ops tex f.u f.v = some texel) (ha : texel.a = 255) :
    (F32.le stored f.depthZ = true → depthWrite ops tex di f st = some st) ∧
    (F32.le stored f.depthZ = false →
      ∃ s1, depthWrite ops tex di f st = some s1 ∧
        readPixel s1.rgba (di * 4) = some texel ∧ s1.depth[di]? = some f.depthZ) := by
  have hb := SampleTexture_le ops tex f.u f.v texel hs
  have hlen := readPixel_lt _ _ _ hpx
  have hdl := (List.getElem?_eq_some_iff.mp hd).1
  constructor
  · intro hle
    unfold depthWrite
    rw [if_neg (by rw [hrange]; decide), hd]
    simp only []
    rw [if_pos hle]
  · intro hle
    obtain ⟨rgba, hw, _⟩ := writePixel_some st.rgba (di * 4) (BlendOver ops dst texel) hlen
    unfold depthWrite
    rw [if_neg (by rw [hrange]; decide), hd]
    simp only []
    rw [if_neg (by rw [hle]; decide), hs]
    simp only []
    rw [if_neg (by omega), hpx]
    simp only []
    rw [hw]
    refine ⟨_, rfl, ?_, ?_⟩
    · simp only []
      rw [readPixel_writePixel st.rgba rgba di di _ hw, if_pos rfl,
        hblend dst texel ha hb.1 hb.2.1 hb.2.2.1 hdst.1 hdst.2.1 hdst.2.2.1 hdst.2.2.2]
    · simp only []
      rw [List.getElem?_set_self hdl]

/-- Two opaque fragments applied one after the other: the pixel ends with the nearer one. -/
theorem depthWrite_twice (ops : RasterOps) (hblend : OpaqueBlend ops)
    (texA texB : Option TextureRgba) (di : Nat) (fA fB : Fragment) (st : Frame)
    (dst tA tB : Rgba8) (stored : F32)
    (hpx : readPixel st.rgba (di * 4) = some dst)
    (hdst : dst.r ≤ 255 ∧ dst.g ≤ 255 ∧ dst.b ≤ 255 ∧ dst.a ≤ 255)
    (hd : st.depth[di]? = some stored)
    (hsA : SampleTexture ops texA fA.u fA.v = some tA) (haA : tA.a = 255)
    (hsB : SampleTexture ops texB fB.u fB.v = some tB) (haB : tB.a = 255)
    (hrA : F32.le F32.zero fA.depthZ = true ∧ F32.le fA.depthZ F32.one = true)
    (hrB : F32.le F32.zero fB.depthZ = true ∧ F32.le fB.depthZ F32.one = true)
    (hlA : F32.lt fA.depthZ stored = true) :
    ∃ s, (depthWrite ops texA di fA st).bind (depthWrite ops texB di fB) = some s ∧
      readPixel s.rgba (di * 4) = some (if F32.lt fB.depthZ fA.depthZ then tB else tA) ∧
      s.depth[di]? = some (if F32.lt fB.depthZ fA.depthZ then fB.depthZ else fA.depthZ) := by
  obtain ⟨s1, h1, hp1, hd1⟩ := (depthWrite_solid ops hblend texA di fA st dst tA stored hpx hdst
    hd (F32_in_range _ hrA.1 hrA.2) hsA haA).2 (F32_lt_not_le _ _ hlA)
  have hbA := SampleTexture_le ops texA fA.u fA.v tA hsA
  obtain ⟨hkeep, hwrite⟩ := depthWrite_solid ops hblend texB di fB s1 tA tB fA.depthZ hp1 hbA
    hd1 (F32_in_range _ hrB.1 hrB.2) hsB haB
  rw [h1, Option.some_bind]
  by_cases hlt : F32.lt fB.depthZ fA.depthZ = true
  · obtain ⟨s2, h2, hp2, hd2⟩ := hwrite (F32_lt_not_le _ _ hlt)
    exact ⟨s2, h2, by rw [if_pos hlt]; exact hp2, by rw [if_pos hlt]; exact hd2⟩
  · have hle := F32_not_lt_le fB.depthZ fA.depthZ (F32_le_not_nan _ _ hrB.1).2
      (F32_le_not_nan _ _ hrA.1).2 (by simpa using hlt)
    exact ⟨s1, hkeep hle, by rw [if_neg hlt]; exact hp1, by rw [if_neg hlt]; exact hd1⟩

/-- Claim C20: the depth test is draw-order independent for opaque fragments.  On a float
unit that blends an opaque texel over a pixel exactly (`OpaqueBlend`; IEEE-754 arithmetic
does, `ieee_blend_exact`), for every pixel state and every two fragments with texel alpha 255
and distinct depths in `[0, 1]`, both less than the stored depth, the per-pixel step
applied in either order leaves the pixel with the texel and the depth of the fragment with
the smaller depth. -/
theorem C20_depth_order (ops : RasterOps) (hblend : OpaqueBlend ops)
    (tex1 tex2 : Option TextureRgba) (di : Nat) (f1 f2 : Fragment) (st : Frame)
    (dst t1 t2 : Rgba8) (stored : F32)
    (hpx : readPixel st.rgba (di * 4) = some dst)
    (hdst : dst.r ≤ 255 ∧ dst.g ≤ 255 ∧ dst.b ≤ 255 ∧ dst.a ≤ 255)
    (hd : st.depth[di]? = some stored)
    (hs1 : SampleTexture ops tex1 f1.u f1.v = some t1) (ha1 : t1.a = 255)
    (hs2 : SampleTexture ops tex2 f2.u f2.v = some t2) (ha2 : t2.a = 255)
    (hr1 : F32.le F32.zero f1.depthZ = true ∧ F32.le f1.depthZ F32.one = true)
    (hr2 : F32.le F32.zero f2.depthZ = true ∧ F32.le f2.depthZ F32.one = true)
    (hne : F32.eq f1.depthZ f2.depthZ = false)
    (hl1 : F32.lt f1.depthZ stored = true) (hl2 : F32.lt f2.depthZ stored = true) :
    ∃ s12 s21,
      (depthWrite ops tex1 di f1 st).bind (depthWrite ops tex2 di f2) = some s12 ∧
      (depthWrite ops tex2 di f2 st).bind (depthWrite ops tex1 di f1) = some s21 ∧
      readPixel s12.rgba (di * 4) = some (if F32.lt f1.depthZ f2.depthZ then t1 else t2) ∧
      s12.depth[di]? = some (if F32.lt f1.depthZ f2.depthZ then f1.depthZ else f2.depthZ) ∧
      readPixel s21.rgba (di * 4) = some (if F32.lt f1.depthZ f2.depthZ then t1 else t2) ∧
      s21.depth[di]? = some (if F32.lt f1.depthZ f2.depthZ then f1.depthZ else f2.depthZ) := by
  obtain ⟨s12, h12, hp12, hd12⟩ := depthWrite_twice ops hblend tex1 tex2 di f1 f2 st dst t1 t2
    stored hpx hdst hd hs1 ha1 hs2 ha2 hr1 hr2 hl1
  obtain ⟨s21, h21, hp21, hd21⟩ := depthWrite_twice ops hblend tex2 tex1 di f2 f1 st dst t2 t1
    stored hpx hdst hd hs2 ha2 hs1 ha1 hr2 hr1 hl2
  have hn1 := (F32_le_not_nan _ _ hr1.1).2
  have hn2 := (F32_le_not_nan _ _ hr2.1).2
  refine ⟨s12, s21, h12, h21, ?_⟩
  rcases F32_distinct _ _ hn1 hn2 hne with hlt | hgt
  · have hnot : F32.lt f2.depthZ f1.depthZ = false := by
      have := F32_lt_not_le _ _ hlt
      simp only [F32.lt, F32.le, hn1, hn2, Bool.not_false, Bool.true_and,
        decide_eq_false_iff_not, decide_eq_true_eq] at this hlt ⊢
      omega
    rw [hnot] at hp12 hd12
    rw [hlt] at hp21 hd21 ⊢
    exact ⟨hp12, hd12, hp21, hd21⟩
  · have hnot : F32.lt f1.depthZ f2.depthZ = false := by
      have := F32_lt_not_le _ _ hgt
      simp only [F32.lt, F32.le, hn1, hn2, Bool.not_false, Bool.true_and,
        decide_eq_false_iff_not, decide_eq_true_eq] at this hgt ⊢
      omega
    rw [hgt] at hp12 hd12
    rw [hnot] at hp21 hd21 ⊢
    exact ⟨hp12, hd12, hp21, hd21⟩

set_option maxRecDepth 100000 in
theorem C20_depth_order_witness :
    SampleTexture ieeeOps none F32.zero F32.zero = some ⟨200, 200, 200, 255⟩ ∧
    SampleTexture ieeeOps (some sampleOpaqueTexture) F32.zero F32.zero
      = some ⟨10, 20, 30, 255⟩ ∧
    F32.eq ⟨0x3E800000⟩ F32.half = false ∧
    ∃ s12 s21,
      (depthWrite ieeeOps none 0 ⟨⟨0x3E800000⟩, F32.zero, F32.zero⟩ sampleFrame).bind
        (depthWrite ieeeOps (some sampleOpaqueTexture) 0 ⟨F32.half, F32.zero, F32.zero⟩)
        = some s12 ∧
      (depthWrite ieeeOps (some sampleOpaqueTexture) 0 ⟨F32.half, F32.zero, F32.zero⟩
        sampleFrame).bind (depthWrite ieeeOps none 0 ⟨⟨0x3E800000⟩, F32.zero, F32.zero⟩)
        = some s21 ∧
      readPixel s12.rgba (0 * 4) = some ⟨200, 200, 200, 255⟩ ∧
      s12.depth[0]? = some ⟨0x3E800000⟩ ∧
      readPixel s21.rgba (0 * 4) = some ⟨200, 200, 200, 255⟩ ∧
      s21.depth[0]? = some ⟨0x3E800000⟩ :=
  ⟨by decide, by decide, by decide,
    C20_depth_order ieeeOps ieee_blend_exact none (some sampleOpaqueTexture) 0
      ⟨⟨0x3E800000⟩, F32.zero, F32.zero⟩ ⟨F32.half, F32.zero, F32.zero⟩ sampleFrame
      ⟨51, 102, 204, 255⟩ ⟨200, 200, 200, 255⟩ ⟨10, 20, 30, 255⟩ F32.one
      (by decide) (by decide) (by decide) (by decide) (by decide) (by decide) (by decide)
      (by decide) (by decide) (by decide) (by decide) (by decide)⟩

/-! ## Transforms over exact arithmetic -/

/-- The single-precision `ConcatTransforms` is `ConcatTransformsOver` at the operations of
the float unit. -/
theorem ConcatTransforms_over (fp : FloatOps) (a b : Mat3x4) :
    (ConcatTransforms fp a b).over = ConcatTransformsOver fp.mul fp.add a.over b.over := rfl

/-- The single-precision `TransformPoint3x4` is `TransformPoint3x4Over` at the operations of
the float unit. -/
theorem TransformPoint3x4_over (fp : FloatOps) (m : Mat3x4) (p : Vec3f) :
    (TransformPoint3x4 fp m p).over = TransformPoint3x4Over fp.mul fp.add m.over p.over := rfl

/-- Claim C30: `ConcatTransforms` is affine composition.  For every float unit,
`ConcatTransforms` and `TransformPoint3x4` are the expressions `ConcatTransformsOver` and
`TransformPoint3x4Over` evaluated with the products and sums of the float unit; and with
those same expressions evaluated over exact real arithmetic, transforming a point by
`ConcatTransforms(a, b)` is transforming it by `b` and then by `a`, and `ConcatTransforms`
is associative. -/
theorem C30_concat_composition (fp : FloatOps) (m n : Mat3x4) (v : Vec3f)
    (a b c : Mat3x4Over ℝ) (p : Vec3Over ℝ) :
    (ConcatTransforms fp m n).over = ConcatTransformsOver fp.mul fp.add m.over n.over ∧
    (TransformPoint3x4 fp m v).over = TransformPoint3x4Over fp.mul fp.add m.over v.over ∧
    TransformPoint3x4Over (fun x y : ℝ => x * y) (fun x y => x + y)
        (ConcatTransformsOver (fun x y : ℝ => x * y) (fun x y => x + y) a b) p =
      TransformPoint3x4Over (fun x y : ℝ => x * y) (fun x y => x + y) a
        (TransformPoint3x4Over (fun x y : ℝ => x * y) (fun x y => x + y) b p) ∧
    ConcatTransformsOver (fun x y : ℝ => x * y) (fun x y => x + y)
        (ConcatTransformsOver (fun x y : ℝ => x * y) (fun x y => x + y) a b) c =
      ConcatTransformsOver (fun x y : ℝ => x * y) (fun x y => x + y) a
        (ConcatTransformsOver (fun x y : ℝ => x * y) (fun x y => x + y) b c) := by
  refine ⟨ConcatTransforms_over fp m n, TransformPoint3x4_over fp m v, ?_, ?_⟩
  · simp only [TransformPoint3x4Over, ConcatTransformsOver, Vec3Over.mk.injEq]
    refine ⟨by ring, by ring, by ring⟩
  · simp only [ConcatTransformsOver, Mat3x4Over.mk.injEq]
    refine ⟨by ring, by ring, by ring, by ring, by ring, by ring, by ring, by ring, by ring,
      by ring, by ring, by ring⟩

/-! ## The alpha test and the texture fallback -/

/-- Claim C27: missing texture fallback.  For a mesh whose `textureId` is negative or not
less than the number of decoded textures, and for a texture with non-positive width or
height or an empty pixel buffer, `SampleTexture` returns the gray `(200, 200, 200, 255)`
for all `u`, `v`. -/
theorem C27_texture_fallback (ops : RasterOps) (textures : List TextureRgba) (mesh : Mesh)
    (t : TextureRgba) (u v : F32) :
    ((mesh.textureId < 0 ∨ (textures.length : Int) ≤ mesh.textureId) →
      meshTexture textures mesh = none ∧
      SampleTexture ops (meshTexture textures mesh) u v = some ⟨200, 200, 200, 255⟩) ∧
    ((t.width ≤ 0 ∨ t.height ≤ 0 ∨ t.rgba = []) →
      SampleTexture ops (some t) u v = some ⟨200, 200, 200, 255⟩) := by
  constructor
  · intro h
    have hnone : meshTexture textures mesh = none := by
      unfold meshTexture
      rw [if_neg (by omega)]
    rw [hnone]
    exact ⟨rfl, rfl⟩
  · intro h
    unfold SampleTexture
    simp only []
    rw [if_pos]
    rcases h with h | h | h
    · exact Or.inl h
    · exact Or.inr (Or.inl h)
    · exact Or.inr (Or.inr (by rw [h]; rfl))

theorem C27_texture_fallback_witness :
    SampleTexture ieeeOps (meshTexture [sampleOpaqueTexture] ⟨1, [0, 1, 2]⟩) F32.half F32.one
      = some ⟨200, 200, 200, 255⟩ ∧
    SampleTexture ieeeOps (meshTexture [sampleOpaqueTexture] ⟨-1, [0, 1, 2]⟩) F32.half F32.one
      = some ⟨200, 200, 200, 255⟩ ∧
    SampleTexture ieeeOps (some ⟨0, 4, [1, 2, 3, 4]⟩) F32.half F32.one
      = some ⟨200, 200, 200, 255⟩ ∧
    SampleTexture ieeeOps (some ⟨4, 4, []⟩) F32.half F32.one = some ⟨200, 200, 200, 255⟩ :=
  ⟨((C27_texture_fallback ieeeOps [sampleOpaqueTexture] ⟨1, [0, 1, 2]⟩ sampleOpaqueTexture
      F32.half F32.one).1 (Or.inr (by decide))).2,
    ((C27_texture_fallback ieeeOps [sampleOpaqueTexture] ⟨-1, [0, 1, 2]⟩ sampleOpaqueTexture
      F32.half F32.one).1 (Or.inl (by decide))).2,
    (C27_texture_fallback ieeeOps [] ⟨0, []⟩ ⟨0, 4, [1, 2, 3, 4]⟩ F32.half F32.one).2
      (Or.inl (by decide)),
    (C27_texture_fallback ieeeOps [] ⟨0, []⟩ ⟨4, 4, []⟩ F32.half F32.one).2
      (Or.inr (Or.inr rfl))⟩

/-- Claim C23: alpha test.  For a fragment of a pixel whose stored depth can be read: when
the sampled texel has alpha 0 the per-pixel step leaves the whole frame, hence the pixel,
the stored depth and `pixelsWritten`, unchanged; when the fragment passes the depth tests
and the texel has alpha above 0, the stored depth becomes the depth of the fragment, the
pixel becomes the blend of the texel over it and `pixelsWritten` grows by exactly 1. -/
theorem C23_alpha_test (ops : RasterOps) (width : Int) (tex : Option TextureRgba)
    (o0 o1 o2 : VertexOut) (area : F32) (y x : Int) (f : Fragment) (st : Frame)
    (stored : F32) (texel : Rgba8)
    (hi : interpolate ops o0 o1 o2 area y x = some f)
    (hd : st.depth[y.toNat * width.toNat + x.toNat]? = some stored)
    (hs : SampleTexture ops tex f.u f.v = some texel) :
    (texel.a = 0 → pixelStep ops width tex o0 o1 o2 area y x st = some st) ∧
    (0 < texel.a →
      (F32.lt f.depthZ F32.zero || F32.lt F32.one f.depthZ) = false →
      F32.le stored f.depthZ = false →
      ∀ dst, readPixel st.rgba ((y.toNat * width.toNat + x.toNat) * 4) = some dst →
      ∃ s1, pixelStep ops width tex o0 o1 o2 area y x st = some s1 ∧
        s1.depth[y.toNat * width.toNat + x.toNat]? = some f.depthZ ∧
        readPixel s1.rgba ((y.toNat * width.toNat + x.toNat) * 4)
          = some (BlendOver ops dst texel) ∧
        s1.stats.pixelsWritten = st.stats.pixelsWritten + 1 ∧
        s1.stats.triangles = st.stats.triangles ∧
        s1.stats.degenerateTriangles = st.stats.degenerateTriangles) := by
  have hdl := (List.getElem?_eq_some_iff.mp hd).1
  constructor
  · intro ha
    unfold pixelStep depthWrite
    rw [hi]
    simp only []
    split
    · rfl
    · rw [hd]
      simp only []
      split
      · rfl
      · rw [hs]
        simp only []
        rw [if_pos ha]
  · intro ha hrange hle dst hpx
    have hlen := readPixel_lt _ _ _ hpx
    obtain ⟨rgba, hw, _⟩ := writePixel_some st.rgba
      ((y.toNat * width.toNat + x.toNat) * 4) (BlendOver ops dst texel) hlen
    unfold pixelStep depthWrite
    rw [hi]
    simp only []
    rw [if_neg (by rw [hrange]; decide), hd]
    simp only []
    rw [if_neg (by rw [hle]; decide), hs]
    simp only []
    rw [if_neg (by omega), hpx]
    simp only []
    rw [hw]
    refine ⟨_, rfl, ?_, ?_, rfl, rfl, rfl⟩
    · simp only []
      rw [List.getElem?_set_self hdl]
    · simp only []
      rw [readPixel_writePixel st.rgba rgba _ _ _ hw, if_pos rfl]

set_option maxRecDepth 100000 in
theorem C23_alpha_test_witness :
    interpolate ieeeOps (sampleVertexOut 0 0) (sampleVertexOut 0 0x40800000)
      (sampleVertexOut 0x40800000 0) ⟨0x41800000⟩ 0 0 = some ⟨F32.half, F32.zero, F32.zero⟩ ∧
    SampleTexture ieeeOps (some sampleClearTexture) F32.zero F32.zero = some ⟨1, 2, 3, 0⟩ ∧
    pixelStep ieeeOps 1 (some sampleClearTexture) (sampleVertexOut 0 0)
      (sampleVertexOut 0 0x40800000) (sampleVertexOut 0x40800000 0) ⟨0x41800000⟩ 0 0 sampleFrame
      = some sampleFrame := by
  have hi : interpolate ieeeOps (sampleVertexOut 0 0) (sampleVertexOut 0 0x40800000)
      (sampleVertexOut 0x40800000 0) ⟨0x41800000⟩ 0 0 = some ⟨F32.half, F32.zero, F32.zero⟩ := by
    decide
  have hs : SampleTexture ieeeOps (some sampleClearTexture) F32.zero F32.zero
      = some ⟨1, 2, 3, 0⟩ := by decide
  exact ⟨hi, hs,
    (C23_alpha_test ieeeOps 1 (some sampleClearTexture) (sampleVertexOut 0 0)
      (sampleVertexOut 0 0x40800000) (sampleVertexOut 0x40800000 0) ⟨0x41800000⟩ 0 0
      ⟨F32.half, F32.zero, F32.zero⟩ sampleFrame F32.one ⟨1, 2, 3, 0⟩ hi (by decide) hs).1 rfl⟩

/-! ## Face culling -/

theorem F32_lt_ne (a b : F32) (h : F32.lt a b = true) :
    F32.eq a b = false ∧ F32.eq b a = false := by
  simp only [F32.lt, Bool.and_eq_true, Bool.not_eq_true', decide_eq_true_eq] at h
  simp only [F32.eq, h.1.1, h.1.2, Bool.not_false, Bool.true_and, beq_eq_false_iff_ne, ne_eq]
  constructor <;> omega

theorem F32_lt_le (a b : F32) (h : F32.lt a b = true) : F32.le a b = true := by
  simp only [F32.lt, Bool.and_eq_true, Bool.not_eq_true', decide_eq_true_eq] at h
  simp only [F32.le, h.1.1, h.1.2, Bool.not_false, Bool.true_and, decide_eq_true_eq]
  omega

set_option maxRecDepth 100000 in
/-- Claim C21, counterexample: on a frame of one pixel, the triangle `(0,0), (4,0), (0,4)`
has the negative area `-16` and covers the pixel (rasterizing it would write the gray of
the missing texture), yet `drawProjected` leaves the frame as it was; the same triangle
with the other winding has the positive area `16` and is drawn. -/
theorem C21_counterexample :
    EdgeFunction ieeeOps.toFloatOps F32.zero F32.zero ⟨0x40800000⟩ F32.zero F32.zero
      ⟨0x40800000⟩ = ⟨0xC1800000⟩ ∧
    F32.lt ⟨0xC1800000⟩ F32.zero = true ∧
    (rasterize ieeeOps 1 1 none (sampleVertexOut 0 0) (sampleVertexOut 0x40800000 0)
      (sampleVertexOut 0 0x40800000) ⟨0xC1800000⟩ sampleFrame).map (fun s => s.rgba)
      = some [200, 200, 200, 255] ∧
    (drawProjected ieeeOps 1 1 none (sampleVertexOut 0 0) (sampleVertexOut 0x40800000 0)
      (sampleVertexOut 0 0x40800000) sampleFrame).map (fun s => (s.rgba, s.stats))
      = some ([51, 102, 204, 255], ⟨0, 0, 0⟩) ∧
    EdgeFunction ieeeOps.toFloatOps F32.zero F32.zero F32.zero ⟨0x40800000⟩ ⟨0x40800000⟩
      F32.zero = ⟨0x41800000⟩ ∧
    F32.lt F32.zero ⟨0x41800000⟩ = true ∧
    (drawProjected ieeeOps 1 1 none (sampleVertexOut 0 0) (sampleVertexOut 0 0x40800000)
      (sampleVertexOut 0x40800000 0) sampleFrame).map (fun s => (s.rgba, s.stats))
      = some ([200, 200, 200, 255], ⟨0, 0, 1⟩) := by
  refine ⟨by decide, by decide, by decide, by decide, by decide, by decide, by decide⟩

/-- Claim C21, amended: face culling by area sign.  In the body of the triangle loop, a
triangle whose signed area (`EdgeFunction` of the three projected screen positions) is
negative is culled: it is counted in `triangles` and nothing else changes, neither the
image nor the depth buffer nor the other counters.  A triangle whose area is positive is
counted and rasterized: the result is that of the two pixel loops over its bounding box. -/
theorem C21_face_culling (ops : RasterOps) (mvp : Mat4f) (width height : Int)
    (tex : Option TextureRgba) (m : Model) (mesh : Mesh) (idx : Nat) (st : Frame)
    (v0 v1 v2 : Vertex)
    (hv : triangleVertices m mesh idx = some (v0, v1, v2)) :
    (F32.lt (EdgeFunction ops.toFloatOps
        (project ops mvp width height v0).x (project ops mvp width height v0).y
        (project ops mvp width height v1).x (project ops mvp width height v1).y
        (project ops mvp width height v2).x (project ops mvp width height v2).y)
        F32.zero = true →
      drawTriangle ops mvp width height tex m mesh idx st
        = some { st with stats :=
            { triangles := st.stats.triangles + 1
              degenerateTriangles := st.stats.degenerateTriangles
              pixelsWritten := st.stats.pixelsWritten } }) ∧
    (F32.lt F32.zero (EdgeFunction ops.toFloatOps
        (project ops mvp width height v0).x (project ops mvp width height v0).y
        (project ops mvp width height v1).x (project ops mvp width height v1).y
        (project ops mvp width height v2).x (project ops mvp width height v2).y) = true →
      drawTriangle ops mvp width height tex m mesh idx st
        = rasterize ops width height tex (project ops mvp width height v0)
            (project ops mvp width height v1) (project ops mvp width height v2)
            (EdgeFunction ops.toFloatOps
              (project ops mvp width height v0).x (project ops mvp width height v0).y
              (project ops mvp width height v1).x (project ops mvp width height v1).y
              (project ops mvp width height v2).x (project ops mvp width height v2).y)
            { st with stats :=
              { triangles := st.stats.triangles + 1
                degenerateTriangles := st.stats.degenerateTriangles
                pixelsWritten := st.stats.pixelsWritten } }) := by
  constructor
  · intro h
    unfold drawTriangle
    rw [hv]
    simp only []
    unfold drawProjected
    simp only []
    rw [if_neg (by rw [(F32_lt_ne _ _ h).1]; decide), if_pos (F32_lt_le _ _ h)]
  · intro h
    unfold drawTriangle
    rw [hv]
    simp only []
    unfold drawProjected
    simp only []
    rw [if_neg (by rw [(F32_lt_ne _ _ h).2]; decide),
      if_neg (by rw [F32_lt_not_le _ _ h]; decide)]

set_option maxRecDepth 100000 in
theorem C21_face_culling_witness :
    (project ieeeOps sampleMvp 2 2 (sampleVertexAt 0xBF800000 0x3F800000 0x3F800000),
      project ieeeOps sampleMvp 2 2 (sampleVertexAt 0xBF800000 0xC0E00000 0x3F800000),
      project ieeeOps sampleMvp 2 2 (sampleVertexAt 0x40E00000 0x3F800000 0x3F800000))
      = (sampleVertexOut 0 0, sampleVertexOut 0 0x40800000, sampleVertexOut 0x40800000 0) ∧
    drawTriangle ieeeOps sampleMvp 2 2 none sampleWindingModel sampleWindingMesh 3 sampleFrame2
      = some { sampleFrame2 with stats := ⟨1, 0, 0⟩ } ∧
    (drawTriangle ieeeOps sampleMvp 2 2 none sampleWindingModel sampleWindingMesh 0
      sampleFrame2).map (fun s => (s.rgba, s.stats))
      = some ([200, 200, 200, 255, 200, 200, 200, 255, 200, 200, 200, 255,
          200, 200, 200, 255], ⟨1, 0, 4⟩) ∧
    drawTriangle ieeeOps sampleMvp 2 2 none sampleWindingModel sampleWindingMesh 0 sampleFrame2
      = rasterize ieeeOps 2 2 none
          (project ieeeOps sampleMvp 2 2 (sampleVertexAt 0xBF800000 0x3F800000 0x3F800000))
          (project ieeeOps sampleMvp 2 2 (sampleVertexAt 0xBF800000 0xC0E00000 0x3F800000))
          (project ieeeOps sampleMvp 2 2 (sampleVertexAt 0x40E00000 0x3F800000 0x3F800000))
          (EdgeFunction ieeeOps.toFloatOps
            (project ieeeOps sampleMvp 2 2
              (sampleVertexAt 0xBF800000 0x3F800000 0x3F800000)).x
            (project ieeeOps sampleMvp 2 2
              (sampleVertexAt 0xBF800000 0x3F800000 0x3F800000)).y
            (project ieeeOps sampleMvp 2 2
              (sampleVertexAt 0xBF800000 0xC0E00000 0x3F800000)).x
            (project ieeeOps sampleMvp 2 2
              (sampleVertexAt 0xBF800000 0xC0E00000 0x3F800000)).y
            (project ieeeOps sampleMvp 2 2
              (sampleVertexAt 0x40E00000 0x3F800000 0x3F800000)).x
            (project ieeeOps sampleMvp 2 2
              (sampleVertexAt 0x40E00000 0x3F800000 0x3F800000)).y)
          { sampleFrame2 with stats := ⟨0 + 1, 0, 0⟩ } :=
  ⟨by decide,
    (C21_face_culling ieeeOps sampleMvp 2 2 none sampleWindingModel sampleWindingMesh 3
      sampleFrame2 (sampleVertexAt 0xBF800000 0x3F800000 0x3F800000)
      (sampleVertexAt 0x40E00000 0x3F800000 0x3F800000)
      (sampleVertexAt 0xBF800000 0xC0E00000 0x3F800000) (by decide)).1 (by decide),
    by decide,
    (C21_face_culling ieeeOps sampleMvp 2 2 none sampleWindingModel sampleWindingMesh 0
      sampleFrame2 (sampleVertexAt 0xBF800000 0x3F800000 0x3F800000)
      (sampleVertexAt 0xBF800000 0xC0E00000 0x3F800000)
      (sampleVertexAt 0x40E00000 0x3F800000 0x3F800000) (by decide)).2 (by decide)⟩

/-! ## Vertices with a zero clip w -/

set_option maxRecDepth 100000 in
/-- Claim C22, counterexample: the first vertex of the triangle of `sampleZeroWModel` has
clip `w = 0` under `sampleMvp` and is projected to the zero `VertexOut`; the triangle still
has a positive area, all four pixels of a 2 x 2 frame are written and
`degenerateTriangles` stays 0. -/
theorem C22_counterexample :
    triangleVertices sampleZeroWModel ⟨-1, [0, 1, 2]⟩ 0
      = some (sampleVertexAt 0 0 0, sampleVertexAt 0xBF800000 0xC0E00000 0x3F800000,
          sampleVertexAt 0x40E00000 0x3F800000 0x3F800000) ∧
    F32.eq (MulVec4 ieeeOps.toFloatOps sampleMvp ⟨F32.zero, F32.zero, F32.zero, F32.one⟩).w
      F32.zero = true ∧
    project ieeeOps sampleMvp 2 2 (sampleVertexAt 0 0 0) = VertexOut.zero ∧
    (drawTriangle ieeeOps sampleMvp 2 2 none sampleZeroWModel ⟨-1, [0, 1, 2]⟩ 0
      sampleFrame2).map (fun s => (s.rgba, s.stats))
      = some ([200, 200, 200, 255, 200, 200, 200, 255, 200, 200, 200, 255,
          200, 200, 200, 255], ⟨1, 0, 4⟩) := by
  refine ⟨by decide, by decide, by decide, by decide⟩

theorem project_zero (ops : RasterOps) (mvp : Mat4f) (width height : Int) (v : Vertex)
    (h : F32.eq (MulVec4 ops.toFloatOps mvp
      ⟨v.position.x, v.position.y, v.position.z, F32.one⟩).w F32.zero = true) :
    (project ops mvp width height v).x = F32.zero ∧
    (project ops mvp width height v).y = F32.zero ∧
    (project ops mvp width height v).z = F32.zero ∧
    (project ops mvp width height v).invW = F32.zero := by
  unfold project
  simp only []
  rw [if_pos h]
  exact ⟨rfl, rfl, rfl, rfl⟩

/-- Claim C22, amended: zero-w triangles.  A vertex whose clip-space `w` equals 0 is
projected to the screen position `(0, 0)` with depth and `invW` 0, and the triangle is
then treated like any other.  When all three vertices of a triangle have clip-space `w`
equal to 0 (over a float unit with `0 - 0 = 0` and `0 * 0 = 0`), the triangle has area 0:
no pixel is written and it is counted in `degenerateTriangles`. -/
theorem C22_zero_w (ops : RasterOps) (mvp : Mat4f) (width height : Int)
    (tex : Option TextureRgba) (m : Model) (mesh : Mesh) (idx : Nat) (st : Frame)
    (v0 v1 v2 : Vertex)
    (hv : triangleVertices m mesh idx = some (v0, v1, v2))
    (hsub : ops.sub F32.zero F32.zero = F32.zero)
    (hmul : ops.mul F32.zero F32.zero = F32.zero)
    (h0 : F32.eq (MulVec4 ops.toFloatOps mvp
      ⟨v0.position.x, v0.position.y, v0.position.z, F32.one⟩).w F32.zero = true)
    (h1 : F32.eq (MulVec4 ops.toFloatOps mvp
      ⟨v1.position.x, v1.position.y, v1.position.z, F32.one⟩).w F32.zero = true)
    (h2 : F32.eq (MulVec4 ops.toFloatOps mvp
      ⟨v2.position.x, v2.position.y, v2.position.z, F32.one⟩).w F32.zero = true) :
    drawTriangle ops mvp width height tex m mesh idx st
      = some { st with stats :=
          { triangles := st.stats.triangles + 1
            degenerateTriangles := st.stats.degenerateTriangles + 1
            pixelsWritten := st.stats.pixelsWritten } } := by
  obtain ⟨x0, y0, _, _⟩ := project_zero ops mvp width height v0 h0
  obtain ⟨x1, y1, _, _⟩ := project_zero ops mvp width height v1 h1
  obtain ⟨x2, y2, _, _⟩ := project_zero ops mvp width height v2 h2
  unfold drawTriangle
  rw [hv]
  simp only []
  unfold drawProjected
  simp only []
  rw [x0, y0, x1, y1, x2, y2]
  have harea : EdgeFunction ops.toFloatOps F32.zero F32.zero F32.zero F32.zero F32.zero
      F32.zero = F32.zero := by
    unfold EdgeFunction
    rw [hsub, hmul, hsub]
  rw [harea, if_pos (by decide)]

set_option maxRecDepth 100000 in
theorem C22_zero_w_witness :
    (drawTriangle ieeeOps sampleMvp 2 2 none
      ⟨[sampleVertexAt 0 0 0, sampleVertexAt 0x3F800000 0 0, sampleVertexAt 0 0x3F800000 0],
        [⟨-1, [0, 1, 2]⟩]⟩ ⟨-1, [0, 1, 2]⟩ 0 sampleFrame2).map (fun s => (s.rgba, s.stats))
      = some (sampleFrame2.rgba, ⟨1, 1, 0⟩) := by
  rw [C22_zero_w ieeeOps sampleMvp 2 2 none
    ⟨[sampleVertexAt 0 0 0, sampleVertexAt 0x3F800000 0 0, sampleVertexAt 0 0x3F800000 0],
      [⟨-1, [0, 1, 2]⟩]⟩ ⟨-1, [0, 1, 2]⟩ 0 sampleFrame2
    (sampleVertexAt 0 0 0) (sampleVertexAt 0x3F800000 0 0) (sampleVertexAt 0 0x3F800000 0)
    (by decide) (by decide) (by decide) (by decide) (by decide) (by decide)]
  rfl

/-! ## Triangle statistics -/

theorem foldlM_count {σ α : Type} (tri deg : σ → Nat) (w : α → Nat) (f : σ → α → Option σ)
    (l : List α)
    (hstep : ∀ a ∈ l, ∀ s s1, f s a = some s1 →
      tri s1 = tri s + w a ∧ deg s1 ≤ deg s + w a) :
    ∀ s s1, l.foldlM f s = some s1 →
      tri s1 = tri s + (l.map w).sum ∧ deg s1 ≤ deg s + (l.map w).sum := by
  induction l with
  | nil =>
    intro s s1 h
    simp only [List.foldlM_nil, Option.pure_def, Option.some.injEq] at h
    subst h
    simp
  | cons a l ih =>
    intro s s1 h
    simp only [List.foldlM_cons, Option.bind_eq_bind, Option.bind_eq_some] at h
    obtain ⟨s2, h2, h3⟩ := h
    have ha := hstep a (List.mem_cons_self a l) s s2 h2
    have hl := ih (fun b hb => hstep b (List.mem_cons_of_mem a hb)) s2 s1 h3
    simp only [List.map_cons, List.sum_cons]
    omega

theorem depthWrite_counts (ops : RasterOps) (tex : Option TextureRgba) (di : Nat)
    (f : Fragment) (st s1 : Frame) (h : depthWrite ops tex di f st = some s1) :
    s1.stats.triangles = st.stats.triangles ∧
    s1.stats.degenerateTriangles = st.stats.degenerateTriangles := by
  unfold depthWrite at h
  split at h
  · simp only [Option.some.injEq] at h
    subst h
    exact ⟨rfl, rfl⟩
  · split at h
    · exact absurd h (by simp)
    · split at h
      · simp only [Option.some.injEq] at h
        subst h
        exact ⟨rfl, rfl⟩
      · split at h
        · exact absurd h (by simp)
        · split at h
          · simp only [Option.some.injEq] at h
            subst h
            exact ⟨rfl, rfl⟩
          · split at h
            · exact absurd h (by simp)
            · split at h
              · exact absurd h (by simp)
              · simp only [Option.some.injEq] at h
                subst h
                exact ⟨rfl, rfl⟩

theorem pixelStep_counts (ops : RasterOps) (width : Int) (tex : Option TextureRgba)
    (o0 o1 o2 : VertexOut) (area : F32) (y x : Int) (st s1 : Frame)
    (h : pixelStep ops width tex o0 o1 o2 area y x st = some s1) :
    s1.stats.triangles = st.stats.triangles ∧
    s1.stats.degenerateTriangles = st.stats.degenerateTriangles := by
  unfold pixelStep at h
  split at h
  · simp only [Option.some.injEq] at h
    subst h
    exact ⟨rfl, rfl⟩
  · exact depthWrite_counts _ _ _ _ _ _ h

theorem rasterize_counts (ops : RasterOps) (width height : Int) (tex : Option TextureRgba)
    (o0 o1 o2 : VertexOut) (area : F32) (st s1 : Frame)
    (h : rasterize ops width height tex o0 o1 o2 area st = some s1) :
    s1.stats.triangles = st.stats.triangles ∧
    s1.stats.degenerateTriangles ≤ st.stats.degenerateTriangles := by
  unfold rasterize at h
  have hrows := foldlM_count (fun s : Frame => s.stats.triangles)
    (fun s : Frame => s.stats.degenerateTriangles) (fun _ : Int => 0) _ _
    (fun y _ s s2 hrow => by
      have hcols := foldlM_count (fun s : Frame => s.stats.triangles)
        (fun s : Frame => s.stats.degenerateTriangles) (fun _ : Int => 0) _ _
        (fun x _ s3 s4 hpix => by
          have := pixelStep_counts ops width tex o0 o1 o2 area y x s3 s4 hpix
          simp only [Nat.add_zero]
          exact ⟨this.1, Nat.le_of_eq this.2⟩) s s2 hrow
      simp only [List.map_const', List.sum_replicate, smul_eq_mul, Nat.mul_zero,
        Nat.add_zero] at hcols
      simp only [Nat.add_zero]
      exact hcols) st s1 h
  simp only [List.map_const', List.sum_replicate, smul_eq_mul, Nat.mul_zero,
    Nat.add_zero] at hrows
  exact hrows

theorem drawProjected_counts (ops : RasterOps) (width height : Int)
    (tex : Option TextureRgba) (o0 o1 o2 : VertexOut) (st s1 : Frame)
    (h : drawProjected ops width height tex o0 o1 o2 st = some s1) :
    s1.stats.triangles = st.stats.triangles ∧
    s1.stats.degenerateTriangles ≤ st.stats.degenerateTriangles + 1 := by
  unfold drawProjected at h
  simp only [] at h
  split at h
  · simp only [Option.some.injEq] at h
    subst h
    exact ⟨rfl, Nat.le_refl _⟩
  · split at h
    · simp only [Option.some.injEq] at h
      subst h
      exact ⟨rfl, Nat.le_succ _⟩
    · have := rasterize_counts _ _ _ _ _ _ _ _ _ _ h
      exact ⟨this.1, Nat.le_succ_of_le this.2⟩

theorem drawTriangle_counts (ops : RasterOps) (mvp : Mat4f) (width height : Int)
    (tex : Option TextureRgba) (m : Model) (mesh : Mesh) (idx : Nat) (st s1 : Frame)
    (h : drawTriangle ops mvp width height tex m mesh idx st = some s1) :
    s1.stats.triangles = st.stats.triangles + 1 ∧
    s1.stats.degenerateTriangles ≤ st.stats.degenerateTriangles + 1 := by
  unfold drawTriangle at h
  simp only [] at h
  split at h
  · exact absurd h (by simp)
  · exact drawProjected_counts _ _ _ _ _ _ _ _ _ h

theorem triangleLoop_counts (body : Nat → Frame → Option Frame) (size : Nat)
    (hstep : ∀ idx s s1, body idx s = some s1 →
      s1.stats.triangles = s.stats.triangles + 1 ∧
      s1.stats.degenerateTriangles ≤ s.stats.degenerateTriangles + 1) :
    ∀ (fuel idx : Nat) (s s1 : Frame), triangleLoop body size fuel idx s = some s1 →
      s1.stats.triangles = s.stats.triangles + (size - idx) / 3 ∧
      s1.stats.degenerateTriangles ≤ s.stats.degenerateTriangles + (size - idx) / 3 := by
  intro fuel
  induction fuel with
  | zero =>
    intro idx s s1 h
    unfold triangleLoop at h
    split at h
    · exact absurd h (by simp)
    · simp only [Option.some.injEq] at h
      subst h
      omega
  | succ fuel ih =>
    intro idx s s1 h
    unfold triangleLoop at h
    split at h
    · simp only [Option.bind_eq_some] at h
      obtain ⟨s2, h2, h3⟩ := h
      have ha := hstep idx s s2 h2
      have hl := ih (idx + 3) s2 s1 h3
      omega
    · simp only [Option.some.injEq] at h
      subst h
      omega

theorem drawMesh_counts (ops : RasterOps) (mvp : Mat4f) (width height : Int)
    (textures : List TextureRgba) (m : Model) (mesh : Mesh) (st s1 : Frame)
    (h : drawMesh ops mvp width height textures m st mesh = some s1) :
    s1.stats.triangles = st.stats.triangles + mesh.indices.length / 3 ∧
    s1.stats.degenerateTriangles ≤ st.stats.degenerateTriangles + mesh.indices.length / 3 := by
  unfold drawMesh at h
  exact triangleLoop_counts _ _
    (fun idx s s2 hs => drawTriangle_counts _ _ _ _ _ _ _ _ _ _ hs) _ 0 st s1 h

theorem drawBodyPart_counts (ops : RasterOps) (mvp : Mat4f) (width height : Int)
    (textures : List TextureRgba) (bodyPart : BodyPart) (st s1 : Frame)
    (h : drawBodyPart ops mvp width height textures st bodyPart = some s1) :
    s1.stats.triangles = st.stats.triangles + bodyPartTriangles bodyPart ∧
    s1.stats.degenerateTriangles
      ≤ st.stats.degenerateTriangles + bodyPartTriangles bodyPart := by
  unfold drawBodyPart at h
  unfold bodyPartTriangles
  split at h
  · simp only [Option.some.injEq] at h
    subst h
    exact ⟨rfl, Nat.le_refl _⟩
  · exact foldlM_count (fun s : Frame => s.stats.triangles)
      (fun s : Frame => s.stats.degenerateTriangles)
      (fun mesh : Mesh => mesh.indices.length / 3) _ _
      (fun mesh _ s s2 hs => drawMesh_counts _ _ _ _ _ _ _ _ _ hs) st s1 h

theorem render_counts (ops : RasterOps) (mvp : Mat4f) (width height : Int)
    (model : StudioModelCpu) (st s1 : Frame)
    (h : model.bodyParts.foldlM (drawBodyPart ops mvp width height model.textures) st
      = some s1) :
    s1.stats.triangles = st.stats.triangles + triangleTotal model ∧
    s1.stats.degenerateTriangles ≤ st.stats.degenerateTriangles + triangleTotal model :=
  foldlM_count (fun s : Frame => s.stats.triangles)
    (fun s : Frame => s.stats.degenerateTriangles) bodyPartTriangles _ _
    (fun _ _ _ _ hs => drawBodyPart_counts _ _ _ _ _ _ _ _ hs) st s1 h

/-- Claim C24: triangle statistics.  For every model the loader can leave behind
(`ModelOk`), `RenderThumbnailRgba` returns and `RenderStats.triangles` equals the sum, over
the first sub-model of every body part that has one, of `floor(indices.size() / 3)` over
its meshes (`triangleTotal`, which does not look at the other sub-models), and
`degenerateTriangles` does not exceed `triangles`. -/
theorem C24_triangle_statistics (ops : RasterOps) (model : StudioModelCpu)
    (hmodel : ModelOk model) (stem : List Char) (options : RenderOptions)
    (outRgba : List Nat) :
    ∃ out stats, RenderThumbnailRgba ops model stem options outRgba = some (true, out, stats) ∧
      stats.triangles = triangleTotal model ∧
      stats.degenerateTriangles ≤ stats.triangles := by
  have hwidth : (if 1 < options.width then options.width else 1) = max 1 options.width := by
    split <;> omega
  have hheight : (if 1 < options.height then options.height else 1) = max 1 options.height := by
    split <;> omega
  unfold RenderThumbnailRgba
  simp only [hwidth, hheight]
  have hw : 1 ≤ max 1 options.width := by omega
  have hh : 1 ≤ max 1 options.height := by omega
  generalize max 1 options.width = width at hw
  generalize max 1 options.height = height at hh
  obtain ⟨rgba, hfill, hlen, _⟩ := fillBackground_spec (GetBackground options.background)
    width height (assign outRgba (width.toNat * height.toNat * 4) 0)
    (by simp [assign])
  rw [hfill]
  simp only []
  obtain ⟨st, hrun, _⟩ := render_inv (FrameOk width.toNat height.toNat)
    (fun s stats hs => hs) ops (cameraMatrix ops model stem width height) width height model
    hmodel
    (fun bp hbp m hm mesh hmesh idx hidx hmod v0 v1 v2 hv =>
      drawProjected_inv _ (fun s stats hs => hs) ops width height hw hh _ _ _ _
        (fun _ _ y x _ _ _ _ h1 h2 h3 h4 s hs =>
          pixelStep_ok ops width height _ (meshTexture_ok model hmodel mesh) _ _ _ _ y x
            ⟨h1, h2⟩ ⟨h3, h4⟩ s hs))
    ⟨rgba, assign [] (width.toNat * height.toNat) F32.one, ⟨0, 0, 0⟩⟩
    ⟨hlen, by simp [assign]⟩
  have hcount := render_counts _ _ _ _ _ _ _ hrun
  rw [hrun]
  refine ⟨st.rgba, st.stats, rfl, ?_, ?_⟩
  · simpa using hcount.1
  · have h1 := hcount.1
    have h2 := hcount.2
    simp only [Nat.zero_add] at h1 h2
    omega

set_option maxRecDepth 100000 in
theorem C24_triangle_statistics_witness :
    ModelOk sampleStatsModel ∧
    triangleTotal sampleStatsModel = 3 ∧
    (RenderThumbnailRgba sampleRasterOps sampleStatsModel ['v', '_', 'x']
        ⟨1, 1, BackgroundPreset.Blue⟩ []).map (fun r => r.2.2) = some ⟨3, 3, 0⟩ ∧
    ∃ out stats, RenderThumbnailRgba sampleRasterOps sampleStatsModel ['v', '_', 'x']
        ⟨1, 1, BackgroundPreset.Blue⟩ [] = some (true, out, stats) ∧
      stats.triangles = triangleTotal sampleStatsModel ∧
      stats.degenerateTriangles ≤ stats.triangles :=
  ⟨by unfold ModelOk; decide, by decide, by decide,
    C24_triangle_statistics sampleRasterOps sampleStatsModel (by unfold ModelOk; decide)
      ['v', '_', 'x'] ⟨1, 1, BackgroundPreset.Blue⟩ []⟩

/-! ## The TGA writer -/

theorem bgraIndex_twice (i : Nat) : bgraIndex (bgraIndex i) = i := by
  simp only [bgraIndex]
  split_ifs <;> omega

theorem bgraIndex_lt (i n : Nat) (h : i < 4 * n) : bgraIndex i < 4 * n := by
  unfold bgraIndex
  split
  · omega
  · split <;> omega

theorem bgraBytes_length (pixels : List Nat) (n : Nat) : (bgraBytes pixels n).length = 4 * n := by
  simp [bgraBytes]

theorem bgraBytes_getElem (pixels : List Nat) (n i : Nat) (h : i < 4 * n) :
    (bgraBytes pixels n)[i]? = some (pixels.getD (bgraIndex i) 0) := by
  unfold bgraBytes
  rw [List.getElem?_map, List.getElem?_range h]
  rfl

theorem bgraBytes_succ (pixels : List Nat) (k : Nat) :
    bgraBytes pixels (k + 1) = bgraBytes pixels k ++
      [pixels.getD (4 * k + 2) 0, pixels.getD (4 * k + 1) 0, pixels.getD (4 * k) 0,
        pixels.getD (4 * k + 3) 0] := by
  have h0 : bgraIndex (4 * k) = 4 * k + 2 := by
    unfold bgraIndex
    rw [if_pos (by omega)]
  have h1 : bgraIndex (4 * k + 1) = 4 * k + 1 := by
    unfold bgraIndex
    rw [if_neg (by omega), if_neg (by omega)]
  have h2 : bgraIndex (4 * k + 2) = 4 * k := by
    unfold bgraIndex
    rw [if_neg (by omega), if_pos (by omega)]
    omega
  have h3 : bgraIndex (4 * k + 3) = 4 * k + 3 := by
    unfold bgraIndex
    rw [if_neg (by omega), if_neg (by omega)]
  unfold bgraBytes
  rw [show 4 * (k + 1) = 4 * k + 1 + 1 + 1 + 1 from by omega]
  simp only [List.range_succ, List.map_append, List.map_cons, List.map_nil, List.append_assoc,
    List.singleton_append, List.cons_append, List.nil_append, h0, h1, h2, h3]

theorem bgraBytes_twice (pixels : List Nat) (n : Nat) (h : pixels.length = 4 * n) :
    bgraBytes (bgraBytes pixels n) n = pixels := by
  apply List.ext_getElem?
  intro i
  by_cases hi : i < 4 * n
  · rw [bgraBytes_getElem _ _ _ hi]
    have hj := bgraIndex_lt i n hi
    rw [List.getD_eq_getElem?_getD, bgraBytes_getElem _ _ _ hj, bgraIndex_twice,
      Option.getD_some, List.getD_eq_getElem?_getD,
      List.getElem?_eq_getElem (by omega)]
    rfl
  · rw [List.getElem?_eq_none (by rw [bgraBytes_length]; omega),
      List.getElem?_eq_none (by omega)]

theorem tgaHeader_length (width height : Int) : (tgaHeader width height).length = 18 := rfl

theorem tgaPixel_spec (sink : Sink) (width : Int) (rgba : List Nat) (y x : Nat) (out : OStream)
    (h : (y * width.toNat + x) * 4 + 3 < rgba.length) :
    tgaPixel sink width rgba y x out = some (out.write sink
      [rgba.getD (4 * (y * width.toNat + x) + 2) 0, rgba.getD (4 * (y * width.toNat + x) + 1) 0,
        rgba.getD (4 * (y * width.toNat + x)) 0, rgba.getD (4 * (y * width.toNat + x) + 3) 0]) := by
  unfold tgaPixel
  simp only [Nat.add_zero]
  rw [List.getElem?_eq_getElem (by omega), List.getElem?_eq_getElem (by omega),
    List.getElem?_eq_getElem (by omega), List.getElem?_eq_getElem (by omega)]
  simp only [Option.bind_eq_bind, Option.some_bind, Option.pure_def, Option.some.injEq]
  rw [Nat.mul_comm 4 _]
  simp only [List.getD_eq_getElem?_getD]
  rw [List.getElem?_eq_getElem (by omega), List.getElem?_eq_getElem (by omega),
    List.getElem?_eq_getElem (by omega), List.getElem?_eq_getElem (by omega)]
  rfl

theorem TgaWritten_step (sink : Sink) (width height : Int) (rgba : List Nat) (k : Nat)
    (out : OStream) (h : TgaWritten sink width height rgba k out) :
    TgaWritten sink width height rgba (k + 1) (out.write sink
      [rgba.getD (4 * k + 2) 0, rgba.getD (4 * k + 1) 0, rgba.getD (4 * k) 0,
        rgba.getD (4 * k + 3) 0]) := by
  obtain ⟨hgood, hdata⟩ := h
  unfold OStream.write
  by_cases hg : out.good = true
  · have hlen : out.data.length = 18 + 4 * k := by
      rw [hdata hg, List.length_append, tgaHeader_length, bgraBytes_length]
    rw [if_pos hg]
    refine ⟨?_, fun _ => ?_⟩
    · simp only [decide_eq_true_eq, List.length_cons, List.length_nil]
      omega
    · simp only []
      rw [hdata hg, bgraBytes_succ, List.append_assoc]
  · rw [if_neg hg]
    exact ⟨⟨fun h => absurd h hg, fun hcap => absurd (hgood.2 (by omega)) hg⟩,
      fun h => absurd h hg⟩

theorem tgaLoops_spec (sink : Sink) (width height : Int) (rgba : List Nat)
    (hlen : rgba.length = width.toNat * height.toNat * 4) (out : OStream)
    (h : TgaWritten sink width height rgba 0 out) :
    ∃ out1, (List.range height.toNat).foldlM
        (fun out y =>
          (List.range width.toNat).foldlM (fun out x => tgaPixel sink width rgba y x out) out)
        out = some out1 ∧
      TgaWritten sink width height rgba (width.toNat * height.toNat) out1 := by
  have hrow := foldlM_range_inv
    (fun y (out : OStream) => TgaWritten sink width height rgba (y * width.toNat) out)
    (fun out y =>
      (List.range width.toNat).foldlM (fun out x => tgaPixel sink width rgba y x out) out)
    height.toNat ?_ out (by simpa using h)
  · obtain ⟨out1, h1, h2⟩ := hrow
    refine ⟨out1, h1, ?_⟩
    rw [Nat.mul_comm]
    exact h2
  · intro y hy s hs
    have hcol := foldlM_range_inv
      (fun x (out : OStream) => TgaWritten sink width height rgba (y * width.toNat + x) out)
      (fun out x => tgaPixel sink width rgba y x out)
      width.toNat ?_ s (by simpa using hs)
    · obtain ⟨out1, h1, h2⟩ := hcol
      refine ⟨out1, h1, ?_⟩
      show TgaWritten sink width height rgba ((y + 1) * width.toNat) out1
      rw [Nat.succ_mul]
      exact h2
    · intro x hx s1 hs1
      have hbound : y * width.toNat + x < width.toNat * height.toNat := by
        have := Nat.mul_le_mul_right width.toNat (Nat.succ_le_of_lt hy)
        rw [Nat.succ_mul, Nat.mul_comm height.toNat] at this
        omega
      show ∃ s2, tgaPixel sink width rgba y x s1 = some s2 ∧
        TgaWritten sink width height rgba (y * width.toNat + x + 1) s2
      rw [tgaPixel_spec sink width rgba y x s1 (by omega)]
      exact ⟨_, rfl, TgaWritten_step sink width height rgba _ s1 hs1⟩

theorem WriteTgaRgba_spec (sink : Sink) (width height : Int) (rgba : List Nat)
    (hw : 0 < width) (hh : 0 < height)
    (hlen : rgba.length = width.toNat * height.toNat * 4) :
    ∃ flag file, WriteTgaRgba sink width height rgba = some (flag, file) ∧
      (flag = true ↔
        sink.opens = true ∧
          18 + width.toNat * height.toNat * 4 ≤ sink.capacity + sink.buffered) ∧
      (file = none ↔ sink.opens = false) ∧
      (flag = true → file = some ((tgaHeader width height ++
        bgraBytes rgba (width.toNat * height.toNat)).take sink.capacity)) := by
  unfold WriteTgaRgba
  rw [if_neg (by omega), if_neg (by simpa using hlen)]
  by_cases hopen : sink.opens = false
  · rw [if_pos hopen]
    exact ⟨false, none, rfl, by simp [hopen], by simp [hopen], by simp⟩
  · rw [if_neg hopen]
    simp only []
    have hopens : sink.opens = true := by simpa using hopen
    have h0 : TgaWritten sink width height rgba 0
        (OStream.write sink ⟨true, []⟩ (tgaHeader width height)) := by
      unfold OStream.write TgaWritten
      rw [if_pos rfl]
      refine ⟨?_, fun _ => by simp [bgraBytes]⟩
      simp only [decide_eq_true_eq, List.length_nil, tgaHeader_length]
    by_cases hgood : (OStream.write sink ⟨true, []⟩ (tgaHeader width height)).good = false
    · rw [if_pos hgood]
      refine ⟨false, _, rfl, ?_, by simp [hopen], by simp⟩
      have := h0.1
      rw [hgood] at this
      constructor
      · intro hf
        exact absurd hf (by simp)
      · intro hcap
        exact absurd (this.2 (by omega)) (by simp)
    · rw [if_neg hgood]
      obtain ⟨out1, hrun, hout⟩ := tgaLoops_spec sink width height rgba hlen _ h0
      rw [hrun]
      refine ⟨out1.good, some (out1.stored sink), rfl, ?_, by simp [hopen], ?_⟩
      · rw [hout.1]
        constructor
        · intro h
          exact ⟨hopens, by omega⟩
        · intro h
          omega
      · intro hg
        unfold OStream.stored
        rw [hout.2 hg]

theorem WriteTgaRgba_complete (sink : Sink) (width height : Int) (rgba : List Nat)
    (hw : 0 < width) (hh : 0 < height)
    (hlen : rgba.length = width.toNat * height.toNat * 4)
    (hopen : sink.opens = true)
    (hcap : 18 + width.toNat * height.toNat * 4 ≤ sink.capacity) :
    WriteTgaRgba sink width height rgba = some (true, some (tgaHeader width height ++
      bgraBytes rgba (width.toNat * height.toNat))) := by
  obtain ⟨flag, file, hrun, hflag, _, hfile⟩ :=
    WriteTgaRgba_spec sink width height rgba hw hh hlen
  have hf : flag = true := hflag.2 ⟨hopen, by omega⟩
  subst hf
  rw [hrun, hfile rfl, List.take_of_length_le (by
    rw [List.length_append, tgaHeader_length, bgraBytes_length]
    omega)]

theorem tgaHeader_wide (pixels : List Nat) :
    (tgaHeader 65536 1 ++ pixels)[12]? = some 0 ∧
      (tgaHeader 65536 1 ++ pixels)[13]? = some 0 := ⟨rfl, rfl⟩

set_option maxRecDepth 100000 in
/-- Claim C26, counterexample: two accepted inputs.  For width 65536 and height 1 the writer
accepts a buffer of 262144 bytes, returns `true` and writes the file completely, but bytes 12
and 13 of the file are 0 and 0: they hold the low 16 bits of the width, not the width.  And
for the 1 x 1 image, when the file takes 21 bytes and the stream buffers the rest, the
writer returns `true` although the file holds 21 bytes, not `18 + 1 * 1 * 4`. -/
theorem C26_counterexample :
    (∃ data w0 w1, WriteTgaRgba ⟨true, 262162, 0⟩ 65536 1 (List.replicate 262144 0)
        = some (true, some data) ∧
      data[12]? = some w0 ∧ data[13]? = some w1 ∧ w0 + 256 * w1 = 0 ∧
      w0 + 256 * w1 ≠ (65536 : Int).toNat) ∧
    WriteTgaRgba ⟨true, 21, 8169⟩ 1 1 [1, 2, 3, 4]
      = some (true, some [0, 0, 2, 0, 0, 0, 0, 0, 0, 0, 0, 0, 1, 0, 1, 0, 32, 40, 3, 2, 1]) ∧
    ([0, 0, 2, 0, 0, 0, 0, 0, 0, 0, 0, 0, 1, 0, 1, 0, 32, 40, 3, 2, 1] : List Nat).length
      ≠ 18 + 1 * 1 * 4 := by
  have hlen : (List.replicate 262144 0).length = (65536 : Int).toNat * (1 : Int).toNat * 4 := by
    rw [List.length_replicate]
    rfl
  have hcap : 18 + (65536 : Int).toNat * (1 : Int).toNat * 4 ≤ 262162 := by decide
  have hrun := WriteTgaRgba_complete ⟨true, 262162, 0⟩ 65536 1
    (List.replicate 262144 0) (by decide) (by decide) hlen rfl hcap
  exact ⟨⟨_, 0, 0, hrun, (tgaHeader_wide _).1, (tgaHeader_wide _).2, rfl, by decide⟩,
    by decide, by decide⟩

/-- Claim C26, amended: TGA layout.  For every accepted input whose width and height are at
most 65535 and whose file opens and takes all the bytes, `WriteTgaRgba` returns `true` and
emits exactly `18 + width * height * 4` bytes: an 18-byte header that is zero except
byte 2 = 2, bytes 12-15 = width and height as 16-bit little-endian, byte 16 = 32 and
byte 17 = 0x28, then the pixels in the order of the input, each written as (B, G, R, A). -/
theorem C26_tga_layout (sink : Sink) (width height : Int) (rgba : List Nat)
    (hw : 0 < width) (hh : 0 < height) (hw16 : width < 65536) (hh16 : height < 65536)
    (hlen : rgba.length = width.toNat * height.toNat * 4)
    (hopen : sink.opens = true)
    (hcap : 18 + width.toNat * height.toNat * 4 ≤ sink.capacity) :
    ∃ data w0 w1 h0 h1, WriteTgaRgba sink width height rgba = some (true, some data) ∧
      data.length = 18 + width.toNat * height.toNat * 4 ∧
      data.take 18 = [0, 0, 2, 0, 0, 0, 0, 0, 0, 0, 0, 0, w0, w1, h0, h1, 32, 0x28] ∧
      w0 < 256 ∧ w1 < 256 ∧ h0 < 256 ∧ h1 < 256 ∧
      w0 + 256 * w1 = width.toNat ∧ h0 + 256 * h1 = height.toNat ∧
      ∀ p, p < width.toNat * height.toNat →
        data[18 + 4 * p]? = rgba[4 * p + 2]? ∧
        data[18 + 4 * p + 1]? = rgba[4 * p + 1]? ∧
        data[18 + 4 * p + 2]? = rgba[4 * p]? ∧
        data[18 + 4 * p + 3]? = rgba[4 * p + 3]? := by
  rw [WriteTgaRgba_complete sink width height rgba hw hh hlen hopen hcap]
  refine ⟨_, (width % 256).toNat, (width / 256 % 256).toNat, (height % 256).toNat,
    (height / 256 % 256).toNat, rfl, ?_, ?_, by omega, by omega, by omega, by omega,
    by omega, by omega, ?_⟩
  · rw [List.length_append, tgaHeader_length, bgraBytes_length]
    omega
  · rw [List.take_left' (tgaHeader_length width height)]
    rfl
  · intro p hp
    have key : ∀ c, c < 4 →
        (tgaHeader width height ++ bgraBytes rgba (width.toNat * height.toNat))[18 + (4 * p + c)]?
          = rgba[bgraIndex (4 * p + c)]? := by
      intro c hc
      rw [List.getElem?_append_right (by rw [tgaHeader_length]; omega), tgaHeader_length,
        Nat.add_sub_cancel_left, bgraBytes_getElem _ _ _ (by omega),
        List.getD_eq_getElem?_getD,
        List.getElem?_eq_getElem (by
          have := bgraIndex_lt (4 * p + c) (width.toNat * height.toNat) (by omega)
          omega)]
      rfl
    have h0 := key 0 (by omega)
    have h1 := key 1 (by omega)
    have h2 := key 2 (by omega)
    have h3 := key 3 (by omega)
    have e0 : bgraIndex (4 * p + 0) = 4 * p + 2 := by
      unfold bgraIndex
      rw [if_pos (by omega)]
    have e1 : bgraIndex (4 * p + 1) = 4 * p + 1 := by
      unfold bgraIndex
      rw [if_neg (by omega), if_neg (by omega)]
    have e2 : bgraIndex (4 * p + 2) = 4 * p := by
      unfold bgraIndex
      rw [if_neg (by omega), if_pos (by omega)]
      omega
    have e3 : bgraIndex (4 * p + 3) = 4 * p + 3 := by
      unfold bgraIndex
      rw [if_neg (by omega), if_neg (by omega)]
    rw [e0] at h0
    rw [e1] at h1
    rw [e2] at h2
    rw [e3] at h3
    exact ⟨h0, h1, h2, h3⟩

set_option maxRecDepth 100000 in
theorem C26_tga_layout_witness :
    WriteTgaRgba ⟨true, 26, 0⟩ 2 1 [1, 2, 3, 4, 5, 6, 7, 8]
      = some (true, some [0, 0, 2, 0, 0, 0, 0, 0, 0, 0, 0, 0, 2, 0, 1, 0, 32, 40,
          3, 2, 1, 4, 7, 6, 5, 8]) ∧
    ∃ data w0 w1 h0 h1,
      WriteTgaRgba ⟨true, 26, 0⟩ 2 1 [1, 2, 3, 4, 5, 6, 7, 8] = some (true, some data) ∧
      data.length = 18 + (2 : Int).toNat * (1 : Int).toNat * 4 ∧
      data.take 18 = [0, 0, 2, 0, 0, 0, 0, 0, 0, 0, 0, 0, w0, w1, h0, h1, 32, 0x28] ∧
      w0 < 256 ∧ w1 < 256 ∧ h0 < 256 ∧ h1 < 256 ∧
      w0 + 256 * w1 = (2 : Int).toNat ∧ h0 + 256 * h1 = (1 : Int).toNat ∧
      ∀ p, p < (2 : Int).toNat * (1 : Int).toNat →
        data[18 + 4 * p]? = ([1, 2, 3, 4, 5, 6, 7, 8] : List Nat)[4 * p + 2]? ∧
        data[18 + 4 * p + 1]? = ([1, 2, 3, 4, 5, 6, 7, 8] : List Nat)[4 * p + 1]? ∧
        data[18 + 4 * p + 2]? = ([1, 2, 3, 4, 5, 6, 7, 8] : List Nat)[4 * p]? ∧
        data[18 + 4 * p + 3]? = ([1, 2, 3, 4, 5, 6, 7, 8] : List Nat)[4 * p + 3]? :=
  ⟨by decide,
    C26_tga_layout ⟨true, 26, 0⟩ 2 1 [1, 2, 3, 4, 5, 6, 7, 8] (by decide) (by decide)
      (by decide) (by decide) (by decide) rfl (by decide)⟩

theorem parseTga_wide (pixels : List Nat) :
    parseTga (tgaHeader 65536 1 ++ pixels) = some (0, 1, []) := rfl

/-- Claim C25, counterexample: for width 65536 and height 1 the writer accepts a buffer of
262144 bytes and returns `true`, but the header keeps only the low 16 bits of the width, so
re-parsing the file yields width 0 and no pixel. -/
theorem C25_counterexample :
    ∃ data, WriteTgaRgba ⟨true, 262162, 0⟩ 65536 1 (List.replicate 262144 0)
        = some (true, some data) ∧
      parseTga data = some (0, 1, []) := by
  have hlen : (List.replicate 262144 0).length = (65536 : Int).toNat * (1 : Int).toNat * 4 := by
    rw [List.length_replicate]
    rfl
  have hcap : 18 + (65536 : Int).toNat * (1 : Int).toNat * 4 ≤ 262162 := by decide
  exact ⟨_, WriteTgaRgba_complete ⟨true, 262162, 0⟩ 65536 1
    (List.replicate 262144 0) (by decide) (by decide) hlen rfl hcap, parseTga_wide _⟩

/-- Claim C25, amended: TGA round trip.  For every width and height from 1 to 65535 and
every RGBA buffer of `width * height * 4` bytes, when the file opens and takes all the
bytes, `WriteTgaRgba` returns `true` and re-parsing the written bytes (16-bit little-endian
width at offset 12 and height at offset 14, then BGRA pixels from offset 18, swapped back
to RGBA) yields the original width, height and pixel values. -/
theorem C25_tga_round_trip (sink : Sink) (width height : Int) (rgba : List Nat)
    (hw : 0 < width) (hh : 0 < height) (hw16 : width < 65536) (hh16 : height < 65536)
    (hlen : rgba.length = width.toNat * height.toNat * 4)
    (hopen : sink.opens = true)
    (hcap : 18 + width.toNat * height.toNat * 4 ≤ sink.capacity) :
    ∃ data, WriteTgaRgba sink width height rgba = some (true, some data) ∧
      parseTga data = some (width.toNat, height.toNat, rgba) := by
  rw [WriteTgaRgba_complete sink width height rgba hw hh hlen hopen hcap]
  refine ⟨_, rfl, ?_⟩
  have hwidth : (width % 256).toNat + 256 * (width / 256 % 256).toNat = width.toNat := by
    omega
  have hheight : (height % 256).toNat + 256 * (height / 256 % 256).toNat = height.toNat := by
    omega
  have hdrop : (tgaHeader width height ++ bgraBytes rgba (width.toNat * height.toNat)).drop 18
      = bgraBytes rgba (width.toNat * height.toNat) :=
    List.drop_left' (tgaHeader_length width height)
  have hparse : parseTga (tgaHeader width height ++
      bgraBytes rgba (width.toNat * height.toNat))
      = some ((width % 256).toNat + 256 * (width / 256 % 256).toNat,
          (height % 256).toNat + 256 * (height / 256 % 256).toNat,
          bgraBytes ((tgaHeader width height ++
            bgraBytes rgba (width.toNat * height.toNat)).drop 18)
            (((width % 256).toNat + 256 * (width / 256 % 256).toNat) *
              ((height % 256).toNat + 256 * (height / 256 % 256).toNat))) := rfl
  rw [hparse, hdrop, hwidth, hheight,
    bgraBytes_twice rgba (width.toNat * height.toNat) (by omega)]

set_option maxRecDepth 100000 in
theorem C25_tga_round_trip_witness :
    (WriteTgaRgba ⟨true, 26, 0⟩ 1 2 [1, 2, 3, 4, 5, 6, 7, 8]).map
      (fun r => (r.1, r.2.bind parseTga)) = some (true, some (1, 2, [1, 2, 3, 4, 5, 6, 7, 8])) ∧
    ∃ data, WriteTgaRgba ⟨true, 26, 0⟩ 1 2 [1, 2, 3, 4, 5, 6, 7, 8] = some (true, some data) ∧
      parseTga data = some ((1 : Int).toNat, (2 : Int).toNat, [1, 2, 3, 4, 5, 6, 7, 8]) :=
  ⟨by decide,
    C25_tga_round_trip ⟨true, 26, 0⟩ 1 2 [1, 2, 3, 4, 5, 6, 7, 8] (by decide) (by decide)
      (by decide) (by decide) (by decide) rfl (by decide)⟩

/-! ## The runs of `build` -/

/-- The single-precision `EdgeFunction` is `EdgeFunctionOver` at the operations of the float
unit. -/
theorem EdgeFunction_over (fp : FloatOps) (ax ay bx by_ cx cy : F32) :
    EdgeFunction fp ax ay bx by_ cx cy = EdgeFunctionOver fp.mul fp.sub ax ay bx by_ cx cy :=
  rfl

/-- The first part of the body of the pixel loop is `barycentricOver` at the operations of
the float unit, followed by the interpolation. -/
theorem interpolate_over (ops : RasterOps) (o0 o1 o2 : VertexOut) (area : F32) (y x : Int) :
    interpolate ops o0 o1 o2 area y x =
      (barycentricOver ops.mul ops.sub ops.div F32.lt F32.zero F32.one
        o0.x o0.y o1.x o1.y o2.x o2.y area
        (ops.add (ops.ofInt x) F32.half) (ops.add (ops.ofInt y) F32.half)).bind
        (fragmentOf ops o0 o1 o2) := by
  unfold interpolate barycentricOver
  simp only [EdgeFunction_over]
  split <;> rfl

/-- Claim C33: edge functions partition the area.  For every float unit, `EdgeFunction` is
the expression `EdgeFunctionOver` evaluated with the products and differences of the float
unit, and the edge values, the inside test and the barycentric weights of the pixel loop
are the expression `barycentricOver` evaluated with the operations of the float unit.  With
those same expressions evaluated over exact arithmetic (any ordered field), the three edge
values of a point sum to the area of the triangle; the barycentric weights of an accepted
pixel sum to 1 when the area is not 0; and when the area is positive a pixel passes the
inside test exactly when all three edge values are `>= 0`, the three edge values never
being all `<= 0`. -/
theorem C33_edge_partition {K : Type} [LinearOrderedField K]
    (ops : RasterOps) (v0 v1 v2 : VertexOut) (area : F32) (y x : Int)
    (o0x o0y o1x o1y o2x o2y px py : K) :
    (∀ ax ay bx by_ cx cy : F32, EdgeFunction ops.toFloatOps ax ay bx by_ cx cy
      = EdgeFunctionOver ops.mul ops.sub ax ay bx by_ cx cy) ∧
    interpolate ops v0 v1 v2 area y x =
      (barycentricOver ops.mul ops.sub ops.div F32.lt F32.zero F32.one
        v0.x v0.y v1.x v1.y v2.x v2.y area
        (ops.add (ops.ofInt x) F32.half) (ops.add (ops.ofInt y) F32.half)).bind
        (fragmentOf ops v0 v1 v2) ∧
    EdgeFunctionExact o1x o1y o2x o2y px py + EdgeFunctionExact o2x o2y o0x o0y px py
      + EdgeFunctionExact o0x o0y o1x o1y px py
      = EdgeFunctionExact o0x o0y o1x o1y o2x o2y ∧
    (EdgeFunctionExact o0x o0y o1x o1y o2x o2y ≠ 0 →
      ∀ b0 b1 b2, barycentricExact o0x o0y o1x o1y o2x o2y
        (EdgeFunctionExact o0x o0y o1x o1y o2x o2y) px py = some (b0, b1, b2) →
        b0 + b1 + b2 = 1) ∧
    (0 < EdgeFunctionExact o0x o0y o1x o1y o2x o2y →
      ((barycentricExact o0x o0y o1x o1y o2x o2y
          (EdgeFunctionExact o0x o0y o1x o1y o2x o2y) px py).isSome = true ↔
        0 ≤ EdgeFunctionExact o1x o1y o2x o2y px py ∧
        0 ≤ EdgeFunctionExact o2x o2y o0x o0y px py ∧
        0 ≤ EdgeFunctionExact o0x o0y o1x o1y px py) ∧
      ¬ (EdgeFunctionExact o1x o1y o2x o2y px py ≤ 0 ∧
        EdgeFunctionExact o2x o2y o0x o0y px py ≤ 0 ∧
        EdgeFunctionExact o0x o0y o1x o1y px py ≤ 0)) := by
  have hsum : EdgeFunctionExact o1x o1y o2x o2y px py + EdgeFunctionExact o2x o2y o0x o0y px py
      + EdgeFunctionExact o0x o0y o1x o1y px py
      = EdgeFunctionExact o0x o0y o1x o1y o2x o2y := by
    simp only [EdgeFunctionExact, EdgeFunctionOver]
    ring
  refine ⟨fun ax ay bx by_ cx cy => EdgeFunction_over ops.toFloatOps ax ay bx by_ cx cy,
    interpolate_over ops v0 v1 v2 area y x, hsum, ?_, ?_⟩
  · intro harea b0 b1 b2 hb
    unfold barycentricExact barycentricOver at hb
    simp only [] at hb
    split at hb
    · cases hb
    · simp only [Option.some.injEq, Prod.mk.injEq] at hb
      obtain ⟨h0, h1, h2⟩ := hb
      have hsum2 := hsum
      simp only [EdgeFunctionExact] at hsum2 harea h0 h1 h2
      rw [← h0, ← h1, ← h2, ← add_mul, ← add_mul, hsum2, one_div, mul_inv_cancel₀ harea]
  · intro harea
    generalize hw0 : EdgeFunctionExact o1x o1y o2x o2y px py = w0 at hsum ⊢
    generalize hw1 : EdgeFunctionExact o2x o2y o0x o0y px py = w1 at hsum ⊢
    generalize hw2 : EdgeFunctionExact o0x o0y o1x o1y px py = w2 at hsum ⊢
    have hnot : ¬ (w0 ≤ 0 ∧ w1 ≤ 0 ∧ w2 ≤ 0) := by
      rintro ⟨h0, h1, h2⟩
      linarith
    refine ⟨?_, hnot⟩
    unfold barycentricExact barycentricOver
    unfold EdgeFunctionExact at hw0 hw1 hw2
    simp only [hw0, hw1, hw2]
    constructor
    · intro h
      split at h
      · cases h
      · rename_i hc
        simp only [Bool.and_eq_true, Bool.or_eq_true, decide_eq_true_eq, not_and_or, not_or,
          not_lt] at hc
        rcases hc with hc | hc
        · exact ⟨hc.1.1, hc.1.2, hc.2⟩
        · exact absurd ⟨hc.1.1, hc.1.2, hc.2⟩ hnot
    · intro h
      rw [if_neg]
      · rfl
      · simp only [Bool.and_eq_true, Bool.or_eq_true, decide_eq_true_eq, not_and_or, not_or,
          not_lt]
        exact Or.inl ⟨⟨h.1, h.2.1⟩, h.2.2⟩

theorem C33_edge_partition_witness :
    interpolate sampleRasterOps (sampleVertexOut 0 0) (sampleVertexOut 0 4)
        (sampleVertexOut 4 0) F32.one 0 0 =
      (barycentricOver sampleRasterOps.mul sampleRasterOps.sub sampleRasterOps.div F32.lt
        F32.zero F32.one (sampleVertexOut 0 0).x (sampleVertexOut 0 0).y
        (sampleVertexOut 0 4).x (sampleVertexOut 0 4).y (sampleVertexOut 4 0).x
        (sampleVertexOut 4 0).y F32.one
        (sampleRasterOps.add (sampleRasterOps.ofInt 0) F32.half)
        (sampleRasterOps.add (sampleRasterOps.ofInt 0) F32.half)).bind
        (fragmentOf sampleRasterOps (sampleVertexOut 0 0) (sampleVertexOut 0 4)
          (sampleVertexOut 4 0)) ∧
    EdgeFunctionExact (0 : ℚ) 4 4 0 (1 / 2) (1 / 2) + EdgeFunctionExact 4 0 0 0 (1 / 2) (1 / 2)
      + EdgeFunctionExact 0 0 0 4 (1 / 2) (1 / 2) = EdgeFunctionExact 0 0 0 4 4 0 ∧
    EdgeFunctionExact (0 : ℚ) 0 0 4 4 0 = 16 ∧
    barycentricExact (0 : ℚ) 0 0 4 4 0 16 (1 / 2) (1 / 2) = some (3 / 4, 1 / 8, 1 / 8) ∧
    ((barycentricExact (0 : ℚ) 0 0 4 4 0 (EdgeFunctionExact 0 0 0 4 4 0) (1 / 2) (1 / 2)).isSome
        = true ↔
      0 ≤ EdgeFunctionExact (0 : ℚ) 4 4 0 (1 / 2) (1 / 2) ∧
      0 ≤ EdgeFunctionExact (4 : ℚ) 0 0 0 (1 / 2) (1 / 2) ∧
      0 ≤ EdgeFunctionExact (0 : ℚ) 0 0 4 (1 / 2) (1 / 2)) :=
  ⟨(C33_edge_partition sampleRasterOps (sampleVertexOut 0 0) (sampleVertexOut 0 4)
      (sampleVertexOut 4 0) F32.one 0 0 (0 : ℚ) 0 0 4 4 0 (1 / 2) (1 / 2)).2.1,
    (C33_edge_partition sampleRasterOps (sampleVertexOut 0 0) (sampleVertexOut 0 4)
      (sampleVertexOut 4 0) F32.one 0 0 (0 : ℚ) 0 0 4 4 0 (1 / 2) (1 / 2)).2.2.1,
    by norm_num [EdgeFunctionExact, EdgeFunctionOver],
    by norm_num [barycentricExact, barycentricOver, EdgeFunctionOver],
    ((C33_edge_partition sampleRasterOps (sampleVertexOut 0 0) (sampleVertexOut 0 4)
      (sampleVertexOut 4 0) F32.one 0 0 (0 : ℚ) 0 0 4 4 0 (1 / 2) (1 / 2)).2.2.2.2
      (by norm_num [EdgeFunctionExact, EdgeFunctionOver])).1⟩

/-! ## Source-over blending over exact arithmetic -/

/-- The single-precision `BlendOver` is `BlendOverOver` at the operations of the float
unit. -/
theorem BlendOver_over (ops : RasterOps) (dst src : Rgba8) :
    BlendOver ops dst src = BlendOverOver ops.ofInt ops.add ops.sub ops.mul ops.div ops.lround
      F32.lt F32.zero F32.one F32.c255 dst src := rfl

theorem lroundExact_intCast {K : Type} [LinearOrderedField K] [FloorRing K] (n : Int) :
    lroundExact (n : K) = n := by
  unfold lroundExact
  split
  · rw [Int.floor_eq_iff]
    constructor
    · linarith
    · have : (1 : K) / 2 < 1 := by norm_num
      linarith
  · rw [Int.ceil_eq_iff]
    constructor
    · have : (1 : K) / 2 < 1 := by norm_num
      linarith
    · have : (0 : K) < 1 / 2 := by norm_num
      linarith

theorem lroundExact_range {K : Type} [LinearOrderedField K] [FloorRing K] (x : K)
    (h0 : 0 ≤ x) (h1 : x ≤ 255) : 0 ≤ lroundExact x ∧ lroundExact x ≤ 255 := by
  unfold lroundExact
  rw [if_pos h0]
  constructor
  · apply Int.floor_nonneg.mpr
    have : (0 : K) < 1 / 2 := by norm_num
    linarith
  · have hlt : Int.floor (x + 1 / 2) < 256 := by
      rw [Int.floor_lt]
      have : (1 : K) / 2 < 1 := by norm_num
      push_cast
      linarith
    omega

theorem ClampU8_id (n : Int) (h0 : 0 ≤ n) (h1 : n ≤ 255) : (ClampU8 n : Int) = n := by
  unfold ClampU8 clampInt
  rw [if_neg (by omega), if_neg (by omega)]
  exact Int.toNat_of_nonneg h0

theorem blendChannelExact_solid {K : Type} [LinearOrderedField K] [FloorRing K] (dstA : K)
    (srcC dstC : Nat) (h : srcC ≤ 255) :
    blendChannelOver (fun i : Int => (i : K)) (fun a b => a + b) (fun a b => a - b)
      (fun a b => a * b) (fun a b => a / b) lroundExact (fun a b => decide (a < b)) 0 1 255
      1 dstA 1 srcC dstC = srcC := by
  unfold blendChannelOver
  simp only [zero_lt_one, decide_True, if_true, sub_self, mul_zero, add_zero, mul_one, div_one]
  have h255 : ((255 : K)) ≠ 0 := by norm_num
  rw [div_mul_cancel₀ _ h255, lroundExact_intCast]
  have := ClampU8_id (srcC : Int) (by omega) (by omega)
  exact_mod_cast this

theorem blendChannelExact_zero {K : Type} [LinearOrderedField K] [FloorRing K] (srcA dstA : K)
    (srcC dstC : Nat) :
    blendChannelOver (fun i : Int => (i : K)) (fun a b => a + b) (fun a b => a - b)
      (fun a b => a * b) (fun a b => a / b) lroundExact (fun a b => decide (a < b)) 0 1 255
      srcA dstA 0 srcC dstC = 0 := by
  unfold blendChannelOver
  simp only [lt_self_iff_false, decide_False, Bool.false_eq_true, if_false, zero_mul]
  have h0 : lroundExact (0 : K) = 0 := by
    have := lroundExact_intCast (K := K) 0
    simpa using this
  rw [h0]
  rfl

/-- Claim C32: source-over with an opaque source replaces the destination.  For every float
unit, `BlendOver` is the expression `BlendOverOver` evaluated with the conversions, sums,
differences, products, quotients, `std::lround` and comparison of the float unit.  With
that same expression evaluated over exact arithmetic (any ordered field with a floor),
`BlendOver` of a texel of alpha 255 over any pixel gives the texel; for all bytes the
resulting alpha is `round(255 * (sa + da * (1 - sa)))` with `sa`, `da` the alphas divided by
255; and all four channels are 0 when that alpha sum is 0. -/
theorem C32_blend_over {K : Type} [LinearOrderedField K] [FloorRing K] (ops : RasterOps)
    (dst src : Rgba8) :
    BlendOver ops dst src = BlendOverOver ops.ofInt ops.add ops.sub ops.mul ops.div ops.lround
      F32.lt F32.zero F32.one F32.c255 dst src ∧
    (src.a = 255 → src.r ≤ 255 → src.g ≤ 255 → src.b ≤ 255 →
      BlendOverExact K dst src = src) ∧
    (src.a ≤ 255 → dst.a ≤ 255 →
      ((BlendOverExact K dst src).a : Int) = lroundExact
        (255 * (((src.a : Int) : K) / 255
          + ((dst.a : Int) : K) / 255 * (1 - ((src.a : Int) : K) / 255)))) ∧
    (((src.a : Int) : K) / 255 + ((dst.a : Int) : K) / 255 * (1 - ((src.a : Int) : K) / 255) = 0 →
      BlendOverExact K dst src = ⟨0, 0, 0, 0⟩) := by
  have h255 : ((255 : K)) ≠ 0 := by norm_num
  refine ⟨BlendOver_over ops dst src, ?_, ?_, ?_⟩
  · intro ha hr hg hb
    have hsa : (((src.a : Nat) : Int) : K) / 255 = 1 := by
      rw [ha]
      norm_num
    unfold BlendOverExact BlendOverOver
    simp only [hsa, sub_self, mul_zero, add_zero, one_mul]
    rw [blendChannelExact_solid _ _ _ hr, blendChannelExact_solid _ _ _ hg,
      blendChannelExact_solid _ _ _ hb]
    have h1 : lroundExact (255 : K) = 255 := by
      have := lroundExact_intCast (K := K) 255
      simpa using this
    rw [h1]
    cases src
    simp only [] at ha
    subst ha
    rfl
  · intro hs hd
    unfold BlendOverExact BlendOverOver
    simp only []
    have hs0 : (0 : K) ≤ ((src.a : Int) : K) / 255 := by positivity
    have hd0 : (0 : K) ≤ ((dst.a : Int) : K) / 255 := by positivity
    have hs1 : ((src.a : Int) : K) / 255 ≤ 1 := by
      rw [div_le_one (by norm_num)]
      exact_mod_cast hs
    have hd1 : ((dst.a : Int) : K) / 255 ≤ 1 := by
      rw [div_le_one (by norm_num)]
      exact_mod_cast hd
    generalize ((src.a : Int) : K) / 255 = sa at hs0 hs1
    generalize ((dst.a : Int) : K) / 255 = da at hd0 hd1
    have hout0 : 0 ≤ sa + da * (1 - sa) := by nlinarith
    have hout1 : sa + da * (1 - sa) ≤ 1 := by nlinarith
    rw [mul_comm (sa + da * (1 - sa)) 255]
    have hr := lroundExact_range (255 * (sa + da * (1 - sa))) (by positivity) (by linarith)
    exact ClampU8_id _ hr.1 hr.2
  · intro hzero
    unfold BlendOverExact BlendOverOver
    simp only [hzero]
    rw [blendChannelExact_zero, blendChannelExact_zero, blendChannelExact_zero]
    have h0 : lroundExact ((0 : K) * 255) = 0 := by
      have := lroundExact_intCast (K := K) 0
      simpa using this
    rw [h0]
    rfl

theorem C32_blend_over_witness :
    BlendOver ieeeOps ⟨51, 102, 204, 255⟩ ⟨10, 20, 30, 255⟩ =
      BlendOverOver ieeeOps.ofInt ieeeOps.add ieeeOps.sub ieeeOps.mul ieeeOps.div
        ieeeOps.lround F32.lt F32.zero F32.one F32.c255 ⟨51, 102, 204, 255⟩
        ⟨10, 20, 30, 255⟩ ∧
    BlendOverExact ℚ ⟨51, 102, 204, 255⟩ ⟨10, 20, 30, 255⟩ = ⟨10, 20, 30, 255⟩ ∧
    BlendOverExact ℚ ⟨7, 8, 9, 0⟩ ⟨10, 20, 30, 0⟩ = ⟨0, 0, 0, 0⟩ :=
  ⟨(C32_blend_over (K := ℚ) ieeeOps ⟨51, 102, 204, 255⟩ ⟨10, 20, 30, 255⟩).1,
    (C32_blend_over (K := ℚ) ieeeOps ⟨51, 102, 204, 255⟩ ⟨10, 20, 30, 255⟩).2.1 rfl
      (by decide) (by decide) (by decide),
    (C32_blend_over (K := ℚ) ieeeOps ⟨7, 8, 9, 0⟩ ⟨10, 20, 30, 0⟩).2.2.2 (by norm_num)⟩

/-! ## Wrap-around texel addressing -/

/-- The lambda `wrap` differs from its argument by a multiple of the size. -/
theorem wrap_congruent (i size : Int) (h : 0 < size) : ∃ q : Int, i = wrap i size + q * size := by
  unfold wrap
  rw [if_neg (by omega)]
  have hdiv := Int.tmod_add_tdiv' i size
  simp only []
  split
  · exact ⟨i.tdiv size - 1, by rw [Int.sub_mul]; omega⟩
  · exact ⟨i.tdiv size, by omega⟩

theorem wrap_emod (i size : Int) (h : 0 < size) : wrap i size = i % size := by
  obtain ⟨q, hq⟩ := wrap_congruent i size h
  have hr := wrap_range i size h
  have h1 : i % size = (wrap i size + q * size) % size := by rw [← hq]
  rw [h1, Int.add_mul_emod_self, Int.emod_eq_of_lt hr.1 hr.2]

/-- Claim C34: wrap-around texel addressing stays in range.  For every integer `i` and
every size above 0 the lambda `wrap`, which uses the truncating remainder, returns the
value in `[0, size)` congruent to `i` modulo the size (the Euclidean remainder `i % size`).
For a texture with positive width and height and a pixel buffer of exactly
`width * height * 4` bytes every index read by `fetch` is below the buffer length, so
`fetch` and `SampleTexture` return for all arguments. -/
theorem C34_wrap_in_range (ops : RasterOps) (t : TextureRgba) (hw : 0 < t.width)
    (hh : 0 < t.height) (hlen : t.rgba.length = t.width.toNat * t.height.toNat * 4) :
    (∀ i size : Int, 0 < size →
      0 ≤ wrap i size ∧ wrap i size < size ∧ size ∣ i - wrap i size ∧
      wrap i size = i % size) ∧
    (∀ (xi yi : Int) (c : Nat), c < 4 →
      ((wrap yi t.height).toNat * t.width.toNat + (wrap xi t.width).toNat) * 4 + c
        < t.rgba.length ∧
      ∃ byte, t.rgba[((wrap yi t.height).toNat * t.width.toNat
          + (wrap xi t.width).toNat) * 4 + c]? = some byte ∧
        fetch ops t xi yi c = some (ops.ofInt (byte : Int))) ∧
    ∀ u v : F32, ∃ texel, SampleTexture ops (some t) u v = some texel := by
  refine ⟨?_, ?_, ?_⟩
  · intro i size hsize
    obtain ⟨q, hq⟩ := wrap_congruent i size hsize
    have hr := wrap_range i size hsize
    exact ⟨hr.1, hr.2, ⟨q, by rw [Int.mul_comm]; omega⟩, wrap_emod i size hsize⟩
  · intro xi yi c hc
    have hx := wrap_range xi t.width hw
    have hy := wrap_range yi t.height hh
    have hsx : (wrap xi t.width).toNat < t.width.toNat := by omega
    have hsy : (wrap yi t.height).toNat + 1 ≤ t.height.toNat := by omega
    have hmul := Nat.mul_le_mul_right t.width.toNat hsy
    have hidx : ((wrap yi t.height).toNat * t.width.toNat + (wrap xi t.width).toNat) * 4 + c
        < t.rgba.length := by
      have hcomm : t.height.toNat * t.width.toNat = t.width.toNat * t.height.toNat :=
        Nat.mul_comm _ _
      rw [Nat.add_mul, Nat.one_mul] at hmul
      omega
    refine ⟨hidx, _, List.getElem?_eq_getElem hidx, ?_⟩
    unfold fetch
    simp only []
    rw [List.getElem?_eq_getElem hidx]
    rfl
  · intro u v
    obtain ⟨texel, h, _⟩ := SampleTexture_some ops (some t)
      (fun t1 ht1 => by
        have : t1 = t := by
          cases ht1
          rfl
        subst this
        intro _ _
        omega) u v
    exact ⟨texel, h⟩

set_option maxRecDepth 100000 in
theorem C34_wrap_in_range_witness :
    wrap (-5) 4 = 3 ∧ wrap 9 4 = 1 ∧ Int.tmod (-5) 4 = -1 ∧
    fetch ieeeOps sampleTwoTexels (-1) 7 3 = some F32.zero ∧
    ((∀ i size : Int, 0 < size →
      0 ≤ wrap i size ∧ wrap i size < size ∧ size ∣ i - wrap i size ∧
      wrap i size = i % size) ∧
    (∀ (xi yi : Int) (c : Nat), c < 4 →
      ((wrap yi sampleTwoTexels.height).toNat * sampleTwoTexels.width.toNat
          + (wrap xi sampleTwoTexels.width).toNat) * 4 + c < sampleTwoTexels.rgba.length ∧
      ∃ byte, sampleTwoTexels.rgba[((wrap yi sampleTwoTexels.height).toNat
          * sampleTwoTexels.width.toNat + (wrap xi sampleTwoTexels.width).toNat) * 4 + c]?
          = some byte ∧
        fetch ieeeOps sampleTwoTexels xi yi c = some (ieeeOps.ofInt (byte : Int))) ∧
    ∀ u v : F32, ∃ texel, SampleTexture ieeeOps (some sampleTwoTexels) u v = some texel) :=
  ⟨by decide, by decide, by decide, by decide,
    C34_wrap_in_range ieeeOps sampleTwoTexels (by decide) (by decide) (by decide)⟩

/-! ## Vertex bounds -/

theorem F32_le_refl (a : F32) (h : a.isNaN = false) : F32.le a a = true := by
  simp [F32.le, h]

theorem F32_le_trans (a b c : F32) (h1 : F32.le a b = true) (h2 : F32.le b c = true) :
    F32.le a c = true := by
  simp only [F32.le, Bool.and_eq_true, Bool.not_eq_true', decide_eq_true_eq] at h1 h2 ⊢
  exact ⟨⟨h1.1.1, h2.1.2⟩, by omega⟩

theorem F32_eq_refl (a : F32) (h : a.isNaN = false) : F32.eq a a = true := by
  simp [F32.eq, h]

theorem F32_lt_not_nan (a b : F32) (h : F32.lt a b = true) :
    a.isNaN = false ∧ b.isNaN = false := by
  simp only [F32.lt, Bool.and_eq_true, Bool.not_eq_true', decide_eq_true_eq] at h
  exact ⟨h.1.1, h.1.2⟩

/-- Every float that is not a NaN lies between minus infinity and infinity. -/
theorem F32_key_bounds (a : F32) (h : a.isNaN = false) :
    (F32.neg F32.inf).key ≤ a.key ∧ a.key ≤ F32.inf.key := by
  have hinf : F32.inf.key = 2139095040 := by decide
  have hneg : (F32.neg F32.inf).key = -2139095040 := by decide
  rw [hinf, hneg]
  simp only [F32.isNaN, F32.exponent, F32.mantissa, Bool.and_eq_false_iff, beq_eq_false_iff_ne,
    ne_eq, bne_eq_false_iff_eq] at h
  unfold F32.key
  split <;> omega

theorem foldl_min_spec (l : List F32) :
    ∀ s, s.isNaN = false →
      (l.foldl F32.min s).isNaN = false ∧
      F32.le (l.foldl F32.min s) s = true ∧
      (∀ a ∈ l, a.isNaN = false → F32.le (l.foldl F32.min s) a = true) ∧
      (l.foldl F32.min s = s ∨ ∃ a ∈ l, l.foldl F32.min s = a) := by
  induction l with
  | nil =>
    intro s hs
    exact ⟨hs, F32_le_refl s hs, fun a ha => (by cases ha), Or.inl rfl⟩
  | cons b l ih =>
    intro s hs
    rw [List.foldl_cons]
    have hstep : (F32.min s b).isNaN = false ∧ F32.le (F32.min s b) s = true ∧
        (b.isNaN = false → F32.le (F32.min s b) b = true) ∧
        (F32.min s b = s ∨ F32.min s b = b) := by
      unfold F32.min
      by_cases hlt : F32.lt b s = true
      · rw [if_pos hlt]
        exact ⟨(F32_lt_not_nan b s hlt).1, F32_lt_le b s hlt,
          fun hb => F32_le_refl b hb, Or.inr rfl⟩
      · rw [if_neg hlt]
        refine ⟨hs, F32_le_refl s hs, fun hb => ?_, Or.inl rfl⟩
        exact F32_not_lt_le b s hb hs (by simpa using hlt)
    obtain ⟨h1, h2, h3, h4⟩ := hstep
    obtain ⟨i1, i2, i3, i4⟩ := ih (F32.min s b) h1
    refine ⟨i1, F32_le_trans _ _ _ i2 h2, ?_, ?_⟩
    · intro a ha hnan
      rcases List.mem_cons.mp ha with hab | hal
      · rw [hab]
        exact F32_le_trans _ _ _ i2 (h3 (by rw [← hab]; exact hnan))
      · exact i3 a hal hnan
    · rcases i4 with i4 | ⟨a, ha, i4⟩
      · rcases h4 with h4 | h4
        · exact Or.inl (by rw [i4, h4])
        · exact Or.inr ⟨b, List.mem_cons_self b l, by rw [i4, h4]⟩
      · exact Or.inr ⟨a, List.mem_cons_of_mem b ha, i4⟩

theorem foldl_max_spec (l : List F32) :
    ∀ s, s.isNaN = false →
      (l.foldl F32.max s).isNaN = false ∧
      F32.le s (l.foldl F32.max s) = true ∧
      (∀ a ∈ l, a.isNaN = false → F32.le a (l.foldl F32.max s) = true) ∧
      (l.foldl F32.max s = s ∨ ∃ a ∈ l, l.foldl F32.max s = a) := by
  induction l with
  | nil =>
    intro s hs
    exact ⟨hs, F32_le_refl s hs, fun a ha => (by cases ha), Or.inl rfl⟩
  | cons b l ih =>
    intro s hs
    rw [List.foldl_cons]
    have hstep : (F32.max s b).isNaN = false ∧ F32.le s (F32.max s b) = true ∧
        (b.isNaN = false → F32.le b (F32.max s b) = true) ∧
        (F32.max s b = s ∨ F32.max s b = b) := by
      unfold F32.max
      by_cases hlt : F32.lt s b = true
      · rw [if_pos hlt]
        exact ⟨(F32_lt_not_nan s b hlt).2, F32_lt_le s b hlt,
          fun hb => F32_le_refl b hb, Or.inr rfl⟩
      · rw [if_neg hlt]
        refine ⟨hs, F32_le_refl s hs, fun hb => ?_, Or.inl rfl⟩
        exact F32_not_lt_le s b hs hb (by simpa using hlt)
    obtain ⟨h1, h2, h3, h4⟩ := hstep
    obtain ⟨i1, i2, i3, i4⟩ := ih (F32.max s b) h1
    refine ⟨i1, F32_le_trans _ _ _ h2 i2, ?_, ?_⟩
    · intro a ha hnan
      rcases List.mem_cons.mp ha with hab | hal
      · rw [hab]
        exact F32_le_trans _ _ _ (h3 (by rw [← hab]; exact hnan)) i2
      · exact i3 a hal hnan
    · rcases i4 with i4 | ⟨a, ha, i4⟩
      · rcases h4 with h4 | h4
        · exact Or.inl (by rw [i4, h4])
        · exact Or.inr ⟨b, List.mem_cons_self b l, by rw [i4, h4]⟩
      · exact Or.inr ⟨a, List.mem_cons_of_mem b ha, i4⟩

/-- The minimum loop started at infinity computes the minimum of a non-empty list without
NaN. -/
theorem foldl_min_isMin (l : List F32) (hne : l ≠ []) (hnan : ∀ a ∈ l, a.isNaN = false) :
    IsMinOf (l.foldl F32.min F32.inf) l := by
  obtain ⟨_, _, h3, h4⟩ := foldl_min_spec l F32.inf (by decide)
  refine ⟨fun a ha => h3 a ha (hnan a ha), ?_⟩
  rcases h4 with h4 | ⟨a, ha, h4⟩
  · obtain ⟨b, rest, hl⟩ := List.exists_cons_of_ne_nil hne
    have hb : b ∈ l := by rw [hl]; exact List.mem_cons_self b rest
    have hle := h3 b hb (hnan b hb)
    rw [h4] at hle ⊢
    refine ⟨b, hb, ?_⟩
    have hk := (F32_key_bounds b (hnan b hb)).2
    simp only [F32.le, Bool.and_eq_true, Bool.not_eq_true', decide_eq_true_eq] at hle
    simp only [F32.eq, Bool.and_eq_true, Bool.not_eq_true', beq_iff_eq]
    exact ⟨⟨hle.1.1, hle.1.2⟩, by omega⟩
  · exact ⟨a, ha, by rw [h4]; exact F32_eq_refl a (hnan a ha)⟩

theorem foldl_max_isMax (l : List F32) (hne : l ≠ []) (hnan : ∀ a ∈ l, a.isNaN = false) :
    IsMaxOf (l.foldl F32.max (F32.neg F32.inf)) l := by
  obtain ⟨_, _, h3, h4⟩ := foldl_max_spec l (F32.neg F32.inf) (by decide)
  refine ⟨fun a ha => h3 a ha (hnan a ha), ?_⟩
  rcases h4 with h4 | ⟨a, ha, h4⟩
  · obtain ⟨b, rest, hl⟩ := List.exists_cons_of_ne_nil hne
    have hb : b ∈ l := by rw [hl]; exact List.mem_cons_self b rest
    have hle := h3 b hb (hnan b hb)
    rw [h4] at hle ⊢
    refine ⟨b, hb, ?_⟩
    have hk := (F32_key_bounds b (hnan b hb)).1
    simp only [F32.le, Bool.and_eq_true, Bool.not_eq_true', decide_eq_true_eq] at hle
    simp only [F32.eq, Bool.and_eq_true, Bool.not_eq_true', beq_iff_eq]
    exact ⟨⟨hle.1.2, hle.1.1⟩, by omega⟩
  · exact ⟨a, ha, by rw [h4]; exact F32_eq_refl a (hnan a ha)⟩

/-- The vertex loop of `TryComputeVertexBounds`, component by component. -/
theorem foldl_extendBounds (c : Nat) (l : List Vertex) :
    ∀ acc : Vec3f × Vec3f,
      (l.foldl extendBounds acc).1.component c
        = (l.map fun v => v.position.component c).foldl F32.min (acc.1.component c) ∧
      (l.foldl extendBounds acc).2.component c
        = (l.map fun v => v.position.component c).foldl F32.max (acc.2.component c) := by
  induction l with
  | nil => intro acc; exact ⟨rfl, rfl⟩
  | cons v l ih =>
    intro acc
    rw [List.foldl_cons, List.map_cons, List.foldl_cons, List.foldl_cons]
    have h1 : (extendBounds acc v).1.component c
        = F32.min (acc.1.component c) (v.position.component c) := by
      unfold extendBounds Vec3f.component
      split
      · rfl
      · split <;> rfl
    have h2 : (extendBounds acc v).2.component c
        = F32.max (acc.2.component c) (v.position.component c) := by
      unfold extendBounds Vec3f.component
      split
      · rfl
      · split <;> rfl
    rw [← h1, ← h2]
    exact ih (extendBounds acc v)

theorem mem_allVertices (model : StudioModelCpu) (v : Vertex) :
    v ∈ allVertices model ↔ ∃ bp ∈ model.bodyParts, ∃ m ∈ bp.models, v ∈ m.vertices := by
  unfold allVertices
  simp only [List.mem_flatMap]

theorem allVertices_nil (model : StudioModelCpu) :
    allVertices model = [] ↔ ∀ bp ∈ model.bodyParts, ∀ m ∈ bp.models, m.vertices = [] := by
  constructor
  · intro h bp hbp m hm
    apply List.eq_nil_iff_forall_not_mem.mpr
    intro v hv
    have : v ∈ allVertices model := (mem_allVertices model v).mpr ⟨bp, hbp, m, hm, hv⟩
    rw [h] at this
    cases this
  · intro h
    apply List.eq_nil_iff_forall_not_mem.mpr
    intro v hv
    obtain ⟨bp, hbp, m, hm, hv2⟩ := (mem_allVertices model v).mp hv
    rw [h bp hbp m hm] at hv2
    cases hv2

set_option maxRecDepth 100000 in
/-- Claim C31, counterexample: the first vertex of `sampleNaNModel` has a NaN `x`
coordinate.  `TryComputeVertexBounds` returns `true` with the box `(0,0,0)-(1,1,1)`, the
comparisons with NaN being false, and `outMin.x <= position.x <= outMax.x` fails for that
vertex. -/
theorem C31_counterexample :
    sampleVertex sampleNaN 0 0 ∈ allVertices sampleNaNModel ∧
    TryComputeVertexBounds sampleNaNModel ⟨F32.zero, F32.zero, F32.zero⟩
        ⟨F32.zero, F32.zero, F32.zero⟩
      = (true, ⟨F32.zero, F32.zero, F32.zero⟩, ⟨F32.one, F32.one, F32.one⟩) ∧
    F32.le F32.zero (sampleVertex sampleNaN 0 0).position.x = false ∧
    F32.le (sampleVertex sampleNaN 0 0).position.x F32.one = false := by
  refine ⟨by decide, by decide, by decide, by decide⟩

/-- Claim C31, amended: vertex bounds recomputation.  `TryComputeVertexBounds` returns
`false` and leaves both outputs untouched exactly when no sub-model of any body part has a
vertex.  Otherwise it returns `true`, and for each component `outMin <= position <= outMax`
holds for every vertex whose component is not a NaN; when no vertex has a NaN in the
component, `outMin` is the minimum and `outMax` the maximum of the component over all
vertex positions of all sub-models of all body parts. -/
theorem C31_vertex_bounds (model : StudioModelCpu) (outMin outMax : Vec3f) :
    ((TryComputeVertexBounds model outMin outMax).1 = false ↔
      ∀ bp ∈ model.bodyParts, ∀ m ∈ bp.models, m.vertices = []) ∧
    ((TryComputeVertexBounds model outMin outMax).1 = false →
      TryComputeVertexBounds model outMin outMax = (false, outMin, outMax)) ∧
    ((TryComputeVertexBounds model outMin outMax).1 = true →
      ∀ c, c < 3 →
        (∀ bp ∈ model.bodyParts, ∀ m ∈ bp.models, ∀ v ∈ m.vertices,
          (v.position.component c).isNaN = false →
          F32.le ((TryComputeVertexBounds model outMin outMax).2.1.component c)
            (v.position.component c) = true ∧
          F32.le (v.position.component c)
            ((TryComputeVertexBounds model outMin outMax).2.2.component c) = true) ∧
        ((∀ v ∈ allVertices model, (v.position.component c).isNaN = false) →
          IsMinOf ((TryComputeVertexBounds model outMin outMax).2.1.component c)
            ((allVertices model).map fun v => v.position.component c) ∧
          IsMaxOf ((TryComputeVertexBounds model outMin outMax).2.2.component c)
            ((allVertices model).map fun v => v.position.component c))) := by
  unfold TryComputeVertexBounds
  simp only []
  by_cases hempty : (allVertices model).isEmpty = true
  · have hnil : allVertices model = [] := List.isEmpty_iff.mp hempty
    rw [if_pos hempty]
    refine ⟨⟨fun _ => (allVertices_nil model).mp hnil, fun _ => rfl⟩, fun _ => rfl, ?_⟩
    intro h
    cases h
  · have hne : allVertices model ≠ [] := fun h => hempty (List.isEmpty_iff.mpr h)
    rw [if_neg hempty]
    refine ⟨⟨fun h => (by cases h), fun h => absurd ((allVertices_nil model).mpr h) hne⟩,
      fun h => (by cases h), ?_⟩
    intro _ c _
    obtain ⟨hmin, hmax⟩ := foldl_extendBounds c (allVertices model)
      (⟨F32.inf, F32.inf, F32.inf⟩, ⟨F32.neg F32.inf, F32.neg F32.inf, F32.neg F32.inf⟩)
    have hs1 : (⟨F32.inf, F32.inf, F32.inf⟩ : Vec3f).component c = F32.inf := by
      unfold Vec3f.component
      split
      · rfl
      · split <;> rfl
    have hs2 : (⟨F32.neg F32.inf, F32.neg F32.inf, F32.neg F32.inf⟩ : Vec3f).component c
        = F32.neg F32.inf := by
      unfold Vec3f.component
      split
      · rfl
      · split <;> rfl
    simp only [hs1, hs2] at hmin hmax
    simp only []
    rw [hmin, hmax]
    constructor
    · intro bp hbp m hm v hv hnan
      have hmem : v.position.component c
          ∈ (allVertices model).map fun v => v.position.component c :=
        List.mem_map.mpr ⟨v, (mem_allVertices model v).mpr ⟨bp, hbp, m, hm, hv⟩, rfl⟩
      exact ⟨(foldl_min_spec _ F32.inf (by decide)).2.2.1 _ hmem hnan,
        (foldl_max_spec _ (F32.neg F32.inf) (by decide)).2.2.1 _ hmem hnan⟩
    · intro hnan
      have hne2 : ((allVertices model).map fun v => v.position.component c) ≠ [] := by
        intro h
        exact hne (List.map_eq_nil_iff.mp h)
      have hnan2 : ∀ a ∈ (allVertices model).map fun v => v.position.component c,
          a.isNaN = false := by
        intro a ha
        obtain ⟨v, hv, hva⟩ := List.mem_map.mp ha
        rw [← hva]
        exact hnan v hv
      exact ⟨foldl_min_isMin _ hne2 hnan2, foldl_max_isMax _ hne2 hnan2⟩

set_option maxRecDepth 100000 in
theorem C31_vertex_bounds_witness :
    TryComputeVertexBounds sampleRenderModel ⟨F32.half, F32.half, F32.half⟩
        ⟨F32.half, F32.half, F32.half⟩
      = (true, ⟨F32.zero, F32.zero, F32.zero⟩, ⟨F32.one, F32.one, F32.one⟩) ∧
    TryComputeVertexBounds StudioModelCpu.empty ⟨F32.half, F32.half, F32.half⟩
        ⟨F32.one, F32.one, F32.one⟩
      = (false, ⟨F32.half, F32.half, F32.half⟩, ⟨F32.one, F32.one, F32.one⟩) ∧
    IsMinOf ((TryComputeVertexBounds sampleRenderModel ⟨F32.half, F32.half, F32.half⟩
        ⟨F32.half, F32.half, F32.half⟩).2.1.component 0)
      ((allVertices sampleRenderModel).map fun v => v.position.component 0) :=
  ⟨by decide,
    (C31_vertex_bounds StudioModelCpu.empty ⟨F32.half, F32.half, F32.half⟩
      ⟨F32.one, F32.one, F32.one⟩).2.1 (by decide),
    (((C31_vertex_bounds sampleRenderModel ⟨F32.half, F32.half, F32.half⟩
      ⟨F32.half, F32.half, F32.half⟩).2.2 (by decide) 0 (by decide)).2 (by decide)).1⟩

/-! ## Properties of every loaded sub-model -/

/-- What holds of the pool before and is kept by `LoadMesh`, and what holds of every mesh
`LoadMesh` returns, holds of the sub-model `LoadModel` returns. -/
theorem loadMeshes_all (P : List Vertex → Prop) (Q : Mesh → Prop) (fp : FloatOps)
    (textureHeader : StudioHdr) (base textureBase : Buffer) (model : MStudioModel)
    (bt : List Mat3x4)
    (hstep : ∀ mesh vertices res, P vertices →
      LoadMesh fp textureHeader base textureBase mesh model bt vertices = some res →
      P res.2 ∧ Q res.1) :
    ∀ (n : Nat) (i : Int) (out res : Model),
      P out.vertices → (∀ m ∈ out.meshes, Q m) →
      loadMeshes fp textureHeader base textureBase model bt n i out = some res →
      P res.vertices ∧ ∀ m ∈ res.meshes, Q m := by
  intro n
  induction n with
  | zero =>
    intro i out res hp hq h
    simp only [loadMeshes, Option.some.injEq] at h
    subst h
    exact ⟨hp, hq⟩
  | succ n ih =>
    intro i out res hp hq h
    unfold loadMeshes at h
    cases h1 : readMStudioMesh base (model.meshindex + 20 * i) with
    | none => simp [h1] at h
    | some mesh =>
      cases h2 : LoadMesh fp textureHeader base textureBase mesh model bt out.vertices with
      | none => simp [h1, h2] at h
      | some r =>
        simp only [h1, h2, Option.bind_eq_bind, Option.some_bind] at h
        obtain ⟨hp1, hq1⟩ := hstep mesh out.vertices r hp h2
        refine ih (i + 1) _ res hp1 ?_ h
        intro m hm
        rcases List.mem_append.mp hm with hold | hnew
        · exact hq m hold
        · rw [List.mem_singleton.mp hnew]
          exact hq1

theorem LoadModel_all (P : List Vertex → Prop) (Q : Mesh → Prop) (fp : FloatOps)
    (textureHeader : StudioHdr) (base textureBase : Buffer) (model : MStudioModel)
    (bt : List Mat3x4)
    (hstep : ∀ mesh vertices res, P vertices →
      LoadMesh fp textureHeader base textureBase mesh model bt vertices = some res →
      P res.2 ∧ Q res.1)
    (hnil : P []) (out : Model)
    (h : LoadModel fp textureHeader base textureBase model bt = some out) :
    P out.vertices ∧ ∀ m ∈ out.meshes, Q m := by
  unfold LoadModel at h
  by_cases hn : model.nummesh ≤ 0
  · simp only [hn, if_true, Option.some.injEq] at h
    subst h
    exact ⟨hnil, fun m hm => (by cases hm)⟩
  · simp only [hn, if_false] at h
    exact loadMeshes_all P Q fp textureHeader base textureBase model bt hstep _ _ _ _ hnil
      (fun m hm => (by cases hm)) h

theorem F32_eq_symm (a b : F32) : F32.eq a b = F32.eq b a := by
  unfold F32.eq
  rw [Bool.and_comm (!a.isNaN) (!b.isNaN)]
  congr 1
  rw [Bool.eq_iff_iff]
  simp only [beq_iff_eq]
  exact eq_comm

theorem Vertex_eq_symm (a b : Vertex) : Vertex.eq a b = Vertex.eq b a := by
  unfold Vertex.eq
  rw [F32_eq_symm a.position.x, F32_eq_symm a.position.y, F32_eq_symm a.position.z,
    F32_eq_symm a.normal.x, F32_eq_symm a.normal.y, F32_eq_symm a.normal.z,
    F32_eq_symm a.texCoord.x, F32_eq_symm a.texCoord.y]
  congr 1
  rw [Bool.eq_iff_iff]
  simp only [beq_iff_eq]
  exact eq_comm

/-- The function `InsertVertex` appends only a vertex that compares equal to no element. -/
theorem InsertVertex_noEqualPair (pool : List Vertex) (v : Vertex) (h : NoEqualPair pool) :
    NoEqualPair (InsertVertex pool v).2 := by
  unfold InsertVertex
  cases hf : stdFind v pool 0 with
  | some it => exact h
  | none =>
    have hnone := (stdFind_none v pool 0).mp hf
    unfold NoEqualPair at h ⊢
    simp only []
    rw [List.pairwise_append]
    refine ⟨h, List.pairwise_singleton _ _, ?_⟩
    intro a ha b hb
    rw [List.mem_singleton.mp hb]
    exact hnone a ha

theorem readRun_pool (P : List Vertex → Prop)
    (hP : ∀ pool v, P pool → P (InsertVertex pool v).2)
    (fp : FloatOps) (base : Buffer) (model : MStudioModel) (bt : List Mat3x4) (s t : F32) :
    ∀ (n : Nat) (tricmds : Int) (vertices : List Vertex) (temp : List Nat)
      (r : Int × List Vertex × List Nat), P vertices →
      readRun fp base model bt s t n tricmds vertices temp = some r → P r.2.1 := by
  intro n
  induction n with
  | zero =>
    intro tricmds vertices temp r hp h
    simp only [readRun, Option.some.injEq] at h
    subst h
    exact hp
  | succ n ih =>
    intro tricmds vertices temp r hp h
    unfold readRun at h
    cases hv : assembleVertex fp base model bt s t tricmds with
    | none => simp [hv] at h
    | some v =>
      simp only [hv, Option.bind_eq_bind, Option.some_bind] at h
      exact ih _ _ _ r (hP vertices v hp) h

theorem meshLoop_pool (P : List Vertex → Prop)
    (hP : ∀ pool v, P pool → P (InsertVertex pool v).2)
    (fp : FloatOps) (base : Buffer) (model : MStudioModel) (bt : List Mat3x4) (s t : F32) :
    ∀ (fuel : Nat) (tricmds : Int) (vertices : List Vertex) (indices : List Nat)
      (res : List Vertex × List Nat), P vertices →
      meshLoop fp base model bt s t fuel tricmds vertices indices = some res → P res.1 := by
  intro fuel
  induction fuel with
  | zero =>
    intro tricmds vertices indices res _ h
    simp [meshLoop] at h
  | succ fuel ih =>
    intro tricmds vertices indices res hp h
    cases hi : readI16 base tricmds with
    | none => simp [meshLoop, hi] at h
    | some i =>
      by_cases h0 : i = 0
      · simp only [meshLoop, hi, Option.bind_eq_bind, Option.some_bind, h0, if_true,
          Option.pure_def, Option.some.injEq] at h
        subst h
        exact hp
      · cases hr : readRun fp base model bt s t (runCount i) (tricmds + 2) vertices [] with
        | none =>
          unfold runCount at hr
          simp [meshLoop, hi, h0, hr] at h
        | some r =>
          rw [meshLoop_step fp base model bt s t fuel tricmds vertices indices i r hi h0 hr] at h
          exact ih _ _ _ res (readRun_pool P hP fp base model bt s t _ _ _ _ r hp hr) h

theorem LoadMesh_pool (P : List Vertex → Prop)
    (hP : ∀ pool v, P pool → P (InsertVertex pool v).2)
    (fp : FloatOps) (textureHeader : StudioHdr) (base textureBase : Buffer)
    (mesh : MStudioMesh) (model : MStudioModel) (bt : List Mat3x4) (vertices : List Vertex)
    (res : Mesh × List Vertex) (hp : P vertices)
    (h : LoadMesh fp textureHeader base textureBase mesh model bt vertices = some res) :
    P res.2 := by
  unfold LoadMesh at h
  cases h1 : readU16 textureBase (textureHeader.skinindex + 2 * mesh.skinref) with
  | none => simp [h1] at h
  | some textureId =>
    cases h2 : readMStudioTexture textureBase
        (textureHeader.textureindex + 80 * (textureId : Int)) with
    | none => simp [h1, h2] at h
    | some tex =>
      simp only [h1, h2, Option.bind_eq_bind, Option.some_bind] at h
      cases h3 : meshLoop fp base model bt (fp.div F32.one (fp.ofInt tex.width))
          (fp.div F32.one (fp.ofInt tex.height)) (base.length + 1) mesh.triindex vertices [] with
      | none => simp [h3] at h
      | some r =>
        simp only [h3, Option.some_bind, Option.pure_def, Option.some.injEq] at h
        subst h
        exact meshLoop_pool P hP fp base model bt _ _ _ _ _ _ r hp h3

/-- The vertex list of a sub-model built by `LoadModel` has no two positions whose vertices
compare equal. -/
theorem LoadModel_noEqualPair (fp : FloatOps) (textureHeader : StudioHdr)
    (base textureBase : Buffer) (model : MStudioModel) (bt : List Mat3x4) (out : Model)
    (h : LoadModel fp textureHeader base textureBase model bt = some out) :
    NoEqualPair out.vertices :=
  (LoadModel_all NoEqualPair (fun _ => True) fp textureHeader base textureBase model bt
    (fun mesh vertices res hp hres =>
      ⟨LoadMesh_pool NoEqualPair InsertVertex_noEqualPair fp textureHeader base textureBase
        mesh model bt vertices res hp hres, trivial⟩)
    List.Pairwise.nil out h).1

set_option maxRecDepth 100000 in
/-- Claim C36, counterexample: a vertex with a NaN coordinate compares equal to nothing, so
`InsertVertex` appends it to a pool that already holds it; and `LoadModel` of
`sampleMeshData sampleNaN 0 sampleOne` returns a vertex list whose positions 0 and 4 hold
the same vertex. -/
theorem C36_counterexample :
    NoEqualPair [sampleVertex sampleNaN 0 0] ∧
    (InsertVertex [sampleVertex sampleNaN 0 0] (sampleVertex sampleNaN 0 0)).2
      = [sampleVertex sampleNaN 0 0, sampleVertex sampleNaN 0 0] ∧
    (LoadModel sampleOps sampleTextureHeader (sampleMeshData sampleNaN 0 sampleOne)
        (sampleMeshData sampleNaN 0 sampleOne) sampleModel []).map (fun m => m.vertices)
      = some sampleNaNPool ∧
    sampleNaNPool[0]? = some (sampleVertex sampleNaN 0 0) ∧
    sampleNaNPool[4]? = some (sampleVertex sampleNaN 0 0) := by
  refine ⟨by decide, by decide, by decide, by decide, by decide⟩

/-- Claim C36, amended: the vertex pool stays duplicate-free under `Vertex::operator==` and
append-only.  For every pool in which no two positions hold vertices that compare equal and
every vertex `v`, after `InsertVertex` the pool still has no such pair, its previous
contents are a prefix of the new contents, and its length grows by at most 1.  Hence in the
vertex list of a sub-model built by `LoadModel` no two positions hold vertices that compare
equal, and two positions can hold the same vertex only if it does not compare equal to
itself (it has a NaN component). -/
theorem C36_pool_invariant (pool : List Vertex) (v : Vertex) (hpool : NoEqualPair pool) :
    NoEqualPair (InsertVertex pool v).2 ∧
    pool <+: (InsertVertex pool v).2 ∧
    (InsertVertex pool v).2.length ≤ pool.length + 1 ∧
    (∀ (fp : FloatOps) (textureHeader : StudioHdr) (base textureBase : Buffer)
      (model : MStudioModel) (bt : List Mat3x4) (out : Model),
      LoadModel fp textureHeader base textureBase model bt = some out →
      NoEqualPair out.vertices ∧
      ∀ (i j : Nat) (a b : Vertex), i ≠ j →
        out.vertices[i]? = some a → out.vertices[j]? = some b →
        Vertex.eq a b = false ∧ (a = b → Vertex.eq a a = false)) := by
  refine ⟨InsertVertex_noEqualPair pool v hpool, ?_, ?_, ?_⟩
  · rcases InsertVertex_pool pool v with h | h
    · rw [h]
    · rw [h]
      exact List.prefix_append pool [v]
  · rcases InsertVertex_pool pool v with h | h
    · rw [h]
      omega
    · rw [h, List.length_append, List.length_singleton]
  · intro fp textureHeader base textureBase model bt out hload
    have hpair := LoadModel_noEqualPair fp textureHeader base textureBase model bt out hload
    refine ⟨hpair, ?_⟩
    have key : ∀ (i j : Nat) (a b : Vertex), i < j →
        out.vertices[i]? = some a → out.vertices[j]? = some b → Vertex.eq a b = false := by
      intro i j a b hij ha hb
      have hall := List.pairwise_iff_getElem.mp hpair
      obtain ⟨hi, hai⟩ := List.getElem?_eq_some_iff.mp ha
      obtain ⟨hj, hbj⟩ := List.getElem?_eq_some_iff.mp hb
      have := hall i j hi hj hij
      rw [hai, hbj] at this
      exact this
    intro i j a b hij ha hb
    have hne : Vertex.eq a b = false := by
      rcases Nat.lt_or_gt_of_ne hij with hlt | hgt
      · exact key i j a b hlt ha hb
      · rw [Vertex_eq_symm]
        exact key j i b a hgt hb ha
    refine ⟨hne, ?_⟩
    intro hab
    rw [← hab] at hne
    exact hne

set_option maxRecDepth 100000 in
theorem C36_pool_invariant_witness :
    NoEqualPair samplePool ∧
    InsertVertex samplePool (sampleVertex sampleNegZero sampleOne 0)
      = (1, samplePool) ∧
    InsertVertex samplePool (sampleVertex 0 0 0)
      = (4, samplePool ++ [sampleVertex 0 0 0]) ∧
    NoEqualPair (InsertVertex samplePool (sampleVertex 0 0 0)).2 ∧
    samplePool <+: (InsertVertex samplePool (sampleVertex 0 0 0)).2 := by
  have h : NoEqualPair samplePool := by decide
  have hc := C36_pool_invariant samplePool (sampleVertex 0 0 0) h
  exact ⟨h, by decide, by decide, hc.1, hc.2.1⟩

/-! ## The runs of a command stream -/

theorem HoldsRecord_append (fp : FloatOps) (base : Buffer) (model : MStudioModel)
    (bt : List Mat3x4) (s t : F32) (pool added : List Vertex) (k : Nat) (record : Int)
    (h : HoldsRecord fp base model bt s t pool k record) :
    HoldsRecord fp base model bt s t (pool ++ added) k record := by
  obtain ⟨v, ha, hk, hv⟩ := h
  refine ⟨v, ha, by rw [List.length_append]; omega, ?_⟩
  intro hlen
  rw [List.length_append] at hlen
  exact Holds_append pool added k v (hv (by omega))

/-- The index returned by `InsertVertex` refers to the inserted vertex, or to a vertex that
compares equal to it. -/
theorem InsertVertex_holds (pool : List Vertex) (v : Vertex)
    (hlen : (InsertVertex pool v).2.length ≤ 4294967296) :
    Holds (InsertVertex pool v).2 (InsertVertex pool v).1 v := by
  unfold InsertVertex at hlen ⊢
  cases h : stdFind v pool 0 with
  | some it =>
    rw [h] at hlen
    obtain ⟨i, hi, hfound, _⟩ := stdFind_some v pool 0 it h
    have hlt := (stdFind_ge v pool 0 it h).2
    simp only at hlen ⊢
    rw [Nat.mod_eq_of_lt (by omega)]
    have hit : it = i := by omega
    subst hit
    cases he : pool[it]? with
    | none => simp [he] at hfound
    | some e =>
      rw [he] at hfound
      exact ⟨e, he, Or.inr (by simpa using hfound)⟩
  | none =>
    rw [h] at hlen
    simp only [List.length_append, List.length_singleton] at hlen
    simp only
    rw [Nat.add_sub_cancel, Nat.mod_eq_of_lt (by omega)]
    exact ⟨v, by simp, Or.inl rfl⟩

/-- The vertex loop appends one pool index per record, in the order of the records, and the
index appended for record `j` belongs to that record in the pool the loop returns. -/
theorem readRun_records (fp : FloatOps) (base : Buffer) (model : MStudioModel)
    (bt : List Mat3x4) (s t : F32) (n : Nat) (tricmds : Int) (vertices : List Vertex)
    (temp : List Nat) (r : Int × List Vertex × List Nat)
    (h : readRun fp base model bt s t n tricmds vertices temp = some r) :
    ∃ more, r.2.2 = temp ++ more ∧ more.length = n ∧
      ∀ j, j < n →
        HoldsRecord fp base model bt s t r.2.1 (more.getD j 0) (tricmds + 8 * (j : Int)) := by
  induction n generalizing tricmds vertices temp with
  | zero =>
    simp only [readRun, Option.some.injEq] at h
    subst h
    exact ⟨[], by simp, rfl, fun j hj => absurd hj (by omega)⟩
  | succ n ih =>
    have hall := h
    unfold readRun at h
    cases hv : assembleVertex fp base model bt s t tricmds with
    | none => simp [hv] at h
    | some v =>
      simp only [hv, Option.bind_eq_bind, Option.some_bind] at h
      obtain ⟨more, h1, h2, h3⟩ := ih _ _ _ h
      obtain ⟨added, hadd⟩ := (readRun_spec fp base model bt s t _ _ _ _ r h).2.2.1
      refine ⟨(InsertVertex vertices v).1 :: more, by rw [h1]; simp, by simp [h2], ?_⟩
      intro j hj
      cases j with
      | zero =>
        have hnew : HoldsRecord fp base model bt s t (InsertVertex vertices v).2
            (InsertVertex vertices v).1 tricmds :=
          ⟨v, hv, InsertVertex_lt vertices v, InsertVertex_holds vertices v⟩
        have := HoldsRecord_append fp base model bt s t _ added _ _ hnew
        rw [← hadd] at this
        simpa using this
      | succ j =>
        have := h3 j (by omega)
        have e : tricmds + 8 + 8 * (j : Int) = tricmds + 8 * ((j + 1 : Nat) : Int) := by
          push_cast
          ring
        rw [e] at this
        simpa using this

theorem emitRun_triangles (i : Int) (h0 : i ≠ 0) (first : Int) (t out : List Nat) :
    emitRun (decide (0 ≤ i)) t out = out ++ MeshRun.triangles ⟨decide (0 < i), first, t⟩ := by
  unfold MeshRun.triangles
  by_cases hpos : 0 < i
  · have h1 : decide (0 ≤ i) = true := by simp; omega
    have h2 : decide (0 < i) = true := by simp; omega
    rw [h1, h2, emitRun_strip]
    rfl
  · have h1 : decide (0 ≤ i) = false := by simp; omega
    have h2 : decide (0 < i) = false := by simp; omega
    rw [h1, h2, emitRun_fan]
    rfl

/-- The command loop visits exactly the runs of the stream: the index list grows by the
triangles of each run, in order, the pool only grows, and the pool index of every record
belongs to that record in the pool the loop returns. -/
theorem meshLoop_runs (fp : FloatOps) (base : Buffer) (model : MStudioModel)
    (bt : List Mat3x4) (s t : F32) (fuel : Nat) (tricmds : Int) (vertices : List Vertex)
    (indices : List Nat) (res : List Vertex × List Nat)
    (h : meshLoop fp base model bt s t fuel tricmds vertices indices = some res) :
    ∃ runs : List MeshRun,
      streamRuns base fuel tricmds = some (runs.map MeshRun.header) ∧
      res.2 = indices ++ runs.flatMap MeshRun.triangles ∧
      (∃ added, res.1 = vertices ++ added) ∧
      ∀ r ∈ runs, ∀ j, j < r.temp.length →
        HoldsRecord fp base model bt s t res.1 (r.temp.getD j 0) (r.first + 8 * (j : Int)) := by
  induction fuel generalizing tricmds vertices indices with
  | zero => simp [meshLoop] at h
  | succ fuel ih =>
    cases hi : readI16 base tricmds with
    | none => simp [meshLoop, hi] at h
    | some i =>
      by_cases h0 : i = 0
      · simp only [meshLoop, hi, Option.bind_eq_bind, Option.some_bind, h0, if_true,
          Option.pure_def, Option.some.injEq] at h
        subst h
        exact ⟨[], by simp [streamRuns, hi, h0], by simp, ⟨[], by simp⟩,
          fun r hr => absurd hr (by simp)⟩
      · cases hr : readRun fp base model bt s t (runCount i) (tricmds + 2) vertices [] with
        | none =>
          unfold runCount at hr
          simp [meshLoop, hi, h0, hr] at h
        | some r =>
          rw [meshLoop_step fp base model bt s t fuel tricmds vertices indices i r hi h0 hr] at h
          obtain ⟨runs, hruns, hidx, ⟨added2, hadd2⟩, hrec⟩ := ih _ _ _ h
          have hspec := readRun_spec fp base model bt s t _ _ _ _ r hr
          have hpos : r.1 = tricmds + 2 + 8 * (runCount i : Int) := hspec.1
          obtain ⟨added, hadd⟩ := hspec.2.2.1
          obtain ⟨more, hmore, hlen, hholds⟩ :=
            readRun_records fp base model bt s t _ _ _ _ r hr
          have htemp : r.2.2 = more := by simpa using hmore
          refine ⟨⟨decide (0 < i), tricmds + 2, r.2.2⟩ :: runs, ?_, ?_,
            ⟨added ++ added2, by rw [hadd2, hadd, List.append_assoc]⟩, ?_⟩
          · simp only [streamRuns, hi, Option.bind_eq_bind, Option.some_bind, h0, if_false]
            rw [← hpos, hruns]
            simp only [Option.some_bind, Option.pure_def, List.map_cons, MeshRun.header,
              htemp, hlen]
          · rw [hidx, emitRun_triangles i h0 (tricmds + 2), List.flatMap_cons,
              List.append_assoc]
          · intro run hrun j hj
            rcases List.mem_cons.1 hrun with hrun | hrun
            · subst hrun
              simp only [htemp] at hj ⊢
              rw [hadd2]
              exact HoldsRecord_append _ _ _ _ _ _ _ _ _ _ (hholds j (by omega))
            · exact hrec run hrun j hj

/-- The function `LoadMesh` names the texture through the skin table, visits exactly the
runs of the command stream of the mesh record, and returns the triangles of these runs. -/
theorem LoadMesh_runs (fp : FloatOps) (textureHeader : StudioHdr) (base textureBase : Buffer)
    (mesh : MStudioMesh) (model : MStudioModel) (bt : List Mat3x4) (vertices : List Vertex)
    (res : Mesh × List Vertex)
    (h : LoadMesh fp textureHeader base textureBase mesh model bt vertices = some res) :
    ∃ (textureId : Nat) (tex : MStudioTexture) (runs : List MeshRun),
      readU16 textureBase (textureHeader.skinindex + 2 * mesh.skinref) = some textureId ∧
      res.1.textureId = (textureId : Int) ∧
      readMStudioTexture textureBase (textureHeader.textureindex + 80 * (textureId : Int))
        = some tex ∧
      streamRuns base (base.length + 1) mesh.triindex = some (runs.map MeshRun.header) ∧
      res.1.indices = runs.flatMap MeshRun.triangles ∧
      (∃ added, res.2 = vertices ++ added) ∧
      ∀ r ∈ runs, ∀ j, j < r.temp.length →
        HoldsRecord fp base model bt (fp.div F32.one (fp.ofInt tex.width))
          (fp.div F32.one (fp.ofInt tex.height)) res.2 (r.temp.getD j 0)
          (r.first + 8 * (j : Int)) := by
  unfold LoadMesh at h
  cases h1 : readU16 textureBase (textureHeader.skinindex + 2 * mesh.skinref) with
  | none => simp [h1] at h
  | some textureId =>
    cases h2 : readMStudioTexture textureBase
        (textureHeader.textureindex + 80 * (textureId : Int)) with
    | none => simp [h1, h2] at h
    | some tex =>
      simp only [h1, h2, Option.bind_eq_bind, Option.some_bind] at h
      cases h3 : meshLoop fp base model bt (fp.div F32.one (fp.ofInt tex.width))
          (fp.div F32.one (fp.ofInt tex.height)) (base.length + 1) mesh.triindex vertices [] with
      | none => simp [h3] at h
      | some r =>
        simp only [h3, Option.some_bind, Option.pure_def, Option.some.injEq] at h
        subst h
        obtain ⟨runs, hruns, hidx, hadd, hrec⟩ := meshLoop_runs _ _ _ _ _ _ _ _ _ _ _ h3
        exact ⟨textureId, tex, runs, rfl, rfl, h2, hruns, by simpa using hidx, hadd, hrec⟩

/-- Every index among the triangles of a run is the pool index of one of its records. -/
theorem MeshRun_triangles_mem (r : MeshRun) (k : Nat) (h : k ∈ r.triangles) :
    ∃ j, j < r.temp.length ∧ k = r.temp.getD j 0 := by
  have hmem : k ∈ r.temp := by
    have he : r.triangles = emitRun r.strip r.temp [] := by
      unfold MeshRun.triangles
      cases hs : r.strip
      · rw [emitRun_fan]
        simp
      · rw [emitRun_strip]
        simp
    rw [he] at h
    rcases emitRun_mem _ _ _ _ h with h | h
    · cases h
    · exact h
  obtain ⟨j, hj, hk⟩ := List.getElem_of_mem hmem
  exact ⟨j, hj, by rw [List.getD_eq_getElem r.temp 0 hj, hk]⟩

theorem MeshDecoded_append (fp : FloatOps) (textureHeader : StudioHdr)
    (base textureBase : Buffer) (model : MStudioModel) (bt : List Mat3x4)
    (pool added : List Vertex) (p : Nat) (mesh : Mesh)
    (h : MeshDecoded fp textureHeader base textureBase model bt pool p mesh) :
    MeshDecoded fp textureHeader base textureBase model bt (pool ++ added) p mesh := by
  obtain ⟨record, textureId, tex, runs, h1, h2, h3, h4, h5, h6, h7⟩ := h
  exact ⟨record, textureId, tex, runs, h1, h2, h3, h4, h5, h6,
    fun r hr j hj => HoldsRecord_append _ _ _ _ _ _ _ _ _ _ (h7 r hr j hj)⟩

/-- The mesh loop of `LoadModel` stores the mesh of record `p` at position `p`, and every
mesh decoded so far stays decoded for the grown pool. -/
theorem loadMeshes_decoded (fp : FloatOps) (textureHeader : StudioHdr)
    (base textureBase : Buffer) (model : MStudioModel) (bt : List Mat3x4) (n : Nat) (i : Int)
    (out res : Model)
    (hlen : (out.meshes.length : Int) = i)
    (hinv : ∀ p mesh, out.meshes[p]? = some mesh →
      MeshDecoded fp textureHeader base textureBase model bt out.vertices p mesh)
    (h : loadMeshes fp textureHeader base textureBase model bt n i out = some res) :
    ∀ p mesh, res.meshes[p]? = some mesh →
      MeshDecoded fp textureHeader base textureBase model bt res.vertices p mesh := by
  induction n generalizing i out with
  | zero =>
    simp only [loadMeshes, Option.some.injEq] at h
    subst h
    exact hinv
  | succ n ih =>
    unfold loadMeshes at h
    cases h1 : readMStudioMesh base (model.meshindex + 20 * i) with
    | none => simp [h1] at h
    | some record =>
      cases h2 : LoadMesh fp textureHeader base textureBase record model bt out.vertices with
      | none => simp [h1, h2] at h
      | some r =>
        simp only [h1, h2, Option.bind_eq_bind, Option.some_bind] at h
        obtain ⟨textureId, tex, runs, g1, g2, g3, g4, g5, ⟨added, hadd⟩, g7⟩ :=
          LoadMesh_runs _ _ _ _ _ _ _ _ _ h2
        refine ih (i + 1) _ ?_ ?_ h
        · show (((out.meshes ++ [r.1]).length : Nat) : Int) = i + 1
          rw [List.length_append, List.length_singleton]
          push_cast
          omega
        · intro p mesh hp
          show MeshDecoded fp textureHeader base textureBase model bt r.2 p mesh
          have hp2 : (out.meshes ++ [r.1])[p]? = some mesh := hp
          by_cases hlt : p < out.meshes.length
          · rw [List.getElem?_append_left hlt] at hp2
            rw [hadd]
            exact MeshDecoded_append _ _ _ _ _ _ _ _ _ _ (hinv p mesh hp2)
          · rw [List.getElem?_append_right (by omega)] at hp2
            have hp0 : p - out.meshes.length = 0 := by
              by_contra hne
              rw [List.getElem?_eq_none (by simp; omega)] at hp2
              cases hp2
            rw [hp0] at hp2
            have hmesh : mesh = r.1 := by simpa using hp2.symm
            subst hmesh
            have hpi : (p : Int) = i := by omega
            exact ⟨record, textureId, tex, runs, by rw [hpi]; exact h1, g1, g2, g3, g4, g5, g7⟩

/-- Claim C9: strip triangulation.  Whenever `LoadMesh` decodes a mesh record, the command
stream of the record splits into runs (kind, first record and record count as the stream
announces them), the pool index `t[j]` of every run belongs to record `j` of the run in the
pool that `LoadMesh` returns, and the index list that `LoadMesh` returns is exactly the
triangles of the runs, one run after the other.  For every strip run of `n` records over the
pool indices `t[0..n-1]` these are `max (n - 2) 0` triangles (three indices each), in order
of `j = 2 .. n-1`, triangle `j` being `(t[j-2], t[j-1], t[j])` for even `j` and
`(t[j-1], t[j-2], t[j])` for odd `j`; a strip over `v0, v1, v2, v3` yields exactly
`(v0, v1, v2)` and `(v2, v1, v3)`. -/
theorem C9_strip_triangulation (fp : FloatOps) (textureHeader : StudioHdr)
    (base textureBase : Buffer) (mesh : MStudioMesh) (model : MStudioModel) (bt : List Mat3x4)
    (vertices : List Vertex) (res : Mesh × List Vertex)
    (h : LoadMesh fp textureHeader base textureBase mesh model bt vertices = some res) :
    ∃ (textureId : Nat) (tex : MStudioTexture) (runs : List MeshRun),
      readU16 textureBase (textureHeader.skinindex + 2 * mesh.skinref) = some textureId ∧
      readMStudioTexture textureBase (textureHeader.textureindex + 80 * (textureId : Int))
        = some tex ∧
      streamRuns base (base.length + 1) mesh.triindex = some (runs.map MeshRun.header) ∧
      (∀ r ∈ runs, ∀ j, j < r.temp.length →
        HoldsRecord fp base model bt (fp.div F32.one (fp.ofInt tex.width))
          (fp.div F32.one (fp.ofInt tex.height)) res.2 (r.temp.getD j 0)
          (r.first + 8 * (j : Int))) ∧
      res.1.indices = runs.flatMap MeshRun.triangles ∧
      ∀ r ∈ runs, r.strip = true →
        r.triangles.length = 3 * (r.temp.length - 2) ∧
        (∀ j, 2 ≤ j → j < r.temp.length →
          (r.triangles.drop (3 * (j - 2))).take 3 =
            if j % 2 = 0 then [r.temp.getD (j - 2) 0, r.temp.getD (j - 1) 0, r.temp.getD j 0]
            else [r.temp.getD (j - 1) 0, r.temp.getD (j - 2) 0, r.temp.getD j 0]) ∧
        (∀ v0 v1 v2 v3, r.temp = [v0, v1, v2, v3] →
          r.triangles = [v0, v1, v2, v2, v1, v3]) := by
  obtain ⟨textureId, tex, runs, g1, _, g3, g4, g5, _, g7⟩ :=
    LoadMesh_runs _ _ _ _ _ _ _ _ _ h
  refine ⟨textureId, tex, runs, g1, g3, g4, g7, g5, ?_⟩
  intro r _ hs
  have ht : r.triangles = runTriangles (stripTriangle r.temp) r.temp.length := by
    unfold MeshRun.triangles
    rw [hs]
    rfl
  rw [ht]
  refine ⟨length_runTriangles _ _ (length_stripTriangle _), ?_, ?_⟩
  · intro j h2 hj
    exact runTriangles_get _ _ (length_stripTriangle _) j h2 hj
  · intro v0 v1 v2 v3 h4
    rw [h4]
    rfl

/-- Claim C7, amended: index validity.  For every sub-model decoded by `LoadModel`, the mesh
at position `p` comes from mesh record `p`; every index stored in it is strictly less than
the final length of the sub-model's vertex list and is the pool index of a vertex record of
the command stream of that mesh record; and for every vertex record of that stream, as
long as the final vertex list has at most `2^32` entries, the vertex at the pool index of
the record is the vertex assembled for that record (with the scale factors of the mesh's
texture) or a vertex that compares equal to it under `Vertex::operator==`. -/
theorem C7_index_validity (fp : FloatOps) (textureHeader : StudioHdr)
    (base textureBase : Buffer) (model : MStudioModel) (bt : List Mat3x4) (out : Model)
    (h : LoadModel fp textureHeader base textureBase model bt = some out) :
    ∀ (p : Nat) (mesh : Mesh), out.meshes[p]? = some mesh →
      ∃ (record : MStudioMesh) (textureId : Nat) (tex : MStudioTexture)
        (runs : List MeshRun),
        readMStudioMesh base (model.meshindex + 20 * (p : Int)) = some record ∧
        readU16 textureBase (textureHeader.skinindex + 2 * record.skinref) = some textureId ∧
        mesh.textureId = (textureId : Int) ∧
        readMStudioTexture textureBase (textureHeader.textureindex + 80 * (textureId : Int))
          = some tex ∧
        streamRuns base (base.length + 1) record.triindex = some (runs.map MeshRun.header) ∧
        mesh.indices = runs.flatMap MeshRun.triangles ∧
        (∀ k ∈ mesh.indices, k < out.vertices.length ∧
          ∃ r ∈ runs, ∃ j, j < r.temp.length ∧ k = r.temp.getD j 0) ∧
        ∀ r ∈ runs, ∀ j, j < r.temp.length →
          ∃ v, assembleVertex fp base model bt (fp.div F32.one (fp.ofInt tex.width))
              (fp.div F32.one (fp.ofInt tex.height)) (r.first + 8 * (j : Int)) = some v ∧
            r.temp.getD j 0 < out.vertices.length ∧
            (out.vertices.length ≤ 4294967296 →
              ∃ e, out.vertices[r.temp.getD j 0]? = some e ∧
                (e = v ∨ Vertex.eq e v = true)) := by
  have hall : ∀ p mesh, out.meshes[p]? = some mesh →
      MeshDecoded fp textureHeader base textureBase model bt out.vertices p mesh := by
    unfold LoadModel at h
    by_cases hn : model.nummesh ≤ 0
    · simp only [hn, if_true, Option.some.injEq] at h
      subst h
      intro p mesh hp
      simp at hp
    · simp only [hn, if_false] at h
      exact loadMeshes_decoded _ _ _ _ _ _ _ _ _ _ (by simp) (by intro p mesh hp; simp at hp) h
  intro p mesh hp
  obtain ⟨record, textureId, tex, runs, h1, h2, h3, h4, h5, h6, h7⟩ := hall p mesh hp
  refine ⟨record, textureId, tex, runs, h1, h2, h3, h4, h5, h6, ?_, ?_⟩
  · intro k hk
    rw [h6] at hk
    obtain ⟨r, hr, hkr⟩ := List.mem_flatMap.1 hk
    obtain ⟨j, hj, hkj⟩ := MeshRun_triangles_mem r k hkr
    obtain ⟨_, _, hlt, _⟩ := h7 r hr j hj
    exact ⟨by rw [hkj]; exact hlt, r, hr, j, hj, hkj⟩
  · intro r hr j hj
    obtain ⟨v, ha, hlt, hv⟩ := h7 r hr j hj
    exact ⟨v, ha, hlt, hv⟩

set_option maxRecDepth 100000 in
theorem C9_strip_triangulation_witness :
    LoadMesh sampleOps sampleTextureHeader (sampleMeshData sampleOne 0 sampleOne)
      (sampleMeshData sampleOne 0 sampleOne) sampleMesh sampleModel [] [] =
      some (⟨0, [0, 1, 2, 2, 1, 3, 0, 1, 2, 0, 2, 3]⟩, samplePool) ∧
    streamRuns (sampleMeshData sampleOne 0 sampleOne)
      ((sampleMeshData sampleOne 0 sampleOne).length + 1) 168
      = some [(true, 170, 4), (false, 204, 4)] ∧
    MeshRun.triangles ⟨true, 170, [0, 1, 2, 3]⟩ ++ MeshRun.triangles ⟨false, 204, [0, 1, 2, 3]⟩
      = [0, 1, 2, 2, 1, 3, 0, 1, 2, 0, 2, 3] ∧
    ∃ (textureId : Nat) (tex : MStudioTexture) (runs : List MeshRun),
      readU16 (sampleMeshData sampleOne 0 sampleOne)
        (sampleTextureHeader.skinindex + 2 * sampleMesh.skinref) = some textureId ∧
      readMStudioTexture (sampleMeshData sampleOne 0 sampleOne)
        (sampleTextureHeader.textureindex + 80 * (textureId : Int)) = some tex ∧
      streamRuns (sampleMeshData sampleOne 0 sampleOne)
        ((sampleMeshData sampleOne 0 sampleOne).length + 1) sampleMesh.triindex
        = some (runs.map MeshRun.header) ∧
      (∀ r ∈ runs, ∀ j, j < r.temp.length →
        HoldsRecord sampleOps (sampleMeshData sampleOne 0 sampleOne) sampleModel []
          (sampleOps.div F32.one (sampleOps.ofInt tex.width))
          (sampleOps.div F32.one (sampleOps.ofInt tex.height)) samplePool (r.temp.getD j 0)
          (r.first + 8 * (j : Int))) ∧
      [0, 1, 2, 2, 1, 3, 0, 1, 2, 0, 2, 3] = runs.flatMap MeshRun.triangles ∧
      ∀ r ∈ runs, r.strip = true →
        r.triangles.length = 3 * (r.temp.length - 2) ∧
        (∀ j, 2 ≤ j → j < r.temp.length →
          (r.triangles.drop (3 * (j - 2))).take 3 =
            if j % 2 = 0 then [r.temp.getD (j - 2) 0, r.temp.getD (j - 1) 0, r.temp.getD j 0]
            else [r.temp.getD (j - 1) 0, r.temp.getD (j - 2) 0, r.temp.getD j 0]) ∧
        (∀ v0 v1 v2 v3, r.temp = [v0, v1, v2, v3] →
          r.triangles = [v0, v1, v2, v2, v1, v3]) :=
  ⟨by decide, by decide, by decide,
    C9_strip_triangulation sampleOps sampleTextureHeader (sampleMeshData sampleOne 0 sampleOne)
      (sampleMeshData sampleOne 0 sampleOne) sampleMesh sampleModel [] []
      (⟨0, [0, 1, 2, 2, 1, 3, 0, 1, 2, 0, 2, 3]⟩, samplePool) (by decide)⟩

set_option maxRecDepth 100000 in
theorem C7_index_validity_witness :
    LoadModel sampleOps sampleTextureHeader (sampleMeshData sampleOne 0 sampleOne)
      (sampleMeshData sampleOne 0 sampleOne) sampleModel [] = some sampleLoadedModel ∧
    assembleVertex sampleOps (sampleMeshData sampleOne 0 sampleOne) sampleModel []
      F32.zero F32.zero (170 + 8 * 3) = some (sampleVertex sampleOne sampleOne sampleOne) ∧
    samplePool[3]? = some (sampleVertex sampleOne sampleOne sampleOne) ∧
    ∀ (p : Nat) (mesh : Mesh), sampleLoadedModel.meshes[p]? = some mesh →
      ∃ (record : MStudioMesh) (textureId : Nat) (tex : MStudioTexture)
        (runs : List MeshRun),
        readMStudioMesh (sampleMeshData sampleOne 0 sampleOne)
          (sampleModel.meshindex + 20 * (p : Int)) = some record ∧
        readU16 (sampleMeshData sampleOne 0 sampleOne)
          (sampleTextureHeader.skinindex + 2 * record.skinref) = some textureId ∧
        mesh.textureId = (textureId : Int) ∧
        readMStudioTexture (sampleMeshData sampleOne 0 sampleOne)
          (sampleTextureHeader.textureindex + 80 * (textureId : Int)) = some tex ∧
        streamRuns (sampleMeshData sampleOne 0 sampleOne)
          ((sampleMeshData sampleOne 0 sampleOne).length + 1) record.triindex
          = some (runs.map MeshRun.header) ∧
        mesh.indices = runs.flatMap MeshRun.triangles ∧
        (∀ k ∈ mesh.indices, k < sampleLoadedModel.vertices.length ∧
          ∃ r ∈ runs, ∃ j, j < r.temp.length ∧ k = r.temp.getD j 0) ∧
        ∀ r ∈ runs, ∀ j, j < r.temp.length →
          ∃ v, assembleVertex sampleOps (sampleMeshData sampleOne 0 sampleOne) sampleModel []
              (sampleOps.div F32.one (sampleOps.ofInt tex.width))
              (sampleOps.div F32.one (sampleOps.ofInt tex.height))
              (r.first + 8 * (j : Int)) = some v ∧
            r.temp.getD j 0 < sampleLoadedModel.vertices.length ∧
            (sampleLoadedModel.vertices.length ≤ 4294967296 →
              ∃ e, sampleLoadedModel.vertices[r.temp.getD j 0]? = some e ∧
                (e = v ∨ Vertex.eq e v = true)) :=
  ⟨by decide, by decide, by decide,
    C7_index_validity sampleOps sampleTextureHeader (sampleMeshData sampleOne 0 sampleOne)
      (sampleMeshData sampleOne 0 sampleOne) sampleModel [] sampleLoadedModel (by decide)⟩

end Mdl
